import Mathlib

/-!
# PhysUnits-RT: run-time dimensional analysis

A shallow embedding of `phys/units/quantity.hpp`, of the unit registry and the
text output of `phys/units/io_output.hpp`, of the parser of
`phys/units/io_input.hpp` and of the engineering format of
`phys/units/io_output_eng.hpp`, with the properties of the specification proved
about it.

Modelling conventions.

* `dimensions::value_type` is `signed char`.  A component is an `Int` in
  `-128 .. 127`; every result that the source stores into a `value_type` goes
  through `to_value_type`, the two's complement reduction modulo `2^8`.
* `Rep` (`double` unless `PHYS_UNITS_REP_TYPE` is defined) is abstract: the
  class `Rep` lists the arithmetic the library applies to magnitudes.
* `static_cast<int>` of a magnitude is `static_cast_int`: the integral part of
  the magnitude where that is a value of the 32-bit `int`.  Outside that range,
  where the C++ standard leaves the result open, it is `INT_MIN`, which is what
  the conversion instruction of the x86 processors gives.
* A C++ exception is the `error` case of `Except quantity_error`.  Integer
  division by zero, which is no exception but undefined behaviour, is the
  separate case `quantity_error.undefined_behaviour`.
* The process-wide maps behind `get_xmap()` and `get_nmap()` are the fields of
  an explicit `registry` value that every operation receives and returns.
* The loop of `parseTerm` and the recursion of `parseFactor` carry a bound, the
  number of characters still to read plus one; that the bound is never reached
  is proved.
* What the engineering format takes from `<cmath>`, `<limits>` and the output
  stream is the class `EngRep`; its instance for `Rat`, like that of `Rep`, is
  exact arithmetic.
-/

namespace PhysUnits

/-! ## Dimensions -/

/-- Conversion of an `int` to `dimensions::value_type` (`signed char`):
reduction modulo 256 into `-128 .. 127`, which is what two's complement
implementations do and what C++20 prescribes. -/
def to_value_type (x : Int) : Int :=
  (x + 128) % 256 - 128

/-- The class `dimensions`: the vector `d` of `7 + PHYS_UNITS_QUANTITY_UNIT_EXT_COUNT`
exponents. -/
structure dimensions where
  d : List Int
deriving DecidableEq, Repr

/-- The number of SI base dimensions, `PHYS_UNITS_QUANTITY_UNIT_BASE_COUNT`. -/
def PHYS_UNITS_QUANTITY_UNIT_BASE_COUNT : Nat := 7

/-- The number of extension dimensions, `PHYS_UNITS_QUANTITY_UNIT_EXT_COUNT`. -/
def PHYS_UNITS_QUANTITY_UNIT_EXT_COUNT : Nat := 10

/-- The representation invariant of a `dimensions` object: 17 components, each a
`signed char`. -/
def dimensions.valid (x : dimensions) : Prop :=
  x.d.length = 7 + PHYS_UNITS_QUANTITY_UNIT_EXT_COUNT ∧ ∀ v ∈ x.d, -128 ≤ v ∧ v ≤ 127

instance (x : dimensions) : Decidable x.valid := by
  unfold dimensions.valid
  exact inferInstance

/-- The default constructor `dimensions()`: all components zero. -/
def dimensions.mk0 : dimensions :=
  ⟨List.replicate (7 + PHYS_UNITS_QUANTITY_UNIT_EXT_COUNT) 0⟩

/-- The constructor `dimensions( n, v )` that sets one component. -/
def dimensions.mk1 (n : Nat) (v : Int) : dimensions :=
  ⟨(List.replicate (7 + PHYS_UNITS_QUANTITY_UNIT_EXT_COUNT) 0).set n (to_value_type v)⟩

/-- The constructor `dimensions( _1, ..., _7 )` that sets the 7 base components. -/
def dimensions.mk7 (a1 a2 a3 : Int) (a4 a5 a6 a7 : Int) : dimensions :=
  ⟨[to_value_type a1, to_value_type a2, to_value_type a3, to_value_type a4,
    to_value_type a5, to_value_type a6, to_value_type a7]
    ++ List.replicate PHYS_UNITS_QUANTITY_UNIT_EXT_COUNT 0⟩

/-- The constructor `dimensions( other, from, to )` that copies the components
`from <= i < to` of `other` and leaves the others zero. -/
def dimensions.mkRange (other : dimensions) (lo hi : Nat) : dimensions :=
  ⟨(List.range (7 + PHYS_UNITS_QUANTITY_UNIT_EXT_COUNT)).map
    (fun i => if lo ≤ i ∧ i < hi then other.d.getD i 0 else 0)⟩

/-- The predicate `dimensions::is_non_zero`. -/
def dimensions.is_non_zero (v : Int) : Bool :=
  (0 : Int) != v

/-- The predicate `dimensions::is_non_even_multiple`: `0 != v % N`, with the
truncating remainder of C++.  The source evaluates it for `N != 0` only. -/
def dimensions.is_non_even_multiple (v : Int) (N : Int) : Bool :=
  (0 : Int) != Int.tmod v N

/-- The member `is_all_zero`: no component is non-zero. -/
def dimensions.is_all_zero (self : dimensions) : Bool :=
  0 == self.d.countP dimensions.is_non_zero

/-- The member `is_base`: the count of non-zero components is one. -/
def dimensions.is_base (self : dimensions) : Bool :=
  1 == self.d.countP dimensions.is_non_zero

/-- The member `operator==`: equality of the component vectors. -/
def dimensions.eq (self o : dimensions) : Bool :=
  decide (self.d = o.d)

/-- The member `operator!=`. -/
def dimensions.ne (self o : dimensions) : Bool :=
  !(self.eq o)

/-- The member `product`: `std::transform` of `d` and a copy of `o.d` with
`std::plus<value_type>`. -/
def dimensions.product (self o : dimensions) : dimensions :=
  ⟨List.zipWith (fun a b => to_value_type (a + b)) self.d o.d⟩

/-- The member `quotient`: `std::transform` of `d` and a copy of `o.d` with
`std::minus<value_type>`, the component of `this` being the left operand. -/
def dimensions.quotient (self o : dimensions) : dimensions :=
  ⟨List.zipWith (fun a b => to_value_type (a - b)) self.d o.d⟩

/-- The member `reciprocal`: `std::negate<value_type>` on every component. -/
def dimensions.reciprocal (self : dimensions) : dimensions :=
  ⟨self.d.map (fun a => to_value_type (-a))⟩

/-- The member `power`: `std::bind2nd( std::multiplies<value_type>(), N )` on every
component; `bind2nd` converts `N` to the second argument type `value_type`. -/
def dimensions.power (self : dimensions) (N : Int) : dimensions :=
  ⟨self.d.map (fun a => to_value_type (a * to_value_type N))⟩

/-- The member `is_all_even_multiples`: no component has a non-zero remainder
modulo the `int` `N`. -/
def dimensions.is_all_even_multiples (self : dimensions) (N : Int) : Bool :=
  0 == self.d.countP (fun v => dimensions.is_non_even_multiple v N)

/-! ## Errors -/

/-- The exception classes derived from `quantity_error`, with what their
constructors receive.  `incompatible_dimension_error` derives from
`dimension_error`; `quantity_parser_error` carries the stripped input text and the
position of the scanner.  The last case is no exception: it marks undefined behaviour
of the C++ abstract machine (integer division by zero). -/
inductive quantity_error where
  | bad_quantity_cast (type_name : String)
  | dimension_error (text : String)
  | incompatible_dimension_error (text : String) (lhs rhs : dimensions)
  | prefix_error (text : String)
  | unit_error (text : String)
  | quantity_parser_error (msg : String) (text : String) (position : Nat)
  | undefined_behaviour (what : String)
deriving DecidableEq, Repr

/-- True for `dimension_error` and the class derived from it, which is what
`catch( dimension_error const & )` accepts. -/
def quantity_error.is_dimension_error : quantity_error → Bool
  | .dimension_error _ => true
  | .incompatible_dimension_error _ _ _ => true
  | _ => false

/-- True for `incompatible_dimension_error`. -/
def quantity_error.is_incompatible_dimension_error : quantity_error → Bool
  | .incompatible_dimension_error _ _ _ => true
  | _ => false

/-- True for `bad_quantity_cast`. -/
def quantity_error.is_bad_quantity_cast : quantity_error → Bool
  | .bad_quantity_cast _ => true
  | _ => false

/-- True for `unit_error`. -/
def quantity_error.is_unit_error : quantity_error → Bool
  | .unit_error _ => true
  | _ => false

/-- True for `prefix_error`. -/
def quantity_error.is_prefix_error : quantity_error → Bool
  | .prefix_error _ => true
  | _ => false

/-- Whether a computation ended in an exception or fault at all. -/
def raises {α : Type} : Except quantity_error α → Bool
  | .error _ => true
  | .ok _ => false

/-- Whether a computation ended in an exception that satisfies `p`. -/
def raises_with {α : Type} (p : quantity_error → Bool) : Except quantity_error α → Bool
  | .error e => p e
  | .ok _ => false

/-- The member `root`.  `is_all_even_multiples` takes the remainder modulo the
`int` `N`; the division is `std::bind2nd( std::divides<value_type>(), N )`, whose
divisor is `N` converted to `value_type`.  A remainder or a quotient with a zero
divisor is undefined behaviour (`d` always holds 17 components, so the operation
is evaluated). -/
def dimensions.root (self : dimensions) (N : Int) : Except quantity_error dimensions :=
  if N = 0 then
    .error (.undefined_behaviour "remainder by zero")
  else if !(self.is_all_even_multiples N) then
    .error (.dimension_error "quantity: dimension should be even multiple")
  else if to_value_type N = 0 then
    .error (.undefined_behaviour "division by zero")
  else
    .ok ⟨self.d.map (fun a => to_value_type (Int.tdiv a (to_value_type N)))⟩

/-- The free function `product`. -/
def product (lhs rhs : dimensions) : dimensions :=
  lhs.product rhs

/-- The free function `quotient`. -/
def quotient (lhs rhs : dimensions) : dimensions :=
  lhs.quotient rhs

/-- The free function `reciprocal`. -/
def reciprocal (lhs : dimensions) : dimensions :=
  lhs.reciprocal

/-- The free function `power`. -/
def power (lhs : dimensions) (N : Int) : dimensions :=
  lhs.power N

/-- The free function `root`. -/
def root (lhs : dimensions) (N : Int) : Except quantity_error dimensions :=
  lhs.root N

/-! ## Quantities -/

/-- The arithmetic of the magnitude type `Rep` that the library uses: conversion
of integer and decimal literals, the four operations, negation, `fabs`, `pow`,
the comparisons `==`, `<`, `<=` and the integral part `toInt` of a magnitude, the
number that is left when the fraction is dropped; `static_cast_int` below makes the
conversion `static_cast<int>` of it. -/
class Rep (R : Type) where
  ofInt : Int → R
  ofScientific : Nat → Bool → Nat → R
  add : R → R → R
  sub : R → R → R
  mul : R → R → R
  div : R → R → R
  neg : R → R
  fabs : R → R
  pow : R → R → R
  eq : R → R → Bool
  lt : R → R → Bool
  le : R → R → Bool
  toInt : R → Int

/-- The default magnitude type: `Rep` is `double`. -/
instance : Rep Float where
  ofInt := Float.ofInt
  ofScientific := Float.ofScientific
  add := fun a b => a + b
  sub := fun a b => a - b
  mul := fun a b => a * b
  div := fun a b => a / b
  neg := fun a => -a
  fabs := Float.abs
  pow := Float.pow
  eq := fun a b => a == b
  lt := fun a b => decide (a < b)
  le := fun a b => decide (a ≤ b)
  toInt := fun a =>
    if a < 0 then -(((-a).toUInt64.toNat : Nat) : Int) else (((a.toUInt64).toNat : Nat) : Int)

/-- The least value of the type `int`, of 32 bits. -/
def INT_MIN : Int := -2147483648

/-- The greatest value of the type `int`, of 32 bits. -/
def INT_MAX : Int := 2147483647

/-- The conversion `static_cast<int>( x )` of a magnitude: the integral part of `x`
where that is a value of `int`.  Outside the range of `int` the C++ standard leaves
the result open; the conversion instruction of the x86 processors gives `INT_MIN`
there, which is the value taken here. -/
def static_cast_int {R : Type} [Rep R] (x : R) : Int :=
  if INT_MIN ≤ Rep.toInt x ∧ Rep.toInt x ≤ INT_MAX then Rep.toInt x else INT_MIN

/-- The class `quantity`: a dimension and a magnitude. -/
structure quantity (R : Type) where
  m_dim : dimensions
  m_value : R

section quantity_ops

variable {R : Type} [Rep R]

/-- The default constructor `quantity()`. -/
def quantity.mk0 : quantity R :=
  ⟨dimensions.mk0, Rep.ofInt 0⟩

/-- The accessor `value()`. -/
def quantity.value (q : quantity R) : R :=
  q.m_value

/-- The accessor `dimension()`. -/
def quantity.dimension (q : quantity R) : dimensions :=
  q.m_dim

/-- The member `same_dimension`. -/
def quantity.same_dimension (self other : quantity R) : Bool :=
  self.m_dim.eq other.m_dim

/-- The member `check_dimension`: throws `incompatible_dimension_error` when the
dimensions differ. -/
def quantity.check_dimension (self other : quantity R) (text : String) :
    Except quantity_error Unit :=
  if !(self.same_dimension other) then
    .error (.incompatible_dimension_error text self.m_dim other.m_dim)
  else
    .ok ()

/-- The member `swap`: returns the new `*this` and the new `other`. -/
def quantity.swap (self other : quantity R) : quantity R × quantity R :=
  (⟨other.m_dim, other.m_value⟩, ⟨self.m_dim, self.m_value⟩)

/-- The member `operator=`, on the by-value copy `other` of the right-hand side.
The first component is what the call returns or throws, the second the state of
`*this` once the call has ended. -/
def quantity.operator_assign (self other : quantity R) :
    Except quantity_error (quantity R) × quantity R :=
  match self.check_dimension other "operator=" with
  | .error e => (.error e, self)
  | .ok () =>
    let self1 := (other.swap self).2
    (.ok self1, self1)

/-- The member `zero`. -/
def quantity.zero (self : quantity R) : quantity R :=
  ⟨self.m_dim, Rep.ofInt 0⟩

/-- The free function `magnitude`. -/
def magnitude (q : quantity R) : R :=
  q.value

/-- The free function `dimension`. -/
def dimension (q : quantity R) : dimensions :=
  q.dimension

/-- The operator `quan + quan`. -/
def operator_add (lhs rhs : quantity R) : Except quantity_error (quantity R) := do
  lhs.check_dimension rhs "operator+"
  pure ⟨lhs.dimension, Rep.add lhs.value rhs.value⟩

/-- The operator `quan - quan`. -/
def operator_sub (lhs rhs : quantity R) : Except quantity_error (quantity R) := do
  lhs.check_dimension rhs "operator-"
  pure ⟨lhs.dimension, Rep.sub lhs.value rhs.value⟩

/-- The operator `quan += quan`: what it returns or throws, and the state of
`lhs` afterwards. -/
def operator_add_assign (lhs rhs : quantity R) :
    Except quantity_error (quantity R) × quantity R :=
  match lhs.check_dimension rhs "operator+=" with
  | .error e => (.error e, lhs)
  | .ok () =>
    let lhs1 : quantity R := ⟨lhs.m_dim, Rep.add lhs.m_value rhs.value⟩
    (.ok lhs1, lhs1)

/-- The operator `quan -= quan`: what it returns or throws, and the state of
`lhs` afterwards. -/
def operator_sub_assign (lhs rhs : quantity R) :
    Except quantity_error (quantity R) × quantity R :=
  match lhs.check_dimension rhs "operator-=" with
  | .error e => (.error e, lhs)
  | .ok () =>
    let lhs1 : quantity R := ⟨lhs.m_dim, Rep.sub lhs.m_value rhs.value⟩
    (.ok lhs1, lhs1)

/-- The unary operator `+ quan`. -/
def operator_pos (rhs : quantity R) : quantity R :=
  ⟨rhs.dimension, rhs.value⟩

/-- The unary operator `- quan`. -/
def operator_neg (rhs : quantity R) : quantity R :=
  ⟨rhs.dimension, Rep.neg rhs.value⟩

/-- The operator `quan * n`. -/
def operator_mul_scalar (lhs : quantity R) (rhs : R) : quantity R :=
  ⟨lhs.dimension, Rep.mul lhs.value rhs⟩

/-- The operator `n * quan`. -/
def operator_scalar_mul (lhs : R) (rhs : quantity R) : quantity R :=
  ⟨rhs.dimension, Rep.mul lhs rhs.value⟩

/-- The operator `quan * quan`. -/
def operator_mul (lhs rhs : quantity R) : quantity R :=
  ⟨product lhs.dimension rhs.dimension, Rep.mul lhs.value rhs.value⟩

/-- The operator `quan / n`. -/
def operator_div_scalar (lhs : quantity R) (rhs : R) : quantity R :=
  ⟨lhs.dimension, Rep.div lhs.value rhs⟩

/-- The operator `n / quan`. -/
def operator_scalar_div (lhs : R) (rhs : quantity R) : quantity R :=
  ⟨reciprocal rhs.dimension, Rep.div lhs rhs.value⟩

/-- The operator `quan / quan`. -/
def operator_div (lhs rhs : quantity R) : quantity R :=
  ⟨quotient lhs.dimension rhs.dimension, Rep.div lhs.value rhs.value⟩

/-- The operator `quan == quan`. -/
def operator_eq (lhs rhs : quantity R) : Except quantity_error Bool := do
  lhs.check_dimension rhs "operator=="
  pure (Rep.eq lhs.value rhs.value)

/-- The operator `quan != quan`. -/
def operator_ne (lhs rhs : quantity R) : Except quantity_error Bool := do
  lhs.check_dimension rhs "operator!="
  pure (!(Rep.eq lhs.value rhs.value))

/-- The operator `quan <= quan`. -/
def operator_le (lhs rhs : quantity R) : Except quantity_error Bool := do
  lhs.check_dimension rhs "operator<="
  pure (Rep.le lhs.value rhs.value)

/-- The operator `quan >= quan`. -/
def operator_ge (lhs rhs : quantity R) : Except quantity_error Bool := do
  lhs.check_dimension rhs "operator>="
  pure (Rep.le rhs.value lhs.value)

/-- The operator `quan < quan`. -/
def operator_lt (lhs rhs : quantity R) : Except quantity_error Bool := do
  lhs.check_dimension rhs "operator<"
  pure (Rep.lt lhs.value rhs.value)

/-- The operator `quan > quan`. -/
def operator_gt (lhs rhs : quantity R) : Except quantity_error Bool := do
  lhs.check_dimension rhs "operator>"
  pure (Rep.lt rhs.value lhs.value)

/-- The function `abs`. -/
def quantity.abs (arg : quantity R) : quantity R :=
  ⟨arg.dimension, Rep.fabs arg.value⟩

/-- The function `nth_power`. -/
def nth_power (arg : quantity R) (N : Int) : quantity R :=
  ⟨power arg.dimension N, Rep.pow arg.value (Rep.ofInt N)⟩

/-- The function `square`. -/
def square (arg : quantity R) : quantity R :=
  operator_mul arg arg

/-- The function `cube`. -/
def cube (arg : quantity R) : quantity R :=
  operator_mul (operator_mul arg arg) arg

/-- The function `nth_root`; the call of `root` is its only part that can throw. -/
def nth_root (arg : quantity R) (N : Int) : Except quantity_error (quantity R) := do
  let r ← root arg.dimension N
  pure ⟨r, Rep.pow arg.value (Rep.div (Rep.ofScientific 10 true 1) (Rep.ofInt N))⟩

/-- The function `sqrt`. -/
def sqrt (arg : quantity R) : Except quantity_error (quantity R) := do
  let r ← root arg.dimension 2
  pure ⟨r, Rep.pow arg.value (Rep.div (Rep.ofScientific 10 true 1) (Rep.ofInt 2))⟩

end quantity_ops

/-! ## Base and extension dimensions -/

/-- The constant `dimensionless_d`. -/
def dimensionless_d : dimensions := dimensions.mk0
/-- The constant `length_d`. -/
def length_d : dimensions := dimensions.mk1 0 1
/-- The constant `mass_d`. -/
def mass_d : dimensions := dimensions.mk1 1 1
/-- The constant `time_interval_d`. -/
def time_interval_d : dimensions := dimensions.mk1 2 1
/-- The constant `electric_current_d`. -/
def electric_current_d : dimensions := dimensions.mk1 3 1
/-- The constant `thermodynamic_temperature_d`. -/
def thermodynamic_temperature_d : dimensions := dimensions.mk1 4 1
/-- The constant `amount_of_substance_d`. -/
def amount_of_substance_d : dimensions := dimensions.mk1 5 1
/-- The constant `luminous_intensity_d`. -/
def luminous_intensity_d : dimensions := dimensions.mk1 6 1

/-- The constants `extra_x0_d` ... `extra_x9_d`: `extra_d k` is
`dimensions( 7 + k, 1 )`. -/
def extra_d (k : Nat) : dimensions := dimensions.mk1 (7 + k) 1

section quantity_cast

variable {R : Type} [Rep R]

/-- The function template `quantity_cast<T>`; `cast` is `static_cast<T>` on the
magnitude and `type_name` is `typeid(T).name()`. -/
def quantity_cast {T : Type} (cast : R → T) (type_name : String) (q : quantity R) :
    Except quantity_error T :=
  if dimensionless_d.ne q.dimension then
    .error (.bad_quantity_cast type_name)
  else
    .ok (cast q.value)

/-- The function `to_real`: `quantity_cast<double>`. -/
def to_real {T : Type} (to_double : R → T) (q : quantity R) : Except quantity_error T :=
  quantity_cast to_double "double" q

/-- The function `to_integer`: `quantity_cast<long>`. -/
def to_integer {T : Type} (to_long : R → T) (q : quantity R) : Except quantity_error T :=
  quantity_cast to_long "long" q

end quantity_cast

/-! ## Units -/

section units

variable {R : Type} [Rep R]

/-- The literal `1.0` as a `Rep`. -/
def Rep.one_point_zero : R := Rep.ofScientific 10 true 1

/-- The unit `number()`. -/
def number : quantity R := ⟨dimensionless_d, Rep.one_point_zero⟩
/-- The unit `meter()`. -/
def meter : quantity R := ⟨length_d, Rep.one_point_zero⟩
/-- The unit `kilogram()`. -/
def kilogram : quantity R := ⟨mass_d, Rep.one_point_zero⟩
/-- The unit `second()`. -/
def second : quantity R := ⟨time_interval_d, Rep.one_point_zero⟩
/-- The unit `ampere()`. -/
def ampere : quantity R := ⟨electric_current_d, Rep.one_point_zero⟩
/-- The unit `kelvin()`. -/
def kelvin : quantity R := ⟨thermodynamic_temperature_d, Rep.one_point_zero⟩
/-- The unit `mole()`. -/
def mole : quantity R := ⟨amount_of_substance_d, Rep.one_point_zero⟩
/-- The unit `candela()`. -/
def candela : quantity R := ⟨luminous_intensity_d, Rep.one_point_zero⟩

/-- The functions `quantity_x0()` ... `quantity_x9()` that
`PHYS_UNITS_DEFINE_UNIT` generates: `quantity_x k` is `quantity( extra_xk_d, 1.0 )`. -/
def quantity_x (k : Nat) : quantity R := ⟨extra_d k, Rep.one_point_zero⟩

/-- The value `steradian()`. -/
def steradian : R := Rep.ofInt 1
/-- The unit `gram()`. -/
def gram : quantity R := operator_div_scalar kilogram (Rep.ofInt 1000)
/-- The unit `newton()`. -/
def newton : quantity R := operator_div (operator_mul meter kilogram) (square second)
/-- The unit `pascal()`. -/
def pascal : quantity R := operator_div newton (square meter)
/-- The unit `joule()`. -/
def joule : quantity R := operator_mul newton meter
/-- The unit `watt()`. -/
def watt : quantity R := operator_div joule second
/-- The unit `coulomb()`. -/
def coulomb : quantity R := operator_mul second ampere
/-- The unit `volt()`. -/
def volt : quantity R := operator_div watt ampere
/-- The unit `farad()`. -/
def farad : quantity R := operator_div coulomb volt
/-- The unit `ohm()`. -/
def ohm : quantity R := operator_div volt ampere
/-- The unit `siemens()`. -/
def siemens : quantity R := operator_div ampere volt
/-- The unit `weber()`. -/
def weber : quantity R := operator_mul volt second
/-- The unit `tesla()`. -/
def tesla : quantity R := operator_div weber (square meter)
/-- The unit `henry()`. -/
def henry : quantity R := operator_div weber ampere
/-- The unit `degree_celsius()`. -/
def degree_celsius : quantity R := kelvin
/-- The unit `lumen()`. -/
def lumen : quantity R := operator_mul_scalar candela steradian
/-- The unit `lux()`. -/
def lux : quantity R := operator_div (operator_div lumen meter) meter
/-- The unit `becquerel()`. -/
def becquerel : quantity R := operator_scalar_div (Rep.ofInt 1) second
/-- The unit `gray()`. -/
def gray : quantity R := operator_div joule kilogram
/-- The unit `sievert()`. -/
def sievert : quantity R := operator_div joule kilogram
/-- The unit `hertz()`. -/
def hertz : quantity R := operator_scalar_div (Rep.ofInt 1) second
/-- The unit `day()`. -/
def day : quantity R := operator_scalar_mul (Rep.ofInt 86400) second
/-- The unit `hour()`. -/
def hour : quantity R := operator_scalar_mul (Rep.ofInt 3600) second
/-- The unit `liter()`. -/
def liter : quantity R := operator_scalar_mul (Rep.ofScientific 1 true 3) (cube meter)
/-- The unit `minute()`. -/
def minute : quantity R := operator_scalar_mul (Rep.ofInt 60) second

end units

/-! ## Named dimensions used by the registry -/

/-- The constant `frequency_d`. -/
def frequency_d : dimensions := dimensions.mk7 0 0 (-1) 0 0 0 0
/-- The constant `force_d`. -/
def force_d : dimensions := dimensions.mk7 1 1 (-2) 0 0 0 0
/-- The constant `pressure_d`. -/
def pressure_d : dimensions := dimensions.mk7 (-1) 1 (-2) 0 0 0 0
/-- The constant `energy_d`. -/
def energy_d : dimensions := dimensions.mk7 2 1 (-2) 0 0 0 0
/-- The constant `power_d`. -/
def power_d : dimensions := dimensions.mk7 2 1 (-3) 0 0 0 0
/-- The constant `electric_charge_d`. -/
def electric_charge_d : dimensions := dimensions.mk7 0 0 1 1 0 0 0
/-- The constant `electric_potential_d`. -/
def electric_potential_d : dimensions := dimensions.mk7 2 1 (-3) (-1) 0 0 0
/-- The constant `capacitance_d`. -/
def capacitance_d : dimensions := dimensions.mk7 (-2) (-1) 4 2 0 0 0
/-- The constant `electric_resistance_d`. -/
def electric_resistance_d : dimensions := dimensions.mk7 2 1 (-3) (-2) 0 0 0
/-- The constant `electric_conductance_d`. -/
def electric_conductance_d : dimensions := dimensions.mk7 (-2) (-1) 3 2 0 0 0
/-- The constant `magnetic_flux_d`. -/
def magnetic_flux_d : dimensions := dimensions.mk7 2 1 (-2) (-1) 0 0 0
/-- The constant `magnetic_flux_density_d`. -/
def magnetic_flux_density_d : dimensions := dimensions.mk7 0 1 (-2) (-1) 0 0 0
/-- The constant `inductance_d`. -/
def inductance_d : dimensions := dimensions.mk7 2 1 (-2) (-2) 0 0 0
/-- The constant `luminous_flux_d`. -/
def luminous_flux_d : dimensions := dimensions.mk7 0 0 0 0 0 0 1
/-- The constant `illuminance_d`. -/
def illuminance_d : dimensions := dimensions.mk7 (-2) 0 0 0 0 0 1
/-- The constant `activity_of_a_nuclide_d`. -/
def activity_of_a_nuclide_d : dimensions := dimensions.mk7 0 0 (-1) 0 0 0 0
/-- The constant `area_d`. -/
def area_d : dimensions := dimensions.mk7 2 0 0 0 0 0 0
/-- The constant `dose_equivalent_d`. -/
def dose_equivalent_d : dimensions := dimensions.mk7 2 0 (-2) 0 0 0 0

/-! ## The unit registry -/

/-- The lookup `m.find( k )` of a `std::map`, kept as a list of entries with
distinct keys: the mapped value, or `none` for `m.end()`. -/
def map_find {κ β : Type} [DecidableEq κ] (m : List (κ × β)) (k : κ) : Option β :=
  match m with
  | [] => none
  | (a, b) :: rest => if a = k then some b else map_find rest k

/-- The call `m.insert( (k, v) )` of a `std::map`: no effect when the key is
present. -/
def map_insert {κ β : Type} [DecidableEq κ] (m : List (κ × β)) (k : κ) (v : β) :
    List (κ × β) :=
  match map_find m k with
  | some _ => m
  | none => m ++ [(k, v)]

/-- The assignment `m[k] = v` of a `std::map`: replaces the mapped value of a
present key, adds the entry otherwise. -/
def map_assign {κ β : Type} [DecidableEq κ] (m : List (κ × β)) (k : κ) (v : β) :
    List (κ × β) :=
  match m with
  | [] => [(k, v)]
  | (a, b) :: rest => if a = k then (a, v) :: rest else (a, b) :: map_assign rest k v

/-- The type `unit_function_t`: a function without arguments and without effects,
given as the quantity it returns. -/
abbrev unit_function_t (R : Type) := quantity R

/-- The type `unitmap`. -/
abbrev unitmap (R : Type) := List (String × unit_function_t R)

/-- The type `unitnamemap`. -/
abbrev unitnamemap := List (dimensions × String)

/-- The table of `predefined_unit_names()`, in source order. -/
def predefined_unit_names_table : List (dimensions × String) :=
  [ (length_d, "m"), (mass_d, "kg"), (time_interval_d, "s"), (electric_current_d, "A"),
    (thermodynamic_temperature_d, "K"), (amount_of_substance_d, "mol"),
    (luminous_intensity_d, "cd"),
    (frequency_d, "Hz"), (force_d, "N"), (pressure_d, "Pa"), (energy_d, "J"),
    (power_d, "W"), (electric_charge_d, "C"), (electric_potential_d, "V"),
    (capacitance_d, "F"), (electric_resistance_d, "Ohm"), (electric_conductance_d, "S"),
    (magnetic_flux_d, "Wb"), (magnetic_flux_density_d, "T"), (inductance_d, "H"),
    (luminous_flux_d, "lm"), (illuminance_d, "lx"), (activity_of_a_nuclide_d, "Bq"),
    (dose_equivalent_d, "Sv"),
    (quotient length_d time_interval_d, "m/s"),
    (quotient electric_potential_d time_interval_d, "V/s"),
    (extra_d 0, "x0"), (extra_d 1, "x1"), (extra_d 2, "x2"), (extra_d 3, "x3"),
    (extra_d 4, "x4"), (extra_d 5, "x5"), (extra_d 6, "x6"), (extra_d 7, "x7"),
    (extra_d 8, "x8"), (extra_d 9, "x9") ]

/-- The function `predefined_unit_names`: the table copied through
`std::inserter` into an empty map. -/
def predefined_unit_names : unitnamemap :=
  predefined_unit_names_table.foldl (fun m e => map_insert m e.1 e.2) []

section registry

variable {R : Type} [Rep R]

/-- The table of `predefined_units()`, in source order. -/
def predefined_units_table : List (String × unit_function_t R) :=
  [ ("m", meter), ("kg", kilogram), ("s", second), ("A", ampere), ("K", kelvin),
    ("mol", mole), ("cd", candela),
    ("g", gram), ("Hz", hertz), ("N", newton), ("Pa", pascal), ("J", joule),
    ("W", watt), ("C", coulomb), ("J", joule), ("V", volt), ("F", farad), ("Ohm", ohm),
    ("S", siemens), ("Wb", weber), ("T", tesla), ("H", henry),
    ("'C", degree_celsius), ("lm", lumen), ("lx", lux), ("Bq", becquerel),
    ("Gy", gray), ("Sv", sievert),
    ("d", day), ("min", minute), ("h", hour), ("l", liter) ]

/-- The function `predefined_units`: the table copied through `std::inserter`
into an empty map. -/
def predefined_units : unitmap R :=
  predefined_units_table.foldl (fun m e => map_insert m e.1 e.2) []

/-- The map behind `get_umap()`.  Nothing in the library writes to it. -/
@[irreducible]
def get_umap : unitmap R := predefined_units

/-- The two maps of the library that change while it runs: `xmap` is the map
behind `get_xmap()`, `nmap` the one behind `get_nmap()`. -/
structure registry (R : Type) where
  xmap : unitmap R
  nmap : unitnamemap

/-- The registry before the first call: an empty extension map and the predefined
unit names. -/
def registry.initial : registry R :=
  ⟨[], predefined_unit_names⟩

/-- The function `define_unit_name( d, name )`: `get_nmap()[d] = name`. -/
def define_unit_name (r : registry R) (d : dimensions) (name : String) : registry R :=
  { r with nmap := map_assign r.nmap d name }

/-- The function `has_unit_name( d )`. -/
def has_unit_name (r : registry R) (d : dimensions) : Bool :=
  (map_find r.nmap d).isSome

/-- The function `detail::unit_name( d )`: `get_nmap()[d]`, which adds an entry
with an empty name when `d` has none. -/
def unit_name (r : registry R) (d : dimensions) : String × registry R :=
  match map_find r.nmap d with
  | some name => (name, r)
  | none => ("", { r with nmap := r.nmap ++ [(d, "")] })

/-- The two lookups that open `unit( text, extunits )`: the predefined map, then
the extension map. -/
def unit_find (r : registry R) (text : String) : Option (unit_function_t R) :=
  match map_find (get_umap : unitmap R) text with
  | some f => some f
  | none => map_find r.xmap text

/-- The call `unit( text )` with `no_extend()`: the lookups, then `unit_error`. -/
def unit_no_extend (r : registry R) (text : String) :
    Except quantity_error (quantity R) :=
  match unit_find r text with
  | some f => .ok f
  | none => .error (.unit_error ("quantity: undefined unit '" ++ text ++ "'"))

/-- The function `detail::define_unit( m, name )` on the extension map: the next
entry of the table of `quantity_x0` ... `quantity_x9` is given to `name`, the name
is recorded for its dimension, and the result is `unit( name )`.  Returns the
registry as the call leaves it; a throw happens before any change. -/
def define_unit (r : registry R) (name : String) :
    Except quantity_error (quantity R) × registry R :=
  let index := r.xmap.length
  if index ≥ PHYS_UNITS_QUANTITY_UNIT_EXT_COUNT then
    (.error (.unit_error
      ("quantity: dimension extension table full, while trying to add '" ++ name ++ "'")), r)
  else
    let r1 : registry R := { r with xmap := map_assign r.xmap name (quantity_x index) }
    let r2 := define_unit_name r1 (quantity_x index : quantity R).dimension name
    (unit_no_extend r2 name, r2)

/-- The function `unit( text, extunits )`, with the registry as the call leaves
it. -/
def unit (r : registry R) (text : String) (extunits : Bool) :
    Except quantity_error (quantity R) × registry R :=
  match unit_find r text with
  | some f => (.ok f, r)
  | none =>
    if extunits then
      define_unit r text
    else
      (.error (.unit_error ("quantity: undefined unit '" ++ text ++ "'")), r)

/-- One call of the registry interface. -/
inductive registry_call where
  | unit (text : String) (extunits : Bool)
  | define_unit_name (d : dimensions) (name : String)
  | unit_name (d : dimensions)
  | has_unit_name (d : dimensions)

/-- The registry after one call, whatever the call returned or threw. -/
def registry.step (r : registry R) : registry_call → registry R
  | .unit text extunits => (unit r text extunits).2
  | .define_unit_name d name => define_unit_name r d name
  | .unit_name d => (unit_name r d).2
  | .has_unit_name _ => r

/-- The registry after a sequence of calls. -/
def registry.run (r : registry R) (calls : List registry_call) : registry R :=
  calls.foldl registry.step r

end registry

/-! ## Compound multiplication and division -/

/-- The member `dimensions::operator*=`. -/
def dimensions.operator_mul_assign (self o : dimensions) : dimensions :=
  ⟨List.zipWith (fun a b => to_value_type (a + b)) self.d o.d⟩

/-- The member `dimensions::operator/=`. -/
def dimensions.operator_div_assign (self o : dimensions) : dimensions :=
  ⟨List.zipWith (fun a b => to_value_type (a - b)) self.d o.d⟩

/-- The operator `quan *= quan`: the new value of `lhs`. -/
def operator_mul_assign {R : Type} [Rep R] (lhs rhs : quantity R) : quantity R :=
  ⟨lhs.m_dim.operator_mul_assign rhs.dimension, Rep.mul lhs.m_value rhs.value⟩

/-- The operator `quan /= quan`: the new value of `lhs`. -/
def operator_div_assign {R : Type} [Rep R] (lhs rhs : quantity R) : quantity R :=
  ⟨lhs.m_dim.operator_div_assign rhs.dimension, Rep.div lhs.m_value rhs.value⟩

/-! ## Exact magnitudes -/

/-- Exact rational magnitudes: the arithmetic that `double` approximates.  A
division by zero has the value 0 here (an infinity or a NaN in `double`), `pow`
has its exact value for integral exponents and the value 0 for all others, and the
integral part is the quotient of numerator and denominator, rounded towards zero. -/
instance : Rep Rat where
  ofInt := fun n => (n : Rat)
  ofScientific := fun m s e => if s then (m : Rat) / 10 ^ e else (m : Rat) * 10 ^ e
  add := fun a b => a + b
  sub := fun a b => a - b
  mul := fun a b => a * b
  div := fun a b => a / b
  neg := fun a => -a
  fabs := fun a => |a|
  pow := fun a b => if b.den = 1 then a ^ b.num else 0
  eq := fun a b => decide (a = b)
  lt := fun a b => decide (a < b)
  le := fun a b => decide (a ≤ b)
  toInt := fun a => Int.tdiv a.num a.den

deriving instance DecidableEq for quantity
deriving instance DecidableEq for registry

/-- Whether an optional value is absent can be decided without comparing values. -/
instance decidable_eq_none {α : Type} (o : Option α) : Decidable (o = none) :=
  match o with
  | none => isTrue rfl
  | some _ => isFalse (fun h => Option.noConfusion h)

/-! ## Prefixes -/

section prefixes

variable {R : Type} [Rep R]

/-- The factor `yotta()`. -/
def yotta : R := Rep.ofScientific 1 false 24
/-- The factor `zetta()`. -/
def zetta : R := Rep.ofScientific 1 false 21
/-- The factor `exa()`. -/
def exa : R := Rep.ofScientific 1 false 18
/-- The factor `peta()`. -/
def peta : R := Rep.ofScientific 1 false 15
/-- The factor `tera()`. -/
def tera : R := Rep.ofScientific 1 false 12
/-- The factor `giga()`. -/
def giga : R := Rep.ofScientific 1 false 9
/-- The factor `mega()`. -/
def mega : R := Rep.ofScientific 1 false 6
/-- The factor `kilo()`. -/
def kilo : R := Rep.ofScientific 1 false 3
/-- The factor `hecto()`. -/
def hecto : R := Rep.ofScientific 1 false 2
/-- The factor `deka()`. -/
def deka : R := Rep.ofScientific 1 false 1
/-- The factor `deci()`. -/
def deci : R := Rep.ofScientific 1 true 1
/-- The factor `centi()`. -/
def centi : R := Rep.ofScientific 1 true 2
/-- The factor `milli()`. -/
def milli : R := Rep.ofScientific 1 true 3
/-- The factor `micro()`. -/
def micro : R := Rep.ofScientific 1 true 6
/-- The factor `nano()`. -/
def nano : R := Rep.ofScientific 1 true 9
/-- The factor `pico()`. -/
def pico : R := Rep.ofScientific 1 true 12
/-- The factor `femto()`. -/
def femto : R := Rep.ofScientific 1 true 15
/-- The factor `atto()`. -/
def atto : R := Rep.ofScientific 1 true 18
/-- The factor `zepto()`. -/
def zepto : R := Rep.ofScientific 1 true 21
/-- The factor `yocto()`. -/
def yocto : R := Rep.ofScientific 1 true 24

/-- The table of `detail::prefix_function`, in source order; an entry holds the
value its function returns. -/
def prefix_function_table : List (String × R) :=
  [ ("m", milli), ("k", kilo), ("u", micro), ("M", mega), ("n", nano), ("G", giga),
    ("p", pico), ("T", tera), ("f", femto), ("P", peta), ("a", atto), ("E", exa),
    ("z", zepto), ("Z", zetta), ("y", yocto), ("Y", yotta), ("h", hecto), ("da", deka),
    ("d", deci), ("c", centi) ]

/-- The function `detail::prefix_function`: the first entry of the table whose name
equals the argument, or `none` for the null pointer. -/
def prefix_function (pfx : String) : Option R :=
  map_find prefix_function_table pfx

/-- The function `has_prefix`. -/
def has_prefix (R : Type) [Rep R] (pfx : String) : Bool :=
  (prefix_function pfx : Option R).isSome

/-- The function `prefix`: the factor, or `prefix_error`. -/
def prefix_ (pfx : String) : Except quantity_error R :=
  match prefix_function pfx with
  | some f => .ok f
  | none => .error (.prefix_error ("quantity: unrecognized prefix '" ++ pfx ++ "'"))

end prefixes

/-! ## The text of an error -/

/-- The function `to_string( dimensions )`: every component followed by a comma. -/
def dimensions.to_string (x : dimensions) : String :=
  x.d.foldl (fun s v => s ++ toString v ++ ",") ""

/-- The member `what()` of an exception: the text its constructor passes to
`std::runtime_error`. -/
def quantity_error.what : quantity_error → String
  | .bad_quantity_cast type_name =>
    "cast quantity to '" ++ type_name ++ "': quantity must be dimensionless"
  | .dimension_error text => text
  | .incompatible_dimension_error text lhs rhs =>
    "quantity: incompatible dimension in " ++ text ++ ": lhs:" ++ lhs.to_string
      ++ ", rhs:" ++ rhs.to_string
  | .prefix_error text => text
  | .unit_error text => text
  | .quantity_parser_error msg _ _ => msg
  | .undefined_behaviour what => what

/-- True for `quantity_parser_error`. -/
def quantity_error.is_quantity_parser_error : quantity_error → Bool
  | .quantity_parser_error _ _ _ => true
  | _ => false

/-! ## Characters and numbers in a text -/

/-- The character `end_char` of the parser, set by its constructor and never
changed. -/
def end_char : Char := '#'

/-- The character that `iss.get()` and `iss.peek()` deliver at the end of the
stream: `EOF` converted to `char`. -/
def eof_char : Char := Char.ofNat 255

/-- The function `isalpha` of the C locale. -/
def isalpha (x : Char) : Bool := x.isAlpha

/-- The function `isdigit`. -/
def isdigit (x : Char) : Bool := x.isDigit

/-- The function `isspace` of the C locale: space, `\t`, `\n`, `\v`, `\f`, `\r`. -/
def isspace (x : Char) : Bool :=
  x == ' ' || x == '\t' || x == '\n' || x == Char.ofNat 11 || x == Char.ofNat 12 || x == '\r'

/-- The function `detail::default_strip_set`. -/
def default_strip_set : List Char := [' ', '\t', '\n']

/-- The function `detail::strip_left`. -/
def strip_left (text : List Char) (set : List Char) : List Char :=
  text.dropWhile (fun c => set.contains c)

/-- The function `detail::strip_right`. -/
def strip_right (text : List Char) (set : List Char) : List Char :=
  (text.reverse.dropWhile (fun c => set.contains c)).reverse

/-- The function `detail::strip`. -/
def strip (text : List Char) (set : List Char) : List Char :=
  strip_left (strip_right text set) set

/-- The value of a sequence of decimal digits. -/
def digits_value (ds : List Char) : Nat :=
  ds.foldl (fun n c => 10 * n + (c.toNat - '0'.toNat)) 0

/-- A decimal number as `strtod` reads it: sign, digits and decimal exponent. -/
structure decimal where
  negative : Bool
  mantissa : Nat
  exponent : Int
deriving DecidableEq, Repr

/-- The sign that may open a number or an exponent: whether it is `-`, and the
text after it. -/
def strtod_sign : List Char → Bool × List Char
  | '-' :: t => (true, t)
  | '+' :: t => (false, t)
  | s => (false, s)

/-- The exponent part of a decimal number: `e` or `E`, an optional sign and at
least one digit; 0 when the text does not start with such a part. -/
def strtod_exponent : List Char → Int
  | c :: t =>
    if c = 'e' ∨ c = 'E' then
      let (eneg, t1) := strtod_sign t
      let ed := t1.takeWhile isdigit
      if ed = [] then 0
      else if eneg then -(digits_value ed : Int) else (digits_value ed : Int)
    else 0
  | [] => 0

/-- The subject sequence of the C library function `strtod` for a text without
leading white space, hexadecimal digits, `inf` or `nan` (the parser collects only
digits and `.eE+-`): the longest initial part of the form sign, digits with an
optional point, exponent; `none` when there is no digit. -/
def strtod_decimal (s : List Char) : Option decimal :=
  let (neg, s1) := strtod_sign s
  let ip := s1.takeWhile isdigit
  let s2 := s1.dropWhile isdigit
  let fp := match s2 with
    | '.' :: t => t.takeWhile isdigit
    | _ => []
  let s3 := match s2 with
    | '.' :: t => t.dropWhile isdigit
    | _ => s2
  if ip = [] ∧ fp = [] then none
  else some ⟨neg, digits_value (ip ++ fp), strtod_exponent s3 - fp.length⟩

/-- The function `detail::to_real`: `strtod( text, 0 )`, which is zero when no
conversion can be performed. -/
def detail_to_real {R : Type} [Rep R] (text : List Char) : R :=
  match strtod_decimal text with
  | none => Rep.ofScientific 0 false 0
  | some d =>
    if d.negative then Rep.neg (Rep.ofScientific d.mantissa (d.exponent < 0) d.exponent.natAbs)
    else Rep.ofScientific d.mantissa (d.exponent < 0) d.exponent.natAbs

/-! ## The parser -/

/-- The class `quantity_parser`: its options, the scanner (the current character,
its position and `iss`, the characters not yet read), the text and the two values
a parse leaves behind.  The debug stream is left out. -/
structure quantity_parser_t (R : Type) where
  ext_units : Bool
  dimless_quantities : Bool
  escape_char : Char
  current_char : Char
  current_pos : Nat
  text : List Char
  iss : List Char
  num_value : R
  pfx_factor : R
deriving DecidableEq

/-- What a member function of the parser that may throw leaves behind: its value
or the exception, and in both cases the parser and the registry as they are then.
The third case is the model's own: the recursion bound was reached. -/
inductive parse_result (R : Type) (α : Type) where
  | ok (a : α) (p : quantity_parser_t R) (g : registry R)
  | error (e : quantity_error) (p : quantity_parser_t R) (g : registry R)
  | out_of_fuel
deriving DecidableEq

namespace quantity_parser_t

variable {R : Type} [Rep R]

/-- The constructor `quantity_parser()`. -/
def mk0 : quantity_parser_t R :=
  { ext_units := false, dimless_quantities := false, escape_char := '!',
    current_char := Char.ofNat 0, current_pos := 0, text := [], iss := [],
    num_value := Rep.ofInt 1, pfx_factor := Rep.ofInt 1 }

/-- The member `escape`. -/
def escape (self : quantity_parser_t R) (chr : Char) : quantity_parser_t R :=
  { self with escape_char := chr }

/-- The member `extend`. -/
def extend (self : quantity_parser_t R) (flag : Bool) : quantity_parser_t R :=
  { self with ext_units := flag }

/-- The member `dimensionless`. -/
def dimensionless (self : quantity_parser_t R) (flag : Bool) : quantity_parser_t R :=
  { self with dimless_quantities := flag }

/-- The member `numerical_value`. -/
def numerical_value (self : quantity_parser_t R) : R := self.num_value

/-- The member `prefix_factor`. -/
def prefix_factor (self : quantity_parser_t R) : R := self.pfx_factor

/-- The member `input_text`: the text without its last character. -/
def input_text (self : quantity_parser_t R) : String :=
  String.mk self.text.dropLast

/-- The member `input_position`. -/
def input_position (self : quantity_parser_t R) : Nat := self.current_pos

/-- The member `isEscape`. -/
def isEscape (self : quantity_parser_t R) (x : Char) : Bool := x == self.escape_char

/-- The member `isEnd`. -/
def isEnd (_self : quantity_parser_t R) (x : Char) : Bool := x == end_char

/-- The member `isUnit( char )`. -/
def isUnit (self : quantity_parser_t R) (x : Char) : Bool :=
  self.isEscape x || isalpha x

/-- The member `isUnit( char, char )`. -/
def isUnit2 (self : quantity_parser_t R) (x y : Char) : Bool :=
  isalpha x || (self.isEscape x && isalpha y) || (x == '\'' && y == 'C')

/-- The member `isPrefixedUnit`. -/
def isPrefixedUnit (self : quantity_parser_t R) (x y : Char) : Bool :=
  x == '1' || self.isUnit2 x y

/-- The member `isReal`. -/
def isReal (x : Char) : Bool :=
  isdigit x || ['.', 'e', 'E', '+', '-'].contains x

/-- The member `isInteger`. -/
def isInteger (x : Char) : Bool :=
  isdigit x || ['+', '-'].contains x

/-- The member `isMultiplyingOperator`. -/
def isMultiplyingOperator (x : Char) : Bool := x == ' ' || x == '.'

/-- The member `isDividingOperator`. -/
def isDividingOperator (x : Char) : Bool := x == '/'

/-- The member `isMultiplicativeOperator`. -/
def isMultiplicativeOperator (x : Char) : Bool :=
  isMultiplyingOperator x || isDividingOperator x

/-- The member `isOperator`. -/
def isOperator (x : Char) : Bool := isMultiplicativeOperator x

/-- The member `initialize`. -/
def initialize_ (self : quantity_parser_t R) (text_ : List Char) : quantity_parser_t R :=
  { self with
    current_pos := 0, current_char := ' ',
    text := strip text_ default_strip_set ++ [end_char],
    iss := strip text_ default_strip_set ++ [end_char] }

/-- The member `current`. -/
def current (self : quantity_parser_t R) : Char := self.current_char

/-- The member `currentStr`. -/
def currentStr (self : quantity_parser_t R) : String := String.singleton self.current

/-- The member `ahead`: the next character of the stream, which stays unread. -/
def ahead (self : quantity_parser_t R) : Char :=
  if self.isEnd self.current_char then end_char
  else match self.iss with
    | c :: _ => c
    | [] => eof_char

/-- The member `aheadStr`. -/
def aheadStr (self : quantity_parser_t R) : String := String.singleton self.ahead

/-- The member `advance` as every call in the source uses it, with `skipws` false:
nothing at the end character, otherwise the next character of the stream becomes
the current one. -/
def advance (self : quantity_parser_t R) : quantity_parser_t R :=
  if self.isEnd self.current_char then self
  else match self.iss with
    | c :: rest =>
      { self with current_pos := self.current_pos + 1, current_char := c, iss := rest }
    | [] =>
      { self with current_pos := self.current_pos + 1, current_char := eof_char }

/-- The member `accept`. -/
def accept (self : quantity_parser_t R) (chr : Char) : Bool × quantity_parser_t R :=
  if chr != self.current then (false, self) else (true, self.advance)

/-- The member `expect`. -/
def expect (self : quantity_parser_t R) (chr : Char) :
    Except quantity_error Unit × quantity_parser_t R :=
  if chr != self.current then
    (.error (.quantity_parser_error ("quantity: expecting '" ++ String.singleton chr ++ "'")
      self.input_text self.input_position), self)
  else (.ok (), self.advance)

/-- The loop `while ( pred( current() ) ) { text.append( 1, current() ); advance(); }`
of `scanReal`, `scanInteger`, `scanUnit` and, without the text, `skip_whitespace`.
The first argument is the stream at the start of the loop, which bounds its
iterations; no predicate in use accepts the end character or `EOF`. -/
def scan_loop (pred : Char → Bool) :
    List Char → quantity_parser_t R → List Char × quantity_parser_t R
  | [], p =>
    if pred p.current && !(p.isEnd p.current) then ([p.current], p.advance) else ([], p)
  | _ :: rest, p =>
    if pred p.current && !(p.isEnd p.current) then
      ((p.current :: (scan_loop pred rest p.advance).1), (scan_loop pred rest p.advance).2)
    else ([], p)

/-- The scanning loop, started on the stream of the parser. -/
def scan_while (self : quantity_parser_t R) (pred : Char → Bool) :
    List Char × quantity_parser_t R :=
  scan_loop pred self.iss self

/-- The member `skip_whitespace`. -/
def skip_whitespace (self : quantity_parser_t R) : quantity_parser_t R :=
  (self.scan_while isspace).2

/-- The member `scanReal`. -/
def scanReal (self : quantity_parser_t R) : R × quantity_parser_t R :=
  (detail_to_real (self.scan_while isReal).1, (self.scan_while isReal).2)

/-- The member `scanInteger`. -/
def scanInteger (self : quantity_parser_t R) : R × quantity_parser_t R :=
  (detail_to_real (self.scan_while isInteger).1, (self.scan_while isInteger).2)

/-- The member `scanUnit`. -/
def scanUnit (self : quantity_parser_t R) : String × quantity_parser_t R :=
  (String.mk ((self.accept self.escape_char).2.scan_while
      (fun c => c == '\'' || isalpha c)).1,
    ((self.accept self.escape_char).2.scan_while (fun c => c == '\'' || isalpha c)).2)

/-- The member `parseNumericalValue`. -/
def parseNumericalValue (self : quantity_parser_t R) : R × quantity_parser_t R :=
  if isReal self.skip_whitespace.current then
    (self.skip_whitespace.scanReal.1, self.skip_whitespace.scanReal.2.skip_whitespace)
  else
    (Rep.one_point_zero, self.skip_whitespace.skip_whitespace)

/-- The member `parsePrefix`. -/
def parsePrefix (self : quantity_parser_t R) : Except quantity_error R × quantity_parser_t R :=
  if self.isEscape self.current then (.ok Rep.one_point_zero, self)
  else if !(self.isUnit self.ahead) then (.ok Rep.one_point_zero, self)
  else if self.current == 'c' && 'd' == self.ahead then (.ok Rep.one_point_zero, self)
  else if self.current == 'k' && 'g' == self.ahead then (.ok Rep.one_point_zero, self)
  else if self.current == 'm' && 'o' == self.ahead then (.ok Rep.one_point_zero, self)
  else if self.current == 'm' && 'i' == self.ahead then (.ok Rep.one_point_zero, self)
  else if self.current == 'P' && 'a' == self.ahead then (.ok Rep.one_point_zero, self)
  else if self.current == 'G' && 'y' == self.ahead then (.ok Rep.one_point_zero, self)
  else if self.current == 'd' && 'a' == self.ahead then
    (prefix_ (self.currentStr ++ self.advance.currentStr), self.advance.advance)
  else if !( has_prefix R self.currentStr) then (.ok Rep.one_point_zero, self)
  else (prefix_ self.currentStr, self.advance)

/-- The member `parseUnit`. -/
def parseUnit (self : quantity_parser_t R) (g : registry R) : parse_result R (quantity R) :=
  if self.current == '1' then
    if self.ahead != '/' then
      .error (.quantity_parser_error
        ("expecting 1/u construct at position " ++ toString self.current_pos ++ ", got: '1"
          ++ (if end_char == self.ahead then "[nothing]" else self.aheadStr) ++ "'")
        self.input_text self.input_position) self g
    else .ok number (self.accept '1').2 g
  else if !(self.isUnit2 self.current self.ahead) then
    .error (.quantity_parser_error
      ("expecting unit at position " ++ toString self.current_pos ++ ", got: '"
        ++ (if end_char == self.current then "[nothing]" else self.currentStr) ++ "'")
      self.input_text self.input_position) self g
  else
    match unit g self.scanUnit.1 self.ext_units with
    | (.ok q, g1) => .ok q self.scanUnit.2 g1
    | (.error e, g1) => .error e self.scanUnit.2 g1

/-- The member `parsePower`. -/
def parsePower (self : quantity_parser_t R) (q : quantity R) : quantity R × quantity_parser_t R :=
  if isInteger self.current then
    (nth_power q (static_cast_int self.scanInteger.1), self.scanInteger.2)
  else (q, self)

end quantity_parser_t

section parser_recursion

open quantity_parser_t

variable {R : Type} [Rep R]

/-- The loop of `parseTerm`, with the parser of a factor as a parameter.  The first
argument bounds the iterations. -/
def parseTermLoop (factor : quantity_parser_t R → registry R → parse_result R (quantity R)) :
    Nat → quantity R → Nat → quantity_parser_t R → registry R → parse_result R (quantity R)
  | fuel, lhs, solidus_count, p, g =>
    if !(isOperator p.current) then .ok lhs p g
    else if isOperator p.ahead then
      .error (.quantity_parser_error
        ("consecutive operators at position " ++ toString p.input_position ++ ": '"
          ++ p.currentStr ++ "' and '" ++ p.aheadStr ++ "'")
        p.input_text p.input_position) p g
    else
      match fuel with
      | 0 => .out_of_fuel
      | fuel1 + 1 =>
        if p.current == ' ' || p.current == '.' then
          match factor p.advance g with
          | .ok rhs p1 g1 => parseTermLoop factor fuel1 (operator_mul_assign lhs rhs) 0 p1 g1
          | .error e p1 g1 => .error e p1 g1
          | .out_of_fuel => .out_of_fuel
        else if solidus_count + 1 > 1 then
          .error (.quantity_parser_error
            ("repetition of solidus at position " ++ toString p.current_pos
              ++ ": use parenthesis to avoid ambiguity")
            p.input_text p.input_position) p g
        else
          match factor p.advance g with
          | .ok rhs p1 g1 =>
            parseTermLoop factor fuel1 (operator_div_assign lhs rhs) (solidus_count + 1) p1 g1
          | .error e p1 g1 => .error e p1 g1
          | .out_of_fuel => .out_of_fuel

/-- The member `parseTerm`, with the parser of a factor as a parameter; the loop
runs once for every operator character, so the length of the stream bounds it. -/
def parseTerm_with (factor : quantity_parser_t R → registry R → parse_result R (quantity R))
    (p : quantity_parser_t R) (g : registry R) : parse_result R (quantity R) :=
  match factor p g with
  | .ok lhs p1 g1 => parseTermLoop factor (p1.iss.length + 1) lhs 0 p1 g1
  | .error e p1 g1 => .error e p1 g1
  | .out_of_fuel => .out_of_fuel

/-- The member `parseExpression`, with the parser of a factor as a parameter. -/
def parseExpression_with
    (factor : quantity_parser_t R → registry R → parse_result R (quantity R))
    (p : quantity_parser_t R) (g : registry R) : parse_result R (quantity R) :=
  match parseTerm_with factor p.parseNumericalValue.2 g with
  | .ok t p1 g1 => .ok (operator_scalar_mul p.parseNumericalValue.1 t) p1 g1
  | .error e p1 g1 => .error e p1 g1
  | .out_of_fuel => .out_of_fuel

/-- The member `parseFactor`; the first argument bounds the nesting of
parentheses. -/
def parseFactorAux :
    Nat → quantity_parser_t R → registry R → parse_result R (quantity R)
  | fuel, p, g =>
    if (p.accept '(').1 then
      match fuel with
      | 0 => .out_of_fuel
      | fuel1 + 1 =>
        match parseExpression_with (parseFactorAux fuel1) (p.accept '(').2 g with
        | .ok q p1 g1 =>
          match p1.expect ')' with
          | (.ok _, p2) => .ok (p2.parsePower q).1 (p2.parsePower q).2 g1
          | (.error e, p2) => .error e p2 g1
        | .error e p1 g1 => .error e p1 g1
        | .out_of_fuel => .out_of_fuel
    else if p.dimless_quantities && !(p.isPrefixedUnit p.current p.ahead) then
      .ok number p g
    else
      match p.parsePrefix with
      | (.error e, p1) => .error e p1 g
      | (.ok pfx, p1) =>
        match p1.parseUnit g with
        | .ok u p2 g2 =>
          .ok (p2.parsePower (operator_scalar_mul pfx u)).1
            (p2.parsePower (operator_scalar_mul pfx u)).2 g2
        | .error e p2 g2 => .error e p2 g2
        | .out_of_fuel => .out_of_fuel

namespace quantity_parser_t

/-- The member `parseFactor`: every opening parenthesis is read from the stream, so
its length bounds the nesting. -/
def parseFactor (self : quantity_parser_t R) (g : registry R) : parse_result R (quantity R) :=
  parseFactorAux (self.iss.length + 1) self g

/-- The member `parseTerm`. -/
def parseTerm (self : quantity_parser_t R) (g : registry R) : parse_result R (quantity R) :=
  parseTerm_with parseFactor self g

/-- The member `parseExpression`. -/
def parseExpression (self : quantity_parser_t R) (g : registry R) :
    parse_result R (quantity R) :=
  parseExpression_with parseFactor self g

/-- The member `parseNumValueExpression`. -/
def parseNumValueExpression (self : quantity_parser_t R) (g : registry R) :
    parse_result R (quantity R) :=
  match parseTerm
      { self.parseNumericalValue.2 with num_value := self.parseNumericalValue.1 } g with
  | .ok t p1 g1 => .ok (operator_scalar_mul self.parseNumericalValue.1 t) p1 g1
  | .error e p1 g1 => .error e p1 g1
  | .out_of_fuel => .out_of_fuel

/-- The member `parseInput`. -/
def parseInput (self : quantity_parser_t R) (g : registry R) (text_ : List Char) :
    parse_result R (quantity R) :=
  match (self.initialize_ text_).advance.parseNumValueExpression g with
  | .ok q p1 g1 =>
    if !((p1.accept end_char).1) then
      .error (.quantity_parser_error
        ("garbage at position " ++ toString p1.current_pos ++ ": '" ++ p1.currentStr ++ "'")
        p1.input_text p1.input_position) p1 g1
    else
      .ok q { (p1.accept end_char).2 with
        pfx_factor := (operator_div_scalar q (p1.accept end_char).2.numerical_value).value } g1
  | .error e p1 g1 => .error e p1 g1
  | .out_of_fuel => .out_of_fuel

/-- The member `parse`: every exception of `parseInput` is caught and thrown again
as a `quantity_parser_error` with the stripped text and the position of the
scanner.  (Inside the parser nothing but a `quantity_error` is raised.) -/
def parse (self : quantity_parser_t R) (g : registry R) (text : String) :
    parse_result R (quantity R) :=
  match self.parseInput g text.toList with
  | .ok q p1 g1 => .ok q p1 g1
  | .error e p1 g1 =>
    .error (.quantity_parser_error ("quantity: parsing unit '" ++ text ++ "': " ++ e.what)
      p1.input_text p1.input_position) p1 g1
  | .out_of_fuel => .out_of_fuel

end quantity_parser_t

/-- The function `detail::make_quantity`: the quantity and the numerical value of a
text, with the registry as the call leaves it. -/
def make_quantity (g : registry R) (text : String) (extunits : Bool) (dimless : Bool) :
    parse_result R (quantity R × R) :=
  match ((quantity_parser_t.mk0.extend extunits).dimensionless dimless).parse g text with
  | .ok q p1 g1 => .ok (q, p1.numerical_value) p1 g1
  | .error e p1 g1 => .error e p1 g1
  | .out_of_fuel => .out_of_fuel

/-- The function `to_quantity( text, extunits, dimless )`. -/
def to_quantity (g : registry R) (text : String) (extunits : Bool) (dimless : Bool) :
    parse_result R (quantity R) :=
  match make_quantity g text extunits dimless with
  | .ok qv p1 g1 => .ok qv.1 p1 g1
  | .error e p1 g1 => .error e p1 g1
  | .out_of_fuel => .out_of_fuel

/-- The function `to_unit( text, extunits, dimless )`. -/
def to_unit (g : registry R) (text : String) (extunits : Bool) (dimless : Bool) :
    parse_result R (quantity R) :=
  match make_quantity g text extunits dimless with
  | .ok qv p1 g1 => .ok ⟨qv.1.dimension, Rep.div qv.1.value qv.2⟩ p1 g1
  | .error e p1 g1 => .error e p1 g1
  | .out_of_fuel => .out_of_fuel

/-- The function `to_numerical_value( text, extunits, dimless )`. -/
def to_numerical_value (g : registry R) (text : String) (extunits : Bool) (dimless : Bool) :
    parse_result R R :=
  match make_quantity g text extunits dimless with
  | .ok qv p1 g1 => .ok qv.2 p1 g1
  | .error e p1 g1 => .error e p1 g1
  | .out_of_fuel => .out_of_fuel

/-- The value of a result, if there is one. -/
def parse_result.value? {α : Type} : parse_result R α → Option α
  | .ok a _ _ => some a
  | _ => none

/-- The exception of a result, if there is one. -/
def parse_result.error? {α : Type} : parse_result R α → Option quantity_error
  | .error e _ _ => some e
  | _ => none

end parser_recursion

section scanner_invariant

variable {R : Type} [Rep R]

/-- The scanner is inside its text: the text ends in the end character, and the
current character is the one at `current_pos` (counted from 1), followed by the
characters that `iss` still holds. -/
def quantity_parser_t.scanned (p : quantity_parser_t R) : Prop :=
  (∃ pre : List Char, p.text = pre ++ p.current_char :: p.iss ∧
    p.current_pos = pre.length + 1) ∧
  p.text.getLast? = some end_char

/-- The state `q` is a state of the scanner that comes after `p` on the same
text. -/
def quantity_parser_t.follows (p q : quantity_parser_t R) : Prop :=
  q.scanned ∧ q.text = p.text ∧ q.iss.length ≤ p.iss.length

/-- A member function returned or threw, with the scanner in a state that comes
after `p`. -/
def parse_result.follows {α : Type} (p : quantity_parser_t R) : parse_result R α → Prop
  | .ok _ q _ => p.follows q
  | .error _ q _ => p.follows q
  | .out_of_fuel => False

end scanner_invariant

section parser_states

variable {R : Type} [Rep R]

/-- The scanner after `k` more characters have been read and the end character has
been reached. -/
def quantity_parser_t.at_end (p : quantity_parser_t R) (k : Nat) : quantity_parser_t R :=
  { p with current_char := end_char, iss := [], current_pos := p.current_pos + k }

/-- The parser after `initialize`, the first `advance` and a numerical value that
is absent, which `parseNumValueExpression` records as 1.0. -/
def quantity_parser_t.started (self : quantity_parser_t R) (text_ : List Char) :
    quantity_parser_t R :=
  { (self.initialize_ text_).advance with num_value := Rep.one_point_zero }

end parser_states

/-- The single letters that are prefix codes (`da` starts with `d`). -/
def prefix_letters : List Char :=
  ['m', 'k', 'u', 'M', 'n', 'G', 'p', 'T', 'f', 'P', 'a', 'E', 'z', 'Z', 'y', 'Y', 'h', 'd',
    'c']

/-- A unit name in front of which the default parser reads neither a number nor a
prefix nor an escape character, and which `scanUnit` collects as a whole: it is
made of letters and `'`, does not start with a number character, and either is a
single letter, or starts with an apostrophe, with one of the pairs that
`parsePrefix` excepts, or with a letter that is no prefix. -/
def plain_unit_name : List Char → Bool
  | [] => false
  | [c0] => isalpha c0 && !(quantity_parser_t.isReal c0)
  | c0 :: c1 :: ut =>
    (c0 :: c1 :: ut).all (fun x => x == '\'' || isalpha x) &&
    !(quantity_parser_t.isReal c0) &&
    ((isalpha c0 &&
        (((c0, c1) ∈ [('c', 'd'), ('k', 'g'), ('m', 'o'), ('m', 'i'), ('P', 'a'), ('G', 'y')])
          || !(prefix_letters.contains c0)))
      || (c0 == '\'' && c1 == 'C'))

/-- A signed integer literal: an optional sign and one or more digits. -/
def is_integer_literal (lit : List Char) : Bool :=
  match lit with
  | '+' :: ds => !ds.isEmpty && ds.all isdigit
  | '-' :: ds => !ds.isEmpty && ds.all isdigit
  | ds => !ds.isEmpty && ds.all isdigit

/-- The integer that a signed integer literal denotes. -/
def integer_literal_value (lit : List Char) : Int :=
  match lit with
  | '+' :: ds => (digits_value ds : Int)
  | '-' :: ds => -(digits_value ds : Int)
  | ds => (digits_value ds : Int)

section simulation_relation

variable {R : Type} [Rep R]

/-- Two parsers are in the same place of the same remaining input, with the same
options: they agree on everything but the position, the stored text and the two
values a parse leaves behind, on which no decision of the parser depends. -/
def quantity_parser_t.sim (p q : quantity_parser_t R) : Prop :=
  p.ext_units = q.ext_units ∧ p.dimless_quantities = q.dimless_quantities ∧
  p.escape_char = q.escape_char ∧ p.current_char = q.current_char ∧ p.iss = q.iss

/-- Two results of a member function agree: both are values, the same one, or both
are exceptions (whose texts may name different positions), the parsers are in the
same place and the registries are the same. -/
def parse_result.sim {α : Type} : parse_result R α → parse_result R α → Prop
  | .ok a p g, .ok b q h => a = b ∧ p.sim q ∧ g = h
  | .error _ p g, .error _ q h => p.sim q ∧ g = h
  | .out_of_fuel, .out_of_fuel => True
  | _, _ => False

end simulation_relation

section kept_properties

variable {R : Type} [Rep R]

/-- A property of the parser holds for the parser that a result carries. -/
def parse_result.holds {α : Type} (I : quantity_parser_t R → Prop) :
    parse_result R α → Prop
  | .ok _ q _ => I q
  | .error _ q _ => I q
  | .out_of_fuel => True

end kept_properties

section twin_relation

variable {R : Type} [Rep R]

/-- Two parsers with the same options read two texts that differ in one character
only, a blank in the first text and a dot in the second; that character is the
current one or is still ahead in the stream, and `r` is what follows it. -/
def quantity_parser_t.twin (r : List Char) (p q : quantity_parser_t R) : Prop :=
  p.ext_units = q.ext_units ∧ p.dimless_quantities = q.dimless_quantities ∧
  p.escape_char = q.escape_char ∧ p.escape_char ≠ ' ' ∧ p.escape_char ≠ '.' ∧ r ≠ [] ∧
  ∃ s : List Char, p.current_char :: p.iss = s ++ ' ' :: r ∧
    q.current_char :: q.iss = s ++ '.' :: r

/-- If the first of two results is a value, reached without reading past the
character in which the two texts differ, then the second is the same value with
the same registry, and the parsers are as in `twin`. -/
def parse_result.twin {α : Type} (r : List Char) (x y : parse_result R α) : Prop :=
  match x with
  | .ok a p g => r.length ≤ p.iss.length → ∃ q, y = .ok a q g ∧ p.twin r q
  | _ => True

end twin_relation

/-! ## Output: unit names and symbols -/

section unit_symbols

variable {R : Type} [Rep R]

/-- The tag `name_symbol()`: its constructor has the default argument `true`,
"use name for unit, if available". -/
def name_symbol : Bool := true

/-- The tag `base_symbols()`: `name_symbol( false )`, "express unit in base
dimensions". -/
def base_symbols : Bool := false

/-- The member `unit_info::emit_dim`: the text of `os` and the flag `first` after
the call.  An `int` is written in decimal, with `-` when negative. -/
def unit_info.emit_dim (os : String) (label : String) (exp : Int) (first : Bool) :
    String × Bool :=
  if exp == 0 then (os, first)
  else
    let os1 := if first then os else os ++ " "
    let os2 := os1 ++ label
    let os3 := if exp > 1 then os2 ++ "+" else os2
    let os4 := if exp != 1 then os3 ++ toString exp else os3
    (os4, false)

/-- The body of the two loops of `unit_info::symbol`,
`emit_dim( os, unit_name( dimensions(i,1) ), m_dim.d[i], first )`, on the text of
`os`, the flag `first` and the registry.  The name is looked up before `emit_dim`
tests the exponent. -/
def unit_info.emit_step (m_dim : dimensions) (s : String × Bool × registry R) (i : Nat) :
    String × Bool × registry R :=
  ((unit_info.emit_dim s.1 (unit_name s.2.2 (dimensions.mk1 i 1)).1
      (m_dim.d.getD i 0) s.2.1).1,
    (unit_info.emit_dim s.1 (unit_name s.2.2 (dimensions.mk1 i 1)).1
      (m_dim.d.getD i 0) s.2.1).2,
    (unit_name s.2.2 (dimensions.mk1 i 1)).2)

/-- One of the two loops of `unit_info::symbol`, `for ( i = lo; i < hi; ++i )`. -/
def unit_info.emit_range (m_dim : dimensions) (lo hi : Nat)
    (st : String × Bool × registry R) : String × Bool × registry R :=
  (List.range' lo (hi - lo)).foldl (unit_info.emit_step m_dim) st

/-- The member `unit_info::symbol( name_symbol )`, with the registry as the call
leaves it.  The second loop runs from `base_cnt` up to
`PHYS_UNITS_QUANTITY_UNIT_EXT_COUNT`. -/
def unit_info.symbol (r : registry R) (m_dim : dimensions) (use_name : Bool) :
    String × registry R :=
  let base_cnt := PHYS_UNITS_QUANTITY_UNIT_BASE_COUNT
  let base_dim := dimensions.mkRange m_dim 0 base_cnt
  let st1 : String × Bool × registry R :=
    if use_name && has_unit_name r base_dim then
      ((unit_info.emit_dim "" (unit_name r base_dim).1 1 true).1,
        (unit_info.emit_dim "" (unit_name r base_dim).1 1 true).2,
        (unit_name r base_dim).2)
    else
      unit_info.emit_range m_dim 0 base_cnt ("", true, r)
  let st2 := unit_info.emit_range m_dim base_cnt PHYS_UNITS_QUANTITY_UNIT_EXT_COUNT st1
  (st2.1, st2.2.2)

/-- The member `unit_info::name`: `symbol()`, with the default argument. -/
def unit_info.name (r : registry R) (m_dim : dimensions) : String × registry R :=
  unit_info.symbol r m_dim name_symbol

/-- The function `to_unit_name( d )`. -/
def to_unit_name (r : registry R) (d : dimensions) : String × registry R :=
  unit_info.name r d

/-- The function `to_unit_symbol( d, use )`. -/
def to_unit_symbol (r : registry R) (d : dimensions) (use : Bool) : String × registry R :=
  unit_info.symbol r d use

/-- The function `to_base_unit_symbols( d )`. -/
def to_base_unit_symbols (r : registry R) (d : dimensions) : String × registry R :=
  unit_info.symbol r d base_symbols

/-- The symbols of the seven base units, in the order of the components. -/
def base_symbol_names : List String := ["m", "kg", "s", "A", "K", "mol", "cd"]

/-- The term of one unit in a symbol: the bare symbol for the exponent 1, the symbol
followed by `+` and the exponent for an exponent above 1, the symbol followed by the
exponent with its `-` for a negative exponent. -/
def symbol_term (sym : String) (e : Int) : String :=
  if e = 1 then sym else if e > 1 then sym ++ "+" ++ toString e else sym ++ toString e

/-- The term of one unit, none for the exponent 0. -/
def symbol_term? (sym : String) (e : Int) : Option String :=
  if e = 0 then none else some (symbol_term sym e)

/-- The terms of the base components of a dimension: one for every component that
is not zero, in the order m, kg, s, A, K, mol, cd. -/
def base_symbol_terms (d : dimensions) : List String :=
  (base_symbol_names.zip (d.d.take 7)).filterMap (fun p => symbol_term? p.1 p.2)

end unit_symbols

/-! ## Output in engineering notation -/

/-- What `eng_format` takes from `<limits>`, `<cmath>` and the output stream, beside
the arithmetic of `Rep`: the constant `numeric_limits<value_type>::epsilon()`, the
composition `floor( log10( x ) )` (the formatter uses the two functions only
composed), `modf( x, &i )` as the pair of the fractional part it returns and the
integral part it stores, and the text that `os << x` writes with the default flags
and with `std::fixed << std::setprecision( n )`. -/
class EngRep (R : Type) where
  epsilon : R
  floor_log10 : R → R
  modf : R → R × R
  put : R → String
  put_fixed : Int → R → String

/-- The number of decimal digits of `n`, less one. -/
def nat_log10 (fuel n : Nat) : Nat :=
  match fuel with
  | 0 => 0
  | f + 1 => if n < 10 then 0 else nat_log10 f (n / 10) + 1

/-- The least `j` from `j0` on at which `d ≤ n * 10 ^ (j - j0)`. -/
def shift_to_reach (fuel n d j0 : Nat) : Nat :=
  match fuel with
  | 0 => j0
  | f + 1 => if d ≤ n then j0 else shift_to_reach f (n * 10) d (j0 + 1)

/-- The decimal exponent of a positive rational `x`: the `k` with
`10 ^ k ≤ x < 10 ^ (k + 1)`; 0 for the others. -/
def decimal_exponent (x : Rat) : Int :=
  if x ≤ 0 then 0
  else if x.den ≤ x.num.toNat then (nat_log10 x.num.toNat (x.num.toNat / x.den) : Int)
  else -(shift_to_reach x.den x.num.toNat x.den 0 : Int)

/-- The integer nearest to a rational `x ≥ 0`, the even one of two at the same
distance. -/
def round_half_even (x : Rat) : Nat :=
  let f := x.num.toNat / x.den
  let r := x - (f : Rat)
  if r < 1 / 2 then f
  else if 1 / 2 < r then f + 1
  else if f % 2 = 0 then f else f + 1

/-- A run of digits without the zeros at its end. -/
def strip_trailing_zeros (ds : List Char) : List Char :=
  (ds.reverse.dropWhile (fun c => c == '0')).reverse

/-- A fractional part as it is written: nothing when no digit is left. -/
def fraction_text (ds : List Char) : String :=
  if ds.isEmpty then "" else String.mk ('.' :: ds)

/-- The text of `os << x` for a `double` with the default flags and the precision
`prec` (the conversion `%g`), on an exact value: `prec` significant digits, the zeros
at the end of the fraction left out; positional for a decimal exponent from -4 up to
`prec - 1`, with an exponent of two digits or more otherwise. -/
def put_general (prec : Nat) (x : Rat) : String :=
  if x = 0 then "0"
  else
    let sign := if x < 0 then "-" else ""
    let a := |x|
    let e0 := decimal_exponent a
    let m0 := round_half_even (a * (10 : Rat) ^ ((prec : Int) - 1 - e0))
    let m := if m0 = 10 ^ prec then 10 ^ (prec - 1) else m0
    let e := if m0 = 10 ^ prec then e0 + 1 else e0
    let ds := (toString m).toList
    if -4 ≤ e ∧ e < (prec : Int) then
      if 0 ≤ e then
        sign ++ String.mk (ds.take (e.toNat + 1)) ++
          fraction_text (strip_trailing_zeros (ds.drop (e.toNat + 1)))
      else
        sign ++ "0" ++
          fraction_text (strip_trailing_zeros (List.replicate ((-e).toNat - 1) '0' ++ ds))
    else
      sign ++ String.mk (ds.take 1) ++ fraction_text (strip_trailing_zeros (ds.drop 1)) ++
        (if e < 0 then "e-" else "e+") ++
        (if e.natAbs < 10 then "0" else "") ++ toString e.natAbs

/-- The text of `os << std::fixed << std::setprecision( prec ) << x` for a `double`
(the conversion `%.*f`), on an exact value; a negative precision is taken as the
default 6. -/
def put_fixed_point (prec : Int) (x : Rat) : String :=
  let p := if prec < 0 then 6 else prec.toNat
  let sign := if x < 0 then "-" else ""
  let m := round_half_even (|x| * (10 : Rat) ^ p)
  let frac := (toString (m % 10 ^ p)).toList
  sign ++ toString (m / 10 ^ p) ++
    (if p = 0 then ""
     else String.mk ('.' :: (List.replicate (p - frac.length) '0' ++ frac)))

/-- Exact rational magnitudes: `epsilon` is that of `double`, 2^-52, `floor( log10( x ) )`
is the exact decimal exponent, `modf` the exact parts (both with the sign of `x`),
and a value is written as a `double` of that exact value is.  Sums are exact: the
sum of a number and `epsilon` is not rounded to 53 bits. -/
instance : EngRep Rat where
  epsilon := 1 / 2 ^ 52
  floor_log10 := fun x => (decimal_exponent x : Rat)
  modf := fun x => (x - (Int.tdiv x.num x.den : Rat), (Int.tdiv x.num x.den : Rat))
  put := put_general 6
  put_fixed := put_fixed_point

section engineering

variable {R : Type} [Rep R] [EngRep R]

/-- The class `detail::eng_format`. -/
structure eng_format where
  m_magnitude : String
  m_unit : String
  m_fixed : Bool
  m_showpos : Bool

/-- The glyph `PHYS_UNITS_MICRO_GLYPH`, unless defined otherwise. -/
def PHYS_UNITS_MICRO_GLYPH : String := "µ"

/-- The table `prefix[]` of `construct`. -/
def eng_format.prefix_glyphs : List String :=
  ["y", "z", "a", "f", "p", "n", PHYS_UNITS_MICRO_GLYPH, "m", "",
    "k", "M", "G", "T", "P", "E", "Z", "Y"]

/-- The member `magnitude`. -/
def eng_format.magnitude (self : eng_format) : String :=
  self.m_magnitude

/-- The member `unit`. -/
def eng_format.unit (self : eng_format) : String :=
  self.m_unit

/-- The member `repr`. -/
def eng_format.repr (self : eng_format) : String :=
  self.magnitude ++ " " ++ self.unit

/-- The member `lrint`: `static_cast<int>( x + epsilon )`, a conversion that drops
the fraction. -/
def eng_format.lrint (x : R) : Int :=
  static_cast_int (Rep.add x (EngRep.epsilon : R))

/-- The member `fits_eng_notation`. -/
def eng_format.fits_eng_notation (r : registry R) (q : quantity R)
    (expof10 prefix_start prefix_end : Int) : Bool :=
  q.dimension.ne mass_d && has_unit_name r q.dimension &&
    decide (prefix_start ≤ expof10) && decide (expof10 ≤ prefix_end)

/-- The sign that `construct` writes. -/
def eng_format.sign_of (showpos : Bool) (value : R) : String :=
  if Rep.lt value (Rep.ofScientific 0 true 1) then "-"
  else if showpos then "+"
  else ""

/-- The value of `construct` after its first statements: `-value` for a value
below `0.0`. -/
def eng_format.unsigned (value : R) : R :=
  if Rep.lt value (Rep.ofScientific 0 true 1) then Rep.neg value else value

/-- The statements of `construct` from `int expof10 = lrint( ... )` to the end of
the three-way test of `value` against 1000, 100 and 10, on the value without its
sign: the value, the exponent `expof10` and `digits` as they are when
`fits_eng_notation` is called.  The variables of type `int` are integers. -/
def eng_format.round_and_align (value : R) (digits : Int) : R × Int × Int :=
  let ten : R := Rep.ofScientific 100 true 1
  let expof10 : Int := eng_format.lrint (EngRep.floor_log10 value)
  let value := Rep.mul value (Rep.pow ten (Rep.ofInt (digits - 1 - expof10)))
  let display : R := (EngRep.modf value).2
  let fract : R := (EngRep.modf value).1
  let display := if Rep.le (Rep.ofScientific 5 true 1) fract then
      Rep.add display (Rep.ofScientific 10 true 1)
    else display
  let value := Rep.mul display (Rep.pow ten (Rep.ofInt (expof10 - digits + 1)))
  let expof10 : Int :=
    if expof10 > 0 then (Int.tdiv expof10 3) * 3
    else (Int.tdiv (-expof10 + 3) 3) * (-3)
  let value := Rep.mul value (Rep.pow ten (Rep.ofInt (-expof10)))
  if Rep.le (Rep.ofScientific 10000 true 1) value then
    (Rep.div value (Rep.ofScientific 10000 true 1), expof10 + 3, digits)
  else if Rep.le (Rep.ofScientific 1000 true 1) value then
    (value, expof10, digits - 2)
  else if Rep.le (Rep.ofScientific 100 true 1) value then
    (value, expof10, digits - 1)
  else
    (value, expof10, digits)

/-- The member `construct`, with the registry as `to_unit_symbol( q )` leaves it. -/
def eng_format.construct (self : eng_format) (r : registry R) (q : quantity R)
    (digits : Int) : eng_format × registry R :=
  let prefix_start : Int := -24
  let prefix_end : Int := prefix_start + 3 * ((eng_format.prefix_glyphs.length : Int) - 1)
  let sign := eng_format.sign_of self.m_showpos q.value
  let value := (eng_format.round_and_align (eng_format.unsigned q.value) digits).1
  let expof10 := (eng_format.round_and_align (eng_format.unsigned q.value) digits).2.1
  let digits := (eng_format.round_and_align (eng_format.unsigned q.value) digits).2.2
  let self1 : eng_format :=
    if eng_format.fits_eng_notation r q expof10 prefix_start prefix_end then
      { self with
        m_magnitude :=
          if self.m_fixed then sign ++ EngRep.put_fixed (digits - 1) value
          else sign ++ EngRep.put value
        m_unit := eng_format.prefix_glyphs.getD (Int.tdiv (expof10 - prefix_start) 3).toNat "" }
    else
      { self with
        m_magnitude :=
          if self.m_fixed then
            sign ++ EngRep.put_fixed (digits - 1) value ++ "e" ++ toString expof10
          else sign ++ EngRep.put value ++ "e" ++ toString expof10 }
  ({ self1 with m_unit := self1.m_unit ++ (to_unit_symbol r q.dimension name_symbol).1 },
    (to_unit_symbol r q.dimension name_symbol).2)

/-- The constructor `eng_format( q, digits, showpos )`. -/
def eng_format.mk3 (r : registry R) (q : quantity R) (digits : Int) (showpos : Bool) :
    eng_format × registry R :=
  eng_format.construct
    { m_magnitude := "", m_unit := "", m_fixed := false, m_showpos := showpos } r q digits

/-- The function `to_eng_magnitude( q, digits, showpos )`. -/
def to_eng_magnitude (r : registry R) (q : quantity R) (digits : Int) (showpos : Bool) :
    String × registry R :=
  ((eng_format.mk3 r q digits showpos).1.magnitude, (eng_format.mk3 r q digits showpos).2)

/-- The function `to_eng_unit( q )`. -/
def to_eng_unit (r : registry R) (q : quantity R) : String × registry R :=
  ((eng_format.mk3 r q 6 false).1.unit, (eng_format.mk3 r q 6 false).2)

/-- The function `to_eng_string( q, digits, showpos )`; the source has the default
arguments 6 and false. -/
def to_eng_string (r : registry R) (q : quantity R) (digits : Int) (showpos : Bool) :
    String × registry R :=
  ((eng_format.mk3 r q digits showpos).1.repr, (eng_format.mk3 r q digits showpos).2)

end engineering

section scanner_bound

variable {R : Type} [Rep R]

/-- The scanner has not passed an end character: it is inside its text, as
`scanned` says, and no character before the current one is the end character. -/
def quantity_parser_t.before_end (p : quantity_parser_t R) : Prop :=
  (∃ pre : List Char, p.text = pre ++ p.current_char :: p.iss ∧
    p.current_pos = pre.length + 1 ∧ end_char ∉ pre) ∧
  p.text.getLast? = some end_char

/-- The parser that a result carries, if the call returned or threw. -/
def parse_result.state? {α : Type} : parse_result R α → Option (quantity_parser_t R)
  | .ok _ p _ => some p
  | .error _ p _ => some p
  | .out_of_fuel => none

end scanner_bound

section symbol_texts

variable {R : Type} [Rep R]

/-- The factor that a unit name with the unit `u` and the characters `lit` after it
denote: `1.0 * u` without a power, raised to the power of the integer literal `lit`
otherwise, converted as `parsePower` does. -/
def term_factor (u : quantity R) (lit : List Char) : quantity R :=
  if lit = [] then operator_scalar_mul Rep.one_point_zero u
  else nth_power (operator_scalar_mul Rep.one_point_zero u)
    (static_cast_int (detail_to_real lit : R))

/-- The characters of a list of terms, each a unit name and the characters of its
power, with a blank in front of every term. -/
def terms_stream : List (List Char × List Char × quantity R) → List Char
  | [] => []
  | t :: ts => ' ' :: (t.1 ++ t.2.1 ++ terms_stream ts)

/-- The characters that `emit_dim` writes after the label: none for the exponent 1,
`+` and the exponent for an exponent above 1, the exponent with its `-` below 0. -/
def exponent_literal (e : Int) : List Char :=
  if e = 1 then [] else if e > 1 then '+' :: (toString e).toList else (toString e).toList

/-- The term of one base unit: none for the exponent 0. -/
def base_term? (sym : String) (u : quantity R) (e : Int) :
    Option (List Char × List Char × quantity R) :=
  if e = 0 then none else some (sym.toList, exponent_literal e, u)

/-- The seven base units with their symbols, in the order of the components. -/
def base_unit_table : List (String × quantity R) :=
  [("m", meter), ("kg", kilogram), ("s", second), ("A", ampere), ("K", kelvin),
    ("mol", mole), ("cd", candela)]

/-- The terms of the base components of a dimension that are not zero. -/
def base_terms (d : dimensions) : List (List Char × List Char × quantity R) :=
  (base_unit_table.zip (d.d.take 7)).filterMap (fun c => base_term? c.1.1 c.1.2 c.2)

/-- One step of the product of the base terms: the factor of the unit of `c` to the
power of its exponent is multiplied to `acc`, unless the exponent is 0. -/
def mul_base_term (acc : quantity R) (c : (String × quantity R) × Int) : quantity R :=
  if c.2 = 0 then acc
  else operator_mul_assign acc (term_factor c.1.2 (exponent_literal c.2))

end symbol_texts

/-! ## Properties of the dimension algebra -/

theorem to_value_type_range (x : Int) : -128 ≤ to_value_type x ∧ to_value_type x ≤ 127 := by
  unfold to_value_type
  omega

theorem to_value_type_of_range (x : Int) (h1 : -128 ≤ x) (h2 : x ≤ 127) :
    to_value_type x = x := by
  unfold to_value_type
  omega

theorem to_value_type_emod (x : Int) : to_value_type x % 256 = x % 256 := by
  unfold to_value_type
  omega

theorem to_value_type_congr (x y : Int) (h : x % 256 = y % 256) :
    to_value_type x = to_value_type y := by
  unfold to_value_type
  omega

theorem to_value_type_mul_right (a n : Int) :
    to_value_type (a * to_value_type n) = to_value_type (a * n) := by
  apply to_value_type_congr
  rw [Int.mul_emod, to_value_type_emod, ← Int.mul_emod]

theorem to_value_type_mul_left (a n : Int) :
    to_value_type (to_value_type a * n) = to_value_type (a * n) := by
  apply to_value_type_congr
  rw [Int.mul_emod, to_value_type_emod, ← Int.mul_emod]

theorem dimensions_ext (a b : dimensions) (h : a.d = b.d) : a = b := by
  cases a
  cases b
  simp_all

theorem zipWith_sub_add_cancel (l1 l2 : List Int) (hlen : l1.length = l2.length)
    (hr : ∀ v ∈ l1, -128 ≤ v ∧ v ≤ 127) :
    List.zipWith (fun a b => to_value_type (a - b))
      (List.zipWith (fun a b => to_value_type (a + b)) l1 l2) l2 = l1 := by
  induction l1 generalizing l2 with
  | nil => simp
  | cons a t ih =>
    cases l2 with
    | nil => simp at hlen
    | cons b u =>
      simp only [List.zipWith_cons_cons, List.cons.injEq]
      constructor
      · have ha := hr a (by simp)
        unfold to_value_type
        omega
      · apply ih
        · simpa using hlen
        · intro v hv
          exact hr v (by simp [hv])

/-- Claim C3: for all dimensions `d1` and `d2` (17 signed 8-bit components each),
`quotient( product( d1, d2 ), d2 )` equals `d1`. -/
theorem C3_quotient_product (d1 d2 : dimensions) (h1 : d1.valid) (h2 : d2.valid) :
    quotient (product d1 d2) d2 = d1 := by
  apply dimensions_ext
  simp only [quotient, product, dimensions.quotient, dimensions.product]
  exact zipWith_sub_add_cancel d1.d d2.d (by rw [h1.1, h2.1]) h1.2

/-- Witness of claim C3 at the dimensions of force and of time: the quotient of
their product by time is force again. -/
theorem C3_quotient_product_witness :
    quotient (product force_d time_interval_d) time_interval_d = force_d :=
  C3_quotient_product force_d time_interval_d (by decide) (by decide)

/-! ## Properties of the quantity operators -/

theorem check_dimension_of_ne {R : Type} [Rep R] (q1 q2 : quantity R) (text : String)
    (h : dimension q1 ≠ dimension q2) :
    q1.check_dimension q2 text
      = .error (.incompatible_dimension_error text (dimension q1) (dimension q2)) := by
  have h2 : ¬ q1.m_dim.d = q2.m_dim.d := fun e => h (dimensions_ext _ _ e)
  simp [quantity.check_dimension, quantity.same_dimension, dimensions.eq, h2, dimension,
    quantity.dimension]

theorem check_dimension_of_eq {R : Type} [Rep R] (q1 q2 : quantity R) (text : String)
    (h : dimension q1 = dimension q2) :
    q1.check_dimension q2 text = .ok () := by
  have h2 : q1.m_dim.d = q2.m_dim.d := congrArg dimensions.d h
  simp [quantity.check_dimension, quantity.same_dimension, dimensions.eq, h2]

/-- Claim C1: when the dimensions of `q1` and `q2` differ, each of `q1 + q2`,
`q1 - q2`, `q1 == q2`, `q1 != q2`, `q1 < q2`, `q1 <= q2`, `q1 > q2` and `q1 >= q2`
throws `incompatible_dimension_error` (carrying the operator name and the two
dimensions) instead of returning a value; when the dimensions are equal none of
them throws. -/
theorem C1_incompatible_dimension {R : Type} [Rep R] (q1 q2 : quantity R) :
    (dimension q1 ≠ dimension q2 →
      operator_add q1 q2
        = .error (.incompatible_dimension_error "operator+" (dimension q1) (dimension q2)) ∧
      operator_sub q1 q2
        = .error (.incompatible_dimension_error "operator-" (dimension q1) (dimension q2)) ∧
      operator_eq q1 q2
        = .error (.incompatible_dimension_error "operator==" (dimension q1) (dimension q2)) ∧
      operator_ne q1 q2
        = .error (.incompatible_dimension_error "operator!=" (dimension q1) (dimension q2)) ∧
      operator_lt q1 q2
        = .error (.incompatible_dimension_error "operator<" (dimension q1) (dimension q2)) ∧
      operator_le q1 q2
        = .error (.incompatible_dimension_error "operator<=" (dimension q1) (dimension q2)) ∧
      operator_gt q1 q2
        = .error (.incompatible_dimension_error "operator>" (dimension q1) (dimension q2)) ∧
      operator_ge q1 q2
        = .error (.incompatible_dimension_error "operator>=" (dimension q1) (dimension q2)))
    ∧
    (dimension q1 = dimension q2 →
      raises (operator_add q1 q2) = false ∧ raises (operator_sub q1 q2) = false ∧
      raises (operator_eq q1 q2) = false ∧ raises (operator_ne q1 q2) = false ∧
      raises (operator_lt q1 q2) = false ∧ raises (operator_le q1 q2) = false ∧
      raises (operator_gt q1 q2) = false ∧ raises (operator_ge q1 q2) = false) := by
  constructor
  · intro h
    simp only [operator_add, operator_sub, operator_eq, operator_ne, operator_lt, operator_le,
      operator_gt, operator_ge, check_dimension_of_ne q1 q2 _ h]
    exact ⟨rfl, rfl, rfl, rfl, rfl, rfl, rfl, rfl⟩
  · intro h
    simp only [operator_add, operator_sub, operator_eq, operator_ne, operator_lt, operator_le,
      operator_gt, operator_ge, check_dimension_of_eq q1 q2 _ h]
    exact ⟨rfl, rfl, rfl, rfl, rfl, rfl, rfl, rfl⟩

/-- Witness of claim C1: `meter() + second()` and `meter() < second()` throw
`incompatible_dimension_error`, `meter() + meter()` does not throw. -/
theorem C1_incompatible_dimension_witness :
    raises_with quantity_error.is_incompatible_dimension_error
      (operator_add (meter : quantity Float) second) = true ∧
    raises_with quantity_error.is_incompatible_dimension_error
      (operator_lt (meter : quantity Float) second) = true ∧
    raises (operator_add (meter : quantity Float) meter) = false := by
  have h := (C1_incompatible_dimension (meter : quantity Float) second).1 (by decide)
  have k := (C1_incompatible_dimension (meter : quantity Float) meter).2 rfl
  refine ⟨?_, ?_, k.1⟩
  · rw [h.1]
    rfl
  · rw [h.2.2.2.2.1]
    rfl

theorem getD_zipWith_of_lt (f : Int → Int → Int) (l1 l2 : List Int) (i : Nat)
    (h1 : i < l1.length) (h2 : i < l2.length) :
    (List.zipWith f l1 l2).getD i 0 = f (l1.getD i 0) (l2.getD i 0) := by
  induction l1 generalizing l2 i with
  | nil => simp at h1
  | cons a t ih =>
    cases l2 with
    | nil => simp at h2
    | cons b u =>
      cases i with
      | zero => simp
      | succ j =>
        simp only [List.zipWith_cons_cons, List.getD_cons_succ]
        exact ih u j (by simpa using h1) (by simpa using h2)

theorem getD_map_of_lt (f : Int → Int) (l : List Int) (i : Nat) (h : i < l.length) :
    (l.map f).getD i 0 = f (l.getD i 0) := by
  induction l generalizing i with
  | nil => simp at h
  | cons a t ih =>
    cases i with
    | zero => simp
    | succ j =>
      simp only [List.map_cons, List.getD_cons_succ]
      exact ih j (by simpa using h)

theorem mem_zipWith_elim (f : Int → Int → Int) (P : Int → Prop) (hP : ∀ a b, P (f a b))
    (l1 l2 : List Int) : ∀ v ∈ List.zipWith f l1 l2, P v := by
  induction l1 generalizing l2 with
  | nil => simp
  | cons a t ih =>
    cases l2 with
    | nil => simp
    | cons b u =>
      intro v hv
      simp only [List.zipWith_cons_cons, List.mem_cons] at hv
      rcases hv with rfl | hv
      · exact hP a b
      · exact ih u v hv

theorem getD_mem_of_lt (l : List Int) (i : Nat) (h : i < l.length) : l.getD i 0 ∈ l := by
  induction l generalizing i with
  | nil => simp at h
  | cons a t ih =>
    cases i with
    | zero => simp
    | succ j =>
      simp only [List.getD_cons_succ, List.mem_cons]
      exact Or.inr (ih j (by simpa using h))

theorem product_valid (d1 d2 : dimensions) (h1 : d1.valid) (h2 : d2.valid) :
    (product d1 d2).valid := by
  constructor
  · simp [product, dimensions.product, h1.1, h2.1]
  · exact mem_zipWith_elim _ _ (fun a b => to_value_type_range (a + b)) _ _

theorem quotient_valid (d1 d2 : dimensions) (h1 : d1.valid) (h2 : d2.valid) :
    (quotient d1 d2).valid := by
  constructor
  · simp [quotient, dimensions.quotient, h1.1, h2.1]
  · exact mem_zipWith_elim _ _ (fun a b => to_value_type_range (a - b)) _ _

/-- Claim C2: `q1 * q2` and `q1 / q2` are total (they return a quantity for all
operands, with no dimension check); the dimension of `q1 * q2` is
`product( dimension(q1), dimension(q2) )`, the component-wise sum, and the dimension
of `q1 / q2` is `quotient( dimension(q1), dimension(q2) )`, the component-wise
difference with the component of `q1` on the left, both in the arithmetic of the
component type (exactly the sum or difference whenever that lies in `-128 .. 127`);
`q * s`, `s * q` and `q / s` keep the dimension of `q`, and `s / q` has the
dimension `reciprocal( dimension(q) )`, every component negated. -/
theorem C2_product_quotient_dimension {R : Type} [Rep R] (q1 q2 : quantity R) (s : R)
    (h1 : (dimension q1).valid) (h2 : (dimension q2).valid) :
    dimension (operator_mul q1 q2) = product (dimension q1) (dimension q2) ∧
    dimension (operator_div q1 q2) = quotient (dimension q1) (dimension q2) ∧
    (dimension (operator_mul q1 q2)).valid ∧
    (dimension (operator_div q1 q2)).valid ∧
    (∀ i, i < 7 + PHYS_UNITS_QUANTITY_UNIT_EXT_COUNT →
      (dimension (operator_mul q1 q2)).d.getD i 0
        = to_value_type ((dimension q1).d.getD i 0 + (dimension q2).d.getD i 0) ∧
      (dimension (operator_div q1 q2)).d.getD i 0
        = to_value_type ((dimension q1).d.getD i 0 - (dimension q2).d.getD i 0) ∧
      (dimension (operator_scalar_div s q1)).d.getD i 0
        = to_value_type (-((dimension q1).d.getD i 0)) ∧
      (-128 ≤ (dimension q1).d.getD i 0 + (dimension q2).d.getD i 0 →
        (dimension q1).d.getD i 0 + (dimension q2).d.getD i 0 ≤ 127 →
        (dimension (operator_mul q1 q2)).d.getD i 0
          = (dimension q1).d.getD i 0 + (dimension q2).d.getD i 0) ∧
      (-128 ≤ (dimension q1).d.getD i 0 - (dimension q2).d.getD i 0 →
        (dimension q1).d.getD i 0 - (dimension q2).d.getD i 0 ≤ 127 →
        (dimension (operator_div q1 q2)).d.getD i 0
          = (dimension q1).d.getD i 0 - (dimension q2).d.getD i 0) ∧
      ((dimension q1).d.getD i 0 ≠ -128 →
        (dimension (operator_scalar_div s q1)).d.getD i 0 = -((dimension q1).d.getD i 0))) ∧
    dimension (operator_mul_scalar q1 s) = dimension q1 ∧
    dimension (operator_scalar_mul s q1) = dimension q1 ∧
    dimension (operator_div_scalar q1 s) = dimension q1 ∧
    dimension (operator_scalar_div s q1) = reciprocal (dimension q1) := by
  refine ⟨rfl, rfl, product_valid _ _ h1 h2, quotient_valid _ _ h1 h2, ?_, rfl, rfl, rfl, rfl⟩
  intro i hi
  have hi1 : i < (dimension q1).d.length := by rw [h1.1]; exact hi
  have hi2 : i < (dimension q2).d.length := by rw [h2.1]; exact hi
  have e1 : (dimension (operator_mul q1 q2)).d.getD i 0
      = to_value_type ((dimension q1).d.getD i 0 + (dimension q2).d.getD i 0) :=
    getD_zipWith_of_lt _ _ _ i hi1 hi2
  have e2 : (dimension (operator_div q1 q2)).d.getD i 0
      = to_value_type ((dimension q1).d.getD i 0 - (dimension q2).d.getD i 0) :=
    getD_zipWith_of_lt _ _ _ i hi1 hi2
  have e3 : (dimension (operator_scalar_div s q1)).d.getD i 0
      = to_value_type (-((dimension q1).d.getD i 0)) :=
    getD_map_of_lt _ _ i hi1
  have hr := h1.2 _ (getD_mem_of_lt _ i hi1)
  refine ⟨e1, e2, e3, ?_, ?_, ?_⟩
  · intro ha hb
    rw [e1, to_value_type_of_range _ ha hb]
  · intro ha hb
    rw [e2, to_value_type_of_range _ ha hb]
  · intro hne
    rw [e3, to_value_type_of_range _ (by omega) (by omega)]

/-- Witness of claim C2, from the arithmetic tests: `(m/s) * (m/s)` has dimension
`m+2 s-2`, `(m/s) / s` has dimension `m s-2`, and `8 / (m/s)` has dimension
`m-1 s`. -/
theorem C2_product_quotient_dimension_witness :
    dimension (operator_mul (operator_div (meter : quantity Float) second)
        (operator_div meter second)) = dimensions.mk7 2 0 (-2) 0 0 0 0 ∧
    dimension (operator_div (operator_div (meter : quantity Float) second) second)
      = dimensions.mk7 1 0 (-2) 0 0 0 0 ∧
    dimension (operator_scalar_div (8 : Float) (operator_div (meter : quantity Float) second))
      = dimensions.mk7 (-1) 0 1 0 0 0 0 := by
  have h := C2_product_quotient_dimension (operator_div (meter : quantity Float) second)
    (operator_div meter second) (8 : Float) (by decide) (by decide)
  have k := C2_product_quotient_dimension (operator_div (meter : quantity Float) second)
    second (8 : Float) (by decide) (by decide)
  refine ⟨?_, ?_, ?_⟩
  · rw [h.1]
    decide
  · rw [k.2.1]
    decide
  · rw [h.2.2.2.2.2.2.2.2]
    decide

theorem valid_all_zero_iff (x : dimensions) (h : x.valid) :
    dimensionless_d.d = x.d ↔ ∀ v ∈ x.d, v = 0 := by
  unfold dimensionless_d dimensions.mk0
  constructor
  · intro e v hv
    rw [← e] at hv
    exact List.eq_of_mem_replicate hv
  · intro hz
    exact (List.eq_replicate_iff.mpr ⟨h.1, hz⟩).symm

/-- Claim C6: for a quantity `q`, `quantity_cast<T>( q )`, and with it `to_real`
and `to_integer`, throws `bad_quantity_cast` if and only if the dimension of `q`
has at least one non-zero component; otherwise it returns the magnitude of `q`
converted to `T`. -/
theorem C6_quantity_cast {R T : Type} [Rep R] (cast : R → T) (type_name : String)
    (q : quantity R) (h : (dimension q).valid) :
    (raises_with quantity_error.is_bad_quantity_cast (quantity_cast cast type_name q) = true
      ↔ ∃ v ∈ (dimension q).d, v ≠ 0) ∧
    (raises (quantity_cast cast type_name q) = true ↔ ∃ v ∈ (dimension q).d, v ≠ 0) ∧
    ((∀ v ∈ (dimension q).d, v = 0) →
      quantity_cast cast type_name q = .ok (cast (magnitude q))) ∧
    to_real cast q = quantity_cast cast "double" q ∧
    to_integer cast q = quantity_cast cast "long" q := by
  have key := valid_all_zero_iff (dimension q) h
  by_cases hz : ∀ v ∈ (dimension q).d, v = 0
  · have e : dimensionless_d.d = q.m_dim.d := key.mpr hz
    have hn : ¬ ∃ v ∈ (dimension q).d, v ≠ 0 := by
      rintro ⟨v, hv, hne⟩
      exact hne (hz v hv)
    simp [quantity_cast, dimensions.ne, dimensions.eq, quantity.dimension, e, hn, raises,
      raises_with, to_real, to_integer, magnitude]
  · have e : ¬ dimensionless_d.d = q.m_dim.d := fun e => hz (key.mp e)
    have hn : ∃ v ∈ (dimension q).d, v ≠ 0 := by
      by_contra hc
      apply hz
      intro v hv
      by_contra hne
      exact hc ⟨v, hv, hne⟩
    simp only [quantity_cast, dimensions.ne, dimensions.eq, quantity.dimension, e, raises,
      raises_with, to_real, to_integer, quantity_error.is_bad_quantity_cast]
    simp only [decide_False, Bool.not_false, if_true, true_iff, and_true]
    exact ⟨hn, hn, fun hz2 => absurd hz2 hz⟩

/-- Witness of claim C6, from the function tests: `quantity_cast<double>( meter() )`
throws `bad_quantity_cast`, and the cast of the dimensionless `number()` returns its
magnitude. -/
theorem C6_quantity_cast_witness :
    raises_with quantity_error.is_bad_quantity_cast
      (quantity_cast (fun x : Float => x) "double" (meter : quantity Float)) = true ∧
    quantity_cast (fun x : Float => x) "double" (number : quantity Float)
      = .ok (magnitude (number : quantity Float)) :=
  ⟨(C6_quantity_cast (fun x : Float => x) "double" meter (by decide)).1.mpr
      ⟨1, by decide, by decide⟩,
    (C6_quantity_cast (fun x : Float => x) "double" number (by decide)).2.2.1 (by decide)⟩

/-- Claim C7: when the dimensions of `q` and `r` differ, the assignment `q = r`
throws `incompatible_dimension_error` and leaves `q`, dimension and magnitude,
as it was; when the dimensions are equal the assignment succeeds and `q` then has
the magnitude (and the dimension) of `r`. -/
theorem C7_assignment {R : Type} [Rep R] (q r : quantity R) :
    (dimension q ≠ dimension r →
      (q.operator_assign r).1
        = .error (.incompatible_dimension_error "operator=" (dimension q) (dimension r)) ∧
      (q.operator_assign r).2 = q) ∧
    (dimension q = dimension r →
      (q.operator_assign r).1 = .ok r ∧
      magnitude (q.operator_assign r).2 = magnitude r ∧
      dimension (q.operator_assign r).2 = dimension q) := by
  constructor
  · intro h
    simp [quantity.operator_assign, check_dimension_of_ne q r _ h]
  · intro h
    simp only [quantity.operator_assign, check_dimension_of_eq q r _ h, quantity.swap]
    exact ⟨trivial, trivial, h.symm⟩

/-- Witness of claim C7, from the arithmetic tests: with `q = meter()`, the
assignment `q = second()` throws `incompatible_dimension_error` and `q` stays
`meter()`. -/
theorem C7_assignment_witness :
    raises_with quantity_error.is_incompatible_dimension_error
      ((meter : quantity Float).operator_assign second).1 = true ∧
    ((meter : quantity Float).operator_assign second).2 = meter := by
  have h := (C7_assignment (meter : quantity Float) second).1 (by decide)
  refine ⟨?_, h.2⟩
  rw [h.1]
  rfl

/-! ## Properties of powers and roots -/

theorem is_all_even_multiples_iff (x : dimensions) (n : Int) :
    x.is_all_even_multiples n = true ↔ ∀ v ∈ x.d, n ∣ v := by
  unfold dimensions.is_all_even_multiples
  rw [beq_iff_eq, eq_comm, List.countP_eq_zero]
  constructor
  · intro h v hv
    have := h v hv
    simp only [dimensions.is_non_even_multiple, bne_iff_ne, ne_eq, not_not] at this
    exact Int.dvd_of_tmod_eq_zero this.symm
  · intro h v hv
    simp only [dimensions.is_non_even_multiple, bne_iff_ne, ne_eq, not_not]
    exact (Int.tmod_eq_zero_of_dvd (h v hv)).symm

theorem root_eq_dimension_error_iff (x : dimensions) (n : Int) (hn : n ≠ 0) :
    root x n = .error (.dimension_error "quantity: dimension should be even multiple")
      ↔ ∃ v ∈ x.d, ¬ n ∣ v := by
  have key := is_all_even_multiples_iff x n
  by_cases hall : ∀ v ∈ x.d, n ∣ v
  · have hb : x.is_all_even_multiples n = true := key.mpr hall
    have hne : ¬ ∃ v ∈ x.d, ¬ n ∣ v := by
      rintro ⟨v, hv, hnd⟩
      exact hnd (hall v hv)
    simp only [root, dimensions.root, if_neg hn, hb, Bool.not_true, hne, iff_false]
    by_cases ht : to_value_type n = 0 <;> simp [ht]
  · have hb : x.is_all_even_multiples n = false := by
      cases hc : x.is_all_even_multiples n
      · rfl
      · exact absurd (key.mp hc) hall
    have hex : ∃ v ∈ x.d, ¬ n ∣ v := by
      by_contra hc
      apply hall
      intro v hv
      by_contra hnd
      exact hc ⟨v, hv, hnd⟩
    simp [root, dimensions.root, hn, hb, hex]

theorem root_eq_ok_of_dvd (x : dimensions) (n : Int) (hn : n ≠ 0)
    (ht : to_value_type n ≠ 0) (hall : ∀ v ∈ x.d, n ∣ v) :
    root x n = .ok ⟨x.d.map (fun a => to_value_type (Int.tdiv a (to_value_type n)))⟩ := by
  have hb : x.is_all_even_multiples n = true := (is_all_even_multiples_iff x n).mpr hall
  simp [root, dimensions.root, hn, hb, ht]

theorem dvd_out_of_range (v n : Int) (hv : -128 ≤ v ∧ v ≤ 127) (hdvd : n ∣ v)
    (hout : n < -128 ∨ 127 < n) : v = 0 ∨ (v = -128 ∧ n = 128) := by
  obtain ⟨k, hk⟩ := hdvd
  rcases lt_trichotomy k 0 with hk0 | hk0 | hk0
  · rcases hout with h | h
    · exfalso
      nlinarith
    · right
      have h1 : n ≤ 128 := by nlinarith
      have h2 : n = 128 := by omega
      subst h2
      omega
  · left
    rw [hk, hk0, mul_zero]
  · rcases hout with h | h
    · exfalso
      nlinarith
    · exfalso
      nlinarith

theorem root_power_component (v n : Int) (hv : -128 ≤ v ∧ v ≤ 127) (hdvd : n ∣ v)
    (ht : to_value_type n ≠ 0) :
    to_value_type (to_value_type (Int.tdiv v (to_value_type n)) * to_value_type n) = v := by
  by_cases hr : -128 ≤ n ∧ n ≤ 127
  · rw [to_value_type_of_range n hr.1 hr.2, to_value_type_mul_left, Int.tdiv_mul_cancel hdvd]
    exact to_value_type_of_range v hv.1 hv.2
  · have hout : n < -128 ∨ 127 < n := by omega
    rcases dvd_out_of_range v n hv hdvd hout with h0 | ⟨h1, h2⟩
    · subst h0
      rw [Int.zero_tdiv]
      simp [to_value_type]
    · subst h1
      subst h2
      decide

/-- The property of claim C4 wherever the divisor of `root` is not zero: for every
`n` whose conversion to `value_type` is non-zero and every dimension `d` whose
components are all multiples of `n`, `root( d, n )` returns a dimension and
`power( root( d, n ), n )` is `d`. -/
theorem power_root_of_nonzero_divisor (x : dimensions) (n : Int) (hx : x.valid) (hn : n ≠ 0)
    (ht : to_value_type n ≠ 0) (hall : ∀ v ∈ x.d, n ∣ v) :
    ∃ r, root x n = .ok r ∧ power r n = x := by
  refine ⟨_, root_eq_ok_of_dvd x n hn ht hall, ?_⟩
  apply dimensions_ext
  simp only [power, dimensions.power, List.map_map]
  conv_rhs => rw [← List.map_id x.d]
  apply List.map_congr_left
  intro v hv
  simp only [Function.comp_apply, id_eq]
  exact root_power_component v n (hx.2 v hv) (hall v hv) ht

/-- Claim C4, at the input where the code departs from it: `n = 256` is not zero,
every component of the dimensionless dimension is a multiple of 256, and
`root( dimensionless_d, 256 )` passes the divisibility check and then divides every
component by `value_type( 256 )`, which is 0: it does not return a dimension. -/
theorem C4_root_divides_by_zero :
    (256 : Int) ≠ 0 ∧ dimensionless_d.valid ∧ (∀ v ∈ dimensionless_d.d, (256 : Int) ∣ v) ∧
    dimensionless_d.is_all_even_multiples 256 = true ∧
    to_value_type 256 = 0 ∧
    root dimensionless_d 256 = .error (.undefined_behaviour "division by zero") :=
  ⟨by decide, by decide, by decide, by decide, by decide, rfl⟩

theorem exact_quotient_range (v n : Int) (hv : -128 ≤ v ∧ v ≤ 127) (hn : n ≠ 0)
    (hdvd : n ∣ v) (hex : ¬ (v = -128 ∧ n = -1)) :
    -128 ≤ Int.tdiv v n ∧ Int.tdiv v n ≤ 127 := by
  have hmul : Int.tdiv v n * n = v := Int.tdiv_mul_cancel hdvd
  generalize Int.tdiv v n = k at hmul
  rcases lt_or_gt_of_ne hn with hneg | hpos
  · have hn1 : n ≤ -1 := by omega
    constructor
    · by_contra hc
      have hk : k ≤ -129 := by omega
      nlinarith
    · by_contra hc
      have hk : 128 ≤ k := by omega
      have h1 : v = -128 := by nlinarith
      have h2 : n = -1 := by nlinarith
      exact hex ⟨h1, h2⟩
  · have hn1 : 1 ≤ n := by omega
    constructor
    · by_contra hc
      have hk : k ≤ -129 := by omega
      nlinarith
    · by_contra hc
      have hk : 128 ≤ k := by omega
      nlinarith

theorem root_valid (x r : dimensions) (n : Int) (hx : x.valid) (h : root x n = .ok r) :
    r.valid := by
  unfold root dimensions.root at h
  split at h
  · simp at h
  · split at h
    · simp at h
    · split at h
      · simp at h
      · simp only [Except.ok.injEq] at h
        subst h
        constructor
        · simp [hx.1]
        · intro v hv
          simp only [List.mem_map] at hv
          obtain ⟨a, _, rfl⟩ := hv
          exact to_value_type_range _

/-- Claim C5, as amended: for every dimension `d` and integer `n != 0`, `root( d, n )`,
and with it `nth_root( q, n )` for a quantity `q` of dimension `d` and `sqrt( q )`
with `n = 2`, throws `dimension_error` if and only if some component of `d` is not
evenly divisible by `n`.  When every component is divisible and `n` lies in
`-128 .. 127`, `root( d, n )` returns a dimension whose every component is the exact
quotient `component / n`, except for the component -128 with `n = -1`, whose
quotient 128 is stored as -128. -/
theorem C5_root_dimension_error {R : Type} [Rep R] (d : dimensions) (n : Int)
    (q : quantity R) (hd : d.valid) (hn : n ≠ 0) (hq : dimension q = d) :
    (root d n = .error (.dimension_error "quantity: dimension should be even multiple")
      ↔ ∃ v ∈ d.d, ¬ n ∣ v) ∧
    (nth_root q n = .error (.dimension_error "quantity: dimension should be even multiple")
      ↔ ∃ v ∈ d.d, ¬ n ∣ v) ∧
    (sqrt q = .error (.dimension_error "quantity: dimension should be even multiple")
      ↔ ∃ v ∈ d.d, ¬ (2 : Int) ∣ v) ∧
    (-128 ≤ n → n ≤ 127 → (∀ v ∈ d.d, n ∣ v) →
      ∃ r, root d n = .ok r ∧ r.valid ∧
        ∀ i, i < 7 + PHYS_UNITS_QUANTITY_UNIT_EXT_COUNT →
          (¬ (d.d.getD i 0 = -128 ∧ n = -1) → r.d.getD i 0 * n = d.d.getD i 0) ∧
          ((d.d.getD i 0 = -128 ∧ n = -1) → r.d.getD i 0 = -128)) := by
  have hroot := root_eq_dimension_error_iff d n hn
  have hroot2 := root_eq_dimension_error_iff d 2 (by decide)
  refine ⟨hroot, ?_, ?_, ?_⟩
  · rw [← hroot]
    have e : q.dimension = d := hq
    simp only [nth_root, e]
    cases root d n <;> simp [bind, Except.bind, pure, Except.pure]
  · rw [← hroot2]
    have e : q.dimension = d := hq
    simp only [sqrt, e]
    cases root d 2 <;> simp [bind, Except.bind, pure, Except.pure]
  · intro h1 h2 hall
    have htn : to_value_type n = n := to_value_type_of_range n h1 h2
    have ht : to_value_type n ≠ 0 := by rw [htn]; exact hn
    have hok := root_eq_ok_of_dvd d n hn ht hall
    refine ⟨_, hok, root_valid d _ n hd hok, ?_⟩
    intro i hi
    have hi1 : i < d.d.length := by rw [hd.1]; exact hi
    have hmem := getD_mem_of_lt d.d i hi1
    have hv := hd.2 _ hmem
    have hdvd := hall _ hmem
    simp only [getD_map_of_lt _ d.d i hi1, htn]
    constructor
    · intro hex
      have hr := exact_quotient_range _ n hv hn hdvd hex
      rw [to_value_type_of_range _ hr.1 hr.2]
      exact Int.tdiv_mul_cancel hdvd
    · rintro ⟨e1, e2⟩
      rw [e1, e2]
      decide

/-- Witness of claim C5, from the function tests:
`nth_root( meter() * meter() / second(), 2 )` throws `dimension_error`. -/
theorem C5_root_dimension_error_witness :
    nth_root (operator_div (operator_mul (meter : quantity Float) meter) second) 2
      = .error (.dimension_error "quantity: dimension should be even multiple") :=
  (C5_root_dimension_error
    (dimension (operator_div (operator_mul (meter : quantity Float) meter) second)) 2
    (operator_div (operator_mul (meter : quantity Float) meter) second)
    (by decide) (by decide) rfl).2.1.mpr ⟨-1, by decide, by decide⟩

/-- Claim C5 as stated fails: every component of the dimension with length
exponent -128 is divisible by `n = -1` and `root` does not throw, but the length
component of the result is -128, not the exact quotient `-128 / -1 = 128`. -/
theorem C5_root_exact_quotient_counterexample :
    (dimensions.mk1 0 (-128)).valid ∧
    (∀ v ∈ (dimensions.mk1 0 (-128)).d, (-1 : Int) ∣ v) ∧
    root (dimensions.mk1 0 (-128)) (-1) = .ok (dimensions.mk1 0 (-128)) ∧
    (dimensions.mk1 0 (-128)).d.getD 0 0 = -128 ∧
    (-128 : Int) / (-1) = 128 :=
  ⟨by decide, by decide, rfl, by decide, by decide⟩

theorem zipWith_same (f : Int → Int → Int) (l : List Int) :
    List.zipWith f l l = l.map (fun a => f a a) := by
  induction l with
  | nil => rfl
  | cons a t ih => simp [ih]

theorem power_valid (x : dimensions) (n : Int) (hx : x.valid) : (power x n).valid := by
  constructor
  · simp [power, dimensions.power, hx.1]
  · intro v hv
    simp only [power, dimensions.power, List.mem_map] at hv
    obtain ⟨a, _, rfl⟩ := hv
    exact to_value_type_range _

/-- Claim C8, as amended: for every quantity `q` and integer `n`, `nth_power( q, n )`
is total and its dimension is `power( dimension(q), n )`: every component multiplied
by `n` and reduced modulo 256 into the signed 8-bit range `-128 .. 127`, hence
exactly `component * n` whenever that product lies in `-128 .. 127`; `n = 0` gives
the dimensionless dimension; `square( q )` has the dimension of `nth_power( q, 2 )`
and `cube( q )` the dimension of `nth_power( q, 3 )`. -/
theorem C8_nth_power_dimension {R : Type} [Rep R] (q : quantity R) (n : Int)
    (hq : (dimension q).valid) :
    dimension (nth_power q n) = power (dimension q) n ∧
    (dimension (nth_power q n)).valid ∧
    (∀ i, i < 7 + PHYS_UNITS_QUANTITY_UNIT_EXT_COUNT →
      (dimension (nth_power q n)).d.getD i 0
        = to_value_type ((dimension q).d.getD i 0 * n) ∧
      (-128 ≤ (dimension q).d.getD i 0 * n → (dimension q).d.getD i 0 * n ≤ 127 →
        (dimension (nth_power q n)).d.getD i 0 = (dimension q).d.getD i 0 * n)) ∧
    dimension (nth_power q 0) = dimensionless_d ∧
    dimension (square q) = dimension (nth_power q 2) ∧
    dimension (cube q) = dimension (nth_power q 3) := by
  refine ⟨rfl, power_valid _ n hq, ?_, ?_, ?_, ?_⟩
  · intro i hi
    have hi1 : i < (dimension q).d.length := by rw [hq.1]; exact hi
    have e : (dimension (nth_power q n)).d.getD i 0
        = to_value_type ((dimension q).d.getD i 0 * n) := by
      have hi2 : i < q.m_dim.d.length := hi1
      simp only [dimension, quantity.dimension, nth_power, power, dimensions.power]
      rw [getD_map_of_lt _ _ i hi2, to_value_type_mul_right]
    exact ⟨e, fun h1 h2 => by rw [e, to_value_type_of_range _ h1 h2]⟩
  · apply dimensions_ext
    simp only [dimension, quantity.dimension, nth_power, power, dimensions.power,
      dimensionless_d, dimensions.mk0]
    rw [List.eq_replicate_iff]
    refine ⟨by simpa using hq.1, ?_⟩
    intro b hb
    simp only [List.mem_map] at hb
    obtain ⟨a, _, rfl⟩ := hb
    simp [to_value_type]
  · apply dimensions_ext
    simp only [dimension, quantity.dimension, square, operator_mul, nth_power, power,
      dimensions.power, product, dimensions.product, zipWith_same]
    apply List.map_congr_left
    intro a _
    apply to_value_type_congr
    rw [show to_value_type 2 = 2 from by decide]
    omega
  · apply dimensions_ext
    simp only [dimension, quantity.dimension, cube, operator_mul, nth_power, power,
      dimensions.power, product, dimensions.product, zipWith_same, List.zipWith_map_left]
    apply List.map_congr_left
    intro a _
    rw [show to_value_type 3 = 3 from by decide]
    unfold to_value_type
    omega

/-- Witness of claim C8, from the function tests on `newton()`: the dimension of
`nth_power( newton(), 10 )` is `m+10 kg+10 s-20`, and `nth_power( newton(), 0 )` is
dimensionless. -/
theorem C8_nth_power_dimension_witness :
    dimension (nth_power (newton : quantity Float) 10) = dimensions.mk7 10 10 (-20) 0 0 0 0 ∧
    dimension (nth_power (newton : quantity Float) 0) = dimensionless_d := by
  have h := C8_nth_power_dimension (newton : quantity Float) 10 (by decide)
  refine ⟨?_, h.2.2.2.1⟩
  rw [h.1]
  decide

/-- Claim C8 as stated fails: the quantity `nth_power( meter(), 64 )` has the length
exponent 64, and its `nth_power` with `n = 2` has the length exponent -128, not
`64 * 2 = 128`. -/
theorem C8_nth_power_overflow_counterexample :
    (dimension (nth_power (meter : quantity Float) 64)).valid ∧
    (dimension (nth_power (meter : quantity Float) 64)).d.getD 0 0 = 64 ∧
    (dimension (nth_power (nth_power (meter : quantity Float) 64) 2)).d.getD 0 0 = -128 ∧
    (dimension (nth_power (nth_power (meter : quantity Float) 64) 2)).d
      ≠ (dimension (nth_power (meter : quantity Float) 64)).d.map (fun v => v * 2) := by
  decide

/-! ## Base dimensions -/

theorem countP_eq_one_iff (p : Int → Bool) (l : List Int) :
    l.countP p = 1 ↔
      ∃ i, i < l.length ∧ p (l.getD i 0) = true ∧
        ∀ j, j < l.length → j ≠ i → p (l.getD j 0) = false := by
  induction l with
  | nil => simp
  | cons a t ih =>
    rw [List.countP_cons]
    cases hpa : p a
    · simp only [Bool.false_eq_true, if_false, Nat.add_zero]
      rw [ih]
      constructor
      · rintro ⟨i, hi, hpi, hall⟩
        refine ⟨i + 1, by simpa using hi, by simpa using hpi, ?_⟩
        intro j hj hne
        cases j with
        | zero => simpa using hpa
        | succ k =>
          simp only [List.getD_cons_succ]
          exact hall k (by simpa using hj) (by omega)
      · rintro ⟨i, hi, hpi, hall⟩
        cases i with
        | zero =>
          simp only [List.getD_cons_zero] at hpi
          rw [hpa] at hpi
          exact absurd hpi (by simp)
        | succ k =>
          refine ⟨k, by simpa using hi, by simpa using hpi, ?_⟩
          intro j hj hne
          have := hall (j + 1) (by simpa using hj) (by omega)
          simpa using this
    · simp only [if_true]
      constructor
      · intro h
        have h0 : List.countP p t = 0 := by omega
        rw [List.countP_eq_zero] at h0
        refine ⟨0, by simp, by simpa using hpa, ?_⟩
        intro j hj hne
        cases j with
        | zero => exact absurd rfl hne
        | succ k =>
          simp only [List.getD_cons_succ]
          have hk : k < t.length := by simpa using hj
          have hmem : t.getD k 0 ∈ t := by
            rw [List.getD_eq_getElem _ _ hk]
            exact List.getElem_mem hk
          simpa using h0 _ hmem
      · rintro ⟨i, hi, hpi, hall⟩
        cases i with
        | zero =>
          have h0 : List.countP p t = 0 := by
            rw [List.countP_eq_zero]
            intro x hx
            obtain ⟨k, hk, rfl⟩ := List.mem_iff_getElem.mp hx
            have := hall (k + 1) (by simpa using hk) (by omega)
            simp only [List.getD_cons_succ, List.getD_eq_getElem _ _ hk] at this
            simp [this]
          omega
        | succ k =>
          have := hall 0 (by simp) (by omega)
          simp only [List.getD_cons_zero] at this
          rw [hpa] at this
          exact absurd this (by simp)

/-- Claim C9, as amended: `is_base( d )` is true if and only if exactly one
component of `d` is non-zero, whatever the value of that component. -/
theorem C9_is_base_iff (x : dimensions) :
    x.is_base = true ↔
      ∃ i, i < x.d.length ∧ x.d.getD i 0 ≠ 0 ∧
        ∀ j, j < x.d.length → j ≠ i → x.d.getD j 0 = 0 := by
  unfold dimensions.is_base
  rw [beq_iff_eq, eq_comm, countP_eq_one_iff]
  simp only [dimensions.is_non_zero, bne_iff_ne, ne_eq, bne_eq_false_iff_eq]
  constructor
  · rintro ⟨i, hi, hne, hall⟩
    exact ⟨i, hi, fun e => hne e.symm, fun j hj hji => (hall j hj hji).symm⟩
  · rintro ⟨i, hi, hne, hall⟩
    exact ⟨i, hi, fun e => hne e.symm, fun j hj hji => (hall j hj hji).symm⟩

/-- Claim C9 as stated fails: `area_d` is a dimension whose only non-zero
component is the length exponent 2; `is_base` is true for it although no component
equals 1. -/
theorem C9_is_base_counterexample :
    area_d.valid ∧ area_d.is_base = true ∧ area_d.d.getD 0 0 = 2 ∧
    (∀ v ∈ area_d.d, v ≠ 1) ∧
    ¬ ∃ i, i < 17 ∧ area_d.d.getD i 0 = 1 ∧ ∀ j, j < 17 → j ≠ i → area_d.d.getD j 0 = 0 := by
  decide

/-! ## Properties of the unit registry -/

theorem map_find_map_assign_self {κ β : Type} [DecidableEq κ] (m : List (κ × β)) (k : κ)
    (v : β) : map_find (map_assign m k v) k = some v := by
  induction m with
  | nil => simp [map_assign, map_find]
  | cons e t ih =>
    obtain ⟨a, b⟩ := e
    by_cases h : a = k
    · simp [map_assign, map_find, h]
    · simp [map_assign, map_find, h, ih]

theorem map_find_map_assign_ne {κ β : Type} [DecidableEq κ] (m : List (κ × β)) (k k2 : κ)
    (v : β) (hne : k ≠ k2) : map_find (map_assign m k v) k2 = map_find m k2 := by
  induction m with
  | nil => simp [map_assign, map_find, hne]
  | cons e t ih =>
    obtain ⟨a, b⟩ := e
    by_cases h : a = k
    · have h2 : ¬ a = k2 := fun e => hne (h ▸ e)
      simp [map_assign, map_find, h, hne]
    · by_cases h3 : a = k2
      · subst h3
        simp [map_assign, map_find, h]
      · simp [map_assign, map_find, h, h3, ih]


section registry_properties

variable {R : Type} [Rep R]

theorem unit_find_none (r : registry R) (n : String)
    (hu : map_find (get_umap : unitmap R) n = none) (hx : map_find r.xmap n = none) :
    unit_find r n = none := by
  unfold unit_find
  rw [hu]
  exact hx

theorem unit_find_of_xmap (r : registry R) (n : String) (f : unit_function_t R)
    (hu : map_find (get_umap : unitmap R) n = none) (hx : map_find r.xmap n = some f) :
    unit_find r n = some f := by
  unfold unit_find
  rw [hu]
  exact hx

theorem xmap_of_unit_find_none (r : registry R) (text : String) (h : unit_find r text = none) :
    map_find r.xmap text = none := by
  unfold unit_find at h
  generalize (get_umap : unitmap R) = um at h
  cases hm : map_find um text with
  | some g =>
    rw [hm] at h
    exact absurd h (by simp)
  | none =>
    rw [hm] at h
    exact h

theorem unit_of_find_some (r : registry R) (text : String) (extunits : Bool)
    (f : unit_function_t R) (h : unit_find r text = some f) :
    unit r text extunits = (.ok f, r) := by
  unfold unit
  rw [h]

theorem unit_of_find_none (r : registry R) (text : String) (extunits : Bool)
    (h : unit_find r text = none) :
    unit r text extunits =
      if extunits then define_unit r text
      else (.error (.unit_error ("quantity: undefined unit '" ++ text ++ "'")), r) := by
  unfold unit
  rw [h]

theorem define_unit_full (r : registry R) (name : String)
    (h : r.xmap.length ≥ PHYS_UNITS_QUANTITY_UNIT_EXT_COUNT) :
    define_unit r name = (.error (.unit_error
      ("quantity: dimension extension table full, while trying to add '" ++ name ++ "'")), r) := by
  unfold define_unit
  rw [if_pos h]

theorem define_unit_free (r : registry R) (name : String)
    (h : ¬ r.xmap.length ≥ PHYS_UNITS_QUANTITY_UNIT_EXT_COUNT) :
    define_unit r name =
      (unit_no_extend
        (define_unit_name { r with xmap := map_assign r.xmap name (quantity_x r.xmap.length) }
          (quantity_x r.xmap.length : quantity R).dimension name) name,
       define_unit_name { r with xmap := map_assign r.xmap name (quantity_x r.xmap.length) }
          (quantity_x r.xmap.length : quantity R).dimension name) := by
  unfold define_unit
  rw [if_neg h]

theorem unit_keeps_xmap_entry (r : registry R) (n text : String) (extunits : Bool)
    (f : unit_function_t R) (hx : map_find r.xmap n = some f) :
    map_find (unit r text extunits).2.xmap n = some f := by
  cases hfind : unit_find r text with
  | some g =>
    rw [unit_of_find_some r text extunits g hfind]
    exact hx
  | none =>
    have hxt := xmap_of_unit_find_none r text hfind
    have hne : text ≠ n := by
      intro e
      rw [e, hx] at hxt
      exact absurd hxt (by simp)
    rw [unit_of_find_none r text extunits hfind]
    cases extunits with
    | false => exact hx
    | true =>
      rw [if_pos rfl]
      by_cases hfull : r.xmap.length ≥ PHYS_UNITS_QUANTITY_UNIT_EXT_COUNT
      · rw [define_unit_full r text hfull]
        exact hx
      · rw [define_unit_free r text hfull]
        show map_find (map_assign r.xmap text (quantity_x r.xmap.length)) n = some f
        rw [map_find_map_assign_ne _ _ _ _ hne]
        exact hx

theorem step_keeps_xmap_entry (r : registry R) (n : String) (c : registry_call)
    (f : unit_function_t R) (hx : map_find r.xmap n = some f) :
    map_find (r.step c).xmap n = some f := by
  cases c with
  | unit text extunits => exact unit_keeps_xmap_entry r n text extunits f hx
  | define_unit_name d name => exact hx
  | unit_name d =>
    show map_find (unit_name r d).2.xmap n = some f
    unfold unit_name
    cases map_find r.nmap d with
    | some name => exact hx
    | none => exact hx
  | has_unit_name d => exact hx

theorem run_keeps_xmap_entry (calls : List registry_call) (r : registry R) (n : String)
    (f : unit_function_t R) (hx : map_find r.xmap n = some f) :
    map_find (r.run calls).xmap n = some f := by
  induction calls generalizing r with
  | nil => exact hx
  | cons c rest ih => exact ih (r.step c) (step_keeps_xmap_entry r n c f hx)

/-- Claim C10: for a name `n` that is neither predefined nor in the extension map,
`unit( n )` without extension throws `unit_error` (and changes nothing); if fewer
than 10 extension names are registered, `unit( n, extend() )` returns a quantity of
magnitude 1 (the unit of the next free extension dimension), and after any further calls of the registry interface `unit( n )`
without extension returns a quantity of the same dimension. -/
theorem C10_unit_extend (r : registry R) (n : String)
    (hu : map_find (get_umap : unitmap R) n = none) (hx : map_find r.xmap n = none) :
    (unit r n false).1 = .error (.unit_error ("quantity: undefined unit '" ++ n ++ "'")) ∧
    (unit r n false).2 = r ∧
    (r.xmap.length < PHYS_UNITS_QUANTITY_UNIT_EXT_COUNT →
      ∃ q, (unit r n true).1 = .ok q ∧ magnitude q = Rep.one_point_zero ∧
        dimension q = extra_d r.xmap.length ∧
        ∀ calls : List registry_call,
          ∃ q2, (unit ((unit r n true).2.run calls) n false).1 = .ok q2 ∧
            dimension q2 = dimension q) := by
  have hnone := unit_find_none r n hu hx
  refine ⟨?_, ?_, ?_⟩
  · rw [unit_of_find_none r n false hnone]
    rfl
  · rw [unit_of_find_none r n false hnone]
    rfl
  · intro hlen
    have hge : ¬ r.xmap.length ≥ PHYS_UNITS_QUANTITY_UNIT_EXT_COUNT := by omega
    have hunit : unit r n true = define_unit r n := by
      rw [unit_of_find_none r n true hnone, if_pos rfl]
    have hx2 : map_find (unit r n true).2.xmap n = some (quantity_x r.xmap.length) := by
      rw [hunit, define_unit_free r n hge]
      exact map_find_map_assign_self _ _ _
    refine ⟨quantity_x r.xmap.length, ?_, rfl, rfl, ?_⟩
    · have hf := unit_find_of_xmap (unit r n true).2 n _ hu hx2
      rw [hunit, define_unit_free r n hge] at hf ⊢
      show unit_no_extend _ n = _
      unfold unit_no_extend
      rw [hf]
    · intro calls
      have hx3 := run_keeps_xmap_entry calls (unit r n true).2 n _ hx2
      have hf := unit_find_of_xmap _ n _ hu hx3
      exact ⟨quantity_x r.xmap.length, by rw [unit_of_find_some _ n false _ hf], rfl⟩

end registry_properties

/-- Witness of claim C10, from the output tests: on the initial registry
`unit( "x" )` throws `unit_error` and `unit( "x", extend() )` does not throw; a
later `unit( "x" )` returns a unit of the first extension dimension. -/
theorem C10_unit_extend_witness :
    raises_with quantity_error.is_unit_error
      (unit (registry.initial : registry Float) "x" false).1 = true ∧
    raises (unit (registry.initial : registry Float) "x" true).1 = false ∧
    ∃ q2, (unit (unit (registry.initial : registry Float) "x" true).2 "x" false).1 = .ok q2 ∧
      dimension q2 = extra_d 0 := by
  have hu : map_find (get_umap : unitmap Float) "x" = none := by
    unfold get_umap
    rfl
  have h := C10_unit_extend (registry.initial : registry Float) "x" hu rfl
  obtain ⟨q, hq, _, hd, hlater⟩ := h.2.2 (by decide)
  refine ⟨?_, ?_, ?_⟩
  · rw [h.1]
    rfl
  · rw [hq]
    rfl
  · obtain ⟨q2, hq2, hdim⟩ := hlater []
    exact ⟨q2, hq2, hdim.trans hd⟩

/-! ## The extension table -/

theorem map_assign_of_find_none {κ β : Type} [DecidableEq κ] (m : List (κ × β)) (k : κ)
    (v : β) (h : map_find m k = none) : map_assign m k v = m ++ [(k, v)] := by
  induction m with
  | nil => rfl
  | cons e t ih =>
    obtain ⟨a, b⟩ := e
    by_cases hak : a = k
    · simp [map_find, hak] at h
    · simp only [map_find, hak, if_false] at h
      simp [map_assign, hak, ih h]

theorem map_find_none_not_mem {κ β : Type} [DecidableEq κ] (m : List (κ × β)) (k : κ)
    (h : map_find m k = none) : k ∉ m.map Prod.fst := by
  induction m with
  | nil => simp
  | cons e t ih =>
    obtain ⟨a, b⟩ := e
    by_cases hak : a = k
    · simp [map_find, hak] at h
    · simp only [map_find, hak, if_false] at h
      simp only [List.map_cons, List.mem_cons, not_or]
      exact ⟨fun e => hak e.symm, ih h⟩

theorem map_find_some_index {κ β : Type} [DecidableEq κ] (m : List (κ × β)) (k : κ) (v : β)
    (h : map_find m k = some v) : ∃ i : Nat, m[i]? = some (k, v) := by
  induction m with
  | nil => simp [map_find] at h
  | cons e t ih =>
    obtain ⟨a, b⟩ := e
    by_cases hak : a = k
    · simp only [map_find, hak, if_true, Option.some.injEq] at h
      exact ⟨0, by simp [hak, h]⟩
    · simp only [map_find, hak, if_false] at h
      obtain ⟨i, hi⟩ := ih h
      exact ⟨i + 1, by simpa using hi⟩

theorem extra_d_injective :
    ∀ k1, k1 < 10 → ∀ k2, k2 < 10 → k1 ≠ k2 → extra_d k1 ≠ extra_d k2 := by
  decide

theorem extra_d_components :
    ∀ k, k < 10 → ∀ j, j < 17 → (extra_d k).d.getD j 0 = if j = 7 + k then 1 else 0 := by
  decide

section
variable {R : Type} [Rep R]

/-- The shape of the extension map: entry `k` holds the function `quantity_x k`, the
names are distinct and not predefined, and there are at most 10 entries. -/
theorem unit_keeps_slots (r : registry R) (text : String) (extunits : Bool)
    (hlen : r.xmap.length ≤ PHYS_UNITS_QUANTITY_UNIT_EXT_COUNT)
    (hslot : ∀ (k : Nat) e, r.xmap[k]? = some e → e.2 = quantity_x k)
    (hnd : (r.xmap.map Prod.fst).Nodup) :
    (unit r text extunits).2.xmap.length ≤ PHYS_UNITS_QUANTITY_UNIT_EXT_COUNT ∧
    (∀ (k : Nat) e, (unit r text extunits).2.xmap[k]? = some e → e.2 = quantity_x k) ∧
    ((unit r text extunits).2.xmap.map Prod.fst).Nodup := by
  cases hfind : unit_find r text with
  | some g =>
    rw [unit_of_find_some r text extunits g hfind]
    exact ⟨hlen, hslot, hnd⟩
  | none =>
    have hxt := xmap_of_unit_find_none r text hfind
    rw [unit_of_find_none r text extunits hfind]
    cases extunits with
    | false => exact ⟨hlen, hslot, hnd⟩
    | true =>
      rw [if_pos rfl]
      by_cases hfull : r.xmap.length ≥ PHYS_UNITS_QUANTITY_UNIT_EXT_COUNT
      · rw [define_unit_full r text hfull]
        exact ⟨hlen, hslot, hnd⟩
      · rw [define_unit_free r text hfull]
        show (map_assign r.xmap text (quantity_x r.xmap.length)).length ≤ _ ∧
          (∀ (k : Nat) e, (map_assign r.xmap text (quantity_x r.xmap.length))[k]? = some e →
            e.2 = quantity_x k) ∧
          ((map_assign r.xmap text (quantity_x r.xmap.length)).map Prod.fst).Nodup
        rw [map_assign_of_find_none _ _ _ hxt]
        refine ⟨?_, ?_, ?_⟩
        · simp only [List.length_append, List.length_singleton]
          omega
        · intro k e hk
          by_cases hkl : k < r.xmap.length
          · rw [List.getElem?_append_left hkl] at hk
            exact hslot k e hk
          · have hge : r.xmap.length ≤ k := by omega
            rw [List.getElem?_append_right hge] at hk
            have hk0 : k - r.xmap.length = 0 := by
              by_contra hne
              have : 1 ≤ k - r.xmap.length := by omega
              rw [List.getElem?_eq_none (by simpa using this)] at hk
              exact absurd hk (by simp)
            rw [hk0] at hk
            simp only [List.getElem?_cons_zero, Option.some.injEq] at hk
            have hkeq : k = r.xmap.length := by omega
            rw [← hk, hkeq]
        · rw [List.map_append, List.nodup_append]
          refine ⟨hnd, by simp, ?_⟩
          intro a ha hb
          simp only [List.map_cons, List.map_nil, List.mem_singleton] at hb
          rw [hb] at ha
          exact map_find_none_not_mem _ _ hxt ha

theorem step_keeps_slots (r : registry R) (c : registry_call)
    (hlen : r.xmap.length ≤ PHYS_UNITS_QUANTITY_UNIT_EXT_COUNT)
    (hslot : ∀ (k : Nat) e, r.xmap[k]? = some e → e.2 = quantity_x k)
    (hnd : (r.xmap.map Prod.fst).Nodup) :
    (r.step c).xmap.length ≤ PHYS_UNITS_QUANTITY_UNIT_EXT_COUNT ∧
    (∀ (k : Nat) e, (r.step c).xmap[k]? = some e → e.2 = quantity_x k) ∧
    ((r.step c).xmap.map Prod.fst).Nodup := by
  cases c with
  | unit text extunits => exact unit_keeps_slots r text extunits hlen hslot hnd
  | define_unit_name d name => exact ⟨hlen, hslot, hnd⟩
  | unit_name d =>
    show (unit_name r d).2.xmap.length ≤ _ ∧
      (∀ (k : Nat) e, (unit_name r d).2.xmap[k]? = some e → e.2 = quantity_x k) ∧
      ((unit_name r d).2.xmap.map Prod.fst).Nodup
    unfold unit_name
    cases map_find r.nmap d with
    | some name => exact ⟨hlen, hslot, hnd⟩
    | none => exact ⟨hlen, hslot, hnd⟩
  | has_unit_name d => exact ⟨hlen, hslot, hnd⟩

theorem run_keeps_slots (calls : List registry_call) (r : registry R)
    (hlen : r.xmap.length ≤ PHYS_UNITS_QUANTITY_UNIT_EXT_COUNT)
    (hslot : ∀ (k : Nat) e, r.xmap[k]? = some e → e.2 = quantity_x k)
    (hnd : (r.xmap.map Prod.fst).Nodup) :
    (r.run calls).xmap.length ≤ PHYS_UNITS_QUANTITY_UNIT_EXT_COUNT ∧
    (∀ (k : Nat) e, (r.run calls).xmap[k]? = some e → e.2 = quantity_x k) ∧
    ((r.run calls).xmap.map Prod.fst).Nodup := by
  induction calls generalizing r with
  | nil => exact ⟨hlen, hslot, hnd⟩
  | cons c rest ih =>
    obtain ⟨h1, h2, h3⟩ := step_keeps_slots r c hlen hslot hnd
    exact ih (r.step c) h1 h2 h3

theorem unit_find_ne_none (r : registry R) (name : String)
    (h : map_find (get_umap : unitmap R) name ≠ none ∨ map_find r.xmap name ≠ none) :
    unit_find r name ≠ none := by
  unfold unit_find
  generalize (get_umap : unitmap R) = um at h
  cases hm : map_find um name with
  | some f => simp
  | none =>
    rcases h with h | h
    · exact absurd hm h
    · exact h

/-- Claim C12: in every registry reached from the initial one by calls of the
registry interface (among them `unit( name )` with or without extension), the
extension map holds at most 10 names; its entry `k` in the order of registration
holds the unit of extension slot `k`, whose dimension has the component `7 + k`
equal to 1 and all others 0, so that distinct names have distinct dimensions; a
name that is predefined or registered is answered without any change, and a new
name takes the slot after the last one in use. -/
theorem C12_extension_slots (calls : List registry_call) (r : registry R)
    (hr : r = (registry.initial : registry R).run calls) :
    r.xmap.length ≤ PHYS_UNITS_QUANTITY_UNIT_EXT_COUNT ∧
    (r.xmap.map Prod.fst).Nodup ∧
    (∀ (k : Nat) name q, r.xmap[k]? = some (name, q) →
      k < PHYS_UNITS_QUANTITY_UNIT_EXT_COUNT ∧ q = quantity_x k ∧ dimension q = extra_d k ∧
      ∀ j, j < 17 → (dimension q).d.getD j 0 = if j = 7 + k then 1 else 0) ∧
    (∀ n1 n2 q1 q2, map_find r.xmap n1 = some q1 → map_find r.xmap n2 = some q2 →
      n1 ≠ n2 → dimension q1 ≠ dimension q2) ∧
    (∀ name extunits,
      (map_find (get_umap : unitmap R) name ≠ none ∨ map_find r.xmap name ≠ none) →
      (unit r name extunits).2 = r) ∧
    (∀ name, map_find (get_umap : unitmap R) name = none → map_find r.xmap name = none →
      r.xmap.length < PHYS_UNITS_QUANTITY_UNIT_EXT_COUNT →
      (unit r name true).2.xmap = r.xmap ++ [(name, quantity_x r.xmap.length)]) := by
  subst hr
  have h0 : (registry.initial : registry R).xmap = [] := rfl
  obtain ⟨hlen, hslot, hnd⟩ := run_keeps_slots calls (registry.initial : registry R)
    (by rw [h0]; exact Nat.zero_le _) (by intro k e h; rw [h0] at h; simp at h)
    (by rw [h0]; exact List.nodup_nil)
  generalize (registry.initial : registry R).run calls = r at hlen hslot hnd
  have hentry : ∀ (k : Nat) name q, r.xmap[k]? = some (name, q) →
      k < PHYS_UNITS_QUANTITY_UNIT_EXT_COUNT ∧ q = quantity_x k := by
    intro k name q hk
    have hq := hslot k (name, q) hk
    have hklt : k < r.xmap.length := by
      by_contra hc
      rw [List.getElem?_eq_none (by omega)] at hk
      exact absurd hk (by simp)
    exact ⟨by omega, hq⟩
  refine ⟨hlen, hnd, ?_, ?_, ?_, ?_⟩
  · intro k name q hk
    obtain ⟨hk10, hq⟩ := hentry k name q hk
    subst hq
    exact ⟨hk10, rfl, rfl, extra_d_components k hk10⟩
  · intro n1 n2 q1 q2 h1 h2 hne
    obtain ⟨i1, hi1⟩ := map_find_some_index _ _ _ h1
    obtain ⟨i2, hi2⟩ := map_find_some_index _ _ _ h2
    obtain ⟨hk1, hq1⟩ := hentry i1 n1 q1 hi1
    obtain ⟨hk2, hq2⟩ := hentry i2 n2 q2 hi2
    have hii : i1 ≠ i2 := by
      intro e
      rw [e, hi2] at hi1
      simp only [Option.some.injEq, Prod.mk.injEq] at hi1
      exact hne hi1.1.symm
    subst hq1
    subst hq2
    exact extra_d_injective i1 hk1 i2 hk2 hii
  · intro name extunits h
    have hne := unit_find_ne_none r name h
    cases hfind : unit_find r name with
    | none => exact absurd hfind hne
    | some f => rw [unit_of_find_some r name extunits f hfind]
  · intro name hu hx hfree
    have hnone := unit_find_none r name hu hx
    have hge : ¬ r.xmap.length ≥ PHYS_UNITS_QUANTITY_UNIT_EXT_COUNT := by omega
    rw [unit_of_find_none r name true hnone, if_pos rfl, define_unit_free r name hge]
    show map_assign r.xmap name (quantity_x r.xmap.length) = _
    exact map_assign_of_find_none _ _ _ hx

theorem map_find_of_not_mem {κ β : Type} [DecidableEq κ] (m : List (κ × β)) (k : κ)
    (h : k ∉ m.map Prod.fst) : map_find m k = none := by
  induction m with
  | nil => rfl
  | cons e t ih =>
    obtain ⟨a, b⟩ := e
    simp only [List.map_cons, List.mem_cons, not_or] at h
    have hak : ¬ a = k := fun e => h.1 e.symm
    simp only [map_find, hak, if_false]
    exact ih h.2

/-- Registering distinct new names one after the other appends them to the
extension map, as long as there is room. -/
theorem run_units_keys (names : List String) (r : registry R)
    (hu : ∀ m ∈ names, map_find (get_umap : unitmap R) m = none)
    (hnd : names.Nodup)
    (hnew : ∀ m ∈ names, m ∉ r.xmap.map Prod.fst)
    (hroom : r.xmap.length + names.length ≤ PHYS_UNITS_QUANTITY_UNIT_EXT_COUNT) :
    (r.run (names.map (fun m => registry_call.unit m true))).xmap.map Prod.fst =
      r.xmap.map Prod.fst ++ names := by
  induction names generalizing r with
  | nil => simp [registry.run]
  | cons m rest ih =>
    have hm : map_find (get_umap : unitmap R) m = none := hu m (List.mem_cons_self _ _)
    have hx : map_find r.xmap m = none := map_find_of_not_mem _ _ (hnew m (List.mem_cons_self _ _))
    have hnone := unit_find_none r m hm hx
    have hlen : r.xmap.length + (rest.length + 1) ≤ PHYS_UNITS_QUANTITY_UNIT_EXT_COUNT := hroom
    have hfree : ¬ r.xmap.length ≥ PHYS_UNITS_QUANTITY_UNIT_EXT_COUNT := by omega
    have hstep : (r.step (registry_call.unit m true)).xmap = r.xmap ++ [(m, quantity_x r.xmap.length)] := by
      show (unit r m true).2.xmap = _
      rw [unit_of_find_none r m true hnone, if_pos rfl, define_unit_free r m hfree]
      show map_assign r.xmap m (quantity_x r.xmap.length) = _
      exact map_assign_of_find_none _ _ _ hx
    have hnd2 := List.nodup_cons.mp hnd
    show ((r.step (registry_call.unit m true)).run
      (rest.map (fun m => registry_call.unit m true))).xmap.map Prod.fst = _
    rw [ih (r.step (registry_call.unit m true))
      (fun a ha => hu a (List.mem_cons_of_mem _ ha)) hnd2.2
      (by
        intro a ha
        rw [hstep]
        simp only [List.map_append, List.map_cons, List.map_nil, List.mem_append,
          List.mem_singleton, not_or]
        refine ⟨hnew a (List.mem_cons_of_mem _ ha), ?_⟩
        intro e
        rw [e] at ha
        exact hnd2.1 ha)
      (by
        rw [hstep]
        simp only [List.length_append, List.length_singleton]
        omega)]
    rw [hstep]
    simp

/-- Claim C11: starting from the initial registry, after ten distinct names that
are not predefined have been registered with `unit( name, extend() )`, the call
`unit( n, extend() )` for a further name `n`, neither predefined nor registered,
throws `unit_error` (dimension extension table full) and leaves the registry, that
is the extension map and the map from dimensions to names, as it was. -/
theorem C11_extension_table_full (names : List String) (n : String) (r : registry R)
    (hlen : names.length = PHYS_UNITS_QUANTITY_UNIT_EXT_COUNT)
    (hnd : names.Nodup)
    (hu : ∀ m ∈ names, map_find (get_umap : unitmap R) m = none)
    (hr : r = (registry.initial : registry R).run
      (names.map (fun m => registry_call.unit m true)))
    (hn : map_find (get_umap : unitmap R) n = none)
    (hnew : n ∉ names) :
    (unit r n true).1 = .error (.unit_error
      ("quantity: dimension extension table full, while trying to add '" ++ n ++ "'")) ∧
    raises_with quantity_error.is_unit_error (unit r n true).1 = true ∧
    (unit r n true).2 = r ∧
    (unit r n true).2.xmap = r.xmap ∧ (unit r n true).2.nmap = r.nmap := by
  have h0 : (registry.initial : registry R).xmap = [] := rfl
  have hkeys := run_units_keys names (registry.initial : registry R) hu hnd
    (by intro m _; rw [h0]; simp) (by rw [h0, hlen]; exact Nat.le_refl _)
  rw [← hr, h0] at hkeys
  simp only [List.map_nil, List.nil_append] at hkeys
  have hx : map_find r.xmap n = none := map_find_of_not_mem _ _ (by rw [hkeys]; exact hnew)
  have hfull : r.xmap.length ≥ PHYS_UNITS_QUANTITY_UNIT_EXT_COUNT := by
    have := congrArg List.length hkeys
    rw [List.length_map, hlen] at this
    exact Nat.le_of_eq this.symm
  have hcall : unit r n true = (.error (.unit_error
      ("quantity: dimension extension table full, while trying to add '" ++ n ++ "'")), r) := by
    rw [unit_of_find_none r n true (unit_find_none r n hn hx), if_pos rfl,
      define_unit_full r n hfull]
  rw [hcall]
  exact ⟨rfl, rfl, rfl, rfl, rfl⟩

end

/-- Witness of claim C11: after `x0` ... `x9` have been registered, `unit( "x10",
extend() )` throws and changes nothing. -/
theorem C11_extension_table_full_witness :
    raises_with quantity_error.is_unit_error
      (unit ((registry.initial : registry Rat).run
        (["x0", "x1", "x2", "x3", "x4", "x5", "x6", "x7", "x8", "x9"].map
          (fun m => registry_call.unit m true))) "x10" true).1 = true ∧
    (unit ((registry.initial : registry Rat).run
        (["x0", "x1", "x2", "x3", "x4", "x5", "x6", "x7", "x8", "x9"].map
          (fun m => registry_call.unit m true))) "x10" true).2 =
      (registry.initial : registry Rat).run
        (["x0", "x1", "x2", "x3", "x4", "x5", "x6", "x7", "x8", "x9"].map
          (fun m => registry_call.unit m true)) := by
  have h := C11_extension_table_full (R := Rat)
    ["x0", "x1", "x2", "x3", "x4", "x5", "x6", "x7", "x8", "x9"] "x10" _
    rfl (by decide) (by unfold get_umap; decide) rfl (by unfold get_umap; rfl) (by decide)
  exact ⟨h.2.1, h.2.2.1⟩

/-- Witness of claim C12: after `unit( "x", extend() )`, `unit( "m" )`,
`unit( "y", extend() )` and `unit( "x", extend() )` the extension map holds `x` in
slot 0 and `y` in slot 1. -/
theorem C12_extension_slots_witness :
    ((registry.initial : registry Rat).run
      [.unit "x" true, .unit "m" false, .unit "y" true, .unit "x" true]).xmap =
      [("x", quantity_x 0), ("y", quantity_x 1)] ∧
    ((registry.initial : registry Rat).run
      [.unit "x" true, .unit "m" false, .unit "y" true, .unit "x" true]).xmap.length ≤
      PHYS_UNITS_QUANTITY_UNIT_EXT_COUNT ∧
    dimension (quantity_x 1 : quantity Rat) = extra_d 1 := by
  have h := C12_extension_slots (R := Rat)
    [.unit "x" true, .unit "m" false, .unit "y" true, .unit "x" true] _ rfl
  have hx : ((registry.initial : registry Rat).run
      [.unit "x" true, .unit "m" false, .unit "y" true, .unit "x" true]).xmap =
      [("x", quantity_x 0), ("y", quantity_x 1)] := by decide!
  refine ⟨hx, h.1, ?_⟩
  exact (h.2.2.1 1 "y" (quantity_x 1) (by rw [hx]; rfl)).2.2.1

/-! ## The predefined units -/

theorem map_find_mem {κ β : Type} [DecidableEq κ] (m : List (κ × β)) (k : κ) (v : β)
    (h : map_find m k = some v) : (k, v) ∈ m := by
  obtain ⟨i, hi⟩ := map_find_some_index m k v h
  exact List.getElem?_mem hi

theorem map_find_of_mem_keys {κ β : Type} [DecidableEq κ] (m : List (κ × β)) (k : κ)
    (h : k ∈ m.map Prod.fst) : ∃ v, map_find m k = some v := by
  cases hf : map_find m k with
  | some v => exact ⟨v, rfl⟩
  | none => exact absurd h (map_find_none_not_mem m k hf)

section
variable {R : Type} [Rep R]

theorem predefined_units_eq :
    (predefined_units : unitmap R) =
    [ ("m", meter), ("kg", kilogram), ("s", second), ("A", ampere), ("K", kelvin),
      ("mol", mole), ("cd", candela),
      ("g", gram), ("Hz", hertz), ("N", newton), ("Pa", pascal), ("J", joule),
      ("W", watt), ("C", coulomb), ("V", volt), ("F", farad), ("Ohm", ohm),
      ("S", siemens), ("Wb", weber), ("T", tesla), ("H", henry),
      ("'C", degree_celsius), ("lm", lumen), ("lx", lux), ("Bq", becquerel),
      ("Gy", gray), ("Sv", sievert),
      ("d", day), ("min", minute), ("h", hour), ("l", liter) ] := by
  simp [predefined_units, predefined_units_table, map_insert, map_find]

theorem unit_of_predefined (r : registry R) (name : String) (extunits : Bool)
    (f : unit_function_t R) (h : map_find (get_umap : unitmap R) name = some f) :
    unit r name extunits = (.ok f, r) := by
  apply unit_of_find_some
  unfold unit_find
  rw [h]

/-- Claim C13, amended: for every name of the predefined unit table, `unit( name )`
returns the quantity of the table without changing the registry; when the
magnitude type computes `1.0 * 1.0`, `1.0 / 1.0` and `Rep( 1 )` as `1.0`, its
magnitude is `1.0` for every name other than `g`, `l`, `min`, `h` and `d`, which
are `kilogram() / 1000`, `Rep( 1e-3 ) * cube( meter() )`, `Rep( 60 ) * second()`,
`Rep( 3600 ) * second()` and `Rep( 86400 ) * second()`. -/
theorem C13_predefined_unit_magnitude
    (hmul : Rep.mul (Rep.one_point_zero : R) Rep.one_point_zero = Rep.one_point_zero)
    (hdiv : Rep.div (Rep.one_point_zero : R) Rep.one_point_zero = Rep.one_point_zero)
    (hint : (Rep.ofInt 1 : R) = Rep.one_point_zero)
    (r : registry R) (name : String) (extunits : Bool)
    (hname : name ∈ (predefined_units_table : List (String × unit_function_t R)).map Prod.fst) :
    ∃ q : quantity R, unit r name extunits = (.ok q, r) ∧
      (name ∉ ["g", "l", "min", "h", "d"] → magnitude q = Rep.one_point_zero) ∧
      (name = "g" → q = ⟨mass_d, Rep.div Rep.one_point_zero (Rep.ofInt 1000)⟩) ∧
      (name = "l" → magnitude q = Rep.mul (Rep.ofScientific 1 true 3) Rep.one_point_zero) ∧
      (name = "min" → q = ⟨time_interval_d, Rep.mul (Rep.ofInt 60) Rep.one_point_zero⟩) ∧
      (name = "h" → q = ⟨time_interval_d, Rep.mul (Rep.ofInt 3600) Rep.one_point_zero⟩) ∧
      (name = "d" → q = ⟨time_interval_d, Rep.mul (Rep.ofInt 86400) Rep.one_point_zero⟩) := by
  have hum : (get_umap : unitmap R) = predefined_units := by
    unfold get_umap
    rfl
  have hkeys : name ∈ (predefined_units : unitmap R).map Prod.fst := by
    rw [predefined_units_eq]
    simp only [predefined_units_table, List.map_cons, List.map_nil, List.mem_cons,
      List.mem_singleton, List.not_mem_nil, or_false] at hname ⊢
    rcases hname with h | h | h | h | h | h | h | h | h | h | h | h | h | h | h | h | h | h | h | h | h | h | h | h | h | h | h | h | h | h | h | h <;>
      simp [h]
  obtain ⟨f, hf⟩ := map_find_of_mem_keys _ _ hkeys
  refine ⟨f, unit_of_predefined r name extunits f (by rw [hum]; exact hf), ?_⟩
  have hmem := map_find_mem _ _ _ hf
  rw [predefined_units_eq] at hmem
  simp only [List.mem_cons, List.mem_singleton, List.not_mem_nil, or_false,
    Prod.mk.injEq] at hmem
  rcases hmem with h | h | h | h | h | h | h | h | h | h | h | h | h | h | h | h | h | h | h | h | h | h | h | h | h | h | h | h | h | h | h <;>
    obtain ⟨h1, h2⟩ := h <;>
    subst h1 <;> subst h2 <;>
    refine ⟨?_, ?_, ?_, ?_, ?_, ?_⟩ <;>
    first
      | (intro hc; exact absurd hc (by decide))
      | (intro _; rfl)
      | (intro _
         simp only [magnitude, quantity.value, meter, kilogram, second, ampere, kelvin, mole,
           candela, hertz, newton, pascal, joule, watt, coulomb, volt, farad, ohm, siemens,
           weber, tesla, henry, degree_celsius, lumen, lux, becquerel, gray, sievert, liter,
           steradian, square, cube, operator_mul, operator_div, operator_mul_scalar,
           operator_scalar_div, operator_scalar_mul, hint, hmul, hdiv])

end

/-- Witness of claim C13, amended, in exact arithmetic: `unit( "N" )` is a
quantity of magnitude 1. -/
theorem C13_predefined_unit_magnitude_witness :
    ∃ q : quantity Rat, unit (registry.initial : registry Rat) "N" false = (.ok q, registry.initial) ∧
      magnitude q = 1 := by
  obtain ⟨q, hq, h1, _⟩ := C13_predefined_unit_magnitude (R := Rat) (by decide!) (by decide!)
    (by decide!) registry.initial "N" false (by decide!)
  refine ⟨q, hq, ?_⟩
  rw [h1 (by decide)]
  decide!

/-- Counterexample to claim C13 as stated, in exact arithmetic: `g` is in the
predefined unit table and `unit( "g" )` is `kilogram() / 1000`, of magnitude
1/1000; `unit( "min" )` has magnitude 60. -/
theorem C13_gram_magnitude_counterexample :
    "g" ∈ (predefined_units_table : List (String × unit_function_t Rat)).map Prod.fst ∧
    (unit (registry.initial : registry Rat) "g" false).1 = .ok ⟨mass_d, 1 / 1000⟩ ∧
    (unit (registry.initial : registry Rat) "min" false).1 = .ok ⟨time_interval_d, 60⟩ ∧
    ((1 : Rat) / 1000 ≠ 1 ∧ (60 : Rat) ≠ 1) := by
  refine ⟨by decide!, ?_, ?_, by norm_num, by norm_num⟩
  · have h : map_find (get_umap : unitmap Rat) "g" = some ⟨mass_d, 1 / 1000⟩ := by decide!
    rw [unit_of_predefined _ _ _ _ h]
  · have h : map_find (get_umap : unitmap Rat) "min" = some ⟨time_interval_d, 60⟩ := by decide!
    rw [unit_of_predefined _ _ _ _ h]

/-! ## The prefix table -/

section
variable {R : Type} [Rep R]

theorem prefix_function_table_keys :
    (prefix_function_table : List (String × R)).map Prod.fst =
      ["m", "k", "u", "M", "n", "G", "p", "T", "f", "P", "a", "E", "z", "Z", "y", "Y",
        "h", "da", "d", "c"] := rfl

theorem prefix_error_of_not_in_table (code : String)
    (h : code ∉ (prefix_function_table : List (String × R)).map Prod.fst) :
    (prefix_ code : Except quantity_error R) =
      .error (.prefix_error ("quantity: unrecognized prefix '" ++ code ++ "'")) := by
  unfold prefix_ prefix_function
  rw [map_find_of_not_mem _ _ h]

theorem has_prefix_iff_in_table (code : String) :
    has_prefix R code = true ↔
      code ∈ (prefix_function_table : List (String × R)).map Prod.fst := by
  unfold has_prefix prefix_function
  constructor
  · intro h
    by_contra hc
    rw [map_find_of_not_mem _ _ hc] at h
    exact absurd h (by simp)
  · intro h
    obtain ⟨v, hv⟩ := map_find_of_mem_keys _ _ h
    rw [hv]
    rfl

theorem has_prefix_iff_no_raise (code : String) :
    has_prefix R code = true ↔ raises (prefix_ code : Except quantity_error R) = false := by
  unfold has_prefix prefix_
  cases (prefix_function code : Option R) with
  | some f => simp [raises]
  | none => simp [raises]

/-- Claim C14: `prefix( code )` returns the factor of the table for the twenty
codes `y` ... `Y` (the literal `1e-24` ... `1e+24`, which is `10 ^ k` in exact
arithmetic) and throws `prefix_error` for every other string, and
`has_prefix( code )` is true exactly when `prefix( code )` does not throw. -/
theorem C14_prefix_table :
    (∀ code : String,
      ( has_prefix R code = true ↔
        code ∈ ["y", "z", "a", "f", "p", "n", "u", "m", "c", "d", "da", "h", "k", "M", "G",
          "T", "P", "E", "Z", "Y"]) ∧
      ( has_prefix R code = true ↔ raises (prefix_ code : Except quantity_error R) = false) ∧
      (code ∉ ["y", "z", "a", "f", "p", "n", "u", "m", "c", "d", "da", "h", "k", "M", "G",
          "T", "P", "E", "Z", "Y"] →
        (prefix_ code : Except quantity_error R) =
          .error (.prefix_error ("quantity: unrecognized prefix '" ++ code ++ "'")) ∧
        raises_with quantity_error.is_prefix_error
          (prefix_ code : Except quantity_error R) = true)) ∧
    (∀ e ∈ [("y", (-24 : Int)), ("z", -21), ("a", -18), ("f", -15), ("p", -12), ("n", -9),
        ("u", -6), ("m", -3), ("c", -2), ("d", -1), ("da", 1), ("h", 2), ("k", 3), ("M", 6),
        ("G", 9), ("T", 12), ("P", 15), ("E", 18), ("Z", 21), ("Y", 24)],
      (prefix_ e.1 : Except quantity_error R) =
        .ok (Rep.ofScientific 1 (decide (e.2 < 0)) e.2.natAbs) ∧
      (prefix_ e.1 : Except quantity_error Rat) = .ok ((10 : Rat) ^ e.2)) := by
  have hmem : ∀ code : String,
      code ∈ ["y", "z", "a", "f", "p", "n", "u", "m", "c", "d", "da", "h", "k", "M", "G",
          "T", "P", "E", "Z", "Y"] ↔
      code ∈ (prefix_function_table : List (String × R)).map Prod.fst := by
    intro code
    rw [prefix_function_table_keys]
    simp only [List.mem_cons, List.mem_singleton, List.not_mem_nil, or_false]
    tauto
  refine ⟨?_, ?_⟩
  · intro code
    refine ⟨?_, has_prefix_iff_no_raise code, ?_⟩
    · rw [hmem]
      exact has_prefix_iff_in_table code
    · intro h
      rw [hmem] at h
      rw [prefix_error_of_not_in_table code h]
      exact ⟨rfl, rfl⟩
  · have hrat : ∀ (m : Nat) (s : Bool) (e : Nat), (Rep.ofScientific m s e : Rat) =
        if s then (m : Rat) / 10 ^ e else (m : Rat) * 10 ^ e := fun _ _ _ => rfl
    simp only [List.forall_mem_cons, List.not_mem_nil, false_imp_iff, implies_true, and_true]
    refine ⟨⟨rfl, ?_⟩, ⟨rfl, ?_⟩, ⟨rfl, ?_⟩, ⟨rfl, ?_⟩, ⟨rfl, ?_⟩, ⟨rfl, ?_⟩, ⟨rfl, ?_⟩,
      ⟨rfl, ?_⟩, ⟨rfl, ?_⟩, ⟨rfl, ?_⟩, ⟨rfl, ?_⟩, ⟨rfl, ?_⟩, ⟨rfl, ?_⟩, ⟨rfl, ?_⟩, ⟨rfl, ?_⟩,
      ⟨rfl, ?_⟩, ⟨rfl, ?_⟩, ⟨rfl, ?_⟩, ⟨rfl, ?_⟩, ⟨rfl, ?_⟩⟩ <;>
    · show Except.ok (Rep.ofScientific _ _ _ : Rat) = _
      rw [hrat]
      norm_num

end

/-! ## The parser on concrete texts -/

/-- Claim C15 fails in the code: `k` is a prefix and `'C` and `s` are predefined
units, yet `to_quantity( "45 k'C/s" )` throws.  `parsePrefix` asks the
one-argument `isUnit` about the character after `k`, which does not know the
apostrophe of `'C` (the two-argument `isUnit` and `scanUnit` do), so no prefix is
read and the unit looked up is `k'C`.  The witness of the claim holds:
`to_quantity( "45 km/h" )` is 12.5 m/s with numerical value 45. -/
theorem C15_prefixed_degree_celsius_fails :
    has_prefix Rat "k" = true ∧
    map_find (get_umap : unitmap Rat) "'C" = some degree_celsius ∧
    map_find (get_umap : unitmap Rat) "s" = some second ∧
    (to_quantity (registry.initial : registry Rat) "45 k'C/s" false false).error? =
      some (.quantity_parser_error
        "quantity: parsing unit '45 k'C/s': quantity: undefined unit 'k'C'" "45 k'C/s" 7) ∧
    (to_quantity (registry.initial : registry Rat) "45 'C/s" false false).value? =
      some ⟨quotient thermodynamic_temperature_d time_interval_d, 45⟩ ∧
    (make_quantity (registry.initial : registry Rat) "45 km/h" false false).value? =
      some (⟨quotient length_d time_interval_d, 25 / 2⟩, 45) := by
  decide!

/-- Claim C19 fails in the code: `E` is a prefix and `m` a predefined unit, yet
parsing `Em` gives the quantity 0 m with numerical value 0 instead of 1e18 m with
numerical value 1.  `isReal` accepts the letter `E`, so `parseNumericalValue` reads
`E` as the number and `strtod` converts it to 0; the grammar of the parser calls
the numerical value a floating-point number and `E` a prefix.  With a number in
front, `5 Em`, the prefix is read. -/
theorem C19_exa_read_as_number :
    (prefix_ "E" : Except quantity_error Rat) = .ok ((10 : Rat) ^ 18) ∧
    map_find (get_umap : unitmap Rat) "m" = some ⟨length_d, 1⟩ ∧
    (make_quantity (registry.initial : registry Rat) "Em" false false).value? =
      some (⟨length_d, 0⟩, 0) ∧
    (make_quantity (registry.initial : registry Rat) "5 Em" false false).value? =
      some (⟨length_d, 5 * 10 ^ 18⟩, 5) ∧
    (make_quantity (registry.initial : registry Rat) "km" false false).value? =
      some (⟨length_d, 1000⟩, 1) := by
  refine ⟨?_, by decide!, by decide!, by decide!, by decide!⟩
  show Except.ok (Rep.ofScientific 1 false 18 : Rat) = _
  have hrat : ∀ (m : Nat) (s : Bool) (e : Nat), (Rep.ofScientific m s e : Rat) =
      if s then (m : Rat) / 10 ^ e else (m : Rat) * 10 ^ e := fun _ _ _ => rfl
  rw [hrat]
  norm_num

/-! ## The scanner stays inside its text -/

section scanner_invariant_properties

open quantity_parser_t

variable {R : Type} [Rep R]

theorem follows_refl (p : quantity_parser_t R) (h : p.scanned) : p.follows p :=
  ⟨h, rfl, Nat.le_refl _⟩

theorem follows_trans {p q r : quantity_parser_t R} (h1 : p.follows q) (h2 : q.follows r) :
    p.follows r :=
  ⟨h2.1, h2.2.1.trans h1.2.1, Nat.le_trans h2.2.2 h1.2.2⟩

theorem result_follows_trans {α : Type} {p q : quantity_parser_t R} (h1 : p.follows q)
    {r : parse_result R α} (h2 : r.follows q) : r.follows p := by
  cases r with
  | ok a s g => exact follows_trans h1 h2
  | error e s g => exact follows_trans h1 h2
  | out_of_fuel => exact h2

theorem scanned_iss_ne_nil (p : quantity_parser_t R) (h : p.scanned)
    (hc : p.current_char ≠ end_char) : p.iss ≠ [] := by
  obtain ⟨⟨pre, ht, _⟩, hl⟩ := h
  intro hn
  rw [ht, hn] at hl
  simp at hl
  exact hc hl

theorem advance_of_end (p : quantity_parser_t R) (hc : p.current_char = end_char) :
    p.advance = p := by
  unfold advance isEnd
  simp [hc]

theorem advance_of_cons (p : quantity_parser_t R) (hc : p.current_char ≠ end_char)
    (c : Char) (rest : List Char) (hi : p.iss = c :: rest) :
    p.advance =
      { p with current_pos := p.current_pos + 1, current_char := c, iss := rest } := by
  unfold advance isEnd
  have hb : (p.current_char == end_char) = false := by simpa using hc
  simp only [hb, Bool.false_eq_true, if_false]
  rw [hi]

theorem advance_follows (p : quantity_parser_t R) (h : p.scanned) : p.follows p.advance := by
  by_cases hc : p.current_char = end_char
  · rw [advance_of_end p hc]
    exact follows_refl p h
  · have hne := scanned_iss_ne_nil p h hc
    obtain ⟨⟨pre, ht, hp⟩, hl⟩ := h
    cases hi : p.iss with
    | nil => exact absurd hi hne
    | cons c rest =>
      rw [advance_of_cons p hc c rest hi]
      refine ⟨⟨⟨pre ++ [p.current_char], ?_, ?_⟩, hl⟩, rfl, ?_⟩
      · show p.text = _
        rw [ht, hi]
        simp
      · show p.current_pos + 1 = _
        rw [hp]
        simp
      · show rest.length ≤ p.iss.length
        rw [hi]
        simp

theorem advance_iss_length (p : quantity_parser_t R) (h : p.scanned)
    (hc : p.current_char ≠ end_char) : p.advance.iss.length + 1 = p.iss.length := by
  have hne := scanned_iss_ne_nil p h hc
  cases hi : p.iss with
  | nil => exact absurd hi hne
  | cons c rest =>
    rw [advance_of_cons p hc c rest hi]
    rfl

theorem accept_follows (p : quantity_parser_t R) (h : p.scanned) (chr : Char) :
    p.follows (p.accept chr).2 := by
  unfold accept
  split
  · exact follows_refl p h
  · exact advance_follows p h

theorem expect_follows (p : quantity_parser_t R) (h : p.scanned) (chr : Char) :
    p.follows (p.expect chr).2 := by
  unfold expect
  split
  · exact follows_refl p h
  · exact advance_follows p h

theorem scan_loop_follows (pred : Char → Bool) (l : List Char) (p : quantity_parser_t R)
    (h : p.scanned) : p.follows (scan_loop pred l p).2 := by
  induction l generalizing p with
  | nil =>
    unfold scan_loop
    split
    · exact advance_follows p h
    · exact follows_refl p h
  | cons c rest ih =>
    unfold scan_loop
    split
    · exact follows_trans (advance_follows p h) (ih p.advance (advance_follows p h).1)
    · exact follows_refl p h

theorem scan_while_follows (pred : Char → Bool) (p : quantity_parser_t R) (h : p.scanned) :
    p.follows (p.scan_while pred).2 :=
  scan_loop_follows pred p.iss p h

theorem skip_whitespace_follows (p : quantity_parser_t R) (h : p.scanned) :
    p.follows p.skip_whitespace :=
  scan_while_follows isspace p h

theorem scanUnit_follows (p : quantity_parser_t R) (h : p.scanned) :
    p.follows p.scanUnit.2 :=
  follows_trans (accept_follows p h p.escape_char)
    (scan_while_follows _ _ (accept_follows p h p.escape_char).1)

theorem parseNumericalValue_follows (p : quantity_parser_t R) (h : p.scanned) :
    p.follows p.parseNumericalValue.2 := by
  have h1 := skip_whitespace_follows p h
  unfold parseNumericalValue
  split
  · have h2 := scan_while_follows isReal p.skip_whitespace h1.1
    exact follows_trans h1 (follows_trans h2 (skip_whitespace_follows _ h2.1))
  · exact follows_trans h1 (skip_whitespace_follows _ h1.1)

theorem ite_state_cases {α : Type} (c : Prop) [Decidable c] (a b : α) (P : α → Prop)
    (ha : P a) (hb : P b) : P (if c then a else b) := by
  split_ifs
  · exact ha
  · exact hb

theorem parsePrefix_state (p : quantity_parser_t R) :
    p.parsePrefix.2 = p ∨ p.parsePrefix.2 = p.advance ∨ p.parsePrefix.2 = p.advance.advance := by
  unfold parsePrefix
  simp only [apply_ite Prod.snd]
  refine ite_state_cases _ _ _ (fun s => s = p ∨ s = p.advance ∨ s = p.advance.advance)
    (Or.inl rfl) ?_
  refine ite_state_cases _ _ _ (fun s => s = p ∨ s = p.advance ∨ s = p.advance.advance)
    (Or.inl rfl) ?_
  refine ite_state_cases _ _ _ (fun s => s = p ∨ s = p.advance ∨ s = p.advance.advance)
    (Or.inl rfl) ?_
  refine ite_state_cases _ _ _ (fun s => s = p ∨ s = p.advance ∨ s = p.advance.advance)
    (Or.inl rfl) ?_
  refine ite_state_cases _ _ _ (fun s => s = p ∨ s = p.advance ∨ s = p.advance.advance)
    (Or.inl rfl) ?_
  refine ite_state_cases _ _ _ (fun s => s = p ∨ s = p.advance ∨ s = p.advance.advance)
    (Or.inl rfl) ?_
  refine ite_state_cases _ _ _ (fun s => s = p ∨ s = p.advance ∨ s = p.advance.advance)
    (Or.inl rfl) ?_
  refine ite_state_cases _ _ _ (fun s => s = p ∨ s = p.advance ∨ s = p.advance.advance)
    (Or.inl rfl) ?_
  refine ite_state_cases _ _ _ (fun s => s = p ∨ s = p.advance ∨ s = p.advance.advance)
    (Or.inr (Or.inr rfl)) ?_
  exact ite_state_cases _ _ _ (fun s => s = p ∨ s = p.advance ∨ s = p.advance.advance)
    (Or.inl rfl) (Or.inr (Or.inl rfl))

theorem parsePrefix_follows (p : quantity_parser_t R) (h : p.scanned) :
    p.follows p.parsePrefix.2 := by
  have h1 := advance_follows p h
  have h2 := follows_trans h1 (advance_follows _ h1.1)
  rcases parsePrefix_state p with e | e | e <;> rw [e]
  · exact follows_refl p h
  · exact h1
  · exact h2

theorem parseUnit_follows (p : quantity_parser_t R) (h : p.scanned) (g : registry R) :
    (p.parseUnit g).follows p := by
  unfold parseUnit
  split
  · split
    · exact follows_refl p h
    · exact accept_follows p h _
  · split
    · exact follows_refl p h
    · split
      · exact scanUnit_follows p h
      · exact scanUnit_follows p h

theorem parsePower_follows (p : quantity_parser_t R) (h : p.scanned) (q : quantity R) :
    p.follows (p.parsePower q).2 := by
  unfold parsePower
  split
  · exact scan_while_follows isInteger p h
  · exact follows_refl p h

theorem isOperator_ne_end (c : Char) (h : isOperator c = true) : c ≠ end_char := by
  intro e
  rw [e] at h
  exact absurd h (by decide)

theorem parseTermLoop_succ
    (factor : quantity_parser_t R → registry R → parse_result R (quantity R))
    (fuel1 : Nat) (lhs : quantity R) (solidus_count : Nat) (p : quantity_parser_t R)
    (g : registry R) :
    parseTermLoop factor (fuel1 + 1) lhs solidus_count p g =
      if !(isOperator p.current) then .ok lhs p g
      else if isOperator p.ahead then
        .error (.quantity_parser_error
          ("consecutive operators at position " ++ toString p.input_position ++ ": '"
            ++ p.currentStr ++ "' and '" ++ p.aheadStr ++ "'")
          p.input_text p.input_position) p g
      else if p.current == ' ' || p.current == '.' then
        match factor p.advance g with
        | .ok rhs p1 g1 => parseTermLoop factor fuel1 (operator_mul_assign lhs rhs) 0 p1 g1
        | .error e p1 g1 => .error e p1 g1
        | .out_of_fuel => .out_of_fuel
      else if solidus_count + 1 > 1 then
        .error (.quantity_parser_error
          ("repetition of solidus at position " ++ toString p.current_pos
            ++ ": use parenthesis to avoid ambiguity")
          p.input_text p.input_position) p g
      else
        match factor p.advance g with
        | .ok rhs p1 g1 =>
          parseTermLoop factor fuel1 (operator_div_assign lhs rhs) (solidus_count + 1) p1 g1
        | .error e p1 g1 => .error e p1 g1
        | .out_of_fuel => .out_of_fuel := by
  rfl

theorem parseTermLoop_zero
    (factor : quantity_parser_t R → registry R → parse_result R (quantity R))
    (lhs : quantity R) (solidus_count : Nat) (p : quantity_parser_t R) (g : registry R) :
    parseTermLoop factor 0 lhs solidus_count p g =
      if !(isOperator p.current) then .ok lhs p g
      else if isOperator p.ahead then
        .error (.quantity_parser_error
          ("consecutive operators at position " ++ toString p.input_position ++ ": '"
            ++ p.currentStr ++ "' and '" ++ p.aheadStr ++ "'")
          p.input_text p.input_position) p g
      else .out_of_fuel := by
  rfl

/-- The loop of `parseTerm` ends, with the scanner inside the text, when the
parser of a factor does so on every later state. -/
theorem parseTermLoop_follows
    (factor : quantity_parser_t R → registry R → parse_result R (quantity R)) (n : Nat)
    (hf : ∀ (p : quantity_parser_t R) (g : registry R), p.scanned → p.iss.length ≤ n →
      (factor p g).follows p) :
    ∀ (fuel : Nat) (lhs : quantity R) (sc : Nat) (p : quantity_parser_t R) (g : registry R),
      p.scanned → p.iss.length ≤ n → p.iss.length + 1 ≤ fuel →
      (parseTermLoop factor fuel lhs sc p g).follows p := by
  intro fuel
  induction fuel with
  | zero =>
    intro lhs sc p g hp hn hfuel
    exact absurd hfuel (by omega)
  | succ fuel1 ih =>
    intro lhs sc p g hp hn hfuel
    rw [parseTermLoop_succ]
    by_cases hop : isOperator p.current = true
    · have hne : p.current_char ≠ end_char := isOperator_ne_end _ hop
      have hadv := advance_follows p hp
      have hlen := advance_iss_length p hp hne
      have hfac := hf p.advance g hadv.1 (by omega)
      have hstep : ∀ (l : quantity R → quantity R) (s : Nat),
          (match factor p.advance g with
            | .ok rhs p1 g1 => parseTermLoop factor fuel1 (l rhs) s p1 g1
            | .error e p1 g1 => .error e p1 g1
            | .out_of_fuel => .out_of_fuel : parse_result R (quantity R)).follows p := by
        intro l s
        cases hres : factor p.advance g with
        | ok rhs p1 g1 =>
          rw [hres] at hfac
          have h1 : p.advance.follows p1 := hfac
          have h2 := ih (l rhs) s p1 g1 h1.1 (by have := h1.2.2; omega)
            (by have := h1.2.2; omega)
          exact result_follows_trans (follows_trans hadv h1) h2
        | error e p1 g1 =>
          rw [hres] at hfac
          exact follows_trans hadv hfac
        | out_of_fuel =>
          rw [hres] at hfac
          exact hfac
      split_ifs
      · exact follows_refl p hp
      · exact follows_refl p hp
      · exact hstep (fun rhs => operator_mul_assign lhs rhs) 0
      · exact follows_refl p hp
      · exact hstep (fun rhs => operator_div_assign lhs rhs) (sc + 1)
    · have hb : (!(isOperator p.current)) = true := by simpa using hop
      rw [if_pos hb]
      exact follows_refl p hp

theorem parseTerm_with_follows
    (factor : quantity_parser_t R → registry R → parse_result R (quantity R)) (n : Nat)
    (hf : ∀ (p : quantity_parser_t R) (g : registry R), p.scanned → p.iss.length ≤ n →
      (factor p g).follows p)
    (p : quantity_parser_t R) (g : registry R) (hp : p.scanned) (hn : p.iss.length ≤ n) :
    (parseTerm_with factor p g).follows p := by
  unfold parseTerm_with
  have hfac := hf p g hp hn
  cases hres : factor p g with
  | ok lhs p1 g1 =>
    rw [hres] at hfac
    have h1 : p.follows p1 := hfac
    exact result_follows_trans h1
      (parseTermLoop_follows factor n hf _ lhs 0 p1 g1 h1.1 (by have := h1.2.2; omega)
        (Nat.le_refl _))
  | error e p1 g1 =>
    rw [hres] at hfac
    exact hfac
  | out_of_fuel =>
    rw [hres] at hfac
    exact hfac

theorem parseExpression_with_follows
    (factor : quantity_parser_t R → registry R → parse_result R (quantity R)) (n : Nat)
    (hf : ∀ (p : quantity_parser_t R) (g : registry R), p.scanned → p.iss.length ≤ n →
      (factor p g).follows p)
    (p : quantity_parser_t R) (g : registry R) (hp : p.scanned) (hn : p.iss.length ≤ n) :
    (parseExpression_with factor p g).follows p := by
  unfold parseExpression_with
  have h0 := parseNumericalValue_follows p hp
  have ht := parseTerm_with_follows factor n hf p.parseNumericalValue.2 g h0.1
    (by have := h0.2.2; omega)
  cases hres : parseTerm_with factor p.parseNumericalValue.2 g with
  | ok t p1 g1 =>
    rw [hres] at ht
    exact follows_trans h0 ht
  | error e p1 g1 =>
    rw [hres] at ht
    exact follows_trans h0 ht
  | out_of_fuel =>
    rw [hres] at ht
    exact ht

theorem parseFactorAux_zero (p : quantity_parser_t R) (g : registry R) :
    parseFactorAux 0 p g =
      if (p.accept '(').1 then .out_of_fuel
      else if p.dimless_quantities && !(p.isPrefixedUnit p.current p.ahead) then
        .ok number p g
      else
        match p.parsePrefix with
        | (.error e, p1) => .error e p1 g
        | (.ok pfx, p1) =>
          match p1.parseUnit g with
          | .ok u p2 g2 =>
            .ok (p2.parsePower (operator_scalar_mul pfx u)).1
              (p2.parsePower (operator_scalar_mul pfx u)).2 g2
          | .error e p2 g2 => .error e p2 g2
          | .out_of_fuel => .out_of_fuel := by
  rfl

theorem parseFactorAux_succ (fuel1 : Nat) (p : quantity_parser_t R) (g : registry R) :
    parseFactorAux (fuel1 + 1) p g =
      if (p.accept '(').1 then
        match parseExpression_with (parseFactorAux fuel1) (p.accept '(').2 g with
        | .ok q p1 g1 =>
          match p1.expect ')' with
          | (.ok _, p2) => .ok (p2.parsePower q).1 (p2.parsePower q).2 g1
          | (.error e, p2) => .error e p2 g1
        | .error e p1 g1 => .error e p1 g1
        | .out_of_fuel => .out_of_fuel
      else if p.dimless_quantities && !(p.isPrefixedUnit p.current p.ahead) then
        .ok number p g
      else
        match p.parsePrefix with
        | (.error e, p1) => .error e p1 g
        | (.ok pfx, p1) =>
          match p1.parseUnit g with
          | .ok u p2 g2 =>
            .ok (p2.parsePower (operator_scalar_mul pfx u)).1
              (p2.parsePower (operator_scalar_mul pfx u)).2 g2
          | .error e p2 g2 => .error e p2 g2
          | .out_of_fuel => .out_of_fuel := by
  rfl


theorem accept_true (p : quantity_parser_t R) (chr : Char) (h : (p.accept chr).1 = true) :
    p.current_char = chr ∧ (p.accept chr).2 = p.advance := by
  unfold accept at h ⊢
  by_cases hc : chr = p.current
  · simp [hc, current]
  · have hb : (chr != p.current) = true := by simpa using hc
    rw [if_pos hb] at h
    exact absurd h (by simp)

/-- The member `parseFactor` returns or throws, with the scanner inside the text,
when its bound is larger than the number of characters still to read. -/
theorem parseFactorAux_follows :
    ∀ (fuel : Nat) (p : quantity_parser_t R) (g : registry R),
      p.scanned → p.iss.length + 1 ≤ fuel → (parseFactorAux fuel p g).follows p := by
  intro fuel
  induction fuel with
  | zero =>
    intro p g hp hfuel
    exact absurd hfuel (by omega)
  | succ fuel1 ih =>
    intro p g hp hfuel
    rw [parseFactorAux_succ]
    split_ifs with hacc hdim
    · obtain ⟨hcur, hadv⟩ := accept_true p '(' hacc
      have hne : p.current_char ≠ end_char := by
        rw [hcur]
        decide
      have h0 : p.follows p.advance := advance_follows p hp
      have hlen := advance_iss_length p hp hne
      rw [hadv]
      have he := parseExpression_with_follows (parseFactorAux fuel1) p.advance.iss.length
        (fun q h hq hl => ih q h hq (by omega)) p.advance g h0.1 (Nat.le_refl _)
      show (match parseExpression_with (parseFactorAux fuel1) p.advance g with
          | .ok q p1 g1 =>
            match p1.expect ')' with
            | (.ok _, p2) => .ok (p2.parsePower q).1 (p2.parsePower q).2 g1
            | (.error e, p2) => .error e p2 g1
          | .error e p1 g1 => .error e p1 g1
          | .out_of_fuel => .out_of_fuel : parse_result R (quantity R)).follows p
      cases hres : parseExpression_with (parseFactorAux fuel1) p.advance g with
      | ok q p1 g1 =>
        rw [hres] at he
        have h1 : p.advance.follows p1 := he
        have h2 := expect_follows p1 h1.1 ')'
        show (match p1.expect ')' with
            | (.ok _, p2) => .ok (p2.parsePower q).1 (p2.parsePower q).2 g1
            | (.error e, p2) => .error e p2 g1 : parse_result R (quantity R)).follows p
        cases hex : p1.expect ')' with
        | mk r p2 =>
          rw [hex] at h2
          cases r with
          | ok u =>
            exact follows_trans h0 (follows_trans h1
              (follows_trans h2 (parsePower_follows p2 h2.1 q)))
          | error e => exact follows_trans h0 (follows_trans h1 h2)
      | error e p1 g1 =>
        rw [hres] at he
        exact follows_trans h0 he
      | out_of_fuel =>
        rw [hres] at he
        exact he
    · exact follows_refl p hp
    · have h1 := parsePrefix_follows p hp
      cases hpp : p.parsePrefix with
      | mk r p1 =>
        rw [hpp] at h1
        cases r with
        | error e => exact h1
        | ok pfx =>
          have h2 := parseUnit_follows p1 h1.1 g
          show (match p1.parseUnit g with
            | .ok u p2 g2 =>
              .ok (p2.parsePower (operator_scalar_mul pfx u)).1
                (p2.parsePower (operator_scalar_mul pfx u)).2 g2
            | .error e p2 g2 => .error e p2 g2
            | .out_of_fuel => .out_of_fuel : parse_result R (quantity R)).follows p
          cases hu : p1.parseUnit g with
          | ok u p2 g2 =>
            rw [hu] at h2
            have h3 : p1.follows p2 := h2
            exact follows_trans h1 (follows_trans h3 (parsePower_follows p2 h3.1 _))
          | error e p2 g2 =>
            rw [hu] at h2
            exact follows_trans h1 h2
          | out_of_fuel =>
            rw [hu] at h2
            exact h2

theorem parseFactor_follows (p : quantity_parser_t R) (g : registry R) (hp : p.scanned) :
    (p.parseFactor g).follows p :=
  parseFactorAux_follows (p.iss.length + 1) p g hp (Nat.le_refl _)

theorem parseTerm_follows (p : quantity_parser_t R) (g : registry R) (hp : p.scanned) :
    (p.parseTerm g).follows p :=
  parseTerm_with_follows parseFactor p.iss.length
    (fun q h hq _ => parseFactor_follows q h hq) p g hp (Nat.le_refl _)

theorem parseNumValueExpression_follows (p : quantity_parser_t R) (g : registry R)
    (hp : p.scanned) : (p.parseNumValueExpression g).follows p := by
  unfold parseNumValueExpression
  have h0 := parseNumericalValue_follows p hp
  have h1 : p.follows { p.parseNumericalValue.2 with num_value := p.parseNumericalValue.1 } :=
    h0
  have ht := parseTerm_follows
    { p.parseNumericalValue.2 with num_value := p.parseNumericalValue.1 } g h1.1
  cases hres : parseTerm
      { p.parseNumericalValue.2 with num_value := p.parseNumericalValue.1 } g with
  | ok t p1 g1 =>
    rw [hres] at ht
    exact follows_trans h1 ht
  | error e p1 g1 =>
    rw [hres] at ht
    exact follows_trans h1 ht
  | out_of_fuel =>
    rw [hres] at ht
    exact ht

/-- After `initialize` and the first `advance` the scanner is at position 1 of the
stripped text, which the end character follows. -/
theorem initialize_advance_scanned (self : quantity_parser_t R) (text_ : List Char) :
    (self.initialize_ text_).advance.scanned ∧
    (self.initialize_ text_).advance.text = strip text_ default_strip_set ++ [end_char] := by
  have hc : (self.initialize_ text_).current_char ≠ end_char := by
    show ' ' ≠ end_char
    decide
  cases hs : strip text_ default_strip_set ++ [end_char] with
  | nil => simp at hs
  | cons c rest =>
    have hi : (self.initialize_ text_).iss = c :: rest := hs
    have ht : (self.initialize_ text_).text = c :: rest := hs
    rw [advance_of_cons _ hc c rest hi]
    refine ⟨⟨⟨[], ?_, rfl⟩, ?_⟩, ht⟩
    · exact ht
    · show (self.initialize_ text_).text.getLast? = some end_char
      rw [ht, ← hs]
      simp

theorem parseInput_follows (self : quantity_parser_t R) (g : registry R) (text_ : List Char) :
    (self.parseInput g text_).follows (self.initialize_ text_).advance := by
  obtain ⟨h0, _⟩ := initialize_advance_scanned self text_
  have h1 := parseNumValueExpression_follows (self.initialize_ text_).advance g h0
  unfold parseInput
  cases hres : (self.initialize_ text_).advance.parseNumValueExpression g with
  | ok q p1 g1 =>
    rw [hres] at h1
    have h2 : (self.initialize_ text_).advance.follows p1 := h1
    show (if !((p1.accept end_char).1) then _ else _ : parse_result R (quantity R)).follows _
    split_ifs
    · exact h2
    · exact follows_trans h2 (accept_follows p1 h2.1 end_char)
  | error e p1 g1 =>
    rw [hres] at h1
    exact h1
  | out_of_fuel =>
    rw [hres] at h1
    exact h1

theorem scanned_position (p : quantity_parser_t R) (h : p.scanned) :
    1 ≤ p.current_pos ∧ p.current_pos ≤ p.text.length := by
  obtain ⟨⟨pre, ht, hp⟩, _⟩ := h
  rw [ht, hp]
  simp

end scanner_invariant_properties

section parse_error

open quantity_parser_t

variable {R : Type} [Rep R]

/-- Claim C17: `parse( text )` returns or throws for every text, parser and
registry; what it throws is always a `quantity_parser_error`, built from the
exception of `parseInput` (a `unit_error` of a lookup among them), whose
`input_text()` is the text stripped of leading and trailing blanks, tabs and
newlines, and whose `input_position()` is at least 1 and at most the length of
the stripped text plus 1. -/
theorem C17_parse_error (self : quantity_parser_t R) (g : registry R) (text : String) :
    self.parse g text ≠ .out_of_fuel ∧
    ∀ (e : quantity_error) (p1 : quantity_parser_t R) (g1 : registry R),
      self.parse g text = .error e p1 g1 →
      e.is_quantity_parser_error = true ∧
      (∃ e0 : quantity_error, self.parseInput g text.toList = .error e0 p1 g1 ∧
        e = .quantity_parser_error ("quantity: parsing unit '" ++ text ++ "': " ++ e0.what)
          (String.mk (strip text.toList default_strip_set)) p1.current_pos) ∧
      1 ≤ p1.current_pos ∧
      p1.current_pos ≤ (strip text.toList default_strip_set).length + 1 := by
  have hin := parseInput_follows self g text.toList
  obtain ⟨_, htext⟩ := initialize_advance_scanned self text.toList
  unfold parse
  cases hres : self.parseInput g text.toList with
  | ok q p1 g1 =>
    refine ⟨fun h => parse_result.noConfusion h, ?_⟩
    intro e p2 g2 h
    exact parse_result.noConfusion h
  | out_of_fuel =>
    rw [hres] at hin
    exact absurd hin (fun h => h)
  | error e0 p1 g1 =>
    rw [hres] at hin
    have hf : (self.initialize_ text.toList).advance.follows p1 := hin
    refine ⟨fun h => parse_result.noConfusion h, ?_⟩
    intro e p2 g2 h
    simp only [parse_result.error.injEq] at h
    obtain ⟨he, hp, hg⟩ := h
    subst hp
    subst hg
    have htxt : p1.text = strip text.toList default_strip_set ++ [end_char] :=
      hf.2.1.trans htext
    have hpos := scanned_position p1 hf.1
    rw [htxt] at hpos
    have hit : p1.input_text = String.mk (strip text.toList default_strip_set) := by
      unfold input_text
      rw [htxt]
      simp
    refine ⟨by rw [← he]; rfl, ⟨e0, rfl, ?_⟩, hpos.1, by simpa using hpos.2⟩
    rw [← he, hit]
    rfl

end parse_error

/-- Witness of claim C17, from the input tests: parsing `xm` throws a
`quantity_parser_error` that carries the text `xm` and the position 3, where the
undefined unit `xm` ends. -/
theorem C17_parse_error_witness :
    (to_quantity (registry.initial : registry Rat) "xm" false false).error? =
      some (.quantity_parser_error
        "quantity: parsing unit 'xm': quantity: undefined unit 'xm'" "xm" 3) ∧
    ∃ (e : quantity_error) (p1 : quantity_parser_t Rat) (g1 : registry Rat),
      ((quantity_parser_t.mk0.extend false).dimensionless false).parse registry.initial "xm" =
        .error e p1 g1 ∧
      e.is_quantity_parser_error = true ∧ 1 ≤ p1.current_pos ∧ p1.current_pos ≤ 2 + 1 := by
  have herr : (((quantity_parser_t.mk0.extend false).dimensionless false).parse
      (registry.initial : registry Rat) "xm").error?.isSome = true := by decide!
  refine ⟨by decide!, ?_⟩
  cases hres : ((quantity_parser_t.mk0.extend false).dimensionless false).parse
      (registry.initial : registry Rat) "xm" with
  | ok q p1 g1 =>
    rw [hres] at herr
    exact absurd herr (by simp [parse_result.error?])
  | out_of_fuel =>
    rw [hres] at herr
    exact absurd herr (by simp [parse_result.error?])
  | error e p1 g1 =>
    have h := (C17_parse_error (R := Rat)
      ((quantity_parser_t.mk0.extend false).dimensionless false) registry.initial "xm").2
        e p1 g1 hres
    exact ⟨e, p1, g1, rfl, h.1, h.2.2.1, h.2.2.2⟩

/-! ## The parser step by step -/

section parser_steps

open quantity_parser_t

variable {R : Type} [Rep R]

/-- The scanning loop on a run `n` of accepted characters that a character `d`
follows which is not accepted: it collects `n` and stops at `d`. -/
theorem scan_loop_run (pred : Char → Bool) (d : Char) (rest : List Char)
    (hd : (pred d && !(d == end_char)) = false) :
    ∀ (n : List Char) (p : quantity_parser_t R),
      (∀ x ∈ n, pred x = true ∧ x ≠ end_char) →
      p.current_char :: p.iss = n ++ d :: rest →
      scan_loop pred p.iss p =
        (n, { p with current_char := d, iss := rest,
                     current_pos := p.current_pos + n.length }) := by
  intro n
  induction n with
  | nil =>
    intro p _ hcur
    simp only [List.nil_append, List.cons.injEq] at hcur
    obtain ⟨hc, hi⟩ := hcur
    have hcond : (pred p.current && !(p.isEnd p.current)) = false := by
      show (pred p.current_char && !(p.current_char == end_char)) = false
      rw [hc]
      exact hd
    have hp : { p with current_char := d, iss := rest, current_pos := p.current_pos + 0 } = p := by
      cases p
      simp only [Nat.add_zero] at hc hi ⊢
      rw [hc, hi]
    show scan_loop pred p.iss p =
      ([], { p with current_char := d, iss := rest, current_pos := p.current_pos + 0 })
    rw [hp]
    cases hiss : p.iss with
    | nil =>
      unfold scan_loop
      rw [hcond]
      rfl
    | cons y t =>
      unfold scan_loop
      rw [hcond]
      rfl
  | cons x n1 ih =>
    intro p hn hcur
    simp only [List.cons_append, List.cons.injEq] at hcur
    obtain ⟨hc, hi⟩ := hcur
    have hx := hn x (List.mem_cons_self _ _)
    have hcond : (pred p.current && !(p.isEnd p.current)) = true := by
      show (pred p.current_char && !(p.current_char == end_char)) = true
      rw [hc, hx.1]
      simpa using hx.2
    have hne : p.current_char ≠ end_char := by
      rw [hc]
      exact hx.2
    cases hl : n1 ++ d :: rest with
    | nil => simp at hl
    | cons y t =>
      rw [hl] at hi
      have hadv := advance_of_cons p hne y t hi
      have hrec := ih p.advance (fun a ha => hn a (List.mem_cons_of_mem _ ha))
        (by rw [hadv]; exact hl.symm)
      have hai : p.advance.iss = t := by rw [hadv]
      rw [hai] at hrec
      rw [hi]
      unfold scan_loop
      rw [hcond, if_pos rfl, hrec]
      show (p.current_char :: n1, _) = _
      rw [hc, hadv]
      cases p
      simp only [List.length_cons, Prod.mk.injEq, true_and]
      congr 1
      omega

theorem scan_while_run (pred : Char → Bool) (d : Char) (rest : List Char)
    (hd : (pred d && !(d == end_char)) = false) (n : List Char) (p : quantity_parser_t R)
    (hn : ∀ x ∈ n, pred x = true ∧ x ≠ end_char)
    (hcur : p.current_char :: p.iss = n ++ d :: rest) :
    p.scan_while pred =
      (n, { p with current_char := d, iss := rest,
                   current_pos := p.current_pos + n.length }) :=
  scan_loop_run pred d rest hd n p hn hcur

/-- A scanning loop whose first character is not accepted reads nothing. -/
theorem scan_while_none (pred : Char → Bool) (p : quantity_parser_t R)
    (hd : (pred p.current_char && !(p.current_char == end_char)) = false) :
    p.scan_while pred = ([], p) := by
  have h := scan_while_run pred p.current_char p.iss hd [] p (by simp) rfl
  rw [h]
  cases p
  rfl

theorem accept_false (p : quantity_parser_t R) (chr : Char) (h : p.current_char ≠ chr) :
    p.accept chr = (false, p) := by
  unfold accept
  have hb : (chr != p.current) = true := by
    show (chr != p.current_char) = true
    simpa using fun e => h e.symm
  rw [if_pos hb]

theorem accept_of_eq (p : quantity_parser_t R) (chr : Char) (h : p.current_char = chr) :
    p.accept chr = (true, p.advance) := by
  unfold accept
  have hb : ¬ (chr != p.current) = true := by
    show ¬ (chr != p.current_char) = true
    simp [h]
  rw [if_neg hb]

theorem ahead_of_cons (p : quantity_parser_t R) (hc : p.current_char ≠ end_char)
    (c : Char) (rest : List Char) (hi : p.iss = c :: rest) : p.ahead = c := by
  unfold ahead isEnd
  have hb : (p.current_char == end_char) = false := by simpa using hc
  simp only [hb, Bool.false_eq_true, if_false]
  rw [hi]

theorem isalpha_ne_end (x : Char) (h : isalpha x = true) : x ≠ end_char := by
  intro e
  rw [e] at h
  exact absurd h (by decide)

/-- The member `scanUnit` on a name of letters that does not start with the escape
character: the name is collected. -/
theorem scanUnit_plain (p : quantity_parser_t R) (n : List Char) (d : Char)
    (rest : List Char) (hesc : p.current_char ≠ p.escape_char)
    (hn : ∀ x ∈ n, isalpha x = true)
    (hd : ((d == '\'' || isalpha d) && !(d == end_char)) = false)
    (hcur : p.current_char :: p.iss = n ++ d :: rest) :
    p.scanUnit =
      (String.mk n, { p with current_char := d, iss := rest,
                             current_pos := p.current_pos + n.length }) := by
  unfold scanUnit
  rw [accept_false p p.escape_char hesc]
  rw [scan_while_run (fun c => c == '\'' || isalpha c) d rest hd n p
    (fun x hx => ⟨by simp [hn x hx], isalpha_ne_end x (hn x hx)⟩) hcur]

/-- The member `scanUnit` on the escape character and a name of letters: the
escape character is skipped and the name is collected. -/
theorem scanUnit_escaped (p : quantity_parser_t R) (n : List Char) (d : Char)
    (rest : List Char) (hesc : p.current_char = p.escape_char)
    (hne : p.current_char ≠ end_char)
    (hn : ∀ x ∈ n, isalpha x = true)
    (hd : ((d == '\'' || isalpha d) && !(d == end_char)) = false)
    (hi : p.iss = n ++ d :: rest) :
    p.scanUnit =
      (String.mk n, { p with current_char := d, iss := rest,
                             current_pos := p.current_pos + 1 + n.length }) := by
  unfold scanUnit
  rw [accept_of_eq p p.escape_char hesc]
  cases hl : n ++ d :: rest with
  | nil => simp at hl
  | cons y t =>
    rw [hl] at hi
    have hadv := advance_of_cons p hne y t hi
    have hrun := scan_while_run (fun c => c == '\'' || isalpha c) d rest hd n p.advance
      (fun x hx => ⟨by simp [hn x hx], isalpha_ne_end x (hn x hx)⟩)
      (by rw [hadv]; exact hl.symm)
    rw [hrun, hadv]

theorem parseUnit_of_scan (p : quantity_parser_t R) (g : registry R)
    (h1 : p.current_char ≠ '1') (h2 : p.isUnit2 p.current p.ahead = true) :
    p.parseUnit g =
      match unit g p.scanUnit.1 p.ext_units with
      | (.ok q, g1) => .ok q p.scanUnit.2 g1
      | (.error e, g1) => .error e p.scanUnit.2 g1 := by
  unfold parseUnit
  have hb : ¬ (p.current == '1') = true := by
    show ¬ (p.current_char == '1') = true
    simpa using h1
  rw [if_neg hb]
  have hb2 : ¬ (!(p.isUnit2 p.current p.ahead)) = true := by simp [h2]
  rw [if_neg hb2]

theorem parsePower_none (p : quantity_parser_t R) (q : quantity R)
    (h : isInteger p.current_char = false) : p.parsePower q = (q, p) := by
  unfold parsePower
  have hb : ¬ isInteger p.current = true := by
    show ¬ isInteger p.current_char = true
    simp [h]
  rw [if_neg hb]

theorem parseTermLoop_done
    (factor : quantity_parser_t R → registry R → parse_result R (quantity R))
    (fuel : Nat) (lhs : quantity R) (sc : Nat) (p : quantity_parser_t R) (g : registry R)
    (h : isOperator p.current_char = false) :
    parseTermLoop factor fuel lhs sc p g = .ok lhs p g := by
  have hb : (!(isOperator p.current)) = true := by
    show (!(isOperator p.current_char)) = true
    simp [h]
  cases fuel with
  | zero => rw [parseTermLoop_zero, if_pos hb]
  | succ fuel1 => rw [parseTermLoop_succ, if_pos hb]

/-- The member `parseFactor` where no parenthesis opens and the factor is not
taken as a dimensionless number: prefix, unit and power. -/
theorem parseFactorAux_of_unit (fuel : Nat) (p : quantity_parser_t R) (g : registry R)
    (h1 : p.current_char ≠ '(')
    (h2 : (p.dimless_quantities && !(p.isPrefixedUnit p.current p.ahead)) = false) :
    parseFactorAux fuel p g =
      match p.parsePrefix with
      | (.error e, p1) => .error e p1 g
      | (.ok pfx, p1) =>
        match p1.parseUnit g with
        | .ok u p2 g2 =>
          .ok (p2.parsePower (operator_scalar_mul pfx u)).1
            (p2.parsePower (operator_scalar_mul pfx u)).2 g2
        | .error e p2 g2 => .error e p2 g2
        | .out_of_fuel => .out_of_fuel := by
  have ha : ¬ (p.accept '(').1 = true := by
    rw [accept_false p '(' h1]
    simp
  have hd : ¬ (p.dimless_quantities && !(p.isPrefixedUnit p.current p.ahead)) = true := by
    simp [h2]
  cases fuel with
  | zero =>
    rw [parseFactorAux_zero, if_neg ha, if_neg hd]
  | succ fuel1 =>
    rw [parseFactorAux_succ, if_neg ha, if_neg hd]

/-- A factor that is a prefix and a unit name: the result of `parseFactor` in terms
of the lookup of the name. -/
theorem parseFactor_of_unit (p : quantity_parser_t R) (g : registry R)
    (pfx : R) (p1 p2 : quantity_parser_t R) (name : String)
    (h1 : p.current_char ≠ '(')
    (h2 : (p.dimless_quantities && !(p.isPrefixedUnit p.current p.ahead)) = false)
    (hpfx : p.parsePrefix = (.ok pfx, p1))
    (h3 : p1.current_char ≠ '1') (h4 : p1.isUnit2 p1.current p1.ahead = true)
    (hscan : p1.scanUnit = (name, p2))
    (h5 : isInteger p2.current_char = false) :
    p.parseFactor g =
      match unit g name p1.ext_units with
      | (.ok u, g1) => .ok (operator_scalar_mul pfx u) p2 g1
      | (.error e, g1) => .error e p2 g1 := by
  unfold parseFactor
  rw [parseFactorAux_of_unit _ p g h1 h2, hpfx]
  show (match p1.parseUnit g with
        | .ok u p2 g2 =>
          .ok (p2.parsePower (operator_scalar_mul pfx u)).1
            (p2.parsePower (operator_scalar_mul pfx u)).2 g2
        | .error e p2 g2 => .error e p2 g2
        | .out_of_fuel => .out_of_fuel : parse_result R (quantity R)) = _
  rw [parseUnit_of_scan p1 g h3 h4, hscan]
  show (match (match unit g name p1.ext_units with
          | (.ok q, g1) => parse_result.ok q p2 g1
          | (.error e, g1) => .error e p2 g1) with
        | .ok u p2 g2 =>
          .ok (p2.parsePower (operator_scalar_mul pfx u)).1
            (p2.parsePower (operator_scalar_mul pfx u)).2 g2
        | .error e p2 g2 => .error e p2 g2
        | .out_of_fuel => .out_of_fuel : parse_result R (quantity R)) = _
  cases hu : unit g name p1.ext_units with
  | mk r g1 =>
    cases r with
    | ok u =>
      show parse_result.ok (p2.parsePower (operator_scalar_mul pfx u)).1
        (p2.parsePower (operator_scalar_mul pfx u)).2 g1 = _
      rw [parsePower_none p2 _ h5]
    | error e => rfl

theorem parseTerm_of_factor_ok (p : quantity_parser_t R) (g : registry R) (q : quantity R)
    (p2 : quantity_parser_t R) (g1 : registry R)
    (hf : p.parseFactor g = .ok q p2 g1) (hop : isOperator p2.current_char = false) :
    p.parseTerm g = .ok q p2 g1 := by
  unfold parseTerm parseTerm_with
  rw [hf]
  exact parseTermLoop_done _ _ _ _ _ _ hop

theorem parseTerm_of_factor_error (p : quantity_parser_t R) (g : registry R)
    (e : quantity_error) (p2 : quantity_parser_t R) (g1 : registry R)
    (hf : p.parseFactor g = .error e p2 g1) :
    p.parseTerm g = .error e p2 g1 := by
  unfold parseTerm parseTerm_with
  rw [hf]

theorem parseNumericalValue_none (p : quantity_parser_t R)
    (h1 : isspace p.current_char = false) (h2 : isReal p.current_char = false) :
    p.parseNumericalValue = (Rep.one_point_zero, p) := by
  have hs : p.skip_whitespace = p := by
    unfold skip_whitespace
    rw [scan_while_none isspace p (by simp [h1])]
  unfold parseNumericalValue
  rw [hs, hs]
  have hb : ¬ isReal p.current = true := by
    show ¬ isReal p.current_char = true
    simp [h2]
  rw [if_neg hb]

theorem strip_of_clean (t : List Char) (hne : t ≠ [])
    (hh : ∀ c, t.head? = some c → default_strip_set.contains c = false)
    (hl : ∀ c, t.getLast? = some c → default_strip_set.contains c = false) :
    strip t default_strip_set = t := by
  have hr : strip_right t default_strip_set = t := by
    unfold strip_right
    cases hrev : t.reverse with
    | nil =>
      rw [List.reverse_eq_nil_iff] at hrev
      exact absurd hrev hne
    | cons z r =>
      have hz : t.getLast? = some z := by
        rw [List.getLast?_eq_head?_reverse, hrev]
        rfl
      have hzc := hl z hz
      rw [List.dropWhile_cons_of_neg
        (by show ¬ default_strip_set.contains z = true; rw [hzc]; exact Bool.false_ne_true),
        ← hrev, List.reverse_reverse]
  unfold strip
  rw [hr]
  unfold strip_left
  cases t with
  | nil => exact absurd rfl hne
  | cons c0 t1 =>
    have hc := hh c0 rfl
    rw [List.dropWhile_cons_of_neg
      (by show ¬ default_strip_set.contains c0 = true; rw [hc]; exact Bool.false_ne_true)]

theorem initialize_advance_eq (self : quantity_parser_t R) (text_ : List Char) (c0 : Char)
    (t1 : List Char) (hs : strip text_ default_strip_set = c0 :: t1) :
    (self.initialize_ text_).advance =
      { self with current_pos := 1, current_char := c0,
                  text := c0 :: t1 ++ [end_char], iss := t1 ++ [end_char] } := by
  have hc : (self.initialize_ text_).current_char ≠ end_char := by
    show ' ' ≠ end_char
    decide
  have hi : (self.initialize_ text_).iss = c0 :: (t1 ++ [end_char]) := by
    show strip text_ default_strip_set ++ [end_char] = _
    rw [hs]
    rfl
  rw [advance_of_cons _ hc c0 _ hi]
  unfold initialize_
  rw [hs]

/-- The member `parseInput` on a text that holds no number and one factor, which
ends at the end character. -/
theorem parseInput_single_factor_ok (self : quantity_parser_t R) (g : registry R)
    (text_ : List Char) (q : quantity R) (p2 : quantity_parser_t R) (g1 : registry R)
    (hsp : isspace (self.initialize_ text_).advance.current_char = false)
    (hre : isReal (self.initialize_ text_).advance.current_char = false)
    (hfac : parseFactor (self.started text_) g = .ok q p2 g1)
    (hend : p2.current_char = end_char) :
    self.parseInput g text_ =
      .ok (operator_scalar_mul Rep.one_point_zero q)
        { p2 with pfx_factor :=
            (operator_div_scalar (operator_scalar_mul Rep.one_point_zero q)
              p2.numerical_value).value } g1 := by
  have hop : isOperator p2.current_char = false := by
    rw [hend]
    decide
  have hterm := parseTerm_of_factor_ok _ g q p2 g1 hfac hop
  unfold started at hterm
  unfold parseInput parseNumValueExpression
  rw [parseNumericalValue_none _ hsp hre]
  simp only [hterm]
  rw [accept_of_eq p2 end_char hend, advance_of_end p2 hend]
  rfl

theorem parseInput_single_factor_error (self : quantity_parser_t R) (g : registry R)
    (text_ : List Char) (e : quantity_error) (p2 : quantity_parser_t R) (g1 : registry R)
    (hsp : isspace (self.initialize_ text_).advance.current_char = false)
    (hre : isReal (self.initialize_ text_).advance.current_char = false)
    (hfac : parseFactor (self.started text_) g = .error e p2 g1) :
    self.parseInput g text_ = .error e p2 g1 := by
  have hterm := parseTerm_of_factor_error _ g e p2 g1 hfac
  unfold started at hterm
  unfold parseInput parseNumValueExpression
  rw [parseNumericalValue_none _ hsp hre]
  simp only [hterm]

theorem isalpha_not_strip (x : Char) (h : isalpha x = true) :
    default_strip_set.contains x = false := by
  cases hc : default_strip_set.contains x with
  | false => rfl
  | true =>
    have hm : x ∈ default_strip_set := by simpa using hc
    have hall : ∀ c ∈ default_strip_set, isalpha c = false := by decide
    rw [hall x hm] at h
    exact absurd h (by simp)

theorem isalpha_not_isspace (x : Char) (h : isalpha x = true) : isspace x = false := by
  cases hc : isspace x with
  | false => rfl
  | true =>
    have hm : x ∈ [' ', '\t', '\n', Char.ofNat 11, Char.ofNat 12, '\r'] := by
      unfold isspace at hc
      simp only [Bool.or_eq_true, beq_iff_eq] at hc
      simp only [List.mem_cons, List.mem_singleton, List.not_mem_nil, or_false]
      tauto
    have hall : ∀ c ∈ [' ', '\t', '\n', Char.ofNat 11, Char.ofNat 12, '\r'],
        isalpha c = false := by decide
    rw [hall x hm] at h
    exact absurd h (by simp)

theorem isalpha_not_mem (x : Char) (h : isalpha x = true) (l : List Char)
    (hl : ∀ c ∈ l, isalpha c = false) : x ∉ l := by
  intro hm
  rw [hl x hm] at h
  exact absurd h (by simp)

theorem ite_same {α : Type} (c : Prop) [Decidable c] (a b : α) (h : b = a) :
    (if c then a else b) = a := by
  split_ifs
  · rfl
  · exact h

/-- The special cases of `parsePrefix`: at `cd`, `kg`, `mo`, `mi`, `Pa` and `Gy`
no prefix is read. -/
theorem parsePrefix_collision (p : quantity_parser_t R) (c1 c2 : Char) (rest : List Char)
    (hpair : (c1, c2) ∈ [('c', 'd'), ('k', 'g'), ('m', 'o'), ('m', 'i'), ('P', 'a'),
      ('G', 'y')])
    (hcur : p.current_char = c1) (hiss : p.iss = c2 :: rest) :
    p.parsePrefix = (.ok Rep.one_point_zero, p) := by
  simp only [List.mem_cons, List.mem_singleton, List.not_mem_nil, or_false,
    Prod.mk.injEq] at hpair
  have hc : p.current = c1 := hcur
  have hah : c1 ≠ end_char → p.ahead = c2 := fun hne =>
    ahead_of_cons p (by rw [hcur]; exact hne) c2 rest hiss
  unfold parsePrefix
  rw [hc]
  refine ite_same _ _ _ ?_
  refine ite_same _ _ _ ?_
  rcases hpair with h | h | h | h | h | h <;> obtain ⟨h1, h2⟩ := h <;> subst h1 <;> subst h2 <;>
    rw [hah (by decide)]
  · exact if_pos (by decide)
  · refine ite_same _ _ _ ?_
    exact if_pos (by decide)
  · refine ite_same _ _ _ ?_
    refine ite_same _ _ _ ?_
    exact if_pos (by decide)
  · refine ite_same _ _ _ ?_
    refine ite_same _ _ _ ?_
    refine ite_same _ _ _ ?_
    exact if_pos (by decide)
  · refine ite_same _ _ _ ?_
    refine ite_same _ _ _ ?_
    refine ite_same _ _ _ ?_
    refine ite_same _ _ _ ?_
    exact if_pos (by decide)
  · refine ite_same _ _ _ ?_
    refine ite_same _ _ _ ?_
    refine ite_same _ _ _ ?_
    refine ite_same _ _ _ ?_
    refine ite_same _ _ _ ?_
    exact if_pos (by decide)

/-- A factor that is one unit name of letters up to the end of the text, in front
of which `parsePrefix` reads no prefix: `parseFactor` is the lookup of the name,
multiplied by 1.0. -/
theorem parseFactor_plain_unit (p : quantity_parser_t R) (g : registry R)
    (c0 : Char) (t1 : List Char)
    (halpha : ∀ x ∈ c0 :: t1, isalpha x = true)
    (hesc : c0 ≠ p.escape_char)
    (hcur : p.current_char = c0) (hiss : p.iss = t1 ++ [end_char])
    (hpfx : p.parsePrefix = (.ok Rep.one_point_zero, p)) :
    p.parseFactor g =
      match unit g (String.mk (c0 :: t1)) p.ext_units with
      | (.ok u, g1) =>
        .ok (operator_scalar_mul Rep.one_point_zero u) (p.at_end (c0 :: t1).length) g1
      | (.error e, g1) => .error e (p.at_end (c0 :: t1).length) g1 := by
  have h0 := halpha c0 (List.mem_cons_self _ _)
  have hne : p.current_char ≠ end_char := by
    rw [hcur]
    exact isalpha_ne_end c0 h0
  have hc : p.current = c0 := hcur
  cases ht : t1 ++ [end_char] with
  | nil => simp at ht
  | cons y t =>
    rw [ht] at hiss
    have hah : p.ahead = y := ahead_of_cons p hne y t hiss
    have hu2 : p.isUnit2 p.current p.ahead = true := by
      unfold isUnit2
      rw [hc, h0]
      rfl
    have hscan := scanUnit_plain p (c0 :: t1) end_char [] (by rw [hcur]; exact hesc)
      halpha (by decide)
      (by
        rw [hcur, hiss, ← ht]
        rfl)
    exact parseFactor_of_unit p g Rep.one_point_zero p (p.at_end (c0 :: t1).length) _
      (by rw [hcur]; exact isalpha_not_mem c0 h0 ['('] (by decide) ∘ fun e => by rw [e]; simp)
      (by
        unfold isPrefixedUnit
        rw [hu2]
        simp)
      hpfx
      (by rw [hcur]; exact isalpha_not_mem c0 h0 ['1'] (by decide) ∘ fun e => by rw [e]; simp)
      hu2 hscan (show isInteger end_char = false by decide)

theorem started_eq (self : quantity_parser_t R) (c0 : Char) (t1 : List Char)
    (hh : default_strip_set.contains c0 = false)
    (hl : ∀ c, (c0 :: t1).getLast? = some c → default_strip_set.contains c = false) :
    (self.initialize_ (c0 :: t1)).advance.current_char = c0 ∧
    (self.started (c0 :: t1)).current_char = c0 ∧
    (self.started (c0 :: t1)).iss = t1 ++ [end_char] ∧
    (self.started (c0 :: t1)).escape_char = self.escape_char ∧
    (self.started (c0 :: t1)).ext_units = self.ext_units ∧
    (self.started (c0 :: t1)).dimless_quantities = self.dimless_quantities ∧
    (self.started (c0 :: t1)).current_pos = 1 ∧
    (self.started (c0 :: t1)).num_value = Rep.one_point_zero := by
  have hstrip : strip (c0 :: t1) default_strip_set = c0 :: t1 :=
    strip_of_clean _ (by simp)
      (fun c hc => by
        simp only [List.head?_cons, Option.some.injEq] at hc
        rw [← hc]
        exact hh) hl
  have hinit := initialize_advance_eq self (c0 :: t1) c0 t1 hstrip
  unfold started
  rw [hinit]
  exact ⟨rfl, rfl, rfl, rfl, rfl, rfl, rfl, rfl⟩

/-- A text that is one unit name of letters, in front of which `parsePrefix` reads
no prefix: `parseInput` is the lookup of the name, multiplied by 1.0 for the
prefix and by 1.0 for the numerical value. -/
theorem parseInput_plain_unit (self : quantity_parser_t R) (g : registry R)
    (c0 : Char) (t1 : List Char)
    (halpha : ∀ x ∈ c0 :: t1, isalpha x = true)
    (hre : isReal c0 = false) (hesc : c0 ≠ self.escape_char)
    (hpfx : (self.started (c0 :: t1)).parsePrefix =
      (.ok Rep.one_point_zero, self.started (c0 :: t1))) :
    self.parseInput g (c0 :: t1) =
      match unit g (String.mk (c0 :: t1)) self.ext_units with
      | (.ok u, g1) =>
        .ok (operator_scalar_mul Rep.one_point_zero (operator_scalar_mul Rep.one_point_zero u))
          { (self.started (c0 :: t1)).at_end (c0 :: t1).length with
            pfx_factor := (operator_div_scalar
              (operator_scalar_mul Rep.one_point_zero
                (operator_scalar_mul Rep.one_point_zero u)) Rep.one_point_zero).value } g1
      | (.error e, g1) => .error e ((self.started (c0 :: t1)).at_end (c0 :: t1).length) g1 := by
  have h0 := halpha c0 (List.mem_cons_self _ _)
  obtain ⟨hc0, hcur, hiss, hescape, hext, _, _, hnum⟩ := started_eq self c0 t1
    (isalpha_not_strip c0 h0)
    (fun c hc => isalpha_not_strip c (halpha c (List.mem_of_mem_getLast? hc)))
  have hsp : isspace (self.initialize_ (c0 :: t1)).advance.current_char = false := by
    rw [hc0]
    exact isalpha_not_isspace c0 h0
  have hre2 : isReal (self.initialize_ (c0 :: t1)).advance.current_char = false := by
    rw [hc0]
    exact hre
  have hfac := parseFactor_plain_unit (self.started (c0 :: t1)) g c0 t1 halpha
    (by rw [hescape]; exact hesc) hcur hiss hpfx
  rw [hext] at hfac
  cases hu : unit g (String.mk (c0 :: t1)) self.ext_units with
  | mk r g1 =>
    rw [hu] at hfac
    cases r with
    | ok u =>
      rw [parseInput_single_factor_ok self g (c0 :: t1) _ _ g1 hsp hre2 hfac rfl]
      show parse_result.ok _ { (self.started (c0 :: t1)).at_end (c0 :: t1).length with
        pfx_factor := (operator_div_scalar _
          ((self.started (c0 :: t1)).at_end (c0 :: t1).length).numerical_value).value } g1 = _
      have hnv : ((self.started (c0 :: t1)).at_end (c0 :: t1).length).numerical_value =
          Rep.one_point_zero := hnum
      rw [hnv]
    | error e =>
      rw [parseInput_single_factor_error self g (c0 :: t1) e _ g1 hsp hre2 hfac]

theorem to_quantity_of_parseInput_ok (g : registry R) (text : String) (extunits dimless : Bool)
    (q : quantity R) (pf : quantity_parser_t R) (g1 : registry R)
    (h : ((quantity_parser_t.mk0.extend extunits).dimensionless dimless).parseInput g
      text.toList = .ok q pf g1) :
    to_quantity g text extunits dimless = .ok q pf g1 ∧
    make_quantity g text extunits dimless = .ok (q, pf.numerical_value) pf g1 := by
  unfold to_quantity make_quantity parse
  rw [h]
  exact ⟨rfl, rfl⟩

/-- A text that is one of the names `cd`, `kg`, `mo...`, `mi...`, `Pa`, `Gy`:
`to_quantity` is the lookup of the whole name, multiplied twice by 1.0. -/
theorem to_quantity_collision (g : registry R) (extunits dimless : Bool)
    (c1 c2 : Char) (t2 : List Char)
    (hpair : (c1, c2) ∈ [('c', 'd'), ('k', 'g'), ('m', 'o'), ('m', 'i'), ('P', 'a'),
      ('G', 'y')])
    (halpha : ∀ x ∈ c1 :: c2 :: t2, isalpha x = true)
    (u : quantity R) (g1 : registry R)
    (hu : unit g (String.mk (c1 :: c2 :: t2)) extunits = (.ok u, g1)) :
    ∃ pf : quantity_parser_t R,
      to_quantity g (String.mk (c1 :: c2 :: t2)) extunits dimless =
        .ok (operator_scalar_mul Rep.one_point_zero
          (operator_scalar_mul Rep.one_point_zero u)) pf g1 := by
  have hc1 : isReal c1 = false ∧ c1 ≠ '!' := by
    simp only [List.mem_cons, List.mem_singleton, List.not_mem_nil, or_false,
      Prod.mk.injEq] at hpair
    rcases hpair with h | h | h | h | h | h <;> rw [h.1] <;> exact ⟨by decide, by decide⟩
  have h0 := halpha c1 (List.mem_cons_self _ _)
  obtain ⟨_, hcur, hiss, _⟩ :=
    started_eq ((quantity_parser_t.mk0.extend extunits).dimensionless dimless : quantity_parser_t R)
      c1 (c2 :: t2) (isalpha_not_strip c1 h0)
      (fun c hc => isalpha_not_strip c (halpha c (List.mem_of_mem_getLast? hc)))
  have hpfx := parsePrefix_collision _ c1 c2 (t2 ++ [end_char]) hpair hcur hiss
  have hin := parseInput_plain_unit
    ((quantity_parser_t.mk0.extend extunits).dimensionless dimless : quantity_parser_t R) g
    c1 (c2 :: t2) halpha hc1.1 hc1.2 hpfx
  have hext : ((quantity_parser_t.mk0.extend extunits).dimensionless dimless :
      quantity_parser_t R).ext_units = extunits := rfl
  rw [hext, hu] at hin
  exact ⟨_, (to_quantity_of_parseInput_ok g (String.mk (c1 :: c2 :: t2)) extunits dimless
    _ _ g1 hin).1⟩

end parser_steps

section collision_names

open quantity_parser_t

variable {R : Type} [Rep R]

/-- Claim C18: for each of the names `cd`, `kg`, `mol`, `min`, `Pa` and `Gy`,
`parsePrefix` returns the factor 1.0 and leaves the scanner where it is when the
text at the cursor starts with the name; `unit( name )` is `candela()`,
`kilogram()`, `mole()`, `minute()`, `pascal()`, `gray()`, and
`to_quantity( name )` is that unit multiplied by 1.0 for the prefix and by 1.0 for
the numerical value, which is the unit itself when `1.0 * x` is `x`. -/
theorem C18_collision_names (name : String) (u : quantity R)
    (hname : (name, u) ∈ [("cd", candela), ("kg", kilogram), ("mol", mole), ("min", minute),
      ("Pa", pascal), ("Gy", gray)]) :
    (∀ (p : quantity_parser_t R) (rest : List Char),
      p.current_char :: p.iss = name.toList ++ rest →
      p.parsePrefix = (.ok Rep.one_point_zero, p)) ∧
    (∀ (g : registry R) (extunits dimless : Bool),
      unit g name extunits = (.ok u, g) ∧
      ∃ pf : quantity_parser_t R,
        to_quantity g name extunits dimless =
          .ok (operator_scalar_mul Rep.one_point_zero
            (operator_scalar_mul Rep.one_point_zero u)) pf g ∧
        ((∀ x : R, Rep.mul Rep.one_point_zero x = x) →
          to_quantity g name extunits dimless = .ok u pf g)) := by
  have hum : (get_umap : unitmap R) = predefined_units := by
    unfold get_umap
    rfl
  have key : ∀ (c1 c2 : Char) (t2 : List Char),
      (c1, c2) ∈ [('c', 'd'), ('k', 'g'), ('m', 'o'), ('m', 'i'), ('P', 'a'), ('G', 'y')] →
      (∀ x ∈ c1 :: c2 :: t2, isalpha x = true) →
      map_find (predefined_units : unitmap R) (String.mk (c1 :: c2 :: t2)) = some u →
      (∀ (p : quantity_parser_t R) (rest : List Char),
        p.current_char :: p.iss = (c1 :: c2 :: t2) ++ rest →
        p.parsePrefix = (.ok Rep.one_point_zero, p)) ∧
      (∀ (g : registry R) (extunits dimless : Bool),
        unit g (String.mk (c1 :: c2 :: t2)) extunits = (.ok u, g) ∧
        ∃ pf : quantity_parser_t R,
          to_quantity g (String.mk (c1 :: c2 :: t2)) extunits dimless =
            .ok (operator_scalar_mul Rep.one_point_zero
              (operator_scalar_mul Rep.one_point_zero u)) pf g ∧
          ((∀ x : R, Rep.mul Rep.one_point_zero x = x) →
            to_quantity g (String.mk (c1 :: c2 :: t2)) extunits dimless = .ok u pf g)) := by
    intro c1 c2 t2 hpair halpha hfind
    refine ⟨?_, ?_⟩
    · intro p rest hcur
      simp only [List.cons_append, List.cons.injEq] at hcur
      exact parsePrefix_collision p c1 c2 (t2 ++ rest) hpair hcur.1 hcur.2
    · intro g extunits dimless
      have hu : unit g (String.mk (c1 :: c2 :: t2)) extunits = (.ok u, g) :=
        unit_of_predefined g _ extunits u (by rw [hum]; exact hfind)
      obtain ⟨pf, hpf⟩ := to_quantity_collision g extunits dimless c1 c2 t2 hpair halpha u g hu
      refine ⟨hu, pf, hpf, ?_⟩
      intro hone
      rw [hpf]
      have hq : operator_scalar_mul Rep.one_point_zero
          (operator_scalar_mul Rep.one_point_zero u) = u := by
        cases u
        simp [operator_scalar_mul, hone, quantity.value, quantity.dimension]
      rw [hq]
  have hfind : ∀ (n : String) (f : quantity R),
      (n, f) ∈ [("cd", candela), ("kg", kilogram), ("mol", mole), ("min", minute),
        ("Pa", pascal), ("Gy", gray)] →
      map_find (predefined_units : unitmap R) n = some f := by
    intro n f h
    rw [predefined_units_eq]
    simp only [List.mem_cons, List.mem_singleton, List.not_mem_nil, or_false,
      Prod.mk.injEq] at h
    rcases h with h | h | h | h | h | h <;> obtain ⟨h1, h2⟩ := h <;> subst h1 <;> subst h2 <;>
      simp [map_find]
  have hf := hfind name u hname
  simp only [List.mem_cons, List.mem_singleton, List.not_mem_nil, or_false,
    Prod.mk.injEq] at hname
  rcases hname with h | h | h | h | h | h <;> obtain ⟨h1, h2⟩ := h <;> subst h1
  · exact key 'c' 'd' [] (by decide) (by decide) hf
  · exact key 'k' 'g' [] (by decide) (by decide) hf
  · exact key 'm' 'o' ['l'] (by decide) (by decide) hf
  · exact key 'm' 'i' ['n'] (by decide) (by decide) hf
  · exact key 'P' 'a' [] (by decide) (by decide) hf
  · exact key 'G' 'y' [] (by decide) (by decide) hf

end collision_names

/-- Witness of claim C18 in exact arithmetic: `to_quantity( "kg" )` is
`kilogram()`, not kilo applied to a unit `g`. -/
theorem C18_collision_names_witness :
    (to_quantity (registry.initial : registry Rat) "kg" false false).value? = some kilogram ∧
    unit (registry.initial : registry Rat) "kg" false = (.ok kilogram, registry.initial) := by
  have h := (C18_collision_names (R := Rat) "kg" kilogram (by simp)).2 registry.initial false false
  obtain ⟨hu, pf, _, hq⟩ := h
  refine ⟨?_, hu⟩
  rw [hq (fun x => by show (Rep.one_point_zero : Rat) * x = x; rw [show (Rep.one_point_zero : Rat) = 1 by decide!]; exact one_mul x)]
  rfl

/-! ## The escape character -/

section escaped_units

open quantity_parser_t

variable {R : Type} [Rep R]

theorem not_isspace_not_strip (x : Char) (h : isspace x = false) :
    default_strip_set.contains x = false := by
  cases hc : default_strip_set.contains x with
  | false => rfl
  | true =>
    have hm : x ∈ default_strip_set := by simpa using hc
    have hall : ∀ c ∈ default_strip_set, isspace c = true := by decide
    rw [hall x hm] at h
    exact absurd h (by simp)

theorem not_isReal_ne_one (x : Char) (h : isReal x = false) : x ≠ '1' := by
  intro e
  rw [e] at h
  exact absurd h (by decide)

theorem at_end_add (p : quantity_parser_t R) (c : Char) (rest : List Char) (k : Nat) :
    ({ p with current_pos := p.current_pos + 1, current_char := c, iss := rest } :
      quantity_parser_t R).at_end k = p.at_end (1 + k) := by
  unfold at_end
  simp only [Nat.add_assoc]

/-- The member `parsePrefix` at the escape character: no prefix. -/
theorem parsePrefix_escape (p : quantity_parser_t R) (h : p.current_char = p.escape_char) :
    p.parsePrefix = (.ok Rep.one_point_zero, p) := by
  unfold parsePrefix
  have hb : p.isEscape p.current = true := by
    show (p.current_char == p.escape_char) = true
    simp [h]
  rw [if_pos hb]

/-- A factor that is the escape character and a name of letters up to the end of
the text: the lookup of the name, multiplied by 1.0. -/
theorem parseFactor_escaped_unit (p : quantity_parser_t R) (g : registry R)
    (n0 : Char) (nt : List Char)
    (halpha : ∀ x ∈ n0 :: nt, isalpha x = true)
    (hesc : p.current_char = p.escape_char)
    (hc2 : isReal p.current_char = false)
    (hc4 : p.current_char ≠ '(') (hc5 : p.current_char ≠ end_char)
    (hiss : p.iss = n0 :: nt ++ [end_char]) :
    p.parseFactor g =
      match unit g (String.mk (n0 :: nt)) p.ext_units with
      | (.ok u, g1) =>
        .ok (operator_scalar_mul Rep.one_point_zero u) (p.at_end (1 + (n0 :: nt).length)) g1
      | (.error e, g1) => .error e (p.at_end (1 + (n0 :: nt).length)) g1 := by
  have h0 := halpha n0 (List.mem_cons_self _ _)
  have hah : p.ahead = n0 := ahead_of_cons p hc5 n0 (nt ++ [end_char]) hiss
  have hu2 : p.isUnit2 p.current p.ahead = true := by
    unfold isUnit2 isEscape
    rw [hah, h0]
    show (isalpha p.current_char || (p.current_char == p.escape_char && true) ||
      (p.current_char == '\'' && n0 == 'C')) = true
    simp [hesc]
  have hscan := scanUnit_escaped p (n0 :: nt) end_char [] hesc hc5 halpha (by decide)
    hiss
  have hst : ({ p with current_char := end_char, iss := [],
                       current_pos := p.current_pos + 1 + (n0 :: nt).length } :
      quantity_parser_t R) = p.at_end (1 + (n0 :: nt).length) := by
    unfold at_end
    simp only [Nat.add_assoc]
  rw [hst] at hscan
  exact parseFactor_of_unit p g Rep.one_point_zero p _ _ hc4
    (by
      unfold isPrefixedUnit
      rw [hu2]
      simp)
    (parsePrefix_escape p hesc) (not_isReal_ne_one _ hc2) hu2 hscan
    (show isInteger end_char = false by decide)

theorem prefix_of_has_prefix (code : String) (h : has_prefix R code = true) :
    ∃ pfx : R, (prefix_ code : Except quantity_error R) = .ok pfx := by
  unfold has_prefix at h
  unfold prefix_
  cases hf : (prefix_function code : Option R) with
  | some f => exact ⟨f, rfl⟩
  | none =>
    rw [hf] at h
    exact absurd h (by simp)

/-- The member `parsePrefix` at a single-letter prefix that the escape character
follows: the prefix is read. -/
theorem parsePrefix_before_escape (p : quantity_parser_t R) (pc : Char) (rest : List Char)
    (hpc : pc ∈ ['y', 'z', 'a', 'f', 'p', 'n', 'u', 'm', 'c', 'd', 'h', 'k', 'M', 'G', 'T',
      'P', 'Z', 'Y'])
    (hcur : p.current_char = pc) (hiss : p.iss = p.escape_char :: rest)
    (hc1 : isalpha p.escape_char = false) :
    p.parsePrefix = (prefix_ (String.singleton pc), p.advance) ∧
    has_prefix R (String.singleton pc) = true := by
  have hpa : isalpha pc = true := by
    have hall : ∀ x ∈ ['y', 'z', 'a', 'f', 'p', 'n', 'u', 'm', 'c', 'd', 'h', 'k', 'M', 'G',
        'T', 'P', 'Z', 'Y'], isalpha x = true := by decide
    exact hall pc hpc
  have hne : p.current_char ≠ end_char := by
    rw [hcur]
    exact isalpha_ne_end pc hpa
  have hah : p.ahead = p.escape_char := ahead_of_cons p hne _ rest hiss
  have hc : p.current = pc := hcur
  have hcs : p.currentStr = String.singleton pc := by
    unfold currentStr
    rw [hc]
  have hx : ∀ x : Char, isalpha x = true → (x == p.escape_char) = false := by
    intro x hxa
    cases hb : x == p.escape_char with
    | false => rfl
    | true =>
      have he : x = p.escape_char := by simpa using hb
      rw [← he, hxa] at hc1
      exact absurd hc1 (by simp)
  have h1 : p.isEscape pc = false := hx pc hpa
  have h2 : (!(p.isUnit p.escape_char)) = false := by
    unfold isUnit isEscape
    simp
  have hd : ('d' == p.escape_char) = false := hx 'd' (by decide)
  have hg : ('g' == p.escape_char) = false := hx 'g' (by decide)
  have ho : ('o' == p.escape_char) = false := hx 'o' (by decide)
  have hi : ('i' == p.escape_char) = false := hx 'i' (by decide)
  have ha : ('a' == p.escape_char) = false := hx 'a' (by decide)
  have hy : ('y' == p.escape_char) = false := hx 'y' (by decide)
  have hhas : has_prefix R (String.singleton pc) = true := by
    rw [has_prefix_iff_in_table, prefix_function_table_keys]
    simp only [List.mem_cons, List.mem_singleton, List.not_mem_nil, or_false] at hpc
    rcases hpc with h | h | h | h | h | h | h | h | h | h | h | h | h | h | h | h | h | h <;>
      rw [h] <;> decide
  have h10 : (!( has_prefix R (String.singleton pc))) = false := by
    rw [hhas]
    rfl
  refine ⟨?_, hhas⟩
  unfold parsePrefix
  rw [hah, hc, hcs]
  simp only [h1, h2, hd, hg, ho, hi, ha, hy, h10, Bool.and_false, Bool.false_eq_true,
    if_false]

/-- A factor that is a single-letter prefix, the escape character and a name of
letters up to the end of the text: the lookup of the name, multiplied by the
prefix. -/
theorem parseFactor_prefixed_escaped_unit (p : quantity_parser_t R) (g : registry R)
    (pc : Char) (n0 : Char) (nt : List Char)
    (hpc : pc ∈ ['y', 'z', 'a', 'f', 'p', 'n', 'u', 'm', 'c', 'd', 'h', 'k', 'M', 'G', 'T',
      'P', 'Z', 'Y'])
    (halpha : ∀ x ∈ n0 :: nt, isalpha x = true)
    (hc1 : isalpha p.escape_char = false)
    (hc2 : isReal p.escape_char = false)
    (hc5 : p.escape_char ≠ end_char)
    (hcur : p.current_char = pc)
    (hiss : p.iss = p.escape_char :: (n0 :: nt ++ [end_char])) :
    ∃ pfx : R, (prefix_ (String.singleton pc) : Except quantity_error R) = .ok pfx ∧
      p.parseFactor g =
        match unit g (String.mk (n0 :: nt)) p.ext_units with
        | (.ok u, g1) =>
          .ok (operator_scalar_mul pfx u) (p.at_end (1 + (1 + (n0 :: nt).length))) g1
        | (.error e, g1) => .error e (p.at_end (1 + (1 + (n0 :: nt).length))) g1 := by
  have hpa : isalpha pc = true := by
    have hall : ∀ x ∈ ['y', 'z', 'a', 'f', 'p', 'n', 'u', 'm', 'c', 'd', 'h', 'k', 'M', 'G',
        'T', 'P', 'Z', 'Y'], isalpha x = true := by decide
    exact hall pc hpc
  have hne : p.current_char ≠ end_char := by
    rw [hcur]
    exact isalpha_ne_end pc hpa
  have h0 := halpha n0 (List.mem_cons_self _ _)
  obtain ⟨hpp, hhas⟩ := parsePrefix_before_escape p pc _ hpc hcur hiss hc1
  obtain ⟨pfx, hpfx⟩ := prefix_of_has_prefix (R := R) (String.singleton pc) hhas
  rw [hpfx] at hpp
  have hadv := advance_of_cons p hne _ _ hiss
  have hah : p.ahead = p.escape_char := ahead_of_cons p hne _ _ hiss
  have hu2 : p.isUnit2 p.current p.ahead = true := by
    unfold isUnit2
    show (isalpha p.current_char || _ || _) = true
    rw [hcur, hpa]
    rfl
  have ha1 : p.advance.current_char = p.advance.escape_char := by rw [hadv]
  have ha2 : p.advance.iss = n0 :: nt ++ [end_char] := by rw [hadv]
  have ha3 : p.advance.current_char = p.escape_char := by rw [hadv]
  have hah2 : p.advance.ahead = n0 :=
    ahead_of_cons p.advance (by rw [ha3]; exact hc5) n0 (nt ++ [end_char]) ha2
  have hu3 : p.advance.isUnit2 p.advance.current p.advance.ahead = true := by
    unfold isUnit2 isEscape
    rw [hah2, h0]
    show (isalpha p.advance.current_char ||
      (p.advance.current_char == p.advance.escape_char && true) ||
      (p.advance.current_char == '\'' && n0 == 'C')) = true
    simp [ha1]
  have hscan := scanUnit_escaped p.advance (n0 :: nt) end_char [] ha1
    (by rw [ha3]; exact hc5) halpha (by decide) ha2
  have hst : ({ p.advance with current_char := end_char, iss := [],
                               current_pos := p.advance.current_pos + 1 + (n0 :: nt).length } :
      quantity_parser_t R) = p.at_end (1 + (1 + (n0 :: nt).length)) := by
    rw [hadv]
    unfold at_end
    simp only [Nat.add_assoc]
  rw [hst] at hscan
  have hext : p.advance.ext_units = p.ext_units := by rw [hadv]
  refine ⟨pfx, hpfx, ?_⟩
  have hres := parseFactor_of_unit p g pfx p.advance _ _
    (by rw [hcur]; exact isalpha_not_mem pc hpa ['('] (by decide) ∘ fun e => by rw [e]; simp)
    (by
      unfold isPrefixedUnit
      rw [hu2]
      simp)
    hpp (by rw [ha3]; exact not_isReal_ne_one _ hc2) hu3 hscan
    (show isInteger end_char = false by decide)
  rw [hext] at hres
  exact hres

theorem parse_of_parseInput_ok (self : quantity_parser_t R) (g : registry R) (text : String)
    (q : quantity R) (pf : quantity_parser_t R) (g1 : registry R)
    (h : self.parseInput g text.toList = .ok q pf g1) :
    self.parse g text = .ok q pf g1 := by
  unfold parse
  rw [h]

theorem parse_of_parseInput_error (self : quantity_parser_t R) (g : registry R)
    (text : String) (e : quantity_error) (pf : quantity_parser_t R) (g1 : registry R)
    (h : self.parseInput g text.toList = .error e pf g1) :
    self.parse g text =
      .error (.quantity_parser_error ("quantity: parsing unit '" ++ text ++ "': " ++ e.what)
        pf.input_text pf.input_position) pf g1 := by
  unfold parse
  rw [h]

/-- A text that is one factor without a number: `parse` in terms of the result of
`parseFactor`. -/
theorem parse_single_factor (self : quantity_parser_t R) (g : registry R) (c0 : Char)
    (t1 : List Char)
    (hsp : isspace c0 = false) (hre : isReal c0 = false)
    (hl : ∀ c, (c0 :: t1).getLast? = some c → default_strip_set.contains c = false)
    (pfx : R) (k : Nat)
    (r : Except quantity_error (quantity R) × registry R)
    (hfac : (self.started (c0 :: t1)).parseFactor g =
      match r with
      | (.ok u, g1) => .ok (operator_scalar_mul pfx u) ((self.started (c0 :: t1)).at_end k) g1
      | (.error e, g1) => .error e ((self.started (c0 :: t1)).at_end k) g1) :
    (∀ u g1, r = (.ok u, g1) →
      ∃ pf : quantity_parser_t R, self.parse g (String.mk (c0 :: t1)) =
        .ok (operator_scalar_mul Rep.one_point_zero (operator_scalar_mul pfx u)) pf g1) ∧
    (∀ e g1, r = (.error e, g1) →
      ∃ pf : quantity_parser_t R, self.parse g (String.mk (c0 :: t1)) =
        .error (.quantity_parser_error
          ("quantity: parsing unit '" ++ String.mk (c0 :: t1) ++ "': " ++ e.what)
          pf.input_text pf.input_position) pf g1) := by
  obtain ⟨hc0, _⟩ := started_eq self c0 t1 (not_isspace_not_strip c0 hsp) hl
  have hsp2 : isspace (self.initialize_ (c0 :: t1)).advance.current_char = false := by
    rw [hc0]
    exact hsp
  have hre2 : isReal (self.initialize_ (c0 :: t1)).advance.current_char = false := by
    rw [hc0]
    exact hre
  refine ⟨?_, ?_⟩
  · intro u g1 hr
    rw [hr] at hfac
    exact ⟨_, parse_of_parseInput_ok self g (String.mk (c0 :: t1)) _ _ g1
      (parseInput_single_factor_ok self g (c0 :: t1) _ _ g1 hsp2 hre2 hfac rfl)⟩
  · intro e g1 hr
    rw [hr] at hfac
    exact ⟨_, parse_of_parseInput_error self g (String.mk (c0 :: t1)) e _ g1
      (parseInput_single_factor_error self g (c0 :: t1) e _ g1 hsp2 hre2 hfac)⟩

end escaped_units

section escape_character

open quantity_parser_t

variable {R : Type} [Rep R]

/-- Claim C20, amended: let the escape character `c` be no letter, no character of
a number (digit, `.`, `+`, `-`), no white space, not `(` and not `#`, and let `n`
be a name of letters.  Parsing `c n` is the lookup `unit( n )` with prefix factor
1.0, also when `n` starts with a prefix letter: the result is
`1.0 * (1.0 * unit( n ))`, or the error of the lookup as a
`quantity_parser_error`.  For each single-letter prefix `p` other than `E`,
parsing `p c n` gives `1.0 * (prefix( p ) * unit( n ))`. -/
theorem C20_escaped_unit (self : quantity_parser_t R) (g : registry R) (c : Char)
    (n0 : Char) (nt : List Char)
    (halpha : ∀ x ∈ n0 :: nt, isalpha x = true)
    (hc1 : isalpha c = false) (hc2 : isReal c = false) (hc3 : isspace c = false)
    (hc4 : c ≠ '(') (hc5 : c ≠ end_char) :
    (∀ u g1, unit g (String.mk (n0 :: nt)) self.ext_units = (.ok u, g1) →
      (∃ pf : quantity_parser_t R, (self.escape c).parse g (String.mk (c :: n0 :: nt)) =
        .ok (operator_scalar_mul Rep.one_point_zero
          (operator_scalar_mul Rep.one_point_zero u)) pf g1) ∧
      ∀ pc ∈ ['y', 'z', 'a', 'f', 'p', 'n', 'u', 'm', 'c', 'd', 'h', 'k', 'M', 'G', 'T', 'P',
          'Z', 'Y'],
        ∃ (pfx : R) (pf : quantity_parser_t R),
          (prefix_ (String.singleton pc) : Except quantity_error R) = .ok pfx ∧
          (self.escape c).parse g (String.mk (pc :: c :: n0 :: nt)) =
            .ok (operator_scalar_mul Rep.one_point_zero (operator_scalar_mul pfx u)) pf g1) ∧
    (∀ e g1, unit g (String.mk (n0 :: nt)) self.ext_units = (.error e, g1) →
      (∃ pf : quantity_parser_t R, (self.escape c).parse g (String.mk (c :: n0 :: nt)) =
        .error (.quantity_parser_error
          ("quantity: parsing unit '" ++ String.mk (c :: n0 :: nt) ++ "': " ++ e.what)
          pf.input_text pf.input_position) pf g1) ∧
      ∀ pc ∈ ['y', 'z', 'a', 'f', 'p', 'n', 'u', 'm', 'c', 'd', 'h', 'k', 'M', 'G', 'T', 'P',
          'Z', 'Y'],
        ∃ pf : quantity_parser_t R,
          (self.escape c).parse g (String.mk (pc :: c :: n0 :: nt)) =
            .error (.quantity_parser_error
              ("quantity: parsing unit '" ++ String.mk (pc :: c :: n0 :: nt) ++ "': "
                ++ e.what)
              pf.input_text pf.input_position) pf g1) := by
  have hlast1 : ∀ x, (c :: n0 :: nt).getLast? = some x →
      default_strip_set.contains x = false := by
    intro x hx
    have hx2 : (n0 :: nt).getLast? = some x := by
      rw [List.getLast?_cons_cons] at hx
      exact hx
    exact isalpha_not_strip x (halpha x (List.mem_of_mem_getLast? hx2))
  have hlast2 : ∀ pc x, (pc :: c :: n0 :: nt).getLast? = some x →
      default_strip_set.contains x = false := by
    intro pc x hx
    rw [List.getLast?_cons_cons] at hx
    exact hlast1 x hx
  -- the text `c n`
  obtain ⟨_, hcur1, hiss1, hesc1, hext1, _⟩ :=
    started_eq (self.escape c) c (n0 :: nt) (not_isspace_not_strip c hc3) hlast1
  have hescc : (self.escape c).escape_char = c := rfl
  have hextc : (self.escape c).ext_units = self.ext_units := rfl
  have hf1 := parseFactor_escaped_unit ((self.escape c).started (c :: n0 :: nt)) g n0 nt halpha
    (by rw [hcur1, hesc1, hescc]) (by rw [hcur1]; exact hc2) (by rw [hcur1]; exact hc4)
    (by rw [hcur1]; exact hc5) hiss1
  rw [hext1, hextc] at hf1
  have hp1 := parse_single_factor (self.escape c) g c (n0 :: nt) hc3 hc2 hlast1
    Rep.one_point_zero _ (unit g (String.mk (n0 :: nt)) self.ext_units) hf1
  -- the text `p c n`
  have hp2 : ∀ pc ∈ ['y', 'z', 'a', 'f', 'p', 'n', 'u', 'm', 'c', 'd', 'h', 'k', 'M', 'G', 'T',
      'P', 'Z', 'Y'],
      ∃ pfx : R, (prefix_ (String.singleton pc) : Except quantity_error R) = .ok pfx ∧
      (∀ u g1, unit g (String.mk (n0 :: nt)) self.ext_units = (.ok u, g1) →
        ∃ pf : quantity_parser_t R, (self.escape c).parse g (String.mk (pc :: c :: n0 :: nt)) =
          .ok (operator_scalar_mul Rep.one_point_zero (operator_scalar_mul pfx u)) pf g1) ∧
      (∀ e g1, unit g (String.mk (n0 :: nt)) self.ext_units = (.error e, g1) →
        ∃ pf : quantity_parser_t R, (self.escape c).parse g (String.mk (pc :: c :: n0 :: nt)) =
          .error (.quantity_parser_error
            ("quantity: parsing unit '" ++ String.mk (pc :: c :: n0 :: nt) ++ "': " ++ e.what)
            pf.input_text pf.input_position) pf g1) := by
    intro pc hpc
    have hall : ∀ x ∈ ['y', 'z', 'a', 'f', 'p', 'n', 'u', 'm', 'c', 'd', 'h', 'k', 'M', 'G',
        'T', 'P', 'Z', 'Y'], isalpha x = true ∧ isReal x = false := by decide
    obtain ⟨hpa, hpr⟩ := hall pc hpc
    obtain ⟨_, hcur2, hiss2, hesc2, hext2, _⟩ :=
      started_eq (self.escape c) pc (c :: n0 :: nt) (isalpha_not_strip pc hpa) (hlast2 pc)
    obtain ⟨pfx, hpfx, hf2⟩ := parseFactor_prefixed_escaped_unit
      ((self.escape c).started (pc :: c :: n0 :: nt)) g pc n0 nt hpc halpha
      (by rw [hesc2, hescc]; exact hc1) (by rw [hesc2, hescc]; exact hc2)
      (by rw [hesc2, hescc]; exact hc5) hcur2 (by rw [hiss2, hesc2, hescc]; rfl)
    rw [hext2, hextc] at hf2
    have hp := parse_single_factor (self.escape c) g pc (c :: n0 :: nt)
      (isalpha_not_isspace pc hpa) hpr (hlast2 pc) pfx _
      (unit g (String.mk (n0 :: nt)) self.ext_units) hf2
    exact ⟨pfx, hpfx, hp.1, hp.2⟩
  refine ⟨?_, ?_⟩
  · intro u g1 hu
    refine ⟨hp1.1 u g1 hu, ?_⟩
    intro pc hpc
    obtain ⟨pfx, hpfx, hok, _⟩ := hp2 pc hpc
    obtain ⟨pf, hpf⟩ := hok u g1 hu
    exact ⟨pfx, pf, hpfx, hpf⟩
  · intro e g1 hu
    refine ⟨hp1.2 e g1 hu, ?_⟩
    intro pc hpc
    obtain ⟨pfx, hpfx, _, herr⟩ := hp2 pc hpc
    exact herr e g1 hu

end escape_character

/-- Witness of claim C20, amended, in exact arithmetic: with the default escape
character and unit extension, `!foo` is the new unit `foo` and `k!foo` is 1000
times that unit, while `foo` is femto applied to a new unit `oo`. -/
theorem C20_escaped_unit_witness :
    (∃ (pf : quantity_parser_t Rat) (g1 : registry Rat),
      ((quantity_parser_t.mk0.extend true).escape '!').parse registry.initial "!foo" =
        .ok ⟨extra_d 0, 1⟩ pf g1) ∧
    (∃ (pf : quantity_parser_t Rat) (g1 : registry Rat),
      ((quantity_parser_t.mk0.extend true).escape '!').parse registry.initial "k!foo" =
        .ok ⟨extra_d 0, 1000⟩ pf g1) ∧
    ((to_quantity (registry.initial : registry Rat) "foo" true false).value? =
      some ⟨extra_d 0, 1 / 10 ^ 15⟩) := by
  have hu : unit (registry.initial : registry Rat) (String.mk ('f' :: ['o', 'o']))
      (quantity_parser_t.mk0.extend true : quantity_parser_t Rat).ext_units =
      (.ok (quantity_x 0), (unit (registry.initial : registry Rat) "foo" true).2) := by
    have h1 : (unit (registry.initial : registry Rat) "foo" true).1.toOption =
        some (quantity_x 0) := by decide!
    show unit (registry.initial : registry Rat) "foo" true = _
    cases hr : unit (registry.initial : registry Rat) "foo" true with
    | mk r g1 =>
      rw [hr] at h1
      cases r with
      | ok q =>
        simp only [Except.toOption, Option.some.injEq] at h1
        rw [h1]
      | error e => simp [Except.toOption] at h1
  have h := (C20_escaped_unit (R := Rat) (quantity_parser_t.mk0.extend true) registry.initial
    '!' 'f' ['o', 'o'] (by decide) (by decide) (by decide) (by decide) (by decide)
    (by decide)).1 _ _ hu
  obtain ⟨⟨pf1, h1⟩, h2⟩ := h
  obtain ⟨pfx, pf2, hpfx, h3⟩ := h2 'k' (by decide)
  have hk : (prefix_ (String.singleton 'k') : Except quantity_error Rat) = .ok 1000 := by
    show Except.ok (Rep.ofScientific 1 false 3 : Rat) = _
    have hrat : ∀ (m : Nat) (s : Bool) (e : Nat), (Rep.ofScientific m s e : Rat) =
        if s then (m : Rat) / 10 ^ e else (m : Rat) * 10 ^ e := fun _ _ _ => rfl
    rw [hrat]
    norm_num
  rw [hk] at hpfx
  have hpfx2 : pfx = 1000 := by
    injection hpfx with h4
    exact h4.symm
  subst hpfx2
  have hq1 : operator_scalar_mul (Rep.one_point_zero : Rat)
      (operator_scalar_mul Rep.one_point_zero (quantity_x 0)) = ⟨extra_d 0, 1⟩ := by decide!
  have hq2 : operator_scalar_mul (Rep.one_point_zero : Rat)
      (operator_scalar_mul 1000 (quantity_x 0)) = ⟨extra_d 0, 1000⟩ := by decide!
  rw [hq1] at h1
  rw [hq2] at h3
  exact ⟨⟨pf1, _, h1⟩, ⟨pf2, _, h3⟩, by decide!⟩

/-- Counterexample to claim C20 as stated, in exact arithmetic: with `(` as the
escape character and unit extension, parsing `(foo` does not look up the unit
`foo`; the parenthesis opens a sub-expression, `foo` is read as femto applied to a
new unit `oo`, and the parse fails for want of `)`. -/
theorem C20_escape_parenthesis_counterexample :
    isalpha '(' = false ∧
    (((quantity_parser_t.mk0.extend true).escape '(' : quantity_parser_t Rat).parse
      registry.initial "(foo").error? =
      some (.quantity_parser_error
        "quantity: parsing unit '(foo': quantity: expecting ')'" "(foo" 5) := by
  decide!

/-! ## More concrete texts -/

/-- Claim C23 fails in the code: `s` is a predefined unit and the grammar of the
parser has `1` as a unit that `/` follows, with the numerical value optional, yet
`to_quantity( "1/s" )` throws.  `parseNumericalValue` reads the `1` as the
numerical value, and what is left, `/s`, does not start with a unit.  With a
numerical value in front, `33 1/s`, the text is the quantity 33 per second; with
the option for dimensionless quantities the text `1/s` is read as the number 1
divided by `s`. -/
theorem C23_reciprocal_without_value_fails :
    map_find (get_umap : unitmap Rat) "s" = some ⟨time_interval_d, 1⟩ ∧
    (make_quantity (registry.initial : registry Rat) "33 1/s" false false).value? =
      some (⟨reciprocal time_interval_d, 33⟩, 33) ∧
    (to_quantity (registry.initial : registry Rat) "1/s" false false).error? =
      some (.quantity_parser_error
        "quantity: parsing unit '1/s': expecting unit at position 2, got: '/'" "1/s" 2) ∧
    (make_quantity (registry.initial : registry Rat) "1/s" false true).value? =
      some (⟨reciprocal time_interval_d, 1⟩, 1) := by
  decide!

/-- Claim C26 fails in the code: the text `m#abc` is stripped to itself, the
top-level expression ends after `m`, and the characters `#abc` remain, yet `parse`
returns the quantity 1 m.  The end of the text is marked by appending `#`, and a
`#` of the text itself is taken for that mark: `accept( end_char )` succeeds and
the rest is never looked at.  The witness of the claim holds: `(m)a` is garbage at
position 4. -/
theorem C26_text_after_end_mark_accepted :
    strip "m#abc".toList default_strip_set = "m#abc".toList ∧
    (make_quantity (registry.initial : registry Rat) "m#abc" false false).value? =
      some (⟨length_d, 1⟩, 1) ∧
    (to_quantity (registry.initial : registry Rat) "m abc" false false).error?.isSome = true ∧
    (to_quantity (registry.initial : registry Rat) "(m)a" false false).error? =
      some (.quantity_parser_error
        "quantity: parsing unit '(m)a': garbage at position 4: 'a'" "(m)a" 4) := by
  decide!

/-- Claim C28 fails in the code: the leading numeric tokens `1.2.3` and `--5` are
not floating-point numbers, yet `to_quantity( "1.2.3 m" )` returns 1.2 m and
`to_quantity( "--5 m" )` returns 0 m.  `scanReal` collects every character of
`.eE+-` and the digits and `to_real` converts with `strtod( text, 0 )`, which
takes the longest initial part that is a number (none: 0) and whose end pointer is
not asked for. -/
theorem C28_malformed_number_accepted :
    (make_quantity (registry.initial : registry Rat) "1.2.3 m" false false).value? =
      some (⟨length_d, 6 / 5⟩, 6 / 5) ∧
    (make_quantity (registry.initial : registry Rat) "--5 m" false false).value? =
      some (⟨length_d, 0⟩, 0) ∧
    (make_quantity (registry.initial : registry Rat) "1.2 m" false false).value? =
      some (⟨length_d, 6 / 5⟩, 6 / 5) := by
  decide!

/-- Claim C30 fails in the code: after parsing `45 km/h` the member
`prefix_factor()` is 5/18 (0.2777...), not the factor 1000 of the prefix `k`.
`parseInput` sets it to the magnitude of the quantity divided by the numerical
value, which holds the magnitudes of the units (3600 for `h`) as well; the comment
of `prefix_factor` calls it the k in v km/h.  After `45 km` it is 1000. -/
theorem C30_prefix_factor_holds_unit_magnitudes :
    (prefix_ "k" : Except quantity_error Rat) = .ok 1000 ∧
    (match ((quantity_parser_t.mk0.extend false).dimensionless false).parse
        (registry.initial : registry Rat) "45 km/h" with
      | .ok q p _ => some (q, p.numerical_value, p.prefix_factor)
      | _ => none) = some (⟨quotient length_d time_interval_d, 25 / 2⟩, 45, 5 / 18) ∧
    (match ((quantity_parser_t.mk0.extend false).dimensionless false).parse
        (registry.initial : registry Rat) "45 km" with
      | .ok q p _ => some (q, p.numerical_value, p.prefix_factor)
      | _ => none) = some (⟨length_d, 45000⟩, 45, 1000) := by
  refine ⟨?_, by decide!, by decide!⟩
  show Except.ok (Rep.ofScientific 1 false 3 : Rat) = _
  have hrat : ∀ (m : Nat) (s : Bool) (e : Nat), (Rep.ofScientific m s e : Rat) =
      if s then (m : Rat) / 10 ^ e else (m : Rat) * 10 ^ e := fun _ _ _ => rfl
  rw [hrat]
  norm_num

/-! ## Errors of a term -/

section term_errors

open quantity_parser_t

variable {R : Type} [Rep R]

theorem parseTermLoop_consecutive
    (factor : quantity_parser_t R → registry R → parse_result R (quantity R))
    (fuel : Nat) (lhs : quantity R) (sc : Nat) (p : quantity_parser_t R) (g : registry R)
    (h1 : isOperator p.current_char = true) (h2 : isOperator p.ahead = true) :
    parseTermLoop factor fuel lhs sc p g =
      .error (.quantity_parser_error
        ("consecutive operators at position " ++ toString p.input_position ++ ": '"
          ++ p.currentStr ++ "' and '" ++ p.aheadStr ++ "'")
        p.input_text p.input_position) p g := by
  have hb : ¬ (!(isOperator p.current)) = true := by
    show ¬ (!(isOperator p.current_char)) = true
    simp [h1]
  cases fuel with
  | zero => rw [parseTermLoop_zero, if_neg hb, if_pos h2]
  | succ fuel1 => rw [parseTermLoop_succ, if_neg hb, if_pos h2]

/-- Claim C25: where `parseTerm` finds an operator character (blank, `.` or `/`)
and the next character is an operator character too, whichever of the nine pairs
it is, it throws the `quantity_parser_error` "consecutive operators"; this holds
after the first factor of a term and after every later factor, and `parse` then
throws a `quantity_parser_error`. -/
theorem C25_consecutive_operators
    (factor : quantity_parser_t R → registry R → parse_result R (quantity R))
    (fuel : Nat) (lhs : quantity R) (sc : Nat) (p : quantity_parser_t R) (g : registry R)
    (o1 o2 : Char) (ho1 : o1 ∈ [' ', '.', '/']) (ho2 : o2 ∈ [' ', '.', '/'])
    (h1 : p.current_char = o1) (h2 : p.ahead = o2) :
    parseTermLoop factor fuel lhs sc p g =
      .error (.quantity_parser_error
        ("consecutive operators at position " ++ toString p.input_position ++ ": '"
          ++ p.currentStr ++ "' and '" ++ p.aheadStr ++ "'")
        p.input_text p.input_position) p g ∧
    (∀ (p0 : quantity_parser_t R) (g0 : registry R),
      p0.parseFactor g0 = .ok lhs p g →
      p0.parseTerm g0 =
        .error (.quantity_parser_error
          ("consecutive operators at position " ++ toString p.input_position ++ ": '"
            ++ p.currentStr ++ "' and '" ++ p.aheadStr ++ "'")
          p.input_text p.input_position) p g) ∧
    (∀ (self : quantity_parser_t R) (g0 : registry R) (text : String) (e : quantity_error),
      self.parseInput g0 text.toList = .error e p g →
      self.parse g0 text =
        .error (.quantity_parser_error ("quantity: parsing unit '" ++ text ++ "': " ++ e.what)
          p.input_text p.input_position) p g) := by
  have hall : ∀ o ∈ [' ', '.', '/'], isOperator o = true := by decide
  have hc := parseTermLoop_consecutive factor fuel lhs sc p g
    (by rw [h1]; exact hall o1 ho1) (by rw [h2]; exact hall o2 ho2)
  refine ⟨hc, ?_, ?_⟩
  · intro p0 g0 hf
    unfold parseTerm parseTerm_with
    rw [hf]
    exact parseTermLoop_consecutive _ _ lhs 0 p g
      (by rw [h1]; exact hall o1 ho1) (by rw [h2]; exact hall o2 ho2)
  · intro self g0 text e hin
    exact parse_of_parseInput_error self g0 text e p g hin

end term_errors

/-- Witness of claim C25, from the input tests and in exact arithmetic: `m..m`
throws, and so does `m` followed by each of the nine pairs of operator characters
and `m`. -/
theorem C25_consecutive_operators_witness :
    (to_quantity (registry.initial : registry Rat) "m..m" false false).error? =
      some (.quantity_parser_error
        "quantity: parsing unit 'm..m': consecutive operators at position 2: '.' and '.'"
        "m..m" 2) ∧
    (∀ o1 ∈ [' ', '.', '/'], ∀ o2 ∈ [' ', '.', '/'],
      (to_quantity (registry.initial : registry Rat) (String.mk ['m', o1, o2, 'm'])
        false false).error?.isSome = true) ∧
    parseTermLoop (quantity_parser_t.parseFactor) 0 (meter : quantity Rat) 0
      { (quantity_parser_t.mk0 : quantity_parser_t Rat) with
        current_char := '.', iss := ['.', 'm', '#'] } registry.initial =
      .error (.quantity_parser_error
        "consecutive operators at position 0: '.' and '.'" "" 0)
        { (quantity_parser_t.mk0 : quantity_parser_t Rat) with
          current_char := '.', iss := ['.', 'm', '#'] } registry.initial := by
  refine ⟨by decide!, by decide!, ?_⟩
  exact (C25_consecutive_operators (R := Rat) quantity_parser_t.parseFactor 0 meter 0
    { (quantity_parser_t.mk0 : quantity_parser_t Rat) with
      current_char := '.', iss := ['.', 'm', '#'] } registry.initial '.' '.'
    (by decide) (by decide) rfl rfl).1

section unit_one

open quantity_parser_t

variable {R : Type} [Rep R]

/-- The member `parsePrefix` at a character that is no letter: no prefix is read. -/
theorem parsePrefix_not_alpha (p : quantity_parser_t R) (h : isalpha p.current_char = false) :
    p.parsePrefix = (.ok Rep.one_point_zero, p) := by
  have hx : ∀ x : Char, isalpha x = true → (p.current == x) = false := by
    intro x hxa
    cases hb : p.current == x with
    | false => rfl
    | true =>
      have he : p.current_char = x := by simpa using hb
      rw [he, hxa] at h
      exact absurd h (by simp)
  have hhas : has_prefix R p.currentStr = false := by
    cases hb : has_prefix R p.currentStr with
    | false => rfl
    | true =>
      rw [has_prefix_iff_in_table, prefix_function_table_keys] at hb
      have hk : ∀ s ∈ ["m", "k", "u", "M", "n", "G", "p", "T", "f", "P", "a", "E", "z", "Z",
          "y", "Y", "h", "da", "d", "c"], ∀ c : Char, s = String.singleton c →
          isalpha c = true := by
        intro s hs c hsc
        simp only [List.mem_cons, List.mem_singleton, List.not_mem_nil, or_false] at hs
        have hd : s.data = [c] := by rw [hsc]; rfl
        rcases hs with e | e | e | e | e | e | e | e | e | e | e | e | e | e | e | e | e | e |
          e | e <;> rw [e] at hd <;>
          (have hce : c = _ := (List.cons.inj hd.symm).1
           rw [hce]
           decide)
      have := hk _ hb p.current_char rfl
      rw [this] at h
      exact absurd h (by simp)
  unfold parsePrefix
  refine ite_same _ _ _ ?_
  refine ite_same _ _ _ ?_
  rw [hx 'c' (by decide), hx 'k' (by decide), hx 'm' (by decide), hx 'P' (by decide),
    hx 'G' (by decide), hx 'd' (by decide), hhas]
  rfl

/-- Claim C22: where a unit is expected and the current character is `1` while the
next one is not `/`, `parseUnit` throws a `quantity_parser_error` (expecting 1/u
construct), and so does `parseFactor` there, whatever the options; the exception
passes through `parseTerm`, both for the first factor of a term and for a factor
after an operator. -/
theorem C22_one_without_solidus (p : quantity_parser_t R) (g : registry R)
    (h1 : p.current_char = '1') (h2 : p.ahead ≠ '/') :
    ∃ e : quantity_error, e.is_quantity_parser_error = true ∧
      p.parseUnit g = .error e p g ∧
      (∀ fuel, parseFactorAux fuel p g = .error e p g) ∧
      p.parseFactor g = .error e p g ∧
      p.parseTerm g = .error e p g ∧
      (∀ (p0 : quantity_parser_t R) (fuel : Nat) (lhs : quantity R),
        isOperator p0.current_char = true → isOperator p0.ahead = false →
        p0.advance = p →
        parseTermLoop parseFactor (fuel + 1) lhs 0 p0 g = .error e p g) := by
  have hu : p.parseUnit g = .error (.quantity_parser_error
        ("expecting 1/u construct at position " ++ toString p.current_pos ++ ", got: '1"
          ++ (if end_char == p.ahead then "[nothing]" else p.aheadStr) ++ "'")
        p.input_text p.input_position) p g := by
    unfold parseUnit
    have hb1 : (p.current == '1') = true := by
      show (p.current_char == '1') = true
      simp [h1]
    have hb2 : (p.ahead != '/') = true := by simpa using h2
    rw [if_pos hb1, if_pos hb2]
  have hpre : p.parsePrefix = (.ok Rep.one_point_zero, p) :=
    parsePrefix_not_alpha p (by rw [h1]; decide)
  have hfa : ∀ fuel, parseFactorAux fuel p g = .error (.quantity_parser_error
        ("expecting 1/u construct at position " ++ toString p.current_pos ++ ", got: '1"
          ++ (if end_char == p.ahead then "[nothing]" else p.aheadStr) ++ "'")
        p.input_text p.input_position) p g := by
    intro fuel
    rw [parseFactorAux_of_unit fuel p g (by rw [h1]; decide)
      (by
        unfold isPrefixedUnit
        have hb1 : (p.current == '1') = true := by
          show (p.current_char == '1') = true
          simp [h1]
        rw [hb1]
        simp), hpre]
    show (match p.parseUnit g with
      | .ok u p2 g2 =>
        .ok (p2.parsePower (operator_scalar_mul Rep.one_point_zero u)).1
          (p2.parsePower (operator_scalar_mul Rep.one_point_zero u)).2 g2
      | .error e p2 g2 => .error e p2 g2
      | .out_of_fuel => .out_of_fuel : parse_result R (quantity R)) = _
    rw [hu]
  have hf : p.parseFactor g = _ := hfa (p.iss.length + 1)
  refine ⟨.quantity_parser_error _ _ _, rfl, hu, hfa, hf,
    parseTerm_of_factor_error p g _ p g hf, ?_⟩
  intro p0 fuel lhs hop hah hadv
  have hb : ¬ (!(isOperator p0.current)) = true := by
    show ¬ (!(isOperator p0.current_char)) = true
    simp [hop]
  rw [parseTermLoop_succ, if_neg hb, if_neg (by simp [hah]), hadv, hf]
  by_cases hmul : (p0.current == ' ' || p0.current == '.') = true
  · rw [if_pos hmul]
  · rw [if_neg hmul, if_neg (by decide)]

end unit_one

/-- Witness of claim C22, from the input tests and in exact arithmetic: in `7 1k`
the `1` stands where a unit is expected and `k` follows; the parse throws. -/
theorem C22_one_without_solidus_witness :
    (to_quantity (registry.initial : registry Rat) "7 1k" false false).error? =
      some (.quantity_parser_error
        ("quantity: parsing unit '7 1k': expecting 1/u construct at position 3, got: '1k'")
        "7 1k" 3) ∧
    ∃ e : quantity_error, e.is_quantity_parser_error = true ∧
      quantity_parser_t.parseFactor
        { (quantity_parser_t.mk0 : quantity_parser_t Rat) with
          current_char := '1', iss := ['k', '#'] } registry.initial =
        .error e { (quantity_parser_t.mk0 : quantity_parser_t Rat) with
          current_char := '1', iss := ['k', '#'] } registry.initial := by
  refine ⟨by decide!, ?_⟩
  obtain ⟨e, he, _, _, hf, _⟩ := C22_one_without_solidus (R := Rat)
    { (quantity_parser_t.mk0 : quantity_parser_t Rat) with
      current_char := '1', iss := ['k', '#'] } registry.initial rfl (by decide)
  exact ⟨e, he, hf⟩

section solidus

open quantity_parser_t

variable {R : Type} [Rep R]

/-- Claim C24, amended: in the loop of `parseTerm` a `/` that is met while the
count of solidi is 1 or more throws the `quantity_parser_error` "repetition of
solidus"; the count is 1 after a division, so a term `a/b/...` throws at the
second `/`; a blank or `.` sets the count back to 0, whatever it was, so the next
`/` of the same term is accepted. -/
theorem C24_repeated_solidus
    (factor : quantity_parser_t R → registry R → parse_result R (quantity R))
    (fuel : Nat) (lhs : quantity R) (p : quantity_parser_t R) (g : registry R)
    (hcur : p.current_char = '/') (hah : isOperator p.ahead = false) :
    (∀ sc, 1 ≤ sc →
      parseTermLoop factor (fuel + 1) lhs sc p g =
        .error (.quantity_parser_error
          ("repetition of solidus at position " ++ toString p.current_pos
            ++ ": use parenthesis to avoid ambiguity")
          p.input_text p.input_position) p g) ∧
    (∀ (p0 : quantity_parser_t R) (g0 : registry R) (lhs0 : quantity R),
      p0.current_char = '/' → isOperator p0.ahead = false →
      factor p0.advance g0 = .ok lhs p g →
      parseTermLoop factor (fuel + 2) lhs0 0 p0 g0 =
        .error (.quantity_parser_error
          ("repetition of solidus at position " ++ toString p.current_pos
            ++ ": use parenthesis to avoid ambiguity")
          p.input_text p.input_position) p g) ∧
    (∀ (p0 : quantity_parser_t R) (g0 : registry R) (lhs0 : quantity R) (sc : Nat),
      (p0.current_char = ' ' ∨ p0.current_char = '.') → isOperator p0.ahead = false →
      factor p0.advance g0 = .ok lhs p g →
      ∀ (rhs : quantity R) (p1 : quantity_parser_t R) (g1 : registry R),
        factor p.advance g = .ok rhs p1 g1 →
        parseTermLoop factor (fuel + 2) lhs0 sc p0 g0 =
          parseTermLoop factor fuel
            (operator_div_assign (operator_mul_assign lhs0 lhs) rhs) 1 p1 g1) := by
  have hop : isOperator p.current = true := by
    show isOperator p.current_char = true
    rw [hcur]
    decide
  have hnm : ¬ (p.current == ' ' || p.current == '.') = true := by
    show ¬ (p.current_char == ' ' || p.current_char == '.') = true
    rw [hcur]
    decide
  have hstep : ∀ (f1 : Nat) (l : quantity R) (sc : Nat),
      (1 ≤ sc → parseTermLoop factor (f1 + 1) l sc p g =
        .error (.quantity_parser_error
          ("repetition of solidus at position " ++ toString p.current_pos
            ++ ": use parenthesis to avoid ambiguity")
          p.input_text p.input_position) p g) ∧
      (∀ (rhs : quantity R) (p1 : quantity_parser_t R) (g1 : registry R),
        factor p.advance g = .ok rhs p1 g1 →
        parseTermLoop factor (f1 + 1) l 0 p g =
          parseTermLoop factor f1 (operator_div_assign l rhs) 1 p1 g1) := by
    intro f1 l sc
    have h := parseTermLoop_succ factor f1 l sc p g
    rw [if_neg (by simp [hop]), if_neg (by simp [hah]), if_neg hnm] at h
    have h0 := parseTermLoop_succ factor f1 l 0 p g
    rw [if_neg (by simp [hop]), if_neg (by simp [hah]), if_neg hnm, if_neg (by decide)] at h0
    refine ⟨?_, ?_⟩
    · intro hsc
      rw [h, if_pos (by omega)]
    · intro rhs p1 g1 hf
      rw [h0, hf]
  refine ⟨?_, ?_, ?_⟩
  · intro sc hsc
    exact (hstep fuel lhs sc).1 hsc
  · intro p0 g0 lhs0 hc0 hah0 hfac
    have hop0 : isOperator p0.current = true := by
      show isOperator p0.current_char = true
      rw [hc0]
      decide
    have hnm0 : ¬ (p0.current == ' ' || p0.current == '.') = true := by
      show ¬ (p0.current_char == ' ' || p0.current_char == '.') = true
      rw [hc0]
      decide
    rw [parseTermLoop_succ, if_neg (by simp [hop0]), if_neg (by simp [hah0]), if_neg hnm0,
      if_neg (by decide), hfac]
    exact (hstep fuel (operator_div_assign lhs0 lhs) (0 + 1)).1 (by decide)
  · intro p0 g0 lhs0 sc hc0 hah0 hfac rhs p1 g1 hf2
    have hop0 : isOperator p0.current = true := by
      show isOperator p0.current_char = true
      rcases hc0 with h | h <;> rw [h] <;> decide
    have hm0 : (p0.current == ' ' || p0.current == '.') = true := by
      show (p0.current_char == ' ' || p0.current_char == '.') = true
      rcases hc0 with h | h <;> rw [h] <;> decide
    rw [parseTermLoop_succ, if_neg (by simp [hop0]), if_neg (by simp [hah0]), if_pos hm0, hfac]
    exact (hstep fuel (operator_mul_assign lhs0 lhs) 0).2 rhs p1 g1 hf2

end solidus

/-- Witness of claim C24, amended, from the input tests and in exact arithmetic:
`m/s/s` throws at the second solidus. -/
theorem C24_repeated_solidus_witness :
    (to_quantity (registry.initial : registry Rat) "m/s/s" false false).error? =
      some (.quantity_parser_error
        ("quantity: parsing unit 'm/s/s': repetition of solidus at position 4: "
          ++ "use parenthesis to avoid ambiguity") "m/s/s" 4) ∧
    parseTermLoop (quantity_parser_t.parseFactor) 1 (meter : quantity Rat) 1
      { (quantity_parser_t.mk0 : quantity_parser_t Rat) with
        current_char := '/', iss := ['s', '#'] } registry.initial =
      .error (.quantity_parser_error
        "repetition of solidus at position 0: use parenthesis to avoid ambiguity" "" 0)
        { (quantity_parser_t.mk0 : quantity_parser_t Rat) with
          current_char := '/', iss := ['s', '#'] } registry.initial := by
  refine ⟨by decide!, ?_⟩
  exact (C24_repeated_solidus (R := Rat) quantity_parser_t.parseFactor 0 meter
    { (quantity_parser_t.mk0 : quantity_parser_t Rat) with
      current_char := '/', iss := ['s', '#'] } registry.initial rfl (by decide)).1 1
    (Nat.le_refl 1)

/-- Counterexample to claim C24 as stated, in exact arithmetic: `m/s.kg/s` holds
two solidi at the same nesting level, with a multiplying operator between them, and
parses to 1 m kg / s2. -/
theorem C24_solidus_after_product_counterexample :
    (to_quantity (registry.initial : registry Rat) "m/s.kg/s" false false).value? =
      some ⟨dimensions.mk7 1 1 (-2) 0 0 0 0, 1⟩ ∧
    (to_quantity (registry.initial : registry Rat) "m/s kg/s" false false).value? =
      some ⟨dimensions.mk7 1 1 (-2) 0 0 0 0, 1⟩ := by
  decide!

/-! ## A number and nothing else -/

section bare_number

open quantity_parser_t

variable {R : Type} [Rep R]

theorem isReal_not_isspace (x : Char) (h : isReal x = true) : isspace x = false := by
  cases hc : isspace x with
  | false => rfl
  | true =>
    have hm : x ∈ [' ', '\t', '\n', Char.ofNat 11, Char.ofNat 12, '\r'] := by
      unfold isspace at hc
      simp only [Bool.or_eq_true, beq_iff_eq] at hc
      simp only [List.mem_cons, List.mem_singleton, List.not_mem_nil, or_false]
      tauto
    have hall : ∀ c ∈ [' ', '\t', '\n', Char.ofNat 11, Char.ofNat 12, '\r'],
        isReal c = false := by decide
    rw [hall x hm] at h
    exact absurd h (by simp)

theorem isReal_ne_end (x : Char) (h : isReal x = true) : x ≠ end_char := by
  intro e
  rw [e] at h
  exact absurd h (by decide)

theorem isspace_ne_end (x : Char) (h : isspace x = true) : x ≠ end_char := by
  intro e
  rw [e] at h
  exact absurd h (by decide)

theorem isspace_not_isReal (x : Char) (h : isspace x = true) : isReal x = false := by
  cases hc : isReal x with
  | false => rfl
  | true =>
    rw [isReal_not_isspace x hc] at h
    exact absurd h (by simp)

/-- The member `parseNumericalValue` on a run `v` of number characters, a run `ws`
of white space and a character `d` that is neither: the value is `to_real( v )`
and the scanner stops at `d`. -/
theorem parseNumericalValue_run (p : quantity_parser_t R) (v0 : Char) (vt ws : List Char)
    (d : Char) (rest : List Char)
    (hv : ∀ x ∈ v0 :: vt, isReal x = true)
    (hws : ∀ x ∈ ws, isspace x = true)
    (hd1 : isspace d = false) (hd2 : ws = [] → isReal d = false)
    (hcur : p.current_char :: p.iss = (v0 :: vt) ++ ws ++ d :: rest) :
    p.parseNumericalValue =
      (detail_to_real (v0 :: vt),
        { p with current_char := d, iss := rest,
                 current_pos := p.current_pos + (v0 :: vt).length + ws.length }) := by
  have h0 := hv v0 (List.mem_cons_self _ _)
  have hc : p.current_char = v0 := by
    simp only [List.cons_append, List.cons.injEq] at hcur
    exact hcur.1
  have hs : p.skip_whitespace = p := by
    unfold skip_whitespace
    rw [scan_while_none isspace p (by rw [hc, isReal_not_isspace v0 h0]; rfl)]
  -- the character after the number
  cases hw : ws ++ d :: rest with
  | nil => simp at hw
  | cons y t =>
    have hy : (isReal y && !(y == end_char)) = false := by
      cases ws with
      | nil =>
        simp only [List.nil_append, List.cons.injEq] at hw
        rw [← hw.1, hd2 rfl]
        rfl
      | cons w wt =>
        simp only [List.cons_append, List.cons.injEq] at hw
        rw [← hw.1, isspace_not_isReal w (hws w (List.mem_cons_self _ _))]
        rfl
    have hscan := scan_while_run isReal y t hy (v0 :: vt) p
      (fun x hx => ⟨hv x hx, isReal_ne_end x (hv x hx)⟩)
      (by rw [hcur, List.append_assoc, hw])
    have hskip := scan_while_run isspace d rest (by rw [hd1]; rfl) ws
      { p with current_char := y, iss := t,
               current_pos := p.current_pos + (v0 :: vt).length }
      (fun x hx => ⟨hws x hx, isspace_ne_end x (hws x hx)⟩) hw.symm
    unfold parseNumericalValue
    rw [hs]
    have hb : isReal p.current = true := by
      show isReal p.current_char = true
      rw [hc]
      exact h0
    rw [if_pos hb]
    unfold scanReal skip_whitespace
    rw [hscan, hskip]

theorem at_end_eq (p : quantity_parser_t R) (k : Nat) :
    ({ p with current_char := end_char, iss := [], current_pos := p.current_pos + k } :
      quantity_parser_t R) = p.at_end k := rfl

/-- The member `parseFactor` at the end of the text: the number 1 when
dimensionless quantities are accepted, otherwise the error that a unit is
expected. -/
theorem parseFactor_at_end (p : quantity_parser_t R) (g : registry R)
    (hc : p.current_char = end_char) (hesc : p.escape_char ≠ end_char) :
    (p.dimless_quantities = true → p.parseFactor g = .ok number p g) ∧
    (p.dimless_quantities = false →
      p.parseFactor g = .error (.quantity_parser_error
        ("expecting unit at position " ++ toString p.current_pos ++ ", got: '" ++ "[nothing]"
          ++ "'")
        p.input_text p.input_position) p g) := by
  have hah : p.ahead = end_char := by
    unfold ahead isEnd
    simp [hc]
  have hcur : p.current = end_char := hc
  have hu2 : p.isUnit2 end_char end_char = false := by
    unfold isUnit2 isEscape
    have he : (end_char == p.escape_char) = false := by simpa using fun e => hesc e.symm
    rw [he]
    decide
  have hpu : p.isPrefixedUnit p.current p.ahead = false := by
    unfold isPrefixedUnit
    rw [hcur, hah, hu2]
    decide
  refine ⟨?_, ?_⟩
  · intro hd
    unfold parseFactor
    cases hf : p.iss.length + 1 with
    | zero => exact absurd hf (by omega)
    | succ f1 =>
      rw [parseFactorAux_succ, accept_false p '(' (by rw [hc]; decide)]
      rw [if_neg (by simp), if_pos (by rw [hd, hpu]; rfl)]
  · intro hd
    have hpre : p.parsePrefix = (.ok Rep.one_point_zero, p) :=
      parsePrefix_not_alpha p (by rw [hc]; decide)
    have hu : p.parseUnit g = .error (.quantity_parser_error
        ("expecting unit at position " ++ toString p.current_pos ++ ", got: '" ++ "[nothing]"
          ++ "'")
        p.input_text p.input_position) p g := by
      unfold parseUnit
      rw [if_neg (by rw [hcur]; decide), if_pos (by rw [hcur, hah, hu2]; rfl)]
      rw [if_pos (by rw [hcur]; decide)]
    unfold parseFactor
    rw [parseFactorAux_of_unit _ p g (by rw [hc]; decide) (by rw [hd]; rfl), hpre]
    show (match p.parseUnit g with
      | .ok u p2 g2 =>
        .ok (p2.parsePower (operator_scalar_mul Rep.one_point_zero u)).1
          (p2.parsePower (operator_scalar_mul Rep.one_point_zero u)).2 g2
      | .error e p2 g2 => .error e p2 g2
      | .out_of_fuel => .out_of_fuel : parse_result R (quantity R)) = _
    rw [hu]

theorem isReal_not_strip (x : Char) (h : isReal x = true) :
    default_strip_set.contains x = false :=
  not_isspace_not_strip x (isReal_not_isspace x h)

/-- The member `parseInput` in terms of the term that follows the numerical
value, when that term ends at the end character. -/
theorem parseInput_of_term_ok (self : quantity_parser_t R) (g : registry R)
    (text_ : List Char) (t : quantity R) (p2 : quantity_parser_t R) (g1 : registry R)
    (hterm : parseTerm
      { (self.initialize_ text_).advance.parseNumericalValue.2 with
        num_value := (self.initialize_ text_).advance.parseNumericalValue.1 } g =
        .ok t p2 g1)
    (hend : p2.current_char = end_char) :
    self.parseInput g text_ =
      .ok (operator_scalar_mul (self.initialize_ text_).advance.parseNumericalValue.1 t)
        { p2 with pfx_factor :=
            (operator_div_scalar
              (operator_scalar_mul (self.initialize_ text_).advance.parseNumericalValue.1 t)
              p2.numerical_value).value } g1 := by
  unfold parseInput parseNumValueExpression
  simp only [hterm]
  rw [accept_of_eq p2 end_char hend, advance_of_end p2 hend]
  rfl

theorem parseInput_of_term_error (self : quantity_parser_t R) (g : registry R)
    (text_ : List Char) (e : quantity_error) (p2 : quantity_parser_t R) (g1 : registry R)
    (hterm : parseTerm
      { (self.initialize_ text_).advance.parseNumericalValue.2 with
        num_value := (self.initialize_ text_).advance.parseNumericalValue.1 } g =
        .error e p2 g1) :
    self.parseInput g text_ = .error e p2 g1 := by
  unfold parseInput parseNumValueExpression
  simp only [hterm]

/-- Claim C27: a text that is a run `v` of number characters and nothing else.
With the option for dimensionless quantities off, `to_quantity` throws a
`quantity_parser_error` that carries the text (a unit is expected at the end);
with the option on, it returns the dimensionless quantity of magnitude
`to_real( v ) * 1.0` and the numerical value is `to_real( v )`, the value that
`strtod` gives the literal. -/
theorem C27_bare_number (g : registry R) (extunits : Bool) (v0 : Char) (vt : List Char)
    (hv : ∀ x ∈ v0 :: vt, isReal x = true) :
    (∃ (msg : String) (pf : quantity_parser_t R),
      to_quantity g (String.mk (v0 :: vt)) extunits false =
        .error (.quantity_parser_error msg (String.mk (v0 :: vt)) (1 + (v0 :: vt).length))
          pf g) ∧
    (∃ pf : quantity_parser_t R,
      make_quantity g (String.mk (v0 :: vt)) extunits true =
        .ok (⟨dimensionless_d, Rep.mul (detail_to_real (v0 :: vt)) Rep.one_point_zero⟩,
          detail_to_real (v0 :: vt)) pf g) := by
  have h0 := hv v0 (List.mem_cons_self _ _)
  have hstrip : strip (v0 :: vt) default_strip_set = v0 :: vt :=
    strip_of_clean _ (by simp)
      (fun c hc => by
        simp only [List.head?_cons, Option.some.injEq] at hc
        rw [← hc]
        exact isReal_not_strip v0 h0)
      (fun c hc => isReal_not_strip c (hv c (List.mem_of_mem_getLast? hc)))
  have key : ∀ self : quantity_parser_t R, self.escape_char = '!' →
      (self.initialize_ (v0 :: vt)).advance.parseNumericalValue.1 = detail_to_real (v0 :: vt) ∧
      ∃ p2 : quantity_parser_t R,
        p2 = { (self.initialize_ (v0 :: vt)).advance.parseNumericalValue.2 with
          num_value := (self.initialize_ (v0 :: vt)).advance.parseNumericalValue.1 } ∧
        p2.current_char = end_char ∧ p2.escape_char = '!' ∧
        p2.dimless_quantities = self.dimless_quantities ∧
        p2.current_pos = 1 + (v0 :: vt).length ∧ p2.text = v0 :: vt ++ [end_char] ∧
        p2.num_value = detail_to_real (v0 :: vt) := by
    intro self hself
    have hinit := initialize_advance_eq self (v0 :: vt) v0 vt hstrip
    have hnum := parseNumericalValue_run (self.initialize_ (v0 :: vt)).advance v0 vt []
      end_char [] hv (by simp) (by decide) (fun _ => by decide) (by rw [hinit]; simp)
    refine ⟨by rw [hnum], _, rfl, ?_, ?_, ?_, ?_, ?_, ?_⟩
    · rw [hnum]
    · rw [hnum, hinit]
      exact hself
    · rw [hnum, hinit]
    · rw [hnum, hinit]
      show 1 + (v0 :: vt).length + ([] : List Char).length = _
      rfl
    · rw [hnum, hinit]
    · rw [hnum]
  refine ⟨?_, ?_⟩
  · obtain ⟨hval, p2, hp2, hc, hesc, hdim, hpos, htext, _⟩ :=
      key ((quantity_parser_t.mk0.extend extunits).dimensionless false) rfl
    have hf := (parseFactor_at_end p2 g hc (by rw [hesc]; decide)).2 hdim
    have hit : p2.input_text = String.mk (v0 :: vt) := by
      unfold input_text
      rw [htext]
      show String.mk ((v0 :: vt) ++ [end_char]).dropLast = _
      rw [List.dropLast_concat]
    have hip : p2.input_position = 1 + (v0 :: vt).length := hpos
    have hterm := parseTerm_of_factor_error p2 g _ p2 g hf
    subst hp2
    have hin := parseInput_of_term_error _ g (v0 :: vt) _ _ g hterm
    have hp := parse_of_parseInput_error
      ((quantity_parser_t.mk0.extend extunits).dimensionless false : quantity_parser_t R)
      g (String.mk (v0 :: vt)) _ _ g hin
    rw [hit, hip] at hp
    unfold to_quantity make_quantity
    rw [hp]
    exact ⟨_, _, rfl⟩
  · obtain ⟨hval, p2, hp2, hc, hesc, hdim, _, _, hnv⟩ :=
      key ((quantity_parser_t.mk0.extend extunits).dimensionless true) rfl
    have hf := (parseFactor_at_end p2 g hc (by rw [hesc]; decide)).1 hdim
    have hterm := parseTerm_of_factor_ok p2 g _ p2 g hf (by rw [hc]; decide)
    have hnv2 : p2.numerical_value = detail_to_real (v0 :: vt) := hnv
    subst hp2
    have hin := parseInput_of_term_ok _ g (v0 :: vt) _ _ g hterm hc
    rw [hval] at hin
    have hp := parse_of_parseInput_ok
      ((quantity_parser_t.mk0.extend extunits).dimensionless true : quantity_parser_t R)
      g (String.mk (v0 :: vt)) _ _ g hin
    unfold make_quantity
    rw [hp]
    exact ⟨_, rfl⟩

end bare_number

/-- Witness of claim C27, from the input tests and the example program, in exact
arithmetic: `to_quantity( "3" )` throws, and with the option for dimensionless
quantities `4` is the number 4 with numerical value 4. -/
theorem C27_bare_number_witness :
    (to_quantity (registry.initial : registry Rat) "3" false false).error? =
      some (.quantity_parser_error
        "quantity: parsing unit '3': expecting unit at position 2, got: '[nothing]'" "3" 2) ∧
    (make_quantity (registry.initial : registry Rat) "4" false true).value? =
      some (⟨dimensionless_d, 4⟩, 4) ∧
    (∃ pf : quantity_parser_t Rat,
      make_quantity (registry.initial : registry Rat) "4" false true =
        .ok (⟨dimensionless_d, Rep.mul (detail_to_real ['4']) Rep.one_point_zero⟩,
          detail_to_real ['4']) pf registry.initial) := by
  exact ⟨by decide!, by decide!,
    (C27_bare_number (R := Rat) registry.initial false '4' [] (by decide)).2⟩

/-! ## Integer powers -/

section powers

open quantity_parser_t

variable {R : Type} [Rep R]

theorem isInteger_ne_end (x : Char) (h : isInteger x = true) : x ≠ end_char := by
  intro e
  rw [e] at h
  exact absurd h (by decide)

/-- The member `parsePower` on a run `lit` of digits and signs that a character `d`
follows which is neither: the quantity is raised to the power that `strtod` and the
conversion to `int` give the run. -/
theorem parsePower_run (p : quantity_parser_t R) (q : quantity R) (l0 : Char)
    (lt : List Char) (d : Char) (rest : List Char)
    (hl : ∀ x ∈ l0 :: lt, isInteger x = true)
    (hd : (isInteger d && !(d == end_char)) = false)
    (hcur : p.current_char :: p.iss = (l0 :: lt) ++ d :: rest) :
    p.parsePower q =
      (nth_power q (static_cast_int (detail_to_real (l0 :: lt) : R)),
        { p with current_char := d, iss := rest,
                 current_pos := p.current_pos + (l0 :: lt).length }) := by
  have hc : p.current_char = l0 := by
    simp only [List.cons_append, List.cons.injEq] at hcur
    exact hcur.1
  have hscan := scan_while_run isInteger d rest hd (l0 :: lt) p
    (fun x hx => ⟨hl x hx, isInteger_ne_end x (hl x hx)⟩) hcur
  unfold parsePower
  have hb : isInteger p.current = true := by
    show isInteger p.current_char = true
    rw [hc]
    exact hl l0 (List.mem_cons_self _ _)
  rw [if_pos hb]
  unfold scanInteger
  rw [hscan]

theorem has_prefix_singleton_false (c : Char) (h : c ∉ prefix_letters) :
    has_prefix R (String.singleton c) = false := by
  cases hb : has_prefix R (String.singleton c) with
  | false => rfl
  | true =>
    rw [has_prefix_iff_in_table, prefix_function_table_keys] at hb
    have hk : ∀ s ∈ ["m", "k", "u", "M", "n", "G", "p", "T", "f", "P", "a", "E", "z", "Z",
        "y", "Y", "h", "da", "d", "c"], ∀ x : Char, s = String.singleton x →
        x ∈ prefix_letters := by
      intro s hs x hsx
      simp only [List.mem_cons, List.mem_singleton, List.not_mem_nil, or_false] at hs
      have hd : s.data = [x] := by rw [hsx]; rfl
      rcases hs with e | e | e | e | e | e | e | e | e | e | e | e | e | e | e | e | e | e |
        e | e <;> rw [e] at hd <;>
        (have hce : x = _ := (List.cons.inj hd.symm).1
         rw [hce]
         decide)
    exact absurd (hk _ hb c rfl) h

/-- The member `parsePrefix` reads no prefix when the next character cannot start
a unit. -/
theorem parsePrefix_no_unit_ahead (p : quantity_parser_t R) (h : p.isUnit p.ahead = false) :
    p.parsePrefix = (.ok Rep.one_point_zero, p) := by
  unfold parsePrefix
  refine ite_same _ _ _ ?_
  rw [if_pos (by rw [h]; rfl)]

/-- The member `parsePrefix` reads no prefix at a letter that is no prefix. -/
theorem parsePrefix_no_prefix_letter (p : quantity_parser_t R)
    (h : p.current_char ∉ prefix_letters) :
    p.parsePrefix = (.ok Rep.one_point_zero, p) := by
  have hd : (p.current == 'd') = false := by
    cases hb : p.current == 'd' with
    | false => rfl
    | true =>
      have he : p.current_char = 'd' := by simpa using hb
      rw [he] at h
      exact absurd h (by decide)
  have hhas : has_prefix R p.currentStr = false := has_prefix_singleton_false _ h
  unfold parsePrefix
  refine ite_same _ _ _ ?_
  refine ite_same _ _ _ ?_
  refine ite_same _ _ _ ?_
  refine ite_same _ _ _ ?_
  refine ite_same _ _ _ ?_
  refine ite_same _ _ _ ?_
  refine ite_same _ _ _ ?_
  refine ite_same _ _ _ ?_
  rw [hd, hhas]
  rfl

/-- The member `scanUnit` on a name of letters and apostrophes that does not
start with the escape character. -/
theorem scanUnit_name (p : quantity_parser_t R) (n : List Char) (d : Char)
    (rest : List Char) (hesc : p.current_char ≠ p.escape_char)
    (hn : ∀ x ∈ n, (x == '\'' || isalpha x) = true)
    (hd : ((d == '\'' || isalpha d) && !(d == end_char)) = false)
    (hcur : p.current_char :: p.iss = n ++ d :: rest) :
    p.scanUnit =
      (String.mk n, { p with current_char := d, iss := rest,
                             current_pos := p.current_pos + n.length }) := by
  unfold scanUnit
  rw [accept_false p p.escape_char hesc]
  rw [scan_while_run (fun c => c == '\'' || isalpha c) d rest hd n p
    (fun x hx => ⟨hn x hx, by
      intro e
      have := hn x hx
      rw [e] at this
      exact absurd this (by decide)⟩) hcur]

/-- A factor that is a prefix and a unit name: `parseFactor` in terms of the lookup
of the name and of `parsePower` at the character after the name. -/
theorem parseFactor_of_unit_power (p : quantity_parser_t R) (g : registry R)
    (pfx : R) (p1 p2 : quantity_parser_t R) (name : String) (u : quantity R)
    (g1 : registry R)
    (h1 : p.current_char ≠ '(')
    (h2 : (p.dimless_quantities && !(p.isPrefixedUnit p.current p.ahead)) = false)
    (hpfx : p.parsePrefix = (.ok pfx, p1))
    (h3 : p1.current_char ≠ '1') (h4 : p1.isUnit2 p1.current p1.ahead = true)
    (hscan : p1.scanUnit = (name, p2))
    (hu : unit g name p1.ext_units = (.ok u, g1)) :
    p.parseFactor g =
      .ok (p2.parsePower (operator_scalar_mul pfx u)).1
        (p2.parsePower (operator_scalar_mul pfx u)).2 g1 := by
  unfold parseFactor
  rw [parseFactorAux_of_unit _ p g h1 h2, hpfx]
  simp only [parseUnit_of_scan p1 g h3 h4, hscan, hu]

theorem plain_unit_name_cases (n : List Char) (h : plain_unit_name n = true) :
    ∃ (c0 : Char) (ut : List Char), n = c0 :: ut ∧
      (∀ x ∈ n, (x == '\'' || isalpha x) = true) ∧ isReal c0 = false ∧
      ((ut = [] ∧ isalpha c0 = true) ∨
        (∃ c1 ut2, ut = c1 :: ut2 ∧ isalpha c0 = true ∧
          ((c0, c1) ∈ [('c', 'd'), ('k', 'g'), ('m', 'o'), ('m', 'i'), ('P', 'a'), ('G', 'y')]
            ∨ c0 ∉ prefix_letters)) ∨
        (∃ ut2, c0 = '\'' ∧ ut = 'C' :: ut2)) := by
  cases n with
  | nil => exact absurd h (by simp [plain_unit_name])
  | cons c0 ut =>
    cases ut with
    | nil =>
      simp only [plain_unit_name, Bool.and_eq_true, Bool.not_eq_true'] at h
      refine ⟨c0, [], rfl, ?_, h.2, Or.inl ⟨rfl, h.1⟩⟩
      intro x hx
      simp only [List.mem_singleton] at hx
      rw [hx, h.1]
      simp
    | cons c1 ut2 =>
      simp only [plain_unit_name, Bool.and_eq_true, Bool.not_eq_true', Bool.or_eq_true,
        List.all_eq_true, beq_iff_eq, decide_eq_true_eq] at h
      obtain ⟨⟨hall, hre⟩, hcase⟩ := h
      refine ⟨c0, c1 :: ut2, rfl, ?_, hre, ?_⟩
      · intro x hx
        have := hall x hx
        simpa using this
      · rcases hcase with ⟨ha, hc⟩ | ⟨h1, h2⟩
        · refine Or.inr (Or.inl ⟨c1, ut2, rfl, ha, ?_⟩)
          rcases hc with hc | hc
          · exact Or.inl hc
          · refine Or.inr ?_
            intro hm
            have : prefix_letters.contains c0 = true := by simpa using hm
            rw [this] at hc
            exact absurd hc (by simp)
        · exact Or.inr (Or.inr ⟨ut2, h1, by rw [h2]⟩)

/-- A factor that is a name `n` as described by `plain_unit_name`, followed by a
character `x` that does not continue a name: the unit `n` is looked up, without
prefix, and `parsePower` goes on at `x`. -/
theorem parseFactor_name (p : quantity_parser_t R) (g : registry R) (n : List Char)
    (x : Char) (rest : List Char) (u : quantity R) (g1 : registry R)
    (hn : plain_unit_name n = true) (hesc : p.escape_char = '!')
    (hx1 : ((x == '\'' || isalpha x) && !(x == end_char)) = false)
    (hx2 : isalpha x = false) (hx3 : x ≠ '!')
    (hcur : p.current_char :: p.iss = n ++ x :: rest)
    (hu : unit g (String.mk n) p.ext_units = (.ok u, g1)) :
    p.parseFactor g =
      .ok (({ p with current_char := x, iss := rest,
                     current_pos := p.current_pos + n.length } : quantity_parser_t R).parsePower
            (operator_scalar_mul Rep.one_point_zero u)).1
        (({ p with current_char := x, iss := rest,
                   current_pos := p.current_pos + n.length } : quantity_parser_t R).parsePower
            (operator_scalar_mul Rep.one_point_zero u)).2 g1 := by
  obtain ⟨c0, ut, hnc, hpred, hre, hcase⟩ := plain_unit_name_cases n hn
  have hc : p.current_char = c0 := by
    rw [hnc] at hcur
    simp only [List.cons_append, List.cons.injEq] at hcur
    exact hcur.1
  have hiss : p.iss = ut ++ x :: rest := by
    rw [hnc] at hcur
    simp only [List.cons_append, List.cons.injEq] at hcur
    exact hcur.2
  have hfacts : c0 ≠ '(' ∧ c0 ≠ '1' ∧ c0 ≠ '!' ∧ c0 ≠ end_char := by
    rcases hcase with ⟨_, ha⟩ | ⟨_, _, _, ha, _⟩ | ⟨_, h1, _⟩
    · exact ⟨isalpha_not_mem c0 ha ['('] (by decide) ∘ fun e => by rw [e]; simp,
        isalpha_not_mem c0 ha ['1'] (by decide) ∘ fun e => by rw [e]; simp,
        isalpha_not_mem c0 ha ['!'] (by decide) ∘ fun e => by rw [e]; simp,
        isalpha_ne_end c0 ha⟩
    · exact ⟨isalpha_not_mem c0 ha ['('] (by decide) ∘ fun e => by rw [e]; simp,
        isalpha_not_mem c0 ha ['1'] (by decide) ∘ fun e => by rw [e]; simp,
        isalpha_not_mem c0 ha ['!'] (by decide) ∘ fun e => by rw [e]; simp,
        isalpha_ne_end c0 ha⟩
    · rw [h1]
      exact ⟨by decide, by decide, by decide, by decide⟩
  obtain ⟨hf1, hf2, hf3, hf4⟩ := hfacts
  have hne : p.current_char ≠ end_char := by rw [hc]; exact hf4
  have hcurr : p.current = c0 := hc
  -- the next character, the prefix and the test for a unit
  have hpu : p.isUnit2 p.current p.ahead = true ∧
      p.parsePrefix = (.ok Rep.one_point_zero, p) := by
    rcases hcase with ⟨hut, ha⟩ | ⟨c1, ut2, hut, ha, hpre⟩ | ⟨ut2, h1, hut⟩
    · rw [hut] at hiss
      have hah : p.ahead = x := ahead_of_cons p hne x rest hiss
      refine ⟨?_, ?_⟩
      · unfold isUnit2
        rw [hcurr, ha]
        rfl
      · apply parsePrefix_no_unit_ahead
        unfold isUnit isEscape
        rw [hah, hesc, hx2]
        simpa using hx3
    · rw [hut] at hiss
      have hah : p.ahead = c1 := ahead_of_cons p hne c1 _ hiss
      refine ⟨?_, ?_⟩
      · unfold isUnit2
        rw [hcurr, ha]
        rfl
      · rcases hpre with hcoll | hnp
        · exact parsePrefix_collision p c0 c1 _ hcoll hc hiss
        · exact parsePrefix_no_prefix_letter p (by rw [hc]; exact hnp)
    · rw [hut] at hiss
      have hah : p.ahead = 'C' := ahead_of_cons p hne 'C' _ hiss
      refine ⟨?_, ?_⟩
      · unfold isUnit2
        rw [hcurr, hah, h1]
        rw [show (('\'' : Char) == '\'' && ('C' : Char) == 'C') = true from by decide]
        simp
      · exact parsePrefix_not_alpha p (by rw [hc, h1]; decide)
  have hscan := scanUnit_name p n x rest (by rw [hc, hesc]; exact hf3) hpred hx1 hcur
  exact parseFactor_of_unit_power p g Rep.one_point_zero p _ _ u g1
    (by rw [hc]; exact hf1)
    (by
      unfold isPrefixedUnit
      rw [hpu.1]
      simp)
    hpu.2 (by rw [hc]; exact hf2) hpu.1 hscan hu

theorem isdigit_isInteger (x : Char) (h : isdigit x = true) : isInteger x = true := by
  unfold isInteger
  rw [h]
  rfl

theorem isdigit_not_alpha (x : Char) (h : isdigit x = true) : isalpha x = false := by
  unfold isdigit Char.isDigit at h
  unfold isalpha Char.isAlpha Char.isUpper Char.isLower
  simp only [Bool.and_eq_true, decide_eq_true_eq, Bool.or_eq_false_iff, Bool.and_eq_false_iff,
    decide_eq_false_iff_not] at h ⊢
  obtain ⟨h1, h2⟩ := h
  have h2n : x.val.toNat ≤ 57 := h2
  refine ⟨Or.inl ?_, Or.inl ?_⟩
  · intro hc
    have hcn : 65 ≤ x.val.toNat := hc
    omega
  · intro hc
    have hcn : 97 ≤ x.val.toNat := hc
    omega

theorem isdigit_facts (x : Char) (h : isdigit x = true) :
    x ≠ '\'' ∧ x ≠ '!' ∧ x ≠ end_char ∧ x ≠ ' ' ∧ x ≠ '\t' ∧ x ≠ '\n' ∧ x ≠ '+' ∧ x ≠ '-' := by
  refine ⟨?_, ?_, ?_, ?_, ?_, ?_, ?_, ?_⟩ <;>
    (intro e
     rw [e] at h
     exact absurd h (by decide))

/-- What the parser finds in a signed integer literal: its characters are digits
and signs, and none of them is a letter, an apostrophe, the escape character, the
end character or a character that `strip` removes. -/
theorem integer_literal_chars (lit : List Char) (h : is_integer_literal lit = true) :
    lit ≠ [] ∧ ∀ x ∈ lit, isInteger x = true ∧ isalpha x = false ∧ x ≠ '\'' ∧ x ≠ '!' ∧
      x ≠ end_char ∧ default_strip_set.contains x = false := by
  have hdig : ∀ ds : List Char, ds.all isdigit = true → ∀ x ∈ ds,
      isInteger x = true ∧ isalpha x = false ∧ x ≠ '\'' ∧ x ≠ '!' ∧
      x ≠ end_char ∧ default_strip_set.contains x = false := by
    intro ds hds x hx
    have hxd : isdigit x = true := (List.all_eq_true.mp hds) x hx
    obtain ⟨f1, f2, f3, f4, f5, f6, _, _⟩ := isdigit_facts x hxd
    refine ⟨isdigit_isInteger x hxd, isdigit_not_alpha x hxd, f1, f2, f3, ?_⟩
    cases hc : default_strip_set.contains x with
    | false => rfl
    | true =>
      have hm : x ∈ default_strip_set := by simpa using hc
      simp only [default_strip_set, List.mem_cons, List.mem_singleton, List.not_mem_nil,
        or_false] at hm
      rcases hm with e | e | e
      · exact absurd e f4
      · exact absurd e f5
      · exact absurd e f6
  have hsign : ∀ c ∈ ['+', '-'], isInteger c = true ∧ isalpha c = false ∧ c ≠ '\'' ∧ c ≠ '!' ∧
      c ≠ end_char ∧ default_strip_set.contains c = false := by decide
  unfold is_integer_literal at h
  split at h
  · rename_i ds
    simp only [Bool.and_eq_true, Bool.not_eq_true', List.isEmpty_eq_false] at h
    refine ⟨by simp, ?_⟩
    intro x hx
    rcases List.mem_cons.mp hx with e | hx2
    · rw [e]
      exact hsign '+' (by decide)
    · exact hdig ds h.2 x hx2
  · rename_i ds
    simp only [Bool.and_eq_true, Bool.not_eq_true', List.isEmpty_eq_false] at h
    refine ⟨by simp, ?_⟩
    intro x hx
    rcases List.mem_cons.mp hx with e | hx2
    · rw [e]
      exact hsign '-' (by decide)
    · exact hdig ds h.2 x hx2
  · simp only [Bool.and_eq_true, Bool.not_eq_true'] at h
    refine ⟨?_, hdig lit h.2⟩
    intro e
    rw [e] at h
    exact absurd h.1 (by simp)

theorem plain_unit_name_last (n : List Char) (hn : plain_unit_name n = true) :
    ∀ c, n.getLast? = some c → default_strip_set.contains c = false := by
  obtain ⟨c0, ut, _, hpred, _, _⟩ := plain_unit_name_cases n hn
  intro c hc
  have hp := hpred c (List.mem_of_mem_getLast? hc)
  cases hs : default_strip_set.contains c with
  | false => rfl
  | true =>
    have hm : c ∈ default_strip_set := by simpa using hs
    have hall : ∀ x ∈ default_strip_set, (x == '\'' || isalpha x) = false := by decide
    rw [hall c hm] at hp
    exact absurd hp (by simp)

theorem plain_unit_name_first (n : List Char) (hn : plain_unit_name n = true) :
    ∃ (c0 : Char) (ut : List Char), n = c0 :: ut ∧ isspace c0 = false ∧ isReal c0 = false := by
  obtain ⟨c0, ut, hnc, hpred, hre, _⟩ := plain_unit_name_cases n hn
  refine ⟨c0, ut, hnc, ?_, hre⟩
  have hp := hpred c0 (by rw [hnc]; exact List.mem_cons_self _ _)
  cases hs : isspace c0 with
  | false => rfl
  | true =>
    have hm : c0 ∈ [' ', '\t', '\n', Char.ofNat 11, Char.ofNat 12, '\r'] := by
      unfold isspace at hs
      simp only [Bool.or_eq_true, beq_iff_eq] at hs
      simp only [List.mem_cons, List.mem_singleton, List.not_mem_nil, or_false]
      tauto
    have hall : ∀ x ∈ [' ', '\t', '\n', Char.ofNat 11, Char.ofNat 12, '\r'],
        (x == '\'' || isalpha x) = false := by decide
    rw [hall c0 hm] at hp
    exact absurd hp (by simp)

/-- The text `n lit` of a unit name and a signed integer literal: `to_quantity` is
the unit raised to the power of the literal. -/
theorem to_quantity_name_power (g : registry R) (extunits dimless : Bool) (n lit : List Char)
    (u : quantity R) (g1 : registry R)
    (hn : plain_unit_name n = true) (hlit : is_integer_literal lit = true)
    (hu : unit g (String.mk n) extunits = (.ok u, g1)) :
    ∃ pf : quantity_parser_t R,
      to_quantity g (String.mk (n ++ lit)) extunits dimless =
        .ok (operator_scalar_mul Rep.one_point_zero
          (nth_power (operator_scalar_mul Rep.one_point_zero u)
            (static_cast_int (detail_to_real lit : R)))) pf g1 := by
  obtain ⟨c0, ut, hnc, hsp, hre⟩ := plain_unit_name_first n hn
  obtain ⟨hlne, hlch⟩ := integer_literal_chars lit hlit
  cases hl : lit with
  | nil => exact absurd hl hlne
  | cons l0 lt =>
    rw [hl] at hlch
    have hl0 := hlch l0 (List.mem_cons_self _ _)
    have htext : n ++ l0 :: lt = c0 :: (ut ++ l0 :: lt) := by rw [hnc]; rfl
    have hlast : ∀ c, (c0 :: (ut ++ l0 :: lt)).getLast? = some c →
        default_strip_set.contains c = false := by
      intro c hc
      rw [← htext, List.getLast?_append_cons, ] at hc
      have hm : c ∈ l0 :: lt := List.mem_of_mem_getLast? hc
      exact (hlch c hm).2.2.2.2.2
    obtain ⟨hc0, hcur, hiss, hescape, hext, _, _, _⟩ :=
      started_eq ((quantity_parser_t.mk0.extend extunits).dimensionless dimless :
        quantity_parser_t R) c0 (ut ++ l0 :: lt) (not_isspace_not_strip c0 hsp) hlast
    rw [htext]
    have hfac := parseFactor_name
      (((quantity_parser_t.mk0.extend extunits).dimensionless dimless :
        quantity_parser_t R).started (c0 :: (ut ++ l0 :: lt))) g n l0 (lt ++ [end_char]) u g1
      hn (by rw [hescape]; rfl)
      (by rw [hl0.2.1]; have := hl0.2.2.1; simp [this]) hl0.2.1 hl0.2.2.2.1
      (by rw [hcur, hiss, hnc]; simp) (by rw [hext]; exact hu)
    have hpow := parsePower_run
      ({ ((quantity_parser_t.mk0.extend extunits).dimensionless dimless :
          quantity_parser_t R).started (c0 :: (ut ++ l0 :: lt)) with
        current_char := l0, iss := lt ++ [end_char],
        current_pos := (((quantity_parser_t.mk0.extend extunits).dimensionless dimless :
          quantity_parser_t R).started (c0 :: (ut ++ l0 :: lt))).current_pos + n.length } :
        quantity_parser_t R)
      (operator_scalar_mul Rep.one_point_zero u) l0 lt end_char []
      (fun x hx => (hlch x hx).1) (by decide) rfl
    rw [hpow] at hfac
    have hin := parseInput_single_factor_ok
      ((quantity_parser_t.mk0.extend extunits).dimensionless dimless : quantity_parser_t R)
      g (c0 :: (ut ++ l0 :: lt)) _ _ g1 (by rw [hc0]; exact hsp) (by rw [hc0]; exact hre)
      hfac rfl
    exact ⟨_, (to_quantity_of_parseInput_ok g (String.mk (c0 :: (ut ++ l0 :: lt))) extunits
      dimless _ _ g1 hin).1⟩

/-- The text of a unit name alone: `to_quantity` is the unit, multiplied twice by
1.0. -/
theorem to_quantity_name (g : registry R) (extunits dimless : Bool) (n : List Char)
    (u : quantity R) (g1 : registry R)
    (hn : plain_unit_name n = true)
    (hu : unit g (String.mk n) extunits = (.ok u, g1)) :
    ∃ pf : quantity_parser_t R,
      to_quantity g (String.mk n) extunits dimless =
        .ok (operator_scalar_mul Rep.one_point_zero
          (operator_scalar_mul Rep.one_point_zero u)) pf g1 := by
  obtain ⟨c0, ut, hnc, hsp, hre⟩ := plain_unit_name_first n hn
  have hlast := plain_unit_name_last n hn
  rw [hnc] at hlast
  obtain ⟨hc0, hcur, hiss, hescape, hext, _, _, _⟩ :=
    started_eq ((quantity_parser_t.mk0.extend extunits).dimensionless dimless :
      quantity_parser_t R) c0 ut (not_isspace_not_strip c0 hsp) hlast
  have hfac := parseFactor_name
    (((quantity_parser_t.mk0.extend extunits).dimensionless dimless :
      quantity_parser_t R).started (c0 :: ut)) g n end_char [] u g1
    hn (by rw [hescape]; rfl) (by decide) (by decide) (by decide)
    (by rw [hcur, hiss, hnc]; simp) (by rw [hext]; exact hu)
  rw [parsePower_none _ _ (show isInteger end_char = false by decide)] at hfac
  have hin := parseInput_single_factor_ok
    ((quantity_parser_t.mk0.extend extunits).dimensionless dimless : quantity_parser_t R)
    g (c0 :: ut) _ _ g1 (by rw [hc0]; exact hsp) (by rw [hc0]; exact hre) hfac rfl
  rw [hnc]
  exact ⟨_, (to_quantity_of_parseInput_ok g (String.mk (c0 :: ut)) extunits dimless
    _ _ g1 hin).1⟩

/-- Every predefined unit name is read by the parser as one unit without
prefix. -/
theorem predefined_names_plain :
    ∀ nm ∈ ["m", "kg", "s", "A", "K", "mol", "cd", "g", "Hz", "N", "Pa", "J", "W", "C", "V",
      "F", "Ohm", "S", "Wb", "T", "H", "'C", "lm", "lx", "Bq", "Gy", "Sv", "d", "min", "h",
      "l"], plain_unit_name nm.toList = true := by
  decide

theorem predefined_name_plain (name : String) (u : quantity R)
    (h : map_find (get_umap : unitmap R) name = some u) :
    plain_unit_name name.toList = true := by
  have hum : (get_umap : unitmap R) = predefined_units := by
    unfold get_umap
    rfl
  rw [hum] at h
  have hm := List.mem_map_of_mem Prod.fst (map_find_mem _ _ _ h)
  rw [predefined_units_eq] at hm
  exact predefined_names_plain name (by simpa using hm)

/-- A parenthesized expression that a signed integer literal follows: the value
of the expression is raised to the power of the literal. -/
theorem parseFactorAux_parenthesis_power (fuel : Nat) (p : quantity_parser_t R)
    (g : registry R) (q : quantity R) (p1 : quantity_parser_t R) (g1 : registry R)
    (l0 : Char) (lt : List Char) (d : Char) (rest : List Char)
    (hl : ∀ x ∈ l0 :: lt, isInteger x = true)
    (hd : (isInteger d && !(d == end_char)) = false)
    (hacc : (p.accept '(').1 = true)
    (hexp : parseExpression_with (parseFactorAux fuel) (p.accept '(').2 g = .ok q p1 g1)
    (hclose : p1.current_char = ')')
    (hiss : p1.iss = (l0 :: lt) ++ d :: rest) :
    parseFactorAux (fuel + 1) p g =
      .ok (nth_power q (static_cast_int (detail_to_real (l0 :: lt) : R)))
        { p1 with current_char := d, iss := rest,
                  current_pos := p1.current_pos + 1 + (l0 :: lt).length } g1 := by
  have hne : p1.current_char ≠ end_char := by
    rw [hclose]
    decide
  have hadv := advance_of_cons p1 hne l0 (lt ++ d :: rest) hiss
  have hexpect : p1.expect ')' = (.ok (), p1.advance) := by
    unfold expect
    rw [if_neg (by
      show ¬ (')' != p1.current_char) = true
      rw [hclose]
      decide)]
  have hpow := parsePower_run p1.advance q l0 lt d rest hl hd (by rw [hadv]; rfl)
  rw [parseFactorAux_succ, if_pos hacc]
  simp only [hexp, hexpect, hpow]
  rw [hadv]

/-- A parenthesized expression that no integer follows: its value is the value of
the factor. -/
theorem parseFactorAux_parenthesis_plain (fuel : Nat) (p : quantity_parser_t R)
    (g : registry R) (q : quantity R) (p1 : quantity_parser_t R) (g1 : registry R)
    (hacc : (p.accept '(').1 = true)
    (hexp : parseExpression_with (parseFactorAux fuel) (p.accept '(').2 g = .ok q p1 g1)
    (hclose : p1.current_char = ')')
    (hnext : isInteger p1.advance.current_char = false) :
    parseFactorAux (fuel + 1) p g = .ok q p1.advance g1 := by
  have hexpect : p1.expect ')' = (.ok (), p1.advance) := by
    unfold expect
    rw [if_neg (by
      show ¬ (')' != p1.current_char) = true
      rw [hclose]
      decide)]
  rw [parseFactorAux_succ, if_pos hacc]
  simp only [hexp, hexpect, parsePower_none p1.advance q hnext]

theorem takeWhile_all (f : Char → Bool) (ds : List Char) (h : ds.all f = true) :
    ds.takeWhile f = ds ∧ ds.dropWhile f = [] := by
  induction ds with
  | nil => exact ⟨rfl, rfl⟩
  | cons a t ih =>
    simp only [List.all_cons, Bool.and_eq_true] at h
    simp [List.takeWhile_cons, List.dropWhile_cons, h.1, ih h.2]

theorem strtod_decimal_of_digits (s : List Char) (neg : Bool) (ds : List Char)
    (hs : strtod_sign s = (neg, ds)) (hne : ds ≠ []) (hall : ds.all isdigit = true) :
    strtod_decimal s = some ⟨neg, digits_value ds, 0⟩ := by
  obtain ⟨ht, hdw⟩ := takeWhile_all isdigit ds hall
  unfold strtod_decimal
  rw [hs]
  simp only [ht, hdw, List.append_nil, hne, false_and, if_false, strtod_exponent,
    List.length_nil]
  rfl

theorem integer_literal_sign (lit : List Char) (h : is_integer_literal lit = true) :
    ∃ (neg : Bool) (ds : List Char), strtod_sign lit = (neg, ds) ∧ ds ≠ [] ∧
      ds.all isdigit = true ∧
      integer_literal_value lit = if neg then -(digits_value ds : Int) else digits_value ds := by
  unfold is_integer_literal at h
  split at h
  · rename_i ds
    simp only [Bool.and_eq_true, Bool.not_eq_true', List.isEmpty_eq_false] at h
    exact ⟨false, ds, rfl, by simpa using h.1, h.2, rfl⟩
  · rename_i ds
    simp only [Bool.and_eq_true, Bool.not_eq_true', List.isEmpty_eq_false] at h
    exact ⟨true, ds, rfl, by simpa using h.1, h.2, rfl⟩
  · rename_i h1 h2
    simp only [Bool.and_eq_true, Bool.not_eq_true'] at h
    refine ⟨false, lit, ?_, ?_, h.2, ?_⟩
    · unfold strtod_sign
      split
      · rename_i t
        exact absurd rfl (h2 t)
      · rename_i t
        exact absurd rfl (h1 t)
      · rfl
    · intro e
      rw [e] at h
      exact absurd h.1 (by simp)
    · unfold integer_literal_value
      split
      · rename_i t
        exact absurd rfl (h1 t)
      · rename_i t
        exact absurd rfl (h2 t)
      · rfl

/-- In exact arithmetic, the integral part of what `strtod` returns for a signed
integer literal is the integer that the literal denotes. -/
theorem integer_literal_toInt (lit : List Char) (h : is_integer_literal lit = true) :
    Rep.toInt (detail_to_real lit : Rat) = integer_literal_value lit := by
  obtain ⟨neg, ds, hs, hne, hall, hval⟩ := integer_literal_sign lit h
  have hd := strtod_decimal_of_digits lit neg ds hs hne hall
  have hsci : (Rep.ofScientific (digits_value ds) (decide ((0 : Int) < 0)) (0 : Int).natAbs : Rat) =
      (digits_value ds : Rat) := by
    show (if decide ((0 : Int) < 0) = true then ((digits_value ds : Nat) : Rat) / 10 ^ (0 : Int).natAbs
      else ((digits_value ds : Nat) : Rat) * 10 ^ (0 : Int).natAbs) = _
    simp
  unfold detail_to_real
  rw [hd, hval]
  simp only [hsci]
  cases neg with
  | false =>
    show Int.tdiv ((digits_value ds : Nat) : Rat).num ((digits_value ds : Nat) : Rat).den = _
    simp
  | true =>
    show Int.tdiv (-((digits_value ds : Nat) : Rat)).num (-((digits_value ds : Nat) : Rat)).den = _
    simp

/-- The conversion `static_cast<int>` of a magnitude whose integral part is a value
of `int` is that integral part. -/
theorem static_cast_int_of_range {R : Type} [Rep R] (x : R) (n : Int)
    (h : Rep.toInt x = n) (h1 : INT_MIN ≤ n) (h2 : n ≤ INT_MAX) :
    static_cast_int x = n := by
  unfold static_cast_int
  rw [h, if_pos ⟨h1, h2⟩]

/-- The conversion `static_cast<int>` of a magnitude whose integral part is no value
of `int` is `INT_MIN`. -/
theorem static_cast_int_outside {R : Type} [Rep R] (x : R)
    (h : ¬ (INT_MIN ≤ Rep.toInt x ∧ Rep.toInt x ≤ INT_MAX)) :
    static_cast_int x = INT_MIN := by
  unfold static_cast_int
  rw [if_neg h]

end powers

section integer_power

open quantity_parser_t

variable {R : Type} [Rep R]

/-- Claim C21, amended: for every predefined unit name, with unit `u`, and every
signed integer literal `lit` written after it that denotes a value of `int`
(from `INT_MIN` to `INT_MAX`), `to_quantity( name lit )` is
`1.0 * nth_power( 1.0 * u, N )`, where `N` is the `int` that `strtod` and
`static_cast<int>` give the literal, which is `nth_power( u, N )` when `1.0 * x` is
`x`; the name alone gives `1.0 * (1.0 * u)`.  A parenthesized expression of value
`q` that the literal follows is the factor `nth_power( q, N )`, and the factor `q`
when no integer follows; `parsePower` returns its argument unchanged when the
current character is no digit and no sign.  `N` is the integer that the literal
denotes whenever the integral part of what `strtod` returns is that integer, as it
is in exact arithmetic. -/
theorem C21_integer_power (g : registry R) (extunits dimless : Bool) (name : String)
    (u : quantity R) (lit : List Char)
    (hname : map_find (get_umap : unitmap R) name = some u)
    (hlit : is_integer_literal lit = true)
    (hrange : INT_MIN ≤ integer_literal_value lit ∧ integer_literal_value lit ≤ INT_MAX) :
    (∃ pf : quantity_parser_t R,
      to_quantity g (name ++ String.mk lit) extunits dimless =
        .ok (operator_scalar_mul Rep.one_point_zero
          (nth_power (operator_scalar_mul Rep.one_point_zero u)
            (static_cast_int (detail_to_real lit : R)))) pf g ∧
      ((∀ x : R, Rep.mul Rep.one_point_zero x = x) →
        to_quantity g (name ++ String.mk lit) extunits dimless =
          .ok (nth_power u (static_cast_int (detail_to_real lit : R))) pf g)) ∧
    (∃ pf : quantity_parser_t R,
      to_quantity g name extunits dimless =
        .ok (operator_scalar_mul Rep.one_point_zero
          (operator_scalar_mul Rep.one_point_zero u)) pf g) ∧
    (∀ (fuel : Nat) (p : quantity_parser_t R) (g0 : registry R) (q : quantity R)
      (p1 : quantity_parser_t R) (g1 : registry R) (d : Char) (rest : List Char),
      (isInteger d && !(d == end_char)) = false →
      (p.accept '(').1 = true →
      parseExpression_with (parseFactorAux fuel) (p.accept '(').2 g0 = .ok q p1 g1 →
      p1.current_char = ')' → p1.iss = lit ++ d :: rest →
      ∃ p3 : quantity_parser_t R, parseFactorAux (fuel + 1) p g0 =
        .ok (nth_power q (static_cast_int (detail_to_real lit : R))) p3 g1) ∧
    (∀ (fuel : Nat) (p : quantity_parser_t R) (g0 : registry R) (q : quantity R)
      (p1 : quantity_parser_t R) (g1 : registry R),
      (p.accept '(').1 = true →
      parseExpression_with (parseFactorAux fuel) (p.accept '(').2 g0 = .ok q p1 g1 →
      p1.current_char = ')' → isInteger p1.advance.current_char = false →
      parseFactorAux (fuel + 1) p g0 = .ok q p1.advance g1) ∧
    (∀ (p : quantity_parser_t R) (q : quantity R),
      isInteger p.current_char = false → p.parsePower q = (q, p)) ∧
    (Rep.toInt (detail_to_real lit : R) = integer_literal_value lit →
      static_cast_int (detail_to_real lit : R) = integer_literal_value lit) ∧
    static_cast_int (detail_to_real lit : Rat) = integer_literal_value lit := by
  have hplain := predefined_name_plain name u hname
  have hu : ∀ ext, unit g (String.mk name.toList) ext = (.ok u, g) := fun ext =>
    unit_of_predefined g name ext u hname
  obtain ⟨hlne, hlch⟩ := integer_literal_chars lit hlit
  refine ⟨?_, ?_, ?_, ?_, ?_,
    fun hconv => static_cast_int_of_range _ _ hconv hrange.1 hrange.2,
    static_cast_int_of_range _ _ (integer_literal_toInt lit hlit) hrange.1 hrange.2⟩
  · obtain ⟨pf, hpf⟩ := to_quantity_name_power g extunits dimless name.toList lit u g hplain
      hlit (hu extunits)
    have htext : name ++ String.mk lit = String.mk (name.toList ++ lit) := by
      apply String.ext
      simp
    rw [htext]
    refine ⟨pf, hpf, ?_⟩
    intro hone
    rw [hpf]
    have h1 : operator_scalar_mul Rep.one_point_zero u = u := by
      cases u
      simp [operator_scalar_mul, hone, quantity.value, quantity.dimension]
    rw [h1]
    have h2 : ∀ q : quantity R, operator_scalar_mul Rep.one_point_zero q = q := by
      intro q
      cases q
      simp [operator_scalar_mul, hone, quantity.value, quantity.dimension]
    rw [h2]
  · exact to_quantity_name g extunits dimless name.toList u g hplain (hu extunits)
  · intro fuel p g0 q p1 g1 d rest hd hacc hexp hclose hiss
    cases hl : lit with
    | nil => exact absurd hl hlne
    | cons l0 lt =>
      rw [hl] at hiss hlch
      exact ⟨_, parseFactorAux_parenthesis_power fuel p g0 q p1 g1 l0 lt d rest
        (fun x hx => (hlch x hx).1) hd hacc hexp hclose hiss⟩
  · intro fuel p g0 q p1 g1 hacc hexp hclose hnext
    exact parseFactorAux_parenthesis_plain fuel p g0 q p1 g1 hacc hexp hclose hnext
  · intro p q h
    exact parsePower_none p q h

end integer_power

/-- Witness of claim C21 in exact arithmetic, with the examples of the claim: `m2`
is the square of the meter, `s-2` the power -2 of the second, and `(4 cm)2` is
0.0016 m2. -/
theorem C21_integer_power_witness :
    (to_quantity (registry.initial : registry Rat) "m2" false false).value? =
      some (nth_power meter 2) ∧
    (to_quantity (registry.initial : registry Rat) "s-2" false false).value? =
      some (nth_power second (-2)) ∧
    (to_quantity (registry.initial : registry Rat) "(4 cm)2" false false).value? =
      some ⟨dimensions.mk7 2 0 0 0 0 0 0, 16 / 10000⟩ ∧
    (to_quantity (registry.initial : registry Rat) "m" false false).value? = some meter := by
  have hone : ∀ x : Rat, Rep.mul Rep.one_point_zero x = x := by
    intro x
    show (Rep.one_point_zero : Rat) * x = x
    rw [show (Rep.one_point_zero : Rat) = 1 by decide!]
    exact one_mul x
  obtain ⟨⟨pf, _, h1⟩, _, _, _, _, _, hint⟩ := C21_integer_power (R := Rat) registry.initial
    false false "m" meter ['2'] (by decide!) (by decide) (by decide)
  have h2 := h1 hone
  rw [hint] at h2
  refine ⟨?_, by decide!, by decide!, by decide!⟩
  rw [show ("m2" : String) = "m" ++ String.mk ['2'] from by decide, h2]
  rfl

/-- The product of a number and a power, by its parts. -/
theorem scalar_mul_nth_power {R : Type} [Rep R] (a : R) (q : quantity R) (N : Int) :
    operator_scalar_mul a (nth_power q N) =
      ⟨power q.m_dim N, Rep.mul a (Rep.pow q.m_value (Rep.ofInt N))⟩ := rfl

/-- The function `nth_power`, by its parts. -/
theorem nth_power_parts {R : Type} [Rep R] (q : quantity R) (N : Int) :
    nth_power q N = ⟨power q.m_dim N, Rep.pow q.m_value (Rep.ofInt N)⟩ := rfl

/-- Every integral power of 1 is 1 in exact arithmetic. -/
theorem rat_pow_one (n : Int) : Rep.pow (1 : Rat) (Rep.ofInt n) = 1 := by
  show (if ((n : Int) : Rat).den = 1 then (1 : Rat) ^ ((n : Int) : Rat).num else 0) = 1
  simp

/-- Counterexample to claim C21 as stated, in exact arithmetic: `4294967297` is a
signed integer literal, of the value 2^32 + 1, which is no value of `int`.  The
conversion `static_cast<int>` of `parsePower` gives `INT_MIN` for it, which the
dimension takes as the exponent 0: `to_quantity( "m4294967297" )` is the
dimensionless 1, while `nth_power( meter, 4294967297 )` is the length 1 m. -/
theorem C21_literal_outside_int_counterexample :
    is_integer_literal ['4', '2', '9', '4', '9', '6', '7', '2', '9', '7'] = true ∧
    integer_literal_value ['4', '2', '9', '4', '9', '6', '7', '2', '9', '7'] = 4294967297 ∧
    ¬ (integer_literal_value ['4', '2', '9', '4', '9', '6', '7', '2', '9', '7'] ≤ INT_MAX) ∧
    static_cast_int
      (detail_to_real ['4', '2', '9', '4', '9', '6', '7', '2', '9', '7'] : Rat) = INT_MIN ∧
    (to_quantity (registry.initial : registry Rat) "m4294967297" false false).value? =
      some ⟨dimensionless_d, 1⟩ ∧
    nth_power (meter : quantity Rat) 4294967297 = ⟨length_d, 1⟩ ∧
    (to_quantity (registry.initial : registry Rat) "m4294967297" false false).value? ≠
      some (nth_power meter 4294967297) := by
  have hum : (get_umap : unitmap Rat) = predefined_units := by
    unfold get_umap
    rfl
  have hfind : map_find (get_umap : unitmap Rat) "m" = some meter := by
    rw [hum, predefined_units_eq]
    rfl
  have hcast : static_cast_int
      (detail_to_real ['4', '2', '9', '4', '9', '6', '7', '2', '9', '7'] : Rat) = INT_MIN := by
    decide!
  have hmeter : (meter : quantity Rat) = ⟨length_d, 1⟩ := by decide!
  have hq : operator_scalar_mul Rep.one_point_zero (meter : quantity Rat) = ⟨length_d, 1⟩ := by
    decide!
  have h1 : Rep.mul (Rep.one_point_zero : Rat) 1 = 1 := by decide!
  have hp : power length_d INT_MIN = dimensionless_d := by decide
  have hp2 : power length_d 4294967297 = length_d := by decide
  have hpow : nth_power (meter : quantity Rat) 4294967297 = ⟨length_d, 1⟩ := by
    rw [nth_power_parts, hmeter, rat_pow_one, hp2]
  obtain ⟨pf, hpf⟩ := to_quantity_name_power (registry.initial : registry Rat) false false
    ['m'] ['4', '2', '9', '4', '9', '6', '7', '2', '9', '7'] meter registry.initial
    (by decide) (by decide)
    (unit_of_predefined registry.initial "m" false meter hfind)
  have htext : ("m4294967297" : String) =
      String.mk (['m'] ++ ['4', '2', '9', '4', '9', '6', '7', '2', '9', '7']) := by decide
  have hval : (to_quantity (registry.initial : registry Rat) "m4294967297" false
      false).value? = some ⟨dimensionless_d, 1⟩ := by
    rw [htext, hpf, hcast, scalar_mul_nth_power, hq, rat_pow_one, hp, h1]
    rfl
  refine ⟨by decide, by decide, by decide, hcast, hval, hpow, ?_⟩
  rw [hval, hpow]
  intro h
  exact absurd (congrArg quantity.m_dim (Option.some.inj h)) (by decide)

/-! ## Two parsers in the same place of the same input -/

section simulation

open quantity_parser_t

variable {R : Type} [Rep R]

theorem sim_refl (p : quantity_parser_t R) : p.sim p := ⟨rfl, rfl, rfl, rfl, rfl⟩

theorem sim_symm {p q : quantity_parser_t R} (h : p.sim q) : q.sim p :=
  ⟨h.1.symm, h.2.1.symm, h.2.2.1.symm, h.2.2.2.1.symm, h.2.2.2.2.symm⟩

theorem sim_trans {p q r : quantity_parser_t R} (h1 : p.sim q) (h2 : q.sim r) : p.sim r :=
  ⟨h1.1.trans h2.1, h1.2.1.trans h2.2.1, h1.2.2.1.trans h2.2.2.1,
    h1.2.2.2.1.trans h2.2.2.2.1, h1.2.2.2.2.trans h2.2.2.2.2⟩

theorem sim_current {p q : quantity_parser_t R} (h : p.sim q) : p.current = q.current :=
  h.2.2.2.1

theorem sim_ahead {p q : quantity_parser_t R} (h : p.sim q) : p.ahead = q.ahead := by
  unfold ahead isEnd
  rw [h.2.2.2.1, h.2.2.2.2]

theorem advance_of_nil (p : quantity_parser_t R) (hc : p.current_char ≠ end_char)
    (hi : p.iss = []) :
    p.advance = { p with current_pos := p.current_pos + 1, current_char := eof_char } := by
  unfold advance isEnd
  have hb : (p.current_char == end_char) = false := by simpa using hc
  simp only [hb, Bool.false_eq_true, if_false]
  rw [hi]

theorem sim_advance {p q : quantity_parser_t R} (h : p.sim q) : p.advance.sim q.advance := by
  obtain ⟨h1, h2, h3, h4, h5⟩ := h
  by_cases hc : p.current_char = end_char
  · rw [advance_of_end p hc, advance_of_end q (by rw [← h4]; exact hc)]
    exact ⟨h1, h2, h3, h4, h5⟩
  · have hcq : q.current_char ≠ end_char := by rw [← h4]; exact hc
    cases hi : p.iss with
    | nil =>
      have hiq : q.iss = [] := by rw [← h5]; exact hi
      rw [advance_of_nil p hc hi, advance_of_nil q hcq hiq]
      exact ⟨h1, h2, h3, rfl, h5⟩
    | cons c rest =>
      have hiq : q.iss = c :: rest := by rw [← h5]; exact hi
      rw [advance_of_cons p hc c rest hi, advance_of_cons q hcq c rest hiq]
      exact ⟨h1, h2, h3, rfl, rfl⟩

theorem sim_accept {p q : quantity_parser_t R} (h : p.sim q) (chr : Char) :
    (p.accept chr).1 = (q.accept chr).1 ∧ (p.accept chr).2.sim (q.accept chr).2 := by
  by_cases hc : p.current_char = chr
  · rw [accept_of_eq p chr hc, accept_of_eq q chr (by rw [← h.2.2.2.1]; exact hc)]
    exact ⟨rfl, sim_advance h⟩
  · rw [accept_false p chr hc, accept_false q chr (by rw [← h.2.2.2.1]; exact hc)]
    exact ⟨rfl, h⟩

theorem sim_scan_loop (pred : Char → Bool) (l : List Char) :
    ∀ {p q : quantity_parser_t R}, p.sim q →
      (scan_loop pred l p).1 = (scan_loop pred l q).1 ∧
      (scan_loop pred l p).2.sim (scan_loop pred l q).2 := by
  induction l with
  | nil =>
    intro p q h
    have hc : p.current = q.current := sim_current h
    have he : ∀ x, p.isEnd x = q.isEnd x := fun _ => rfl
    unfold scan_loop
    rw [hc, he]
    split
    · exact ⟨rfl, sim_advance h⟩
    · exact ⟨rfl, h⟩
  | cons c rest ih =>
    intro p q h
    have hc : p.current = q.current := sim_current h
    have he : ∀ x, p.isEnd x = q.isEnd x := fun _ => rfl
    have hrec := ih (sim_advance h)
    unfold scan_loop
    rw [hc, he]
    split
    · exact ⟨by rw [hrec.1], hrec.2⟩
    · exact ⟨rfl, h⟩

theorem sim_scan_while (pred : Char → Bool) {p q : quantity_parser_t R} (h : p.sim q) :
    (p.scan_while pred).1 = (q.scan_while pred).1 ∧
    (p.scan_while pred).2.sim (q.scan_while pred).2 := by
  unfold scan_while
  rw [← h.2.2.2.2]
  exact sim_scan_loop pred p.iss h

theorem sim_skip_whitespace {p q : quantity_parser_t R} (h : p.sim q) :
    p.skip_whitespace.sim q.skip_whitespace :=
  (sim_scan_while isspace h).2

theorem sim_parseNumericalValue {p q : quantity_parser_t R} (h : p.sim q) :
    p.parseNumericalValue.1 = q.parseNumericalValue.1 ∧
    p.parseNumericalValue.2.sim q.parseNumericalValue.2 := by
  have h1 := sim_skip_whitespace h
  have h2 := sim_scan_while isReal h1
  have hc : p.skip_whitespace.current = q.skip_whitespace.current := sim_current h1
  unfold parseNumericalValue
  rw [hc]
  split
  · unfold scanReal
    exact ⟨by rw [h2.1], sim_skip_whitespace h2.2⟩
  · exact ⟨rfl, sim_skip_whitespace h1⟩

theorem sim_scanUnit {p q : quantity_parser_t R} (h : p.sim q) :
    p.scanUnit.1 = q.scanUnit.1 ∧ p.scanUnit.2.sim q.scanUnit.2 := by
  have h1 := (sim_accept h p.escape_char).2
  have h2 := sim_scan_while (fun c => c == '\'' || isalpha c) h1
  unfold scanUnit
  rw [← h.2.2.1]
  exact ⟨by rw [h2.1], h2.2⟩

theorem sim_parsePower {p q : quantity_parser_t R} (h : p.sim q) (x : quantity R) :
    (p.parsePower x).1 = (q.parsePower x).1 ∧ (p.parsePower x).2.sim (q.parsePower x).2 := by
  have h2 := sim_scan_while isInteger h
  have hc : p.current = q.current := sim_current h
  unfold parsePower
  rw [hc]
  split
  · unfold scanInteger
    exact ⟨by rw [h2.1], h2.2⟩
  · exact ⟨rfl, h⟩

theorem ite_rel {α β : Type} (c : Prop) [Decidable c] (P : α → β → Prop) (a b : α)
    (a1 b1 : β) (ha : P a a1) (hb : P b b1) :
    P (if c then a else b) (if c then a1 else b1) := by
  split_ifs
  · exact ha
  · exact hb

theorem sim_parsePrefix {p q : quantity_parser_t R} (h : p.sim q) :
    p.parsePrefix.1 = q.parsePrefix.1 ∧ p.parsePrefix.2.sim q.parsePrefix.2 := by
  have hc : q.current = p.current := (sim_current h).symm
  have ha : q.ahead = p.ahead := (sim_ahead h).symm
  have hadv := sim_advance h
  have hadv2 := sim_advance hadv
  have hcs : q.currentStr = p.currentStr := by
    unfold currentStr
    rw [hc]
  have hacs : q.advance.currentStr = p.advance.currentStr := by
    unfold currentStr
    rw [(sim_current hadv).symm]
  have hesc : ∀ x, q.isEscape x = p.isEscape x := by
    intro x
    unfold isEscape
    rw [h.2.2.1]
  have hun : ∀ x, q.isUnit x = p.isUnit x := by
    intro x
    unfold isUnit
    rw [hesc]
  unfold parsePrefix
  rw [hc, ha, hcs, hacs, hesc, hun]
  refine ite_rel _ (fun (a b : Except quantity_error R × quantity_parser_t R) => a.1 = b.1 ∧ a.2.sim b.2) _ _ _ _ ⟨rfl, h⟩ ?_
  refine ite_rel _ (fun (a b : Except quantity_error R × quantity_parser_t R) => a.1 = b.1 ∧ a.2.sim b.2) _ _ _ _ ⟨rfl, h⟩ ?_
  refine ite_rel _ (fun (a b : Except quantity_error R × quantity_parser_t R) => a.1 = b.1 ∧ a.2.sim b.2) _ _ _ _ ⟨rfl, h⟩ ?_
  refine ite_rel _ (fun (a b : Except quantity_error R × quantity_parser_t R) => a.1 = b.1 ∧ a.2.sim b.2) _ _ _ _ ⟨rfl, h⟩ ?_
  refine ite_rel _ (fun (a b : Except quantity_error R × quantity_parser_t R) => a.1 = b.1 ∧ a.2.sim b.2) _ _ _ _ ⟨rfl, h⟩ ?_
  refine ite_rel _ (fun (a b : Except quantity_error R × quantity_parser_t R) => a.1 = b.1 ∧ a.2.sim b.2) _ _ _ _ ⟨rfl, h⟩ ?_
  refine ite_rel _ (fun (a b : Except quantity_error R × quantity_parser_t R) => a.1 = b.1 ∧ a.2.sim b.2) _ _ _ _ ⟨rfl, h⟩ ?_
  refine ite_rel _ (fun (a b : Except quantity_error R × quantity_parser_t R) => a.1 = b.1 ∧ a.2.sim b.2) _ _ _ _ ⟨rfl, h⟩ ?_
  refine ite_rel _ (fun (a b : Except quantity_error R × quantity_parser_t R) => a.1 = b.1 ∧ a.2.sim b.2) _ _ _ _ ⟨rfl, hadv2⟩ ?_
  exact ite_rel _ (fun (a b : Except quantity_error R × quantity_parser_t R) => a.1 = b.1 ∧ a.2.sim b.2) _ _ _ _ ⟨rfl, h⟩ ⟨rfl, hadv⟩

theorem sim_parseUnit {p q : quantity_parser_t R} (h : p.sim q) (g : registry R) :
    (p.parseUnit g).sim (q.parseUnit g) := by
  have hc : q.current = p.current := (sim_current h).symm
  have ha : q.ahead = p.ahead := (sim_ahead h).symm
  have hu2 : ∀ x y, q.isUnit2 x y = p.isUnit2 x y := by
    intro x y
    unfold isUnit2 isEscape
    rw [h.2.2.1]
  have hsc := sim_scanUnit h
  unfold parseUnit
  rw [hc, ha, hu2, ← hsc.1, ← h.1]
  refine ite_rel _ parse_result.sim _ _ _ _ ?_ ?_
  · refine ite_rel _ parse_result.sim _ _ _ _ ⟨h, rfl⟩ ?_
    exact ⟨rfl, (sim_accept h '1').2, rfl⟩
  · refine ite_rel _ parse_result.sim _ _ _ _ ⟨h, rfl⟩ ?_
    cases hu : unit g p.scanUnit.1 p.ext_units with
    | mk r g1 =>
      cases r with
      | ok u => exact ⟨rfl, hsc.2, rfl⟩
      | error e => exact ⟨hsc.2, rfl⟩

theorem sim_expect {p q : quantity_parser_t R} (h : p.sim q) (chr : Char) :
    (∃ p2 q2, p.expect chr = (.ok (), p2) ∧ q.expect chr = (.ok (), q2) ∧ p2.sim q2) ∨
    (∃ e1 e2 p2 q2, p.expect chr = (.error e1, p2) ∧ q.expect chr = (.error e2, q2) ∧
      p2.sim q2) := by
  have hc : q.current = p.current := (sim_current h).symm
  unfold expect
  rw [hc]
  by_cases hb : (chr != p.current) = true
  · rw [if_pos hb, if_pos hb]
    exact Or.inr ⟨_, _, _, _, rfl, rfl, h⟩
  · rw [if_neg hb, if_neg hb]
    exact Or.inl ⟨_, _, rfl, rfl, sim_advance h⟩

theorem parse_result_sim_refl_error {α : Type} (e1 e2 : quantity_error)
    {p q : quantity_parser_t R} (h : p.sim q) (g : registry R) :
    (parse_result.error e1 p g : parse_result R α).sim (.error e2 q g) := ⟨h, rfl⟩

/-- The loop of `parseTerm` on two parsers in the same place, with a parser of
factors that respects the relation. -/
theorem sim_parseTermLoop
    (factor : quantity_parser_t R → registry R → parse_result R (quantity R))
    (hf : ∀ (p q : quantity_parser_t R) (g : registry R), p.sim q →
      (factor p g).sim (factor q g)) :
    ∀ (fuel : Nat) (lhs : quantity R) (sc : Nat) (p q : quantity_parser_t R) (g : registry R),
      p.sim q →
      (parseTermLoop factor fuel lhs sc p g).sim (parseTermLoop factor fuel lhs sc q g) := by
  intro fuel
  induction fuel with
  | zero =>
    intro lhs sc p q g h
    have hc : q.current = p.current := (sim_current h).symm
    have ha : q.ahead = p.ahead := (sim_ahead h).symm
    rw [parseTermLoop_zero, parseTermLoop_zero, hc, ha]
    refine ite_rel _ parse_result.sim _ _ _ _ ⟨rfl, h, rfl⟩ ?_
    exact ite_rel _ parse_result.sim _ _ _ _ ⟨h, rfl⟩ trivial
  | succ fuel1 ih =>
    intro lhs sc p q g h
    have hc : q.current = p.current := (sim_current h).symm
    have ha : q.ahead = p.ahead := (sim_ahead h).symm
    have hfac := hf p.advance q.advance g (sim_advance h)
    have hstep : ∀ (l : quantity R → quantity R) (s : Nat),
        (match factor p.advance g with
          | .ok rhs p1 g1 => parseTermLoop factor fuel1 (l rhs) s p1 g1
          | .error e p1 g1 => .error e p1 g1
          | .out_of_fuel => .out_of_fuel : parse_result R (quantity R)).sim
        (match factor q.advance g with
          | .ok rhs p1 g1 => parseTermLoop factor fuel1 (l rhs) s p1 g1
          | .error e p1 g1 => .error e p1 g1
          | .out_of_fuel => .out_of_fuel) := by
      intro l s
      cases h1 : factor p.advance g with
      | ok a p1 g1 =>
        cases h2 : factor q.advance g with
        | ok b q1 g2 =>
          rw [h1, h2] at hfac
          obtain ⟨hab, hs, hg⟩ := hfac
          subst hab
          subst hg
          exact ih (l a) s p1 q1 g1 hs
        | error e q1 g2 =>
          rw [h1, h2] at hfac
          exact absurd hfac (fun x => x)
        | out_of_fuel =>
          rw [h1, h2] at hfac
          exact absurd hfac (fun x => x)
      | error e p1 g1 =>
        cases h2 : factor q.advance g with
        | ok b q1 g2 =>
          rw [h1, h2] at hfac
          exact absurd hfac (fun x => x)
        | error e2 q1 g2 =>
          rw [h1, h2] at hfac
          exact hfac
        | out_of_fuel =>
          rw [h1, h2] at hfac
          exact absurd hfac (fun x => x)
      | out_of_fuel =>
        cases h2 : factor q.advance g with
        | ok b q1 g2 =>
          rw [h1, h2] at hfac
          exact absurd hfac (fun x => x)
        | error e2 q1 g2 =>
          rw [h1, h2] at hfac
          exact absurd hfac (fun x => x)
        | out_of_fuel => trivial
    rw [parseTermLoop_succ, parseTermLoop_succ, hc, ha]
    refine ite_rel _ parse_result.sim _ _ _ _ ⟨rfl, h, rfl⟩ ?_
    refine ite_rel _ parse_result.sim _ _ _ _ ⟨h, rfl⟩ ?_
    refine ite_rel _ parse_result.sim _ _ _ _
      (hstep (fun rhs => operator_mul_assign lhs rhs) 0) ?_
    exact ite_rel _ parse_result.sim _ _ _ _ ⟨h, rfl⟩
      (hstep (fun rhs => operator_div_assign lhs rhs) (sc + 1))

/-- Two results in the relation: both are values, both are errors, or both ran out
of fuel. -/
theorem parse_result_sim_cases {α : Type} {r1 r2 : parse_result R α} (h : r1.sim r2) :
    (∃ a p q g, r1 = .ok a p g ∧ r2 = .ok a q g ∧ p.sim q) ∨
    (∃ e1 e2 p q g, r1 = .error e1 p g ∧ r2 = .error e2 q g ∧ p.sim q) ∨
    (r1 = .out_of_fuel ∧ r2 = .out_of_fuel) := by
  cases r1 with
  | ok a p g =>
    cases r2 with
    | ok b q g2 =>
      obtain ⟨hab, hs, hg⟩ := h
      subst hab
      subst hg
      exact Or.inl ⟨a, p, q, g, rfl, rfl, hs⟩
    | error e q g2 => exact absurd h (fun x => x)
    | out_of_fuel => exact absurd h (fun x => x)
  | error e p g =>
    cases r2 with
    | ok b q g2 => exact absurd h (fun x => x)
    | error e2 q g2 =>
      obtain ⟨hs, hg⟩ := h
      subst hg
      exact Or.inr (Or.inl ⟨e, e2, p, q, g, rfl, rfl, hs⟩)
    | out_of_fuel => exact absurd h (fun x => x)
  | out_of_fuel =>
    cases r2 with
    | ok b q g2 => exact absurd h (fun x => x)
    | error e2 q g2 => exact absurd h (fun x => x)
    | out_of_fuel => exact Or.inr (Or.inr ⟨rfl, rfl⟩)

theorem sim_parseTerm_with
    (factor : quantity_parser_t R → registry R → parse_result R (quantity R))
    (hf : ∀ (p q : quantity_parser_t R) (g : registry R), p.sim q →
      (factor p g).sim (factor q g))
    {p q : quantity_parser_t R} (h : p.sim q) (g : registry R) :
    (parseTerm_with factor p g).sim (parseTerm_with factor q g) := by
  unfold parseTerm_with
  rcases parse_result_sim_cases (hf p q g h) with
    ⟨a, p1, q1, g1, h1, h2, hs⟩ | ⟨e1, e2, p1, q1, g1, h1, h2, hs⟩ | ⟨h1, h2⟩
  · rw [h1, h2]
    show (parseTermLoop factor (p1.iss.length + 1) a 0 p1 g1).sim
      (parseTermLoop factor (q1.iss.length + 1) a 0 q1 g1)
    rw [← hs.2.2.2.2]
    exact sim_parseTermLoop factor hf _ a 0 p1 q1 g1 hs
  · rw [h1, h2]
    exact ⟨hs, rfl⟩
  · rw [h1, h2]
    trivial

theorem sim_parseExpression_with
    (factor : quantity_parser_t R → registry R → parse_result R (quantity R))
    (hf : ∀ (p q : quantity_parser_t R) (g : registry R), p.sim q →
      (factor p g).sim (factor q g))
    {p q : quantity_parser_t R} (h : p.sim q) (g : registry R) :
    (parseExpression_with factor p g).sim (parseExpression_with factor q g) := by
  unfold parseExpression_with
  have hn := sim_parseNumericalValue h
  rw [← hn.1]
  rcases parse_result_sim_cases (sim_parseTerm_with factor hf hn.2 g) with
    ⟨a, p1, q1, g1, h1, h2, hs⟩ | ⟨e1, e2, p1, q1, g1, h1, h2, hs⟩ | ⟨h1, h2⟩
  · rw [h1, h2]
    exact ⟨rfl, hs, rfl⟩
  · rw [h1, h2]
    exact ⟨hs, rfl⟩
  · rw [h1, h2]
    trivial

theorem sim_isPrefixedUnit {p q : quantity_parser_t R} (h : p.sim q) (x y : Char) :
    p.isPrefixedUnit x y = q.isPrefixedUnit x y := by
  unfold isPrefixedUnit isUnit2 isEscape
  rw [h.2.2.1]

theorem sim_parseFactorAux_unit {p q : quantity_parser_t R} (h : p.sim q) (g : registry R) :
    (match p.parsePrefix with
      | (.error e, p1) => .error e p1 g
      | (.ok pfx, p1) =>
        match p1.parseUnit g with
        | .ok u p2 g2 =>
          .ok (p2.parsePower (operator_scalar_mul pfx u)).1
            (p2.parsePower (operator_scalar_mul pfx u)).2 g2
        | .error e p2 g2 => .error e p2 g2
        | .out_of_fuel => .out_of_fuel : parse_result R (quantity R)).sim
    (match q.parsePrefix with
      | (.error e, p1) => .error e p1 g
      | (.ok pfx, p1) =>
        match p1.parseUnit g with
        | .ok u p2 g2 =>
          .ok (p2.parsePower (operator_scalar_mul pfx u)).1
            (p2.parsePower (operator_scalar_mul pfx u)).2 g2
        | .error e p2 g2 => .error e p2 g2
        | .out_of_fuel => .out_of_fuel) := by
  have hpre := sim_parsePrefix h
  cases hp : p.parsePrefix with
  | mk r1 p1 =>
    cases hq : q.parsePrefix with
    | mk r2 q1 =>
      rw [hp, hq] at hpre
      obtain ⟨hr, hs⟩ := hpre
      simp only at hr hs
      subst hr
      cases r1 with
      | error e => exact ⟨hs, rfl⟩
      | ok pfx =>
        rcases parse_result_sim_cases (sim_parseUnit hs g) with
          ⟨u, p2, q2, g2, h1, h2, hs2⟩ | ⟨e1, e2, p2, q2, g2, h1, h2, hs2⟩ | ⟨h1, h2⟩
        · simp only [h1, h2]
          have hpw := sim_parsePower hs2 (operator_scalar_mul pfx u)
          exact ⟨hpw.1, hpw.2, rfl⟩
        · simp only [h1, h2]
          exact ⟨hs2, rfl⟩
        · simp only [h1, h2]
          trivial

theorem sim_parseFactorAux :
    ∀ (fuel : Nat) (p q : quantity_parser_t R) (g : registry R), p.sim q →
      (parseFactorAux fuel p g).sim (parseFactorAux fuel q g) := by
  intro fuel
  induction fuel with
  | zero =>
    intro p q g h
    have hc : q.current = p.current := (sim_current h).symm
    have ha : q.ahead = p.ahead := (sim_ahead h).symm
    rw [parseFactorAux_zero, parseFactorAux_zero, ← (sim_accept h '(').1, hc, ha,
      ← sim_isPrefixedUnit h, ← h.2.1]
    refine ite_rel _ parse_result.sim _ _ _ _ trivial ?_
    refine ite_rel _ parse_result.sim _ _ _ _ ⟨rfl, h, rfl⟩ ?_
    exact sim_parseFactorAux_unit h g
  | succ fuel1 ih =>
    intro p q g h
    have hc : q.current = p.current := (sim_current h).symm
    have ha : q.ahead = p.ahead := (sim_ahead h).symm
    rw [parseFactorAux_succ, parseFactorAux_succ, ← (sim_accept h '(').1, hc, ha,
      ← sim_isPrefixedUnit h, ← h.2.1]
    refine ite_rel _ parse_result.sim _ _ _ _ ?_ ?_
    · rcases parse_result_sim_cases
          (sim_parseExpression_with (parseFactorAux fuel1) ih (sim_accept h '(').2 g) with
        ⟨a, p1, q1, g1, h1, h2, hs⟩ | ⟨e1, e2, p1, q1, g1, h1, h2, hs⟩ | ⟨h1, h2⟩
      · simp only [h1, h2]
        rcases sim_expect hs ')' with ⟨p2, q2, hp2, hq2, hs2⟩ | ⟨e1, e2, p2, q2, hp2, hq2, hs2⟩
        · simp only [hp2, hq2]
          have hpw := sim_parsePower hs2 a
          exact ⟨hpw.1, hpw.2, rfl⟩
        · simp only [hp2, hq2]
          exact ⟨hs2, rfl⟩
      · simp only [h1, h2]
        exact ⟨hs, rfl⟩
      · simp only [h1, h2]
        trivial
    · refine ite_rel _ parse_result.sim _ _ _ _ ⟨rfl, h, rfl⟩ ?_
      exact sim_parseFactorAux_unit h g

theorem sim_parseFactor (p q : quantity_parser_t R) (g : registry R) (h : p.sim q) :
    (p.parseFactor g).sim (q.parseFactor g) := by
  unfold parseFactor
  rw [← h.2.2.2.2]
  exact sim_parseFactorAux _ p q g h

theorem sim_parseTerm {p q : quantity_parser_t R} (h : p.sim q) (g : registry R) :
    (p.parseTerm g).sim (q.parseTerm g) :=
  sim_parseTerm_with parseFactor sim_parseFactor h g

end simulation

/-! ## What a parse keeps, and the unit of a text -/

section kept

open quantity_parser_t

variable {R : Type} [Rep R]

/-! The members below `parseNumValueExpression` change the parser through `advance`
only: what `advance` keeps, they keep. -/

theorem kept_accept (I : quantity_parser_t R → Prop) (hadv : ∀ p, I p → I p.advance)
    (p : quantity_parser_t R) (h : I p) (chr : Char) : I (p.accept chr).2 := by
  unfold accept
  split
  · exact h
  · exact hadv p h

theorem kept_expect (I : quantity_parser_t R → Prop) (hadv : ∀ p, I p → I p.advance)
    (p : quantity_parser_t R) (h : I p) (chr : Char) : I (p.expect chr).2 := by
  unfold expect
  split
  · exact h
  · exact hadv p h

theorem kept_scan_loop (I : quantity_parser_t R → Prop) (hadv : ∀ p, I p → I p.advance)
    (pred : Char → Bool) (l : List Char) (p : quantity_parser_t R) (h : I p) :
    I (scan_loop pred l p).2 := by
  induction l generalizing p with
  | nil =>
    unfold scan_loop
    split
    · exact hadv p h
    · exact h
  | cons c rest ih =>
    unfold scan_loop
    split
    · exact ih p.advance (hadv p h)
    · exact h

theorem kept_scan_while (I : quantity_parser_t R → Prop) (hadv : ∀ p, I p → I p.advance)
    (pred : Char → Bool) (p : quantity_parser_t R) (h : I p) : I (p.scan_while pred).2 :=
  kept_scan_loop I hadv pred p.iss p h

theorem kept_scanUnit (I : quantity_parser_t R → Prop) (hadv : ∀ p, I p → I p.advance)
    (p : quantity_parser_t R) (h : I p) : I p.scanUnit.2 :=
  kept_scan_while I hadv _ _ (kept_accept I hadv p h _)

theorem kept_parseNumericalValue (I : quantity_parser_t R → Prop)
    (hadv : ∀ p, I p → I p.advance) (p : quantity_parser_t R) (h : I p) :
    I p.parseNumericalValue.2 := by
  have h1 : I p.skip_whitespace := kept_scan_while I hadv isspace p h
  unfold parseNumericalValue
  split
  · exact kept_scan_while I hadv isspace _ (kept_scan_while I hadv isReal _ h1)
  · exact kept_scan_while I hadv isspace _ h1

theorem kept_parsePrefix (I : quantity_parser_t R → Prop) (hadv : ∀ p, I p → I p.advance)
    (p : quantity_parser_t R) (h : I p) : I p.parsePrefix.2 := by
  rcases parsePrefix_state p with e | e | e <;> rw [e]
  · exact h
  · exact hadv p h
  · exact hadv _ (hadv p h)

theorem kept_parseUnit (I : quantity_parser_t R → Prop) (hadv : ∀ p, I p → I p.advance)
    (p : quantity_parser_t R) (h : I p) (g : registry R) : (p.parseUnit g).holds I := by
  unfold parseUnit
  split
  · split
    · exact h
    · exact kept_accept I hadv p h _
  · split
    · exact h
    · split
      · exact kept_scanUnit I hadv p h
      · exact kept_scanUnit I hadv p h

theorem kept_parsePower (I : quantity_parser_t R → Prop) (hadv : ∀ p, I p → I p.advance)
    (p : quantity_parser_t R) (h : I p) (q : quantity R) : I (p.parsePower q).2 := by
  unfold parsePower
  split
  · exact kept_scan_while I hadv isInteger p h
  · exact h

theorem kept_parseTermLoop (I : quantity_parser_t R → Prop) (hadv : ∀ p, I p → I p.advance)
    (factor : quantity_parser_t R → registry R → parse_result R (quantity R))
    (hf : ∀ (p : quantity_parser_t R) (g : registry R), I p → (factor p g).holds I) :
    ∀ (fuel : Nat) (lhs : quantity R) (sc : Nat) (p : quantity_parser_t R) (g : registry R),
      I p → (parseTermLoop factor fuel lhs sc p g).holds I := by
  intro fuel
  induction fuel with
  | zero =>
    intro lhs sc p g hp
    rw [parseTermLoop_zero]
    split_ifs
    · exact hp
    · exact hp
    · trivial
  | succ fuel1 ih =>
    intro lhs sc p g hp
    rw [parseTermLoop_succ]
    have hfac := hf p.advance g (hadv p hp)
    have hstep : ∀ (l : quantity R → quantity R) (s : Nat),
        (match factor p.advance g with
          | .ok rhs p1 g1 => parseTermLoop factor fuel1 (l rhs) s p1 g1
          | .error e p1 g1 => .error e p1 g1
          | .out_of_fuel => .out_of_fuel : parse_result R (quantity R)).holds I := by
      intro l s
      cases hres : factor p.advance g with
      | ok rhs p1 g1 =>
        rw [hres] at hfac
        exact ih (l rhs) s p1 g1 hfac
      | error e p1 g1 =>
        rw [hres] at hfac
        exact hfac
      | out_of_fuel => trivial
    split_ifs
    · exact hp
    · exact hp
    · exact hstep (fun rhs => operator_mul_assign lhs rhs) 0
    · exact hp
    · exact hstep (fun rhs => operator_div_assign lhs rhs) (sc + 1)

theorem kept_parseTerm_with (I : quantity_parser_t R → Prop)
    (hadv : ∀ p, I p → I p.advance)
    (factor : quantity_parser_t R → registry R → parse_result R (quantity R))
    (hf : ∀ (p : quantity_parser_t R) (g : registry R), I p → (factor p g).holds I)
    (p : quantity_parser_t R) (g : registry R) (hp : I p) :
    (parseTerm_with factor p g).holds I := by
  unfold parseTerm_with
  have hfac := hf p g hp
  cases hres : factor p g with
  | ok lhs p1 g1 =>
    rw [hres] at hfac
    exact kept_parseTermLoop I hadv factor hf _ lhs 0 p1 g1 hfac
  | error e p1 g1 =>
    rw [hres] at hfac
    exact hfac
  | out_of_fuel => trivial

theorem kept_parseExpression_with (I : quantity_parser_t R → Prop)
    (hadv : ∀ p, I p → I p.advance)
    (factor : quantity_parser_t R → registry R → parse_result R (quantity R))
    (hf : ∀ (p : quantity_parser_t R) (g : registry R), I p → (factor p g).holds I)
    (p : quantity_parser_t R) (g : registry R) (hp : I p) :
    (parseExpression_with factor p g).holds I := by
  unfold parseExpression_with
  have ht := kept_parseTerm_with I hadv factor hf p.parseNumericalValue.2 g
    (kept_parseNumericalValue I hadv p hp)
  cases hres : parseTerm_with factor p.parseNumericalValue.2 g with
  | ok t p1 g1 =>
    rw [hres] at ht
    exact ht
  | error e p1 g1 =>
    rw [hres] at ht
    exact ht
  | out_of_fuel => trivial

theorem kept_parseFactorAux_unit (I : quantity_parser_t R → Prop)
    (hadv : ∀ p, I p → I p.advance) (p : quantity_parser_t R) (g : registry R) (hp : I p) :
    (match p.parsePrefix with
      | (.error e, p1) => .error e p1 g
      | (.ok pfx, p1) =>
        match p1.parseUnit g with
        | .ok u p2 g2 =>
          .ok (p2.parsePower (operator_scalar_mul pfx u)).1
            (p2.parsePower (operator_scalar_mul pfx u)).2 g2
        | .error e p2 g2 => .error e p2 g2
        | .out_of_fuel => .out_of_fuel : parse_result R (quantity R)).holds I := by
  have hpre := kept_parsePrefix I hadv p hp
  cases hq : p.parsePrefix with
  | mk r1 p1 =>
    rw [hq] at hpre
    cases r1 with
    | error e => exact hpre
    | ok pfx =>
      have hu := kept_parseUnit I hadv p1 hpre g
      cases hres : p1.parseUnit g with
      | ok u p2 g2 =>
        rw [hres] at hu
        simp only [hres]
        exact kept_parsePower I hadv p2 hu _
      | error e p2 g2 =>
        rw [hres] at hu
        simp only [hres]
        exact hu
      | out_of_fuel =>
        simp only [hres]
        trivial

theorem kept_parseFactorAux (I : quantity_parser_t R → Prop)
    (hadv : ∀ p, I p → I p.advance) :
    ∀ (fuel : Nat) (p : quantity_parser_t R) (g : registry R), I p →
      (parseFactorAux fuel p g).holds I := by
  intro fuel
  induction fuel with
  | zero =>
    intro p g hp
    rw [parseFactorAux_zero]
    split_ifs
    · trivial
    · exact hp
    · exact kept_parseFactorAux_unit I hadv p g hp
  | succ fuel1 ih =>
    intro p g hp
    rw [parseFactorAux_succ]
    split_ifs
    · have he := kept_parseExpression_with I hadv (parseFactorAux fuel1) ih
        (p.accept '(').2 g (kept_accept I hadv p hp _)
      cases hres : parseExpression_with (parseFactorAux fuel1) (p.accept '(').2 g with
      | ok q p1 g1 =>
        rw [hres] at he
        simp only [hres]
        have hx := kept_expect I hadv p1 he ')'
        cases hex : p1.expect ')' with
        | mk r2 p2 =>
          rw [hex] at hx
          cases r2 with
          | ok u =>
            simp only [hex]
            exact kept_parsePower I hadv p2 hx _
          | error e =>
            simp only [hex]
            exact hx
      | error e p1 g1 =>
        rw [hres] at he
        simp only [hres]
        exact he
      | out_of_fuel =>
        simp only [hres]
        trivial
    · exact hp
    · exact kept_parseFactorAux_unit I hadv p g hp

theorem kept_parseTerm (I : quantity_parser_t R → Prop) (hadv : ∀ p, I p → I p.advance)
    (p : quantity_parser_t R) (g : registry R) (hp : I p) : (p.parseTerm g).holds I :=
  kept_parseTerm_with I hadv parseFactor
    (fun p g h => kept_parseFactorAux I hadv _ p g h) p g hp

/-- The member `advance` leaves the stored numerical value alone. -/
theorem advance_num_value (p : quantity_parser_t R) : p.advance.num_value = p.num_value := by
  unfold advance
  split
  · rfl
  · split <;> rfl

/-- A term that is parsed leaves the stored numerical value alone. -/
theorem parseTerm_num_value (p : quantity_parser_t R) (g : registry R) (t : quantity R)
    (p2 : quantity_parser_t R) (g1 : registry R) (h : p.parseTerm g = .ok t p2 g1) :
    p2.num_value = p.num_value := by
  have hk := kept_parseTerm (fun s => s.num_value = p.num_value)
    (fun s hs => (advance_num_value s).trans hs) p g rfl
  rw [h] at hk
  exact hk

end kept

section unit_of_text

open quantity_parser_t

variable {R : Type} [Rep R]

/-- A text that `parseInput` accepts: the term after the numerical value was
parsed up to the end character. -/
theorem parseInput_ok_inv (self : quantity_parser_t R) (g : registry R) (text_ : List Char)
    (q : quantity R) (pf : quantity_parser_t R) (g1 : registry R)
    (h : self.parseInput g text_ = .ok q pf g1) :
    ∃ (t : quantity R) (p2 : quantity_parser_t R),
      parseTerm
        { (self.initialize_ text_).advance.parseNumericalValue.2 with
          num_value := (self.initialize_ text_).advance.parseNumericalValue.1 } g =
        .ok t p2 g1 ∧
      p2.current_char = end_char ∧
      q = operator_scalar_mul (self.initialize_ text_).advance.parseNumericalValue.1 t ∧
      pf.num_value = p2.num_value := by
  unfold parseInput parseNumValueExpression at h
  cases hres : parseTerm
      { (self.initialize_ text_).advance.parseNumericalValue.2 with
        num_value := (self.initialize_ text_).advance.parseNumericalValue.1 } g with
  | ok t p2 g2 =>
    simp only [hres] at h
    by_cases hacc : (p2.accept end_char).1 = true
    · have hb : ¬ (!(p2.accept end_char).1) = true := by simp [hacc]
      rw [if_neg hb] at h
      obtain ⟨hc, hadv⟩ := accept_true p2 end_char hacc
      simp only [parse_result.ok.injEq] at h
      obtain ⟨hq, hpf, hg⟩ := h
      subst hg
      refine ⟨t, p2, rfl, hc, hq.symm, ?_⟩
      rw [← hpf, hadv, advance_of_end p2 hc]
    · have hb : (!(p2.accept end_char).1) = true := by simpa using hacc
      rw [if_pos hb] at h
      exact absurd h (by simp)
  | error e p2 g2 =>
    simp only [hres] at h
    exact absurd h (by simp)
  | out_of_fuel =>
    simp only [hres] at h
    exact absurd h (by simp)

theorem to_quantity_ok_inv (g : registry R) (text : String) (extunits dimless : Bool)
    (q : quantity R) (pf : quantity_parser_t R) (g1 : registry R)
    (h : to_quantity g text extunits dimless = .ok q pf g1) :
    ((quantity_parser_t.mk0.extend extunits).dimensionless dimless).parseInput g
      text.toList = .ok q pf g1 := by
  unfold to_quantity make_quantity parse at h
  cases hres : ((quantity_parser_t.mk0.extend extunits).dimensionless dimless).parseInput g
      text.toList with
  | ok q2 p2 g2 =>
    simp only [hres] at h
    simp only [parse_result.ok.injEq] at h
    obtain ⟨hq, hpf, hg⟩ := h
    rw [hq, hpf, hg]
  | error e p2 g2 =>
    simp only [hres] at h
    exact absurd h (by simp)
  | out_of_fuel =>
    simp only [hres] at h
    exact absurd h (by simp)

theorem to_unit_of_parseInput_ok (g : registry R) (text : String) (extunits dimless : Bool)
    (q : quantity R) (pf : quantity_parser_t R) (g1 : registry R)
    (h : ((quantity_parser_t.mk0.extend extunits).dimensionless dimless).parseInput g
      text.toList = .ok q pf g1) :
    to_unit g text extunits dimless =
      .ok ⟨q.dimension, Rep.div q.value pf.num_value⟩ pf g1 ∧
    to_numerical_value g text extunits dimless = .ok pf.num_value pf g1 := by
  unfold to_unit to_numerical_value make_quantity parse
  rw [h]
  exact ⟨rfl, rfl⟩

theorem value?_some_inv {α : Type} (r : parse_result R α) (a : α) (h : r.value? = some a) :
    ∃ (p : quantity_parser_t R) (g : registry R), r = .ok a p g := by
  cases r with
  | ok b p g =>
    simp only [parse_result.value?, Option.some.injEq] at h
    exact ⟨p, g, by rw [h]⟩
  | error e p g => exact absurd h (by simp [parse_result.value?])
  | out_of_fuel => exact absurd h (by simp [parse_result.value?])

/-- The unit of a text `v ws e` of a run `v` of number characters, white
space `ws` (possibly none) and an expression `e` that starts with neither a number
character nor white space.  If the text parses, to the quantity `q`, then `e` alone
parses to `1.0 * t` for a quantity `t`, `q` is `to_real( v ) * t`, the numerical
value of the text is `to_real( v )`, and `to_unit` returns the dimension of `t` with
the magnitude `(to_real( v ) * t) / to_real( v )`: the quantity divided by the
numerical value.  That is the quantity `to_quantity( e )` whenever the division
gives back what the multiplication by 1.0 gives. -/
theorem to_unit_of_text (g : registry R) (extunits dimless : Bool)
    (v0 : Char) (vt ws : List Char) (e0 : Char) (et : List Char) (q : quantity R)
    (hv : ∀ x ∈ v0 :: vt, isReal x = true)
    (hws : ∀ x ∈ ws, isspace x = true)
    (he1 : isspace e0 = false) (he2 : isReal e0 = false)
    (hl : ∀ c, (e0 :: et).getLast? = some c → default_strip_set.contains c = false)
    (hparse : (to_quantity g (String.mk ((v0 :: vt) ++ ws ++ e0 :: et)) extunits
      dimless).value? = some q) :
    ∃ (t : quantity R) (pf pe : quantity_parser_t R) (g1 : registry R),
      to_quantity g (String.mk ((v0 :: vt) ++ ws ++ e0 :: et)) extunits dimless =
        .ok q pf g1 ∧
      to_quantity g (String.mk (e0 :: et)) extunits dimless =
        .ok (operator_scalar_mul Rep.one_point_zero t) pe g1 ∧
      q = operator_scalar_mul (detail_to_real (v0 :: vt)) t ∧
      to_numerical_value g (String.mk ((v0 :: vt) ++ ws ++ e0 :: et)) extunits dimless =
        .ok (detail_to_real (v0 :: vt)) pf g1 ∧
      to_unit g (String.mk ((v0 :: vt) ++ ws ++ e0 :: et)) extunits dimless =
        .ok ⟨t.dimension,
          Rep.div (Rep.mul (detail_to_real (v0 :: vt)) t.value) (detail_to_real (v0 :: vt))⟩
          pf g1 ∧
      (Rep.div (Rep.mul (detail_to_real (v0 :: vt)) t.value) (detail_to_real (v0 :: vt)) =
          Rep.mul Rep.one_point_zero t.value →
        to_unit g (String.mk ((v0 :: vt) ++ ws ++ e0 :: et)) extunits dimless =
          .ok (operator_scalar_mul Rep.one_point_zero t) pf g1) := by
  obtain ⟨pf, g1, hok⟩ := value?_some_inv _ q hparse
  have hin := to_quantity_ok_inv g _ extunits dimless q pf g1 hok
  have hin2 : ((quantity_parser_t.mk0.extend extunits).dimensionless dimless).parseInput g
      ((v0 :: vt) ++ ws ++ e0 :: et) = .ok q pf g1 := hin
  obtain ⟨t, p2, hterm, hend, hq, hnum⟩ := parseInput_ok_inv _ g _ q pf g1 hin2
  -- the scanner at the start of the text and after the number
  have hstrip : strip ((v0 :: vt) ++ ws ++ e0 :: et) default_strip_set =
      v0 :: (vt ++ ws ++ e0 :: et) :=
    strip_of_clean _ (by simp)
      (fun c hc => by
        simp only [List.cons_append, List.head?_cons, Option.some.injEq] at hc
        rw [← hc]
        exact isReal_not_strip v0 (hv v0 (List.mem_cons_self _ _)))
      (fun c hc => by
        rw [List.getLast?_append_cons] at hc
        exact hl c hc)
  have hA := initialize_advance_eq
    ((quantity_parser_t.mk0.extend extunits).dimensionless dimless : quantity_parser_t R)
    ((v0 :: vt) ++ ws ++ e0 :: et) v0 (vt ++ ws ++ e0 :: et) hstrip
  have hrun := parseNumericalValue_run
    ((((quantity_parser_t.mk0.extend extunits).dimensionless dimless :
      quantity_parser_t R).initialize_ ((v0 :: vt) ++ ws ++ e0 :: et)).advance)
    v0 vt ws e0 (et ++ [end_char]) hv hws he1 (fun _ => he2)
    (by rw [hA]; simp)
  have hfields :
      (((quantity_parser_t.mk0.extend extunits).dimensionless dimless :
        quantity_parser_t R).initialize_
          ((v0 :: vt) ++ ws ++ e0 :: et)).advance.parseNumericalValue.2.ext_units =
        ((quantity_parser_t.mk0.extend extunits).dimensionless dimless :
          quantity_parser_t R).ext_units ∧
      (((quantity_parser_t.mk0.extend extunits).dimensionless dimless :
        quantity_parser_t R).initialize_
          ((v0 :: vt) ++ ws ++ e0 :: et)).advance.parseNumericalValue.2.dimless_quantities =
        ((quantity_parser_t.mk0.extend extunits).dimensionless dimless :
          quantity_parser_t R).dimless_quantities ∧
      (((quantity_parser_t.mk0.extend extunits).dimensionless dimless :
        quantity_parser_t R).initialize_
          ((v0 :: vt) ++ ws ++ e0 :: et)).advance.parseNumericalValue.2.escape_char =
        ((quantity_parser_t.mk0.extend extunits).dimensionless dimless :
          quantity_parser_t R).escape_char ∧
      (((quantity_parser_t.mk0.extend extunits).dimensionless dimless :
        quantity_parser_t R).initialize_
          ((v0 :: vt) ++ ws ++ e0 :: et)).advance.parseNumericalValue.2.current_char = e0 ∧
      (((quantity_parser_t.mk0.extend extunits).dimensionless dimless :
        quantity_parser_t R).initialize_
          ((v0 :: vt) ++ ws ++ e0 :: et)).advance.parseNumericalValue.2.iss =
        et ++ [end_char] ∧
      (((quantity_parser_t.mk0.extend extunits).dimensionless dimless :
        quantity_parser_t R).initialize_
          ((v0 :: vt) ++ ws ++ e0 :: et)).advance.parseNumericalValue.1 =
        detail_to_real (v0 :: vt) := by
    rw [hrun, hA]
    exact ⟨rfl, rfl, rfl, rfl, rfl, rfl⟩
  obtain ⟨hf1, hf2, hf3, hf4, hf5, hf6⟩ := hfields
  rw [hf6] at hq
  -- the scanner at the start of the expression alone
  obtain ⟨hc0, hcur, hiss, hescape, hext, hdim, _, _⟩ :=
    started_eq ((quantity_parser_t.mk0.extend extunits).dimensionless dimless :
      quantity_parser_t R) e0 et (not_isspace_not_strip e0 he1) hl
  have hsim := sim_parseTerm
    (show quantity_parser_t.sim
        { (((quantity_parser_t.mk0.extend extunits).dimensionless dimless :
            quantity_parser_t R).initialize_
              ((v0 :: vt) ++ ws ++ e0 :: et)).advance.parseNumericalValue.2 with
          num_value := (((quantity_parser_t.mk0.extend extunits).dimensionless dimless :
            quantity_parser_t R).initialize_
              ((v0 :: vt) ++ ws ++ e0 :: et)).advance.parseNumericalValue.1 }
        (((quantity_parser_t.mk0.extend extunits).dimensionless dimless :
          quantity_parser_t R).started (e0 :: et)) from
      ⟨hf1.trans hext.symm, hf2.trans hdim.symm, hf3.trans hescape.symm,
        hf4.trans hcur.symm, hf5.trans hiss.symm⟩) g
  rw [hterm] at hsim
  rcases parse_result_sim_cases hsim with
    ⟨a, p3, q3, g3, h1, h2, hs⟩ | ⟨e1, e2, p3, q3, g3, h1, h2, hs⟩ | ⟨h1, h2⟩
  · simp only [parse_result.ok.injEq] at h1
    obtain ⟨ha, hp3, hg3⟩ := h1
    subst ha
    subst hp3
    subst hg3
    have hnone := parseNumericalValue_none
      ((((quantity_parser_t.mk0.extend extunits).dimensionless dimless :
        quantity_parser_t R).initialize_ (e0 :: et)).advance)
      (by rw [hc0]; exact he1) (by rw [hc0]; exact he2)
    have hinE := parseInput_of_term_ok
      ((quantity_parser_t.mk0.extend extunits).dimensionless dimless : quantity_parser_t R)
      g (e0 :: et) t q3 g1
      (by rw [hnone]; exact h2)
      (by rw [← hs.2.2.2.1]; exact hend)
    rw [hnone] at hinE
    have hE := (to_quantity_of_parseInput_ok g (String.mk (e0 :: et)) extunits dimless _ _ _
      hinE).1
    have hk := parseTerm_num_value _ g t p2 g1 hterm
    have hnv : pf.num_value = detail_to_real (v0 :: vt) := by
      rw [hnum, hk]
      exact hf6
    obtain ⟨hu, hn⟩ := to_unit_of_parseInput_ok g _ extunits dimless q pf g1 hin
    rw [hnv] at hu hn
    have hu2 : to_unit g (String.mk ((v0 :: vt) ++ ws ++ e0 :: et)) extunits dimless =
        .ok ⟨t.dimension,
          Rep.div (Rep.mul (detail_to_real (v0 :: vt)) t.value) (detail_to_real (v0 :: vt))⟩
          pf g1 := by
      rw [hu, hq]
      rfl
    refine ⟨t, pf, _, g1, hok, hE, hq, hn, hu2, ?_⟩
    intro hx
    rw [hu2, hx]
    rfl
  · exact absurd h1 (by simp)
  · exact absurd h1 (by simp)

/-- The text `2 (3 m)` in exact arithmetic: the quantity is 6 m, the numerical
value 2 and the unit 3 m, which is what `(3 m)` alone parses to. -/
theorem to_unit_of_text_example :
    (to_quantity (registry.initial : registry Rat) "2 (3 m)" false false).value? =
      some ⟨length_d, 6⟩ ∧
    (to_numerical_value (registry.initial : registry Rat) "2 (3 m)" false false).value? =
      some 2 ∧
    (to_unit (registry.initial : registry Rat) "2 (3 m)" false false).value? =
      some ⟨length_d, 3⟩ ∧
    (to_quantity (registry.initial : registry Rat) "(3 m)" false false).value? =
      some ⟨length_d, 3⟩ ∧
    ∃ (t : quantity Rat) (pf pe : quantity_parser_t Rat) (g1 : registry Rat),
      to_quantity registry.initial "2 (3 m)" false false = .ok ⟨length_d, 6⟩ pf g1 ∧
      to_quantity registry.initial "(3 m)" false false =
        .ok (operator_scalar_mul Rep.one_point_zero t) pe g1 ∧
      (⟨length_d, 6⟩ : quantity Rat) = operator_scalar_mul (detail_to_real ['2']) t ∧
      to_numerical_value registry.initial "2 (3 m)" false false =
        .ok (detail_to_real ['2']) pf g1 ∧
      to_unit registry.initial "2 (3 m)" false false =
        .ok ⟨t.dimension,
          Rep.div (Rep.mul (detail_to_real ['2']) t.value) (detail_to_real ['2'])⟩ pf g1 ∧
      (Rep.div (Rep.mul (detail_to_real ['2']) t.value) (detail_to_real ['2']) =
          Rep.mul Rep.one_point_zero t.value →
        to_unit registry.initial "2 (3 m)" false false =
          .ok (operator_scalar_mul Rep.one_point_zero t) pf g1) := by
  refine ⟨by decide!, by decide!, by decide!, by decide!, ?_⟩
  exact to_unit_of_text (R := Rat) registry.initial false false '2' [] [' '] '('
    ['3', ' ', 'm', ')'] ⟨length_d, 6⟩ (by decide) (by decide) (by decide) (by decide)
    (by
      intro c hc
      simp only [List.getLast?_cons_cons, List.getLast?_singleton, Option.some.injEq] at hc
      rw [← hc]
      decide)
    (by decide!)

/-- The text `0 m`, with every registry, both options and every arithmetic of the
magnitudes: the parse returns the numerical value `to_real( "0" )` times the factor
`1.0 * meter`, and the parser keeps that numerical value. -/
theorem parseInput_zero_meter (g : registry R) (extunits dimless : Bool) :
    ∃ pf : quantity_parser_t R,
      ((quantity_parser_t.mk0.extend extunits).dimensionless dimless).parseInput g
          ['0', ' ', 'm'] =
        .ok (operator_scalar_mul (detail_to_real ['0'])
          (operator_scalar_mul Rep.one_point_zero meter)) pf g ∧
      pf.num_value = detail_to_real ['0'] := by
  have hum : (get_umap : unitmap R) = predefined_units := by
    unfold get_umap
    rfl
  have hfind : map_find (get_umap : unitmap R) "m" = some meter := by
    rw [hum, predefined_units_eq]
    rfl
  have hstrip : strip ['0', ' ', 'm'] default_strip_set = '0' :: [' ', 'm'] := by decide
  have hA := initialize_advance_eq
    ((quantity_parser_t.mk0.extend extunits).dimensionless dimless : quantity_parser_t R)
    ['0', ' ', 'm'] '0' [' ', 'm'] hstrip
  have hrun := parseNumericalValue_run
    ((((quantity_parser_t.mk0.extend extunits).dimensionless dimless :
      quantity_parser_t R).initialize_ ['0', ' ', 'm']).advance)
    '0' [] [' '] 'm' [end_char] (by decide) (by decide) (by decide) (fun _ => by decide)
    (by rw [hA]; rfl)
  have hfac := parseFactor_name
    ({ (((quantity_parser_t.mk0.extend extunits).dimensionless dimless :
        quantity_parser_t R).initialize_ ['0', ' ', 'm']).advance.parseNumericalValue.2 with
      num_value := (((quantity_parser_t.mk0.extend extunits).dimensionless dimless :
        quantity_parser_t R).initialize_ ['0', ' ', 'm']).advance.parseNumericalValue.1 } :
      quantity_parser_t R)
    g ['m'] end_char [] meter g (by decide)
    (by rw [hrun, hA]; rfl) (by decide) (by decide) (by decide)
    (by rw [hrun, hA]; rfl)
    (unit_of_predefined g "m" _ meter hfind)
  rw [parsePower_none _ _ (show isInteger end_char = false by decide)] at hfac
  have hterm := parseTerm_of_factor_ok _ g _ _ g hfac
    (show isOperator end_char = false by decide)
  have hin := parseInput_of_term_ok
    ((quantity_parser_t.mk0.extend extunits).dimensionless dimless : quantity_parser_t R)
    g ['0', ' ', 'm'] _ _ g hterm rfl
  rw [hrun] at hin
  exact ⟨_, hin, rfl⟩

/-- Claim C16 on the code, at the text `0 m`, for every registry, both options and
every arithmetic of the magnitudes: the text parses to the numerical value
`to_real( "0" )` times `1.0 * meter`, the numerical value of the text is
`to_real( "0" )`, and `to_unit` returns the dimension of the length with the
magnitude `(to_real( "0" ) * (1.0 * 1.0)) / to_real( "0" )`: the magnitude of the
quantity divided by the numerical value, without a test of the divisor.  The unit
of the text is `to_quantity( "m" )`, which is `1.0 * (1.0 * meter)`.  `to_real( "0" )`
is the zero that `strtod` returns; in exact arithmetic the dividend and the divisor
of that division are both 0, and the magnitude of `to_quantity( "m" )` is 1. -/
theorem C16_zero_numerical_value (g : registry R) (extunits dimless : Bool) :
    (∃ pf pe : quantity_parser_t R,
      to_quantity g "0 m" extunits dimless =
        .ok (operator_scalar_mul (detail_to_real ['0'])
          (operator_scalar_mul Rep.one_point_zero meter)) pf g ∧
      to_numerical_value g "0 m" extunits dimless = .ok (detail_to_real ['0']) pf g ∧
      to_unit g "0 m" extunits dimless =
        .ok ⟨length_d,
          Rep.div (Rep.mul (detail_to_real ['0'])
            (Rep.mul Rep.one_point_zero Rep.one_point_zero)) (detail_to_real ['0'])⟩ pf g ∧
      to_quantity g "m" extunits dimless =
        .ok (operator_scalar_mul Rep.one_point_zero
          (operator_scalar_mul Rep.one_point_zero meter)) pe g) ∧
    (detail_to_real ['0'] : R) = Rep.ofScientific 0 false 0 ∧
    (detail_to_real ['0'] : Rat) = 0 ∧
    Rep.mul (detail_to_real ['0'] : Rat)
      (Rep.mul Rep.one_point_zero Rep.one_point_zero) = 0 ∧
    (to_quantity (registry.initial : registry Rat) "m" false false).value? =
      some ⟨length_d, 1⟩ := by
  have hum : (get_umap : unitmap R) = predefined_units := by
    unfold get_umap
    rfl
  have hfind : map_find (get_umap : unitmap R) "m" = some meter := by
    rw [hum, predefined_units_eq]
    rfl
  obtain ⟨pf, hin, hnum⟩ := parseInput_zero_meter g extunits dimless
  obtain ⟨hq, _⟩ := to_quantity_of_parseInput_ok g "0 m" extunits dimless _ pf g hin
  obtain ⟨hu, hn⟩ := to_unit_of_parseInput_ok g "0 m" extunits dimless _ pf g hin
  obtain ⟨pe, hm⟩ := to_quantity_name g extunits dimless ['m'] meter g (by decide)
    (unit_of_predefined g "m" extunits meter hfind)
  rw [hnum] at hu hn
  refine ⟨⟨pf, pe, hq, hn, hu, hm⟩, rfl, by decide!, by decide!, by decide!⟩

end unit_of_text

/-! ## The blank and the dot -/

section twins

open quantity_parser_t

variable {R : Type} [Rep R]

theorem advance_iss_le (p : quantity_parser_t R) (n : Nat) (h : p.iss.length ≤ n) :
    p.advance.iss.length ≤ n := by
  unfold advance
  split
  · exact h
  · split
    · rename_i c rest hi
      rw [hi] at h
      exact Nat.le_of_succ_le h
    · exact h

/-- The member `advance` makes the character ahead the current one. -/
theorem advance_current_eq_ahead (p : quantity_parser_t R) :
    p.advance.current_char = p.ahead := by
  unfold advance ahead
  split
  · rename_i he
    unfold isEnd at he
    simpa using he
  · split <;> rfl

theorem twin_length {r : List Char} {p q : quantity_parser_t R} (h : p.twin r q) :
    r.length ≤ p.iss.length ∧ q.iss.length = p.iss.length := by
  obtain ⟨_, _, _, _, _, _, s, hp, hq⟩ := h
  have h1 := congrArg List.length hp
  have h2 := congrArg List.length hq
  simp only [List.length_cons, List.length_append] at h1 h2
  constructor <;> omega

/-- At the character in which the texts differ. -/
theorem twin_at {r : List Char} {p q : quantity_parser_t R} (h : p.twin r q)
    (hlen : p.iss.length = r.length) :
    p.current_char = ' ' ∧ q.current_char = '.' ∧ p.iss = r ∧ q.iss = r := by
  obtain ⟨_, _, _, _, _, _, s, hp, hq⟩ := h
  cases s with
  | nil =>
    simp only [List.nil_append, List.cons.injEq] at hp hq
    exact ⟨hp.1, hq.1, hp.2, hq.2⟩
  | cons c s1 =>
    have h1 := congrArg List.length hp
    simp only [List.length_cons, List.length_append] at h1
    omega

/-- Before the character in which the texts differ. -/
theorem twin_before {r : List Char} {p q : quantity_parser_t R} (h : p.twin r q)
    (hlen : r.length < p.iss.length) :
    p.current_char = q.current_char ∧
    ∃ s1 : List Char, p.iss = s1 ++ ' ' :: r ∧ q.iss = s1 ++ '.' :: r := by
  obtain ⟨_, _, _, _, _, _, s, hp, hq⟩ := h
  cases s with
  | nil =>
    simp only [List.nil_append, List.cons.injEq] at hp
    rw [hp.2] at hlen
    exact absurd hlen (Nat.lt_irrefl _)
  | cons c s1 =>
    simp only [List.cons_append, List.cons.injEq] at hp hq
    exact ⟨hp.1.trans hq.1.symm, s1, hp.2, hq.2⟩

theorem twin_cases {r : List Char} {p q : quantity_parser_t R} (h : p.twin r q) :
    p.iss.length = r.length ∨ r.length < p.iss.length := by
  have := (twin_length h).1
  omega

theorem twin_advance {r : List Char} {p q : quantity_parser_t R} (h : p.twin r q)
    (hnp : r.length ≤ p.advance.iss.length) : p.advance.twin r q.advance := by
  have hopt := h
  obtain ⟨h1, h2, h3, h4, h5, h6, _⟩ := hopt
  rcases twin_cases h with hat | hbef
  · obtain ⟨hc, _, hi, _⟩ := twin_at h hat
    cases hr : r with
    | nil => exact absurd hr h6
    | cons y t =>
      rw [hr] at hi
      rw [advance_of_cons p (by rw [hc]; decide) y t hi] at hnp
      rw [hr] at hnp
      simp only [List.length_cons] at hnp
      omega
  · obtain ⟨hc, s1, hp, hq⟩ := twin_before h hbef
    by_cases he : p.current_char = end_char
    · rw [advance_of_end p he, advance_of_end q (by rw [← hc]; exact he)]
      exact h
    · cases hs : s1 ++ ' ' :: r with
      | nil => simp at hs
      | cons y t =>
        cases hs2 : s1 ++ '.' :: r with
        | nil => simp at hs2
        | cons y2 t2 =>
          rw [hs] at hp
          rw [hs2] at hq
          rw [advance_of_cons p he y t hp, advance_of_cons q (by rw [← hc]; exact he) y2 t2 hq]
          exact ⟨h1, h2, h3, h4, h5, h6, s1, hs.symm, hs2.symm⟩

/-- What a test of the current character sees, when the test does not tell a blank
from a dot. -/
theorem twin_current {r : List Char} {p q : quantity_parser_t R} (h : p.twin r q)
    {β : Type} (f : Char → β) (hf : f ' ' = f '.') : f p.current = f q.current := by
  show f p.current_char = f q.current_char
  rcases twin_cases h with hat | hbef
  · obtain ⟨hc, hd, _, _⟩ := twin_at h hat
    rw [hc, hd, hf]
  · rw [(twin_before h hbef).1]

/-- What a test of the character ahead sees, when the test does not tell a blank
from a dot. -/
theorem twin_ahead {r : List Char} {p q : quantity_parser_t R} (h : p.twin r q)
    {β : Type} (f : Char → β) (hf : f ' ' = f '.') : f p.ahead = f q.ahead := by
  rw [← advance_current_eq_ahead, ← advance_current_eq_ahead]
  rcases twin_cases h with hat | hbef
  · obtain ⟨hc, hd, hi, hj⟩ := twin_at h hat
    cases hr : r with
    | nil => exact absurd hr h.2.2.2.2.2.1
    | cons y t =>
      rw [hr] at hi hj
      rw [advance_of_cons p (by rw [hc]; decide) y t hi,
        advance_of_cons q (by rw [hd]; decide) y t hj]
  · obtain ⟨hc, s1, hp, hq⟩ := twin_before h hbef
    by_cases he : p.current_char = end_char
    · rw [advance_of_end p he, advance_of_end q (by rw [← hc]; exact he), hc]
    · have heq : q.current_char ≠ end_char := by rw [← hc]; exact he
      cases s1 with
      | nil =>
        simp only [List.nil_append] at hp hq
        rw [advance_of_cons p he _ _ hp, advance_of_cons q heq _ _ hq]
        exact hf
      | cons y t =>
        simp only [List.cons_append] at hp hq
        rw [advance_of_cons p he _ _ hp, advance_of_cons q heq _ _ hq]

/-- The same, as a choice: the characters ahead are the same, or they are the blank
and the dot. -/
theorem twin_ahead_cases {r : List Char} {p q : quantity_parser_t R} (h : p.twin r q) :
    p.ahead = q.ahead ∨ (p.ahead = ' ' ∧ q.ahead = '.') := by
  rw [← advance_current_eq_ahead, ← advance_current_eq_ahead]
  rcases twin_cases h with hat | hbef
  · obtain ⟨hc, hd, hi, hj⟩ := twin_at h hat
    cases hr : r with
    | nil => exact absurd hr h.2.2.2.2.2.1
    | cons y t =>
      rw [hr] at hi hj
      rw [advance_of_cons p (by rw [hc]; decide) y t hi,
        advance_of_cons q (by rw [hd]; decide) y t hj]
      exact Or.inl rfl
  · obtain ⟨hc, s1, hp, hq⟩ := twin_before h hbef
    by_cases he : p.current_char = end_char
    · rw [advance_of_end p he, advance_of_end q (by rw [← hc]; exact he), hc]
      exact Or.inl rfl
    · have heq : q.current_char ≠ end_char := by rw [← hc]; exact he
      cases s1 with
      | nil =>
        simp only [List.nil_append] at hp hq
        rw [advance_of_cons p he _ _ hp, advance_of_cons q heq _ _ hq]
        exact Or.inr ⟨rfl, rfl⟩
      | cons y t =>
        simp only [List.cons_append] at hp hq
        rw [advance_of_cons p he _ _ hp, advance_of_cons q heq _ _ hq]
        exact Or.inl rfl

theorem twin_accept {r : List Char} {p q : quantity_parser_t R} (h : p.twin r q) (chr : Char)
    (h1 : chr ≠ ' ') (h2 : chr ≠ '.') :
    (p.accept chr).1 = (q.accept chr).1 ∧
    (r.length ≤ (p.accept chr).2.iss.length → (p.accept chr).2.twin r (q.accept chr).2) := by
  have hc := twin_current h (fun c => chr != c)
    (by
      have e1 : (chr != ' ') = true := by simpa using h1
      have e2 : (chr != '.') = true := by simpa using h2
      show (chr != ' ') = (chr != '.')
      rw [e1, e2])
  unfold accept
  simp only [← hc]
  split
  · exact ⟨rfl, fun _ => h⟩
  · exact ⟨rfl, fun hnp => twin_advance h hnp⟩

theorem twin_expect {r : List Char} {p q : quantity_parser_t R} (h : p.twin r q) (chr : Char)
    (h1 : chr ≠ ' ') (h2 : chr ≠ '.') :
    (∃ e1 e2, (p.expect chr).1 = .error e1 ∧ (q.expect chr).1 = .error e2) ∨
    ((p.expect chr).1 = .ok () ∧ (q.expect chr).1 = .ok () ∧
      (r.length ≤ (p.expect chr).2.iss.length → (p.expect chr).2.twin r (q.expect chr).2)) := by
  have hc := twin_current h (fun c => chr != c)
    (by
      have e1 : (chr != ' ') = true := by simpa using h1
      have e2 : (chr != '.') = true := by simpa using h2
      show (chr != ' ') = (chr != '.')
      rw [e1, e2])
  unfold expect
  simp only [← hc]
  split
  · exact Or.inl ⟨_, _, rfl, rfl⟩
  · exact Or.inr ⟨rfl, rfl, fun hnp => twin_advance h hnp⟩

/-- A scanning loop on the two texts collects the same characters, if in the first
text it does not read the blank, and if it stops at the blank it stops at the dot
too. -/
theorem twin_scan_loop (pred : Char → Bool) {r : List Char} :
    ∀ (l l2 : List Char) (p q : quantity_parser_t R), l.length = l2.length → p.twin r q →
      r.length ≤ (scan_loop pred l p).2.iss.length →
      ((scan_loop pred l p).2.iss.length = r.length → pred '.' = false) →
      (scan_loop pred l p).1 = (scan_loop pred l2 q).1 ∧
      (scan_loop pred l p).2.twin r (scan_loop pred l2 q).2 := by
  intro l
  induction l with
  | nil =>
    intro l2 p q hl h hnp hsep
    cases l2 with
    | cons y t => simp at hl
    | nil =>
      rcases twin_cases h with hat | hbef
      · obtain ⟨hc, hd, hi, hj⟩ := twin_at h hat
        by_cases hb : (pred p.current && !(p.isEnd p.current)) = true
        · unfold scan_loop at hnp
          rw [if_pos hb] at hnp
          have := (twin_length (twin_advance h hnp)).1
          have h3 : p.advance.iss.length < r.length := by
            cases hr : r with
            | nil => exact absurd hr h.2.2.2.2.2.1
            | cons y t =>
              rw [hr] at hi
              rw [advance_of_cons p (by rw [hc]; decide) y t hi]
              simp
          omega
        · have hres : scan_loop pred [] p = ([], p) := by
            unfold scan_loop
            rw [if_neg hb]
          rw [hres] at hsep
          have hdot := hsep hat
          have hb2 : ¬ (pred q.current && !(q.isEnd q.current)) = true := by
            show ¬ (pred q.current_char && !(q.isEnd q.current_char)) = true
            rw [hd, hdot]
            simp
          have hres2 : scan_loop pred [] q = ([], q) := by
            unfold scan_loop
            rw [if_neg hb2]
          rw [hres, hres2]
          exact ⟨rfl, h⟩
      · have hc : p.current = q.current := (twin_before h hbef).1
        have he : ∀ x, p.isEnd x = q.isEnd x := fun _ => rfl
        unfold scan_loop at hnp ⊢
        rw [← hc, ← he]
        by_cases hb : (pred p.current && !(p.isEnd p.current)) = true
        · rw [if_pos hb] at hnp
          rw [if_pos hb, if_pos hb]
          exact ⟨rfl, twin_advance h hnp⟩
        · rw [if_neg hb, if_neg hb]
          exact ⟨rfl, h⟩
  | cons c rest ih =>
    intro l2 p q hl h hnp hsep
    cases l2 with
    | nil => simp at hl
    | cons c2 rest2 =>
      have hl2 : rest.length = rest2.length := by simpa using hl
      have hmono : ∀ n, p.advance.iss.length ≤ n →
          (scan_loop pred rest p.advance).2.iss.length ≤ n := fun n hn =>
        kept_scan_loop (fun s => s.iss.length ≤ n) (fun s hs => advance_iss_le s n hs)
          pred rest p.advance hn
      rcases twin_cases h with hat | hbef
      · obtain ⟨hc, hd, hi, hj⟩ := twin_at h hat
        by_cases hb : (pred p.current && !(p.isEnd p.current)) = true
        · unfold scan_loop at hnp
          rw [if_pos hb] at hnp
          have h3 : p.advance.iss.length < r.length := by
            cases hr : r with
            | nil => exact absurd hr h.2.2.2.2.2.1
            | cons y t =>
              rw [hr] at hi
              rw [advance_of_cons p (by rw [hc]; decide) y t hi]
              simp
          have := hmono _ (Nat.le_refl _)
          have hnp2 : r.length ≤ (scan_loop pred rest p.advance).2.iss.length := hnp
          omega
        · have hres : scan_loop pred (c :: rest) p = ([], p) := by
            unfold scan_loop
            rw [if_neg hb]
          rw [hres] at hsep
          have hdot := hsep hat
          have hb2 : ¬ (pred q.current && !(q.isEnd q.current)) = true := by
            show ¬ (pred q.current_char && !(q.isEnd q.current_char)) = true
            rw [hd, hdot]
            simp
          have hres2 : scan_loop pred (c2 :: rest2) q = ([], q) := by
            unfold scan_loop
            rw [if_neg hb2]
          rw [hres, hres2]
          exact ⟨rfl, h⟩
      · have hc : p.current = q.current := (twin_before h hbef).1
        have he : ∀ x, p.isEnd x = q.isEnd x := fun _ => rfl
        by_cases hb : (pred p.current && !(p.isEnd p.current)) = true
        · have hb2 : (pred q.current && !(q.isEnd q.current)) = true := by
            rw [← hc, ← he]
            exact hb
          have hres : scan_loop pred (c :: rest) p =
              ((p.current :: (scan_loop pred rest p.advance).1),
                (scan_loop pred rest p.advance).2) := by
            rw [scan_loop, if_pos hb]
          have hres2 : scan_loop pred (c2 :: rest2) q =
              ((q.current :: (scan_loop pred rest2 q.advance).1),
                (scan_loop pred rest2 q.advance).2) := by
            rw [scan_loop, if_pos hb2]
          rw [hres] at hnp hsep
          have hnp2 : r.length ≤ (scan_loop pred rest p.advance).2.iss.length := hnp
          have hadv : r.length ≤ p.advance.iss.length := by
            have := hmono _ (Nat.le_refl _)
            omega
          have hrec := ih rest2 p.advance q.advance hl2 (twin_advance h hadv) hnp2 hsep
          rw [hres, hres2, hc]
          exact ⟨by rw [hrec.1], hrec.2⟩
        · have hb2 : ¬ (pred q.current && !(q.isEnd q.current)) = true := by
            rw [← hc, ← he]
            exact hb
          have hres : scan_loop pred (c :: rest) p = ([], p) := by
            rw [scan_loop, if_neg hb]
          have hres2 : scan_loop pred (c2 :: rest2) q = ([], q) := by
            rw [scan_loop, if_neg hb2]
          rw [hres, hres2]
          exact ⟨rfl, h⟩

theorem twin_scan_while (pred : Char → Bool) {r : List Char} {p q : quantity_parser_t R}
    (h : p.twin r q) (hnp : r.length ≤ (p.scan_while pred).2.iss.length)
    (hsep : (p.scan_while pred).2.iss.length = r.length → pred '.' = false) :
    (p.scan_while pred).1 = (q.scan_while pred).1 ∧
    (p.scan_while pred).2.twin r (q.scan_while pred).2 :=
  twin_scan_loop pred p.iss q.iss p q (twin_length h).2.symm h hnp hsep

theorem scan_while_iss_le (pred : Char → Bool) (p : quantity_parser_t R) (n : Nat)
    (h : p.iss.length ≤ n) : (p.scan_while pred).2.iss.length ≤ n :=
  kept_scan_while (fun s => s.iss.length ≤ n) (fun s hs => advance_iss_le s n hs) pred p h

/-- A scanning loop that does not read the blank of the first text stops before it
or at it. -/
theorem twin_scan_loop_left (pred : Char → Bool) {r : List Char} :
    ∀ (l : List Char) (p q : quantity_parser_t R), p.twin r q →
      r.length ≤ (scan_loop pred l p).2.iss.length →
      ∃ q2 : quantity_parser_t R, (scan_loop pred l p).2.twin r q2 := by
  intro l
  induction l with
  | nil =>
    intro p q h hnp
    by_cases hb : (pred p.current && !(p.isEnd p.current)) = true
    · unfold scan_loop at hnp ⊢
      rw [if_pos hb] at hnp
      rw [if_pos hb]
      exact ⟨_, twin_advance h hnp⟩
    · unfold scan_loop
      rw [if_neg hb]
      exact ⟨q, h⟩
  | cons c rest ih =>
    intro p q h hnp
    by_cases hb : (pred p.current && !(p.isEnd p.current)) = true
    · have hres : scan_loop pred (c :: rest) p =
          ((p.current :: (scan_loop pred rest p.advance).1),
            (scan_loop pred rest p.advance).2) := by
        rw [scan_loop, if_pos hb]
      rw [hres] at hnp ⊢
      have hnp2 : r.length ≤ (scan_loop pred rest p.advance).2.iss.length := hnp
      have hmono := kept_scan_loop (fun s => s.iss.length ≤ p.advance.iss.length)
        (fun s hs => advance_iss_le s _ hs) pred rest p.advance (Nat.le_refl _)
      have hadv : r.length ≤ p.advance.iss.length := by
        have : (scan_loop pred rest p.advance).2.iss.length ≤ p.advance.iss.length := hmono
        omega
      exact ih p.advance q.advance (twin_advance h hadv) hnp2
    · have hres : scan_loop pred (c :: rest) p = ([], p) := by
        rw [scan_loop, if_neg hb]
      rw [hres]
      exact ⟨q, h⟩

/-- At the blank, `skip_whitespace` reads it. -/
theorem twin_skip_whitespace_at {r : List Char} {p q : quantity_parser_t R} (h : p.twin r q)
    (hat : p.iss.length = r.length) : p.skip_whitespace.iss.length < r.length := by
  obtain ⟨hc, hd, hi, hj⟩ := twin_at h hat
  cases hr : r with
  | nil => exact absurd hr h.2.2.2.2.2.1
  | cons y t =>
    rw [hr] at hi
    have hb : (isspace p.current && !(p.isEnd p.current)) = true := by
      show (isspace p.current_char && !(p.current_char == end_char)) = true
      rw [hc]
      decide
    have hres : scan_loop isspace (y :: t) p =
        ((p.current :: (scan_loop isspace t p.advance).1),
          (scan_loop isspace t p.advance).2) := by
      rw [scan_loop, if_pos hb]
    unfold skip_whitespace scan_while
    rw [hi, hres]
    have hmono := kept_scan_loop (fun s => s.iss.length ≤ p.advance.iss.length)
      (fun s hs => advance_iss_le s _ hs) isspace t p.advance (Nat.le_refl _)
    have h3 : p.advance.iss.length = t.length := by
      rw [advance_of_cons p (by rw [hc]; decide) y t hi]
    have : (scan_loop isspace t p.advance).2.iss.length ≤ p.advance.iss.length := hmono
    show (scan_loop isspace t p.advance).2.iss.length < (y :: t).length
    simp only [List.length_cons]
    omega

theorem twin_skip_whitespace {r : List Char} {p q : quantity_parser_t R} (h : p.twin r q)
    (hnp : r.length ≤ p.skip_whitespace.iss.length) :
    p.skip_whitespace.twin r q.skip_whitespace :=
  (twin_scan_while isspace h hnp (fun _ => by decide)).2

theorem skip_whitespace_iss_le (p : quantity_parser_t R) (n : Nat) (h : p.iss.length ≤ n) :
    p.skip_whitespace.iss.length ≤ n :=
  scan_while_iss_le isspace p n h

theorem twin_parseNumericalValue {r : List Char} {p q : quantity_parser_t R}
    (h : p.twin r q) (hnp : r.length ≤ p.parseNumericalValue.2.iss.length) :
    p.parseNumericalValue.1 = q.parseNumericalValue.1 ∧
    p.parseNumericalValue.2.twin r q.parseNumericalValue.2 := by
  by_cases hb : isReal p.skip_whitespace.current = true
  · have hres : p.parseNumericalValue =
        (p.skip_whitespace.scanReal.1, p.skip_whitespace.scanReal.2.skip_whitespace) := by
      rw [parseNumericalValue, if_pos hb]
    rw [hres] at hnp ⊢
    have hnp3 : r.length ≤ (p.skip_whitespace.scan_while isReal).2.skip_whitespace.iss.length :=
      hnp
    have hnp2 : r.length ≤ (p.skip_whitespace.scan_while isReal).2.iss.length := by
      have := skip_whitespace_iss_le (p.skip_whitespace.scan_while isReal).2 _ (Nat.le_refl _)
      omega
    have hnp1 : r.length ≤ p.skip_whitespace.iss.length := by
      have := scan_while_iss_le isReal p.skip_whitespace _ (Nat.le_refl _)
      omega
    have ht1 := twin_skip_whitespace h hnp1
    have hcur : p.skip_whitespace.current = q.skip_whitespace.current := by
      rcases twin_cases ht1 with hat | hbef
      · have hc := (twin_at ht1 hat).1
        have hb2 : isReal p.skip_whitespace.current_char = true := hb
        rw [hc] at hb2
        exact absurd hb2 (by decide)
      · exact (twin_before ht1 hbef).1
    have hbq : isReal q.skip_whitespace.current = true := by rw [← hcur]; exact hb
    have hresq : q.parseNumericalValue =
        (q.skip_whitespace.scanReal.1, q.skip_whitespace.scanReal.2.skip_whitespace) := by
      rw [parseNumericalValue, if_pos hbq]
    rw [hresq]
    obtain ⟨q2, hleft⟩ := twin_scan_loop_left isReal p.skip_whitespace.iss p.skip_whitespace
      q.skip_whitespace ht1 hnp2
    have hsep : (p.skip_whitespace.scan_while isReal).2.iss.length = r.length →
        isReal '.' = false := by
      intro hat
      have := twin_skip_whitespace_at hleft hat
      have h4 : r.length ≤ (scan_loop isReal p.skip_whitespace.iss
        p.skip_whitespace).2.skip_whitespace.iss.length := hnp3
      omega
    have ht2 := twin_scan_while isReal ht1 hnp2 hsep
    have ht3 := twin_skip_whitespace ht2.2 hnp3
    unfold scanReal
    exact ⟨by rw [ht2.1], ht3⟩
  · have hres : p.parseNumericalValue =
        (Rep.one_point_zero, p.skip_whitespace.skip_whitespace) := by
      rw [parseNumericalValue, if_neg hb]
    rw [hres] at hnp ⊢
    have hnp2 : r.length ≤ p.skip_whitespace.skip_whitespace.iss.length := hnp
    have hnp1 : r.length ≤ p.skip_whitespace.iss.length := by
      have := skip_whitespace_iss_le p.skip_whitespace _ (Nat.le_refl _)
      omega
    have ht1 := twin_skip_whitespace h hnp1
    have hcur : p.skip_whitespace.current = q.skip_whitespace.current := by
      rcases twin_cases ht1 with hat | hbef
      · have := twin_skip_whitespace_at ht1 hat
        omega
      · exact (twin_before ht1 hbef).1
    have hbq : ¬ isReal q.skip_whitespace.current = true := by rw [← hcur]; exact hb
    have hresq : q.parseNumericalValue =
        (Rep.one_point_zero, q.skip_whitespace.skip_whitespace) := by
      rw [parseNumericalValue, if_neg hbq]
    rw [hresq]
    exact ⟨rfl, twin_skip_whitespace ht1 hnp2⟩

theorem twin_scanUnit {r : List Char} {p q : quantity_parser_t R} (h : p.twin r q)
    (hnp : r.length ≤ p.scanUnit.2.iss.length) :
    p.scanUnit.1 = q.scanUnit.1 ∧ p.scanUnit.2.twin r q.scanUnit.2 := by
  have hnp2 : r.length ≤ ((p.accept p.escape_char).2.scan_while
      (fun c => c == '\'' || isalpha c)).2.iss.length := hnp
  have hnp1 : r.length ≤ (p.accept p.escape_char).2.iss.length := by
    have := scan_while_iss_le (fun c => c == '\'' || isalpha c) (p.accept p.escape_char).2 _
      (Nat.le_refl _)
    omega
  have h1 := (twin_accept h p.escape_char h.2.2.2.1 h.2.2.2.2.1).2 hnp1
  have h2 := twin_scan_while (fun c => c == '\'' || isalpha c) h1 hnp2 (fun _ => by decide)
  unfold scanUnit
  rw [← h.2.2.1]
  exact ⟨by rw [h2.1], h2.2⟩

theorem twin_parsePower {r : List Char} {p q : quantity_parser_t R} (h : p.twin r q)
    (x : quantity R) (hnp : r.length ≤ (p.parsePower x).2.iss.length) :
    (p.parsePower x).1 = (q.parsePower x).1 ∧ (p.parsePower x).2.twin r (q.parsePower x).2 := by
  have hc : isInteger p.current = isInteger q.current :=
    twin_current h isInteger (by decide)
  by_cases hb : isInteger p.current = true
  · have hres : p.parsePower x =
        (nth_power x (static_cast_int p.scanInteger.1), p.scanInteger.2) := by
      rw [parsePower, if_pos hb]
    have hresq : q.parsePower x =
        (nth_power x (static_cast_int q.scanInteger.1), q.scanInteger.2) := by
      rw [parsePower, if_pos (by rw [← hc]; exact hb)]
    rw [hres] at hnp
    rw [hres, hresq]
    have h2 := twin_scan_while isInteger h hnp (fun _ => by decide)
    unfold scanInteger
    exact ⟨by rw [h2.1], h2.2⟩
  · have hres : p.parsePower x = (x, p) := by
      rw [parsePower, if_neg hb]
    have hresq : q.parsePower x = (x, q) := by
      rw [parsePower, if_neg (by rw [← hc]; exact hb)]
    rw [hres, hresq]
    exact ⟨rfl, h⟩

/-- The member `parsePrefix` looks at the escape character, the current character
and the character ahead only. -/
theorem parsePrefix_congr (p q : quantity_parser_t R) (hesc : p.escape_char = q.escape_char)
    (hcur : p.current = q.current) (hah : p.ahead = q.ahead) :
    p.parsePrefix.1 = q.parsePrefix.1 ∧
    ((p.parsePrefix.2 = p ∧ q.parsePrefix.2 = q) ∨
      (p.parsePrefix.2 = p.advance ∧ q.parsePrefix.2 = q.advance) ∨
      (p.parsePrefix.2 = p.advance.advance ∧ q.parsePrefix.2 = q.advance.advance)) := by
  have hc : q.current = p.current := hcur.symm
  have ha : q.ahead = p.ahead := hah.symm
  have hcs : q.currentStr = p.currentStr := by
    unfold currentStr
    rw [hc]
  have hacs : q.advance.currentStr = p.advance.currentStr := by
    unfold currentStr current
    rw [advance_current_eq_ahead, advance_current_eq_ahead, ha]
  have hes : ∀ x, q.isEscape x = p.isEscape x := by
    intro x
    unfold isEscape
    rw [hesc]
  have hun : ∀ x, q.isUnit x = p.isUnit x := by
    intro x
    unfold isUnit
    rw [hes]
  unfold parsePrefix
  rw [hc, ha, hcs, hacs, hes, hun]
  refine ite_rel _ (fun (a b : Except quantity_error R × quantity_parser_t R) =>
    a.1 = b.1 ∧ ((a.2 = p ∧ b.2 = q) ∨ (a.2 = p.advance ∧ b.2 = q.advance) ∨
      (a.2 = p.advance.advance ∧ b.2 = q.advance.advance))) _ _ _ _
    ⟨rfl, Or.inl ⟨rfl, rfl⟩⟩ ?_
  refine ite_rel _ (fun (a b : Except quantity_error R × quantity_parser_t R) =>
    a.1 = b.1 ∧ ((a.2 = p ∧ b.2 = q) ∨ (a.2 = p.advance ∧ b.2 = q.advance) ∨
      (a.2 = p.advance.advance ∧ b.2 = q.advance.advance))) _ _ _ _
    ⟨rfl, Or.inl ⟨rfl, rfl⟩⟩ ?_
  refine ite_rel _ (fun (a b : Except quantity_error R × quantity_parser_t R) =>
    a.1 = b.1 ∧ ((a.2 = p ∧ b.2 = q) ∨ (a.2 = p.advance ∧ b.2 = q.advance) ∨
      (a.2 = p.advance.advance ∧ b.2 = q.advance.advance))) _ _ _ _
    ⟨rfl, Or.inl ⟨rfl, rfl⟩⟩ ?_
  refine ite_rel _ (fun (a b : Except quantity_error R × quantity_parser_t R) =>
    a.1 = b.1 ∧ ((a.2 = p ∧ b.2 = q) ∨ (a.2 = p.advance ∧ b.2 = q.advance) ∨
      (a.2 = p.advance.advance ∧ b.2 = q.advance.advance))) _ _ _ _
    ⟨rfl, Or.inl ⟨rfl, rfl⟩⟩ ?_
  refine ite_rel _ (fun (a b : Except quantity_error R × quantity_parser_t R) =>
    a.1 = b.1 ∧ ((a.2 = p ∧ b.2 = q) ∨ (a.2 = p.advance ∧ b.2 = q.advance) ∨
      (a.2 = p.advance.advance ∧ b.2 = q.advance.advance))) _ _ _ _
    ⟨rfl, Or.inl ⟨rfl, rfl⟩⟩ ?_
  refine ite_rel _ (fun (a b : Except quantity_error R × quantity_parser_t R) =>
    a.1 = b.1 ∧ ((a.2 = p ∧ b.2 = q) ∨ (a.2 = p.advance ∧ b.2 = q.advance) ∨
      (a.2 = p.advance.advance ∧ b.2 = q.advance.advance))) _ _ _ _
    ⟨rfl, Or.inl ⟨rfl, rfl⟩⟩ ?_
  refine ite_rel _ (fun (a b : Except quantity_error R × quantity_parser_t R) =>
    a.1 = b.1 ∧ ((a.2 = p ∧ b.2 = q) ∨ (a.2 = p.advance ∧ b.2 = q.advance) ∨
      (a.2 = p.advance.advance ∧ b.2 = q.advance.advance))) _ _ _ _
    ⟨rfl, Or.inl ⟨rfl, rfl⟩⟩ ?_
  refine ite_rel _ (fun (a b : Except quantity_error R × quantity_parser_t R) =>
    a.1 = b.1 ∧ ((a.2 = p ∧ b.2 = q) ∨ (a.2 = p.advance ∧ b.2 = q.advance) ∨
      (a.2 = p.advance.advance ∧ b.2 = q.advance.advance))) _ _ _ _
    ⟨rfl, Or.inl ⟨rfl, rfl⟩⟩ ?_
  refine ite_rel _ (fun (a b : Except quantity_error R × quantity_parser_t R) =>
    a.1 = b.1 ∧ ((a.2 = p ∧ b.2 = q) ∨ (a.2 = p.advance ∧ b.2 = q.advance) ∨
      (a.2 = p.advance.advance ∧ b.2 = q.advance.advance))) _ _ _ _
    ⟨rfl, Or.inr (Or.inr ⟨rfl, rfl⟩)⟩ ?_
  exact ite_rel _ (fun (a b : Except quantity_error R × quantity_parser_t R) =>
    a.1 = b.1 ∧ ((a.2 = p ∧ b.2 = q) ∨ (a.2 = p.advance ∧ b.2 = q.advance) ∨
      (a.2 = p.advance.advance ∧ b.2 = q.advance.advance))) _ _ _ _
    ⟨rfl, Or.inl ⟨rfl, rfl⟩⟩ ⟨rfl, Or.inr (Or.inl ⟨rfl, rfl⟩)⟩

theorem twin_parsePrefix {r : List Char} {p q : quantity_parser_t R} (h : p.twin r q) :
    p.parsePrefix.1 = q.parsePrefix.1 ∧
    (r.length ≤ p.parsePrefix.2.iss.length → p.parsePrefix.2.twin r q.parsePrefix.2) := by
  rcases twin_cases h with hat | hbef
  · obtain ⟨hc, hd, _, _⟩ := twin_at h hat
    rw [parsePrefix_not_alpha p (by rw [hc]; decide),
      parsePrefix_not_alpha q (by rw [hd]; decide)]
    exact ⟨rfl, fun _ => h⟩
  · have hc : p.current = q.current := (twin_before h hbef).1
    rcases twin_ahead_cases h with ha | ⟨ha1, ha2⟩
    · obtain ⟨hv, hst⟩ := parsePrefix_congr p q h.2.2.1 hc ha
      refine ⟨hv, fun hnp => ?_⟩
      rcases hst with ⟨e1, e2⟩ | ⟨e1, e2⟩ | ⟨e1, e2⟩
      · rw [e1, e2]
        exact h
      · rw [e1] at hnp
        rw [e1, e2]
        exact twin_advance h hnp
      · rw [e1] at hnp
        rw [e1, e2]
        have hadv : r.length ≤ p.advance.iss.length := by
          have := advance_iss_le p.advance _ (Nat.le_refl _)
          omega
        exact twin_advance (twin_advance h hadv) hnp
    · have hu1 : p.isUnit p.ahead = false := by
        rw [ha1]
        unfold isUnit isEscape
        have e : (' ' == p.escape_char) = false := by
          simpa using fun e => h.2.2.2.1 e.symm
        rw [e]
        decide
      have hu2 : q.isUnit q.ahead = false := by
        rw [ha2]
        unfold isUnit isEscape
        have e : ('.' == q.escape_char) = false := by
          rw [← h.2.2.1]
          simpa using fun e => h.2.2.2.2.1 e.symm
        rw [e]
        decide
      rw [parsePrefix_no_unit_ahead p hu1, parsePrefix_no_unit_ahead q hu2]
      exact ⟨rfl, fun _ => h⟩

theorem twin_of_ok {α : Type} {r : List Char} {x y : parse_result R α} {a : α}
    {p : quantity_parser_t R} {g : registry R} (hx : x = .ok a p g)
    (h : r.length ≤ p.iss.length → ∃ q, y = .ok a q g ∧ p.twin r q) : x.twin r y := by
  subst hx
  exact h

theorem twin_of_error {α : Type} {r : List Char} {x y : parse_result R α}
    {e : quantity_error} {p : quantity_parser_t R} {g : registry R}
    (hx : x = .error e p g) : x.twin r y := by
  subst hx
  trivial

theorem twin_of_out_of_fuel {α : Type} {r : List Char} {x y : parse_result R α}
    (hx : x = .out_of_fuel) : x.twin r y := by
  subst hx
  trivial

theorem twin_ok_inv {α : Type} {r : List Char} {x y : parse_result R α} {a : α}
    {p : quantity_parser_t R} {g : registry R} (h : x.twin r y) (hx : x = .ok a p g)
    (hnp : r.length ≤ p.iss.length) : ∃ q, y = .ok a q g ∧ p.twin r q := by
  subst hx
  exact h hnp

theorem twin_isUnit2 {r : List Char} {p q : quantity_parser_t R} (h : p.twin r q) :
    p.isUnit2 p.current p.ahead = q.isUnit2 q.current q.ahead := by
  have he1 : (' ' == p.escape_char) = false := by
    simpa using fun e => h.2.2.2.1 e.symm
  have he2 : ('.' == p.escape_char) = false := by
    simpa using fun e => h.2.2.2.2.1 e.symm
  have h1 : p.isUnit2 p.current p.ahead = p.isUnit2 q.current p.ahead :=
    twin_current h (fun c => p.isUnit2 c p.ahead) (by
      show p.isUnit2 ' ' p.ahead = p.isUnit2 '.' p.ahead
      unfold isUnit2 isEscape
      rw [he1, he2]
      simp
      decide)
  have h2 : p.isUnit2 q.current p.ahead = p.isUnit2 q.current q.ahead :=
    twin_ahead h (fun c => p.isUnit2 q.current c) (by
      show p.isUnit2 q.current ' ' = p.isUnit2 q.current '.'
      unfold isUnit2
      have e1 : isalpha ' ' = false := by decide
      have e2 : isalpha '.' = false := by decide
      have e3 : (' ' == 'C') = false := by decide
      have e4 : ('.' == 'C') = false := by decide
      rw [e1, e2, e3, e4])
  have h3 : p.isUnit2 q.current q.ahead = q.isUnit2 q.current q.ahead := by
    unfold isUnit2 isEscape
    rw [h.2.2.1]
  rw [h1, h2, h3]

theorem twin_parseUnit {r : List Char} {p q : quantity_parser_t R} (h : p.twin r q)
    (g : registry R) : (p.parseUnit g).twin r (q.parseUnit g) := by
  have hc1 : (p.current == '1') = (q.current == '1') :=
    twin_current h (fun c => c == '1') (by decide)
  have ha1 : (p.ahead != '/') = (q.ahead != '/') :=
    twin_ahead h (fun c => c != '/') (by decide)
  have hu2 := twin_isUnit2 h
  by_cases c1 : (p.current == '1') = true
  · have c1q : (q.current == '1') = true := by rw [← hc1]; exact c1
    by_cases c2 : (p.ahead != '/') = true
    · exact twin_of_error (by rw [parseUnit, if_pos c1, if_pos c2])
    · have c2q : ¬ (q.ahead != '/') = true := by rw [← ha1]; exact c2
      refine twin_of_ok (by rw [parseUnit, if_pos c1, if_neg c2]) (fun hnp => ?_)
      exact ⟨_, by rw [parseUnit, if_pos c1q, if_neg c2q],
        (twin_accept h '1' (by decide) (by decide)).2 hnp⟩
  · have c1q : ¬ (q.current == '1') = true := by rw [← hc1]; exact c1
    by_cases c3 : (!(p.isUnit2 p.current p.ahead)) = true
    · exact twin_of_error (by rw [parseUnit, if_neg c1, if_pos c3])
    · have c3q : ¬ (!(q.isUnit2 q.current q.ahead)) = true := by rw [← hu2]; exact c3
      cases hu : unit g p.scanUnit.1 p.ext_units with
      | mk res g1 =>
        cases res with
        | error e =>
          exact twin_of_error (by rw [parseUnit, if_neg c1, if_neg c3, hu])
        | ok u =>
          refine twin_of_ok (by rw [parseUnit, if_neg c1, if_neg c3, hu]) (fun hnp => ?_)
          have hs := twin_scanUnit h hnp
          exact ⟨_, by rw [parseUnit, if_neg c1q, if_neg c3q, ← hs.1, ← h.1, hu], hs.2⟩

theorem holds_ok {α : Type} {I : quantity_parser_t R → Prop} {x : parse_result R α} {a : α}
    {p : quantity_parser_t R} {g : registry R} (h : x.holds I) (hx : x = .ok a p g) : I p := by
  subst hx
  exact h

/-- The loop of `parseTerm` on the two texts, with a parser of factors that
respects the relation and never gives characters back. -/
theorem twin_parseTermLoop {r : List Char}
    (factor : quantity_parser_t R → registry R → parse_result R (quantity R))
    (hf : ∀ (p q : quantity_parser_t R) (g : registry R), p.twin r q →
      (factor p g).twin r (factor q g))
    (hfk : ∀ (n : Nat) (p : quantity_parser_t R) (g : registry R), p.iss.length ≤ n →
      (factor p g).holds (fun s => s.iss.length ≤ n)) :
    ∀ (fuel : Nat) (lhs : quantity R) (sc : Nat) (p q : quantity_parser_t R) (g : registry R),
      p.twin r q →
      (parseTermLoop factor fuel lhs sc p g).twin r (parseTermLoop factor fuel lhs sc q g) := by
  intro fuel
  induction fuel with
  | zero =>
    intro lhs sc p q g h
    have hc1 : (!(isOperator p.current)) = (!(isOperator q.current)) :=
      twin_current h (fun c => !(isOperator c)) (by decide)
    have ha1 : isOperator p.ahead = isOperator q.ahead :=
      twin_ahead h isOperator (by decide)
    by_cases c1 : (!(isOperator p.current)) = true
    · refine twin_of_ok (by rw [parseTermLoop_zero, if_pos c1]) (fun _ => ?_)
      exact ⟨q, by rw [parseTermLoop_zero, if_pos (by rw [← hc1]; exact c1)], h⟩
    · by_cases c2 : isOperator p.ahead = true
      · exact twin_of_error (by rw [parseTermLoop_zero, if_neg c1, if_pos c2])
      · exact twin_of_out_of_fuel (by rw [parseTermLoop_zero, if_neg c1, if_neg c2])
  | succ fuel1 ih =>
    intro lhs sc p q g h
    have hc1 : (!(isOperator p.current)) = (!(isOperator q.current)) :=
      twin_current h (fun c => !(isOperator c)) (by decide)
    have ha1 : isOperator p.ahead = isOperator q.ahead :=
      twin_ahead h isOperator (by decide)
    have hc3 : (p.current == ' ' || p.current == '.') = (q.current == ' ' || q.current == '.') :=
      twin_current h (fun c => c == ' ' || c == '.') (by decide)
    have hstep : ∀ (l : quantity R → quantity R) (s : Nat),
        (match factor p.advance g with
          | .ok rhs p1 g1 => parseTermLoop factor fuel1 (l rhs) s p1 g1
          | .error e p1 g1 => .error e p1 g1
          | .out_of_fuel => .out_of_fuel : parse_result R (quantity R)).twin r
        (match factor q.advance g with
          | .ok rhs p1 g1 => parseTermLoop factor fuel1 (l rhs) s p1 g1
          | .error e p1 g1 => .error e p1 g1
          | .out_of_fuel => .out_of_fuel) := by
      intro l s
      cases hres : factor p.advance g with
      | ok rhs p1 g1 =>
        cases hL : parseTermLoop factor fuel1 (l rhs) s p1 g1 with
        | ok a pF gF =>
          refine twin_of_ok hL (fun hnp => ?_)
          have hm1 : pF.iss.length ≤ p1.iss.length :=
            holds_ok (kept_parseTermLoop (fun s => s.iss.length ≤ p1.iss.length)
              (fun s hs => advance_iss_le s _ hs) factor (fun p g hp => hfk _ p g hp)
              fuel1 (l rhs) s p1 g1 (Nat.le_refl _)) hL
          have hm2 : p1.iss.length ≤ p.advance.iss.length :=
            holds_ok (hfk _ p.advance g (Nat.le_refl _)) hres
          have hadv := twin_advance h (by omega)
          obtain ⟨q1, hq1, ht1⟩ := twin_ok_inv (hf p.advance q.advance g hadv) hres
            (by omega)
          simp only [hq1]
          exact twin_ok_inv (ih (l rhs) s p1 q1 g1 ht1) hL hnp
        | error e pF gF => exact twin_of_error hL
        | out_of_fuel => exact twin_of_out_of_fuel hL
      | error e p1 g1 => exact twin_of_error rfl
      | out_of_fuel => exact twin_of_out_of_fuel rfl
    by_cases c1 : (!(isOperator p.current)) = true
    · refine twin_of_ok (by rw [parseTermLoop_succ, if_pos c1]) (fun _ => ?_)
      exact ⟨q, by rw [parseTermLoop_succ, if_pos (by rw [← hc1]; exact c1)], h⟩
    · have c1q : ¬ (!(isOperator q.current)) = true := by rw [← hc1]; exact c1
      by_cases c2 : isOperator p.ahead = true
      · exact twin_of_error (by rw [parseTermLoop_succ, if_neg c1, if_pos c2])
      · have c2q : ¬ isOperator q.ahead = true := by rw [← ha1]; exact c2
        by_cases c3 : (p.current == ' ' || p.current == '.') = true
        · have c3q : (q.current == ' ' || q.current == '.') = true := by rw [← hc3]; exact c3
          rw [parseTermLoop_succ, parseTermLoop_succ, if_neg c1, if_neg c2, if_pos c3,
            if_neg c1q, if_neg c2q, if_pos c3q]
          exact hstep (fun rhs => operator_mul_assign lhs rhs) 0
        · have c3q : ¬ (q.current == ' ' || q.current == '.') = true := by
            rw [← hc3]; exact c3
          by_cases c4 : sc + 1 > 1
          · exact twin_of_error
              (by rw [parseTermLoop_succ, if_neg c1, if_neg c2, if_neg c3, if_pos c4])
          · rw [parseTermLoop_succ, parseTermLoop_succ, if_neg c1, if_neg c2, if_neg c3,
              if_neg c4, if_neg c1q, if_neg c2q, if_neg c3q, if_neg c4]
            exact hstep (fun rhs => operator_div_assign lhs rhs) (sc + 1)

theorem twin_parseTerm_with {r : List Char}
    (factor : quantity_parser_t R → registry R → parse_result R (quantity R))
    (hf : ∀ (p q : quantity_parser_t R) (g : registry R), p.twin r q →
      (factor p g).twin r (factor q g))
    (hfk : ∀ (n : Nat) (p : quantity_parser_t R) (g : registry R), p.iss.length ≤ n →
      (factor p g).holds (fun s => s.iss.length ≤ n))
    {p q : quantity_parser_t R} (h : p.twin r q) (g : registry R) :
    (parseTerm_with factor p g).twin r (parseTerm_with factor q g) := by
  unfold parseTerm_with
  cases hres : factor p g with
  | ok lhs p1 g1 =>
    cases hL : parseTermLoop factor (p1.iss.length + 1) lhs 0 p1 g1 with
    | ok a pF gF =>
      refine twin_of_ok hL (fun hnp => ?_)
      have hm1 : pF.iss.length ≤ p1.iss.length :=
        holds_ok (kept_parseTermLoop (fun s => s.iss.length ≤ p1.iss.length)
          (fun s hs => advance_iss_le s _ hs) factor (fun p g hp => hfk _ p g hp)
          _ lhs 0 p1 g1 (Nat.le_refl _)) hL
      obtain ⟨q1, hq1, ht1⟩ := twin_ok_inv (hf p q g h) hres (by omega)
      simp only [hq1]
      rw [(twin_length ht1).2]
      exact twin_ok_inv (twin_parseTermLoop factor hf hfk _ lhs 0 p1 q1 g1 ht1) hL hnp
    | error e pF gF => exact twin_of_error hL
    | out_of_fuel => exact twin_of_out_of_fuel hL
  | error e p1 g1 => exact twin_of_error rfl
  | out_of_fuel => exact twin_of_out_of_fuel rfl

theorem twin_parseExpression_with {r : List Char}
    (factor : quantity_parser_t R → registry R → parse_result R (quantity R))
    (hf : ∀ (p q : quantity_parser_t R) (g : registry R), p.twin r q →
      (factor p g).twin r (factor q g))
    (hfk : ∀ (n : Nat) (p : quantity_parser_t R) (g : registry R), p.iss.length ≤ n →
      (factor p g).holds (fun s => s.iss.length ≤ n))
    {p q : quantity_parser_t R} (h : p.twin r q) (g : registry R) :
    (parseExpression_with factor p g).twin r (parseExpression_with factor q g) := by
  unfold parseExpression_with
  cases hres : parseTerm_with factor p.parseNumericalValue.2 g with
  | ok t p1 g1 =>
    refine twin_of_ok rfl (fun hnp => ?_)
    have hm1 : p1.iss.length ≤ p.parseNumericalValue.2.iss.length :=
      holds_ok (kept_parseTerm_with (fun s => s.iss.length ≤ p.parseNumericalValue.2.iss.length)
        (fun s hs => advance_iss_le s _ hs) factor (fun p g hp => hfk _ p g hp)
        p.parseNumericalValue.2 g (Nat.le_refl _)) hres
    have hn := twin_parseNumericalValue h (by omega)
    obtain ⟨q1, hq1, ht1⟩ := twin_ok_inv (twin_parseTerm_with factor hf hfk hn.2 g) hres hnp
    simp only [hq1]
    exact ⟨q1, by rw [hn.1], ht1⟩
  | error e p1 g1 => exact twin_of_error rfl
  | out_of_fuel => exact twin_of_out_of_fuel rfl

theorem parsePower_iss_le (p : quantity_parser_t R) (x : quantity R) (n : Nat)
    (h : p.iss.length ≤ n) : (p.parsePower x).2.iss.length ≤ n :=
  kept_parsePower (fun s => s.iss.length ≤ n) (fun s hs => advance_iss_le s n hs) p h x

theorem twin_parseFactorAux_unit {r : List Char} {p q : quantity_parser_t R} (h : p.twin r q)
    (g : registry R) :
    (match p.parsePrefix with
      | (.error e, p1) => .error e p1 g
      | (.ok pfx, p1) =>
        match p1.parseUnit g with
        | .ok u p2 g2 =>
          .ok (p2.parsePower (operator_scalar_mul pfx u)).1
            (p2.parsePower (operator_scalar_mul pfx u)).2 g2
        | .error e p2 g2 => .error e p2 g2
        | .out_of_fuel => .out_of_fuel : parse_result R (quantity R)).twin r
    (match q.parsePrefix with
      | (.error e, p1) => .error e p1 g
      | (.ok pfx, p1) =>
        match p1.parseUnit g with
        | .ok u p2 g2 =>
          .ok (p2.parsePower (operator_scalar_mul pfx u)).1
            (p2.parsePower (operator_scalar_mul pfx u)).2 g2
        | .error e p2 g2 => .error e p2 g2
        | .out_of_fuel => .out_of_fuel) := by
  have hpre := twin_parsePrefix h
  cases hp : p.parsePrefix with
  | mk r1 p1 =>
    cases hq : q.parsePrefix with
    | mk r2 q1 =>
      rw [hp, hq] at hpre
      obtain ⟨hr, hs⟩ := hpre
      simp only at hr hs
      subst hr
      cases r1 with
      | error e => exact twin_of_error rfl
      | ok pfx =>
        cases hu : p1.parseUnit g with
        | ok u p2 g2 =>
          simp only [hu]
          refine twin_of_ok rfl (fun hnp => ?_)
          have hm1 : p2.iss.length ≤ p1.iss.length :=
            holds_ok (kept_parseUnit (fun s => s.iss.length ≤ p1.iss.length)
              (fun s hs => advance_iss_le s _ hs) p1 (Nat.le_refl _) g) hu
          have hm2 := parsePower_iss_le p2 (operator_scalar_mul pfx u) _ (Nat.le_refl _)
          have ht1 := hs (by omega)
          obtain ⟨q2, hq2, ht2⟩ := twin_ok_inv (twin_parseUnit ht1 g) hu (by omega)
          have hpw := twin_parsePower ht2 (operator_scalar_mul pfx u) hnp
          simp only [hq2]
          exact ⟨_, by rw [hpw.1], hpw.2⟩
        | error e p2 g2 =>
          simp only [hu]
          exact twin_of_error rfl
        | out_of_fuel =>
          simp only [hu]
          exact twin_of_out_of_fuel rfl

theorem twin_isPrefixedUnit {r : List Char} {p q : quantity_parser_t R} (h : p.twin r q) :
    p.isPrefixedUnit p.current p.ahead = q.isPrefixedUnit q.current q.ahead := by
  have hc1 : (p.current == '1') = (q.current == '1') :=
    twin_current h (fun c => c == '1') (by decide)
  unfold isPrefixedUnit
  rw [hc1, twin_isUnit2 h]

theorem kept_iss_parseFactorAux (fuel : Nat) (n : Nat) (p : quantity_parser_t R)
    (g : registry R) (h : p.iss.length ≤ n) :
    (parseFactorAux fuel p g).holds (fun s => s.iss.length ≤ n) :=
  kept_parseFactorAux (fun s => s.iss.length ≤ n) (fun s hs => advance_iss_le s n hs)
    fuel p g h

/-- The member `parseFactor` on the two texts. -/
theorem twin_parseFactorAux {r : List Char} :
    ∀ (fuel : Nat) (p q : quantity_parser_t R) (g : registry R), p.twin r q →
      (parseFactorAux fuel p g).twin r (parseFactorAux fuel q g) := by
  intro fuel
  induction fuel with
  | zero =>
    intro p q g h
    have ha := (twin_accept h '(' (by decide) (by decide)).1
    have hd := twin_isPrefixedUnit h
    by_cases c1 : (p.accept '(').1 = true
    · exact twin_of_out_of_fuel (by rw [parseFactorAux_zero, if_pos c1])
    · have c1q : ¬ (q.accept '(').1 = true := by rw [← ha]; exact c1
      by_cases c2 : (p.dimless_quantities && !(p.isPrefixedUnit p.current p.ahead)) = true
      · refine twin_of_ok (by rw [parseFactorAux_zero, if_neg c1, if_pos c2]) (fun _ => ?_)
        exact ⟨q, by rw [parseFactorAux_zero, if_neg c1q,
          if_pos (by rw [← hd, ← h.2.1]; exact c2)], h⟩
      · rw [parseFactorAux_zero, parseFactorAux_zero, if_neg c1, if_neg c2, if_neg c1q,
          if_neg (by rw [← hd, ← h.2.1]; exact c2)]
        exact twin_parseFactorAux_unit h g
  | succ fuel1 ih =>
    intro p q g h
    have ha := twin_accept h '(' (by decide) (by decide)
    have hd := twin_isPrefixedUnit h
    by_cases c1 : (p.accept '(').1 = true
    · have c1q : (q.accept '(').1 = true := by rw [← ha.1]; exact c1
      rw [parseFactorAux_succ, parseFactorAux_succ, if_pos c1, if_pos c1q]
      cases hres : parseExpression_with (parseFactorAux fuel1) (p.accept '(').2 g with
      | ok x p1 g1 =>
        cases hex : p1.expect ')' with
        | mk r2 p2 =>
          cases r2 with
          | error e =>
            simp only [hex]
            exact twin_of_error rfl
          | ok u =>
            simp only [hex]
            refine twin_of_ok rfl (fun hnp => ?_)
            have hp2 : p2 = (p1.expect ')').2 := by rw [hex]
            have hm3 := parsePower_iss_le p2 x _ (Nat.le_refl _)
            have hm2 : p2.iss.length ≤ p1.iss.length := by
              rw [hp2]
              exact kept_expect (fun s => s.iss.length ≤ p1.iss.length)
                (fun s hs => advance_iss_le s _ hs) p1 (Nat.le_refl _) ')'
            have hm1 : p1.iss.length ≤ (p.accept '(').2.iss.length :=
              holds_ok (kept_parseExpression_with
                (fun s => s.iss.length ≤ (p.accept '(').2.iss.length)
                (fun s hs => advance_iss_le s _ hs) (parseFactorAux fuel1)
                (fun p g hp => kept_iss_parseFactorAux fuel1 _ p g hp)
                (p.accept '(').2 g (Nat.le_refl _)) hres
            have ht0 := ha.2 (by omega)
            obtain ⟨q1, hq1, ht1⟩ := twin_ok_inv
              (twin_parseExpression_with (parseFactorAux fuel1) ih
                (fun n p g hp => kept_iss_parseFactorAux fuel1 n p g hp) ht0 g) hres
              (by omega)
            rcases twin_expect ht1 ')' (by decide) (by decide) with
              ⟨e1, e2, he1, he2⟩ | ⟨he1, he2, ht2⟩
            · rw [hex] at he1
              exact absurd he1 (by simp)
            · have ht3 := ht2 (by rw [← hp2]; omega)
              rw [← hp2] at ht3
              have hpw := twin_parsePower ht3 x hnp
              cases hexq : q1.expect ')' with
              | mk r3 q2 =>
                rw [hexq] at he2 hpw
                simp only at he2 hpw
                subst he2
                simp only [hq1, hexq]
                exact ⟨_, by rw [hpw.1], hpw.2⟩
      | error e p1 g1 => exact twin_of_error rfl
      | out_of_fuel => exact twin_of_out_of_fuel rfl
    · have c1q : ¬ (q.accept '(').1 = true := by rw [← ha.1]; exact c1
      by_cases c2 : (p.dimless_quantities && !(p.isPrefixedUnit p.current p.ahead)) = true
      · refine twin_of_ok (by rw [parseFactorAux_succ, if_neg c1, if_pos c2]) (fun _ => ?_)
        exact ⟨q, by rw [parseFactorAux_succ, if_neg c1q,
          if_pos (by rw [← hd, ← h.2.1]; exact c2)], h⟩
      · rw [parseFactorAux_succ, parseFactorAux_succ, if_neg c1, if_neg c2, if_neg c1q,
          if_neg (by rw [← hd, ← h.2.1]; exact c2)]
        exact twin_parseFactorAux_unit h g

theorem twin_parseFactor {r : List Char} {p q : quantity_parser_t R} (h : p.twin r q)
    (g : registry R) : (p.parseFactor g).twin r (q.parseFactor g) := by
  unfold parseFactor
  rw [(twin_length h).2]
  exact twin_parseFactorAux _ p q g h

end twins

section blank_and_dot

open quantity_parser_t

variable {R : Type} [Rep R]

theorem to_quantity_value? (g : registry R) (text : String) (extunits dimless : Bool) :
    (to_quantity g text extunits dimless).value? =
      (((quantity_parser_t.mk0.extend extunits).dimensionless dimless).parseInput g
        text.toList).value? := by
  unfold to_quantity make_quantity parse
  cases hres : ((quantity_parser_t.mk0.extend extunits).dimensionless dimless).parseInput g
      text.toList with
  | ok q2 p2 g2 => rfl
  | error e p2 g2 => rfl
  | out_of_fuel => rfl

/-- A text without a number in front: the term is parsed up to the end character. -/
theorem parseInput_started_ok (self : quantity_parser_t R) (g : registry R)
    (text_ : List Char) (t : quantity R) (p2 : quantity_parser_t R) (g1 : registry R)
    (hsp : isspace (self.initialize_ text_).advance.current_char = false)
    (hre : isReal (self.initialize_ text_).advance.current_char = false)
    (hterm : parseTerm (self.started text_) g = .ok t p2 g1)
    (hend : p2.current_char = end_char) :
    (self.parseInput g text_).value? = some (operator_scalar_mul Rep.one_point_zero t) := by
  have hnone := parseNumericalValue_none _ hsp hre
  unfold started at hterm
  have h := parseInput_of_term_ok self g text_ t p2 g1 (by rw [hnone]; exact hterm) hend
  rw [h, hnone]
  rfl

/-- A text without a number in front: the term ends before the end character. -/
theorem parseInput_started_garbage (self : quantity_parser_t R) (g : registry R)
    (text_ : List Char) (t : quantity R) (p2 : quantity_parser_t R) (g1 : registry R)
    (hsp : isspace (self.initialize_ text_).advance.current_char = false)
    (hre : isReal (self.initialize_ text_).advance.current_char = false)
    (hterm : parseTerm (self.started text_) g = .ok t p2 g1)
    (hend : p2.current_char ≠ end_char) :
    (self.parseInput g text_).value? = none := by
  have hnone := parseNumericalValue_none _ hsp hre
  unfold started at hterm
  unfold parseInput parseNumValueExpression
  rw [hnone]
  simp only [hterm]
  rw [accept_false p2 end_char hend]
  rfl

/-- A text without a number in front: the term is not parsed. -/
theorem parseInput_started_fail (self : quantity_parser_t R) (g : registry R)
    (text_ : List Char)
    (hsp : isspace (self.initialize_ text_).advance.current_char = false)
    (hre : isReal (self.initialize_ text_).advance.current_char = false)
    (hterm : (parseTerm (self.started text_) g).value? = none) :
    (self.parseInput g text_).value? = none := by
  have hnone := parseNumericalValue_none _ hsp hre
  unfold started at hterm
  unfold parseInput parseNumValueExpression
  rw [hnone]
  cases hres : parseTerm
      { (self.initialize_ text_).advance with num_value := Rep.one_point_zero } g with
  | ok t p2 g1 =>
    rw [hres] at hterm
    exact absurd hterm (by simp [parse_result.value?])
  | error e p2 g1 =>
    simp only [hres]
    rfl
  | out_of_fuel =>
    simp only [hres]
    rfl

theorem agree_of_sim {α : Type} {x y : parse_result R α} (h : x.sim y) :
    (∃ (a : α) (p q : quantity_parser_t R) (g : registry R),
      x = .ok a p g ∧ y = .ok a q g ∧ p.sim q) ∨
    (x.value? = none ∧ y.value? = none) := by
  rcases parse_result_sim_cases h with
    ⟨a, p, q, g, h1, h2, hs⟩ | ⟨e1, e2, p, q, g, h1, h2, hs⟩ | ⟨h1, h2⟩
  · exact Or.inl ⟨a, p, q, g, h1, h2, hs⟩
  · rw [h1, h2]
    exact Or.inr ⟨rfl, rfl⟩
  · rw [h1, h2]
    exact Or.inr ⟨rfl, rfl⟩

/-- The loop of `parseTerm` at a blank and at a dot, with the same stream after it:
both are the multiplication, so the loops end in the same way. -/
theorem blank_dot_loop
    (factor : quantity_parser_t R → registry R → parse_result R (quantity R))
    (hf : ∀ (p q : quantity_parser_t R) (g : registry R), p.sim q →
      (factor p g).sim (factor q g))
    (p q : quantity_parser_t R) (g : registry R)
    (h1 : p.ext_units = q.ext_units) (h2 : p.dimless_quantities = q.dimless_quantities)
    (h3 : p.escape_char = q.escape_char)
    (hp : p.current_char = ' ') (hq : q.current_char = '.') (hi : p.iss = q.iss)
    (fuel : Nat) (lhs : quantity R) (sc : Nat) :
    (∃ (a : quantity R) (p2 q2 : quantity_parser_t R) (g2 : registry R),
      parseTermLoop factor fuel lhs sc p g = .ok a p2 g2 ∧
      parseTermLoop factor fuel lhs sc q g = .ok a q2 g2 ∧ p2.sim q2) ∨
    ((parseTermLoop factor fuel lhs sc p g).value? = none ∧
      (parseTermLoop factor fuel lhs sc q g).value? = none) := by
  have hah : p.ahead = q.ahead := by
    unfold ahead isEnd
    rw [hp, hq, hi]
    rfl
  have hadv : p.advance.sim q.advance := by
    cases hiq : q.iss with
    | nil =>
      rw [advance_of_nil p (by rw [hp]; decide) (by rw [hi]; exact hiq),
        advance_of_nil q (by rw [hq]; decide) hiq]
      exact ⟨h1, h2, h3, rfl, hi⟩
    | cons y t =>
      rw [advance_of_cons p (by rw [hp]; decide) y t (by rw [hi]; exact hiq),
        advance_of_cons q (by rw [hq]; decide) y t hiq]
      exact ⟨h1, h2, h3, rfl, rfl⟩
  have c1 : ¬ (!(isOperator p.current)) = true := by
    show ¬ (!(isOperator p.current_char)) = true
    rw [hp]
    decide
  have c1q : ¬ (!(isOperator q.current)) = true := by
    show ¬ (!(isOperator q.current_char)) = true
    rw [hq]
    decide
  have c3 : (p.current == ' ' || p.current == '.') = true := by
    show (p.current_char == ' ' || p.current_char == '.') = true
    rw [hp]
    decide
  have c3q : (q.current == ' ' || q.current == '.') = true := by
    show (q.current_char == ' ' || q.current_char == '.') = true
    rw [hq]
    decide
  by_cases c2 : isOperator p.ahead = true
  · have c2q : isOperator q.ahead = true := by rw [← hah]; exact c2
    cases fuel with
    | zero =>
      rw [parseTermLoop_zero, parseTermLoop_zero, if_neg c1, if_pos c2, if_neg c1q, if_pos c2q]
      exact Or.inr ⟨rfl, rfl⟩
    | succ fuel1 =>
      rw [parseTermLoop_succ, parseTermLoop_succ, if_neg c1, if_pos c2, if_neg c1q,
        if_pos c2q]
      exact Or.inr ⟨rfl, rfl⟩
  · have c2q : ¬ isOperator q.ahead = true := by rw [← hah]; exact c2
    cases fuel with
    | zero =>
      rw [parseTermLoop_zero, parseTermLoop_zero, if_neg c1, if_neg c2, if_neg c1q, if_neg c2q]
      exact Or.inr ⟨rfl, rfl⟩
    | succ fuel1 =>
      rw [parseTermLoop_succ, parseTermLoop_succ, if_neg c1, if_neg c2, if_pos c3, if_neg c1q,
        if_neg c2q, if_pos c3q]
      rcases parse_result_sim_cases (hf p.advance q.advance g hadv) with
        ⟨a, p1, q1, g1, e1, e2, hs⟩ | ⟨x1, x2, p1, q1, g1, e1, e2, hs⟩ | ⟨e1, e2⟩
      · simp only [e1, e2]
        exact agree_of_sim (sim_parseTermLoop factor hf fuel1 _ 0 p1 q1 g1 hs)
      · simp only [e1, e2]
        exact Or.inr ⟨rfl, rfl⟩
      · simp only [e1, e2]
        exact Or.inr ⟨rfl, rfl⟩

theorem advance_options (p : quantity_parser_t R) :
    p.advance.ext_units = p.ext_units ∧
    p.advance.dimless_quantities = p.dimless_quantities ∧
    p.advance.escape_char = p.escape_char := by
  unfold advance
  split
  · exact ⟨rfl, rfl, rfl⟩
  · split <;> exact ⟨rfl, rfl, rfl⟩

/-- A factor that is parsed leaves the options of the parser alone. -/
theorem parseFactor_options (p : quantity_parser_t R) (g : registry R) (x : quantity R)
    (p2 : quantity_parser_t R) (g2 : registry R) (h : p.parseFactor g = .ok x p2 g2) :
    p2.ext_units = p.ext_units ∧ p2.dimless_quantities = p.dimless_quantities ∧
    p2.escape_char = p.escape_char :=
  holds_ok (kept_parseFactorAux
    (fun s => s.ext_units = p.ext_units ∧ s.dimless_quantities = p.dimless_quantities ∧
      s.escape_char = p.escape_char)
    (fun s hs => ⟨(advance_options s).1.trans hs.1, (advance_options s).2.1.trans hs.2.1,
      (advance_options s).2.2.trans hs.2.2⟩) _ p g ⟨rfl, rfl, rfl⟩) h

theorem not_operator_of (x : Char) (h1 : isspace x = false) (h2 : isReal x = false)
    (h3 : x ≠ '/') : isOperator x = false := by
  cases hb : isOperator x with
  | false => rfl
  | true =>
    unfold isOperator isMultiplicativeOperator isMultiplyingOperator isDividingOperator at hb
    simp only [Bool.or_eq_true, beq_iff_eq] at hb
    rcases hb with (e | e) | e
    · rw [e] at h1
      exact absurd h1 (by decide)
    · rw [e] at h2
      exact absurd h2 (by decide)
    · exact absurd e h3

/-- A factor that is a unit name as described by `plain_unit_name`, followed by a
character that continues neither a name nor a power. -/
theorem factor_name_of_stream (p : quantity_parser_t R) (g : registry R) (n : List Char)
    (x : Char) (rest : List Char) (u : quantity R) (g1 : registry R)
    (hn : plain_unit_name n = true) (hesc : p.escape_char = '!')
    (hx1 : ((x == '\'' || isalpha x) && !(x == end_char)) = false)
    (hx2 : isalpha x = false) (hx3 : x ≠ '!') (hx4 : isInteger x = false)
    (hcur : p.current_char :: p.iss = n ++ x :: rest)
    (hu : unit g (String.mk n) p.ext_units = (.ok u, g1)) :
    ∃ pa : quantity_parser_t R,
      p.parseFactor g = .ok (operator_scalar_mul Rep.one_point_zero u) pa g1 ∧
      pa.current_char = x ∧ pa.iss = rest := by
  rw [parseFactor_name p g n x rest u g1 hn hesc hx1 hx2 hx3 hcur hu,
    parsePower_none _ _ hx4]
  exact ⟨_, rfl, rfl, rfl⟩

/-- Claim C29: the blank and the dot are the same multiplying operator.  For a text
`a b` with a blank between `a` and `b`, in which the parser reads `a` as the first
factor (`a` starts with neither a number character nor white space, and
`parseFactor` stops at the blank, with the quantity `qa`), and the text `a.b`:
`to_quantity` fails on both or succeeds on both, with the same quantity.  If `b` is
a factor too (alone it is read by `parseFactor` up to its end, with the quantity
`qb`), both texts parse to `1.0 * (qa * qb)`. -/
theorem C29_blank_and_dot (g : registry R) (extunits dimless : Bool) (a0 : Char)
    (a1 : List Char) (b0 : Char) (bt : List Char) (qa : quantity R) (ga : registry R)
    (ha1 : isspace a0 = false) (ha2 : isReal a0 = false)
    (hl : ∀ c, (b0 :: bt).getLast? = some c → default_strip_set.contains c = false)
    (hfa : ∃ pa : quantity_parser_t R,
      (((quantity_parser_t.mk0.extend extunits).dimensionless dimless :
        quantity_parser_t R).started (a0 :: (a1 ++ ' ' :: b0 :: bt))).parseFactor g =
        .ok qa pa ga ∧
      pa.iss = (b0 :: bt) ++ [end_char]) :
    (to_quantity g (String.mk (a0 :: (a1 ++ ' ' :: b0 :: bt))) extunits dimless).value? =
      (to_quantity g (String.mk (a0 :: (a1 ++ '.' :: b0 :: bt))) extunits dimless).value? ∧
    ∀ (qb : quantity R) (pb : quantity_parser_t R) (gb : registry R),
      isspace b0 = false → isReal b0 = false → b0 ≠ '/' →
      (((quantity_parser_t.mk0.extend extunits).dimensionless dimless :
        quantity_parser_t R).started (b0 :: bt)).parseFactor ga = .ok qb pb gb →
      pb.current_char = end_char →
      (to_quantity g (String.mk (a0 :: (a1 ++ ' ' :: b0 :: bt))) extunits dimless).value? =
        some (operator_scalar_mul Rep.one_point_zero (operator_mul_assign qa qb)) ∧
      (to_quantity g (String.mk (a0 :: (a1 ++ '.' :: b0 :: bt))) extunits dimless).value? =
        some (operator_scalar_mul Rep.one_point_zero (operator_mul_assign qa qb)) := by
  obtain ⟨pa, hfa, hpa⟩ := hfa
  have hlast : ∀ (sep c : Char), (a0 :: (a1 ++ sep :: b0 :: bt)).getLast? = some c →
      default_strip_set.contains c = false := by
    intro sep c hc
    have e : a0 :: (a1 ++ sep :: b0 :: bt) = (a0 :: a1 ++ [sep]) ++ b0 :: bt := by simp
    rw [e, List.getLast?_append_cons] at hc
    exact hl c hc
  obtain ⟨hcA0, hcurA, hissA, hescA, hextA, hdimA, _, _⟩ :=
    started_eq ((quantity_parser_t.mk0.extend extunits).dimensionless dimless :
      quantity_parser_t R) a0 (a1 ++ ' ' :: b0 :: bt) (not_isspace_not_strip a0 ha1)
      (hlast ' ')
  obtain ⟨hcB0, hcurB, hissB, hescB, hextB, hdimB, _, _⟩ :=
    started_eq ((quantity_parser_t.mk0.extend extunits).dimensionless dimless :
      quantity_parser_t R) a0 (a1 ++ '.' :: b0 :: bt) (not_isspace_not_strip a0 ha1)
      (hlast '.')
  have hbang : ((quantity_parser_t.mk0.extend extunits).dimensionless dimless :
      quantity_parser_t R).escape_char = '!' := rfl
  have htw : quantity_parser_t.twin ((b0 :: bt) ++ [end_char])
      (((quantity_parser_t.mk0.extend extunits).dimensionless dimless :
        quantity_parser_t R).started (a0 :: (a1 ++ ' ' :: b0 :: bt)))
      (((quantity_parser_t.mk0.extend extunits).dimensionless dimless :
        quantity_parser_t R).started (a0 :: (a1 ++ '.' :: b0 :: bt))) := by
    refine ⟨hextA.trans hextB.symm, hdimA.trans hdimB.symm, hescA.trans hescB.symm, ?_, ?_,
      by simp, a0 :: a1, ?_, ?_⟩
    · rw [hescA, hbang]
      decide
    · rw [hescA, hbang]
      decide
    · rw [hcurA, hissA]
      simp
    · rw [hcurB, hissB]
      simp
  obtain ⟨pd, hfd, htw2⟩ := twin_ok_inv (twin_parseFactor htw g) hfa (by rw [hpa])
  obtain ⟨hca, hcd, hia, hid⟩ := twin_at htw2 (by rw [hpa])
  have hloop := blank_dot_loop parseFactor sim_parseFactor pa pd ga htw2.1 htw2.2.1
    htw2.2.2.1 hca hcd (hia.trans hid.symm) (pa.iss.length + 1) qa 0
  have htermA : parseTerm
      (((quantity_parser_t.mk0.extend extunits).dimensionless dimless :
        quantity_parser_t R).started (a0 :: (a1 ++ ' ' :: b0 :: bt))) g =
      parseTermLoop parseFactor (pa.iss.length + 1) qa 0 pa ga := by
    unfold parseTerm parseTerm_with
    rw [hfa]
  have htermB : parseTerm
      (((quantity_parser_t.mk0.extend extunits).dimensionless dimless :
        quantity_parser_t R).started (a0 :: (a1 ++ '.' :: b0 :: bt))) g =
      parseTermLoop parseFactor (pa.iss.length + 1) qa 0 pd ga := by
    unfold parseTerm parseTerm_with
    rw [hfd]
    show parseTermLoop parseFactor (pd.iss.length + 1) qa 0 pd ga =
      parseTermLoop parseFactor (pa.iss.length + 1) qa 0 pd ga
    rw [hia, hid]
  have hspA : isspace (((quantity_parser_t.mk0.extend extunits).dimensionless dimless :
      quantity_parser_t R).initialize_ (a0 :: (a1 ++ ' ' :: b0 :: bt))).advance.current_char =
      false := by rw [hcA0]; exact ha1
  have hreA : isReal (((quantity_parser_t.mk0.extend extunits).dimensionless dimless :
      quantity_parser_t R).initialize_ (a0 :: (a1 ++ ' ' :: b0 :: bt))).advance.current_char =
      false := by rw [hcA0]; exact ha2
  have hspB : isspace (((quantity_parser_t.mk0.extend extunits).dimensionless dimless :
      quantity_parser_t R).initialize_ (a0 :: (a1 ++ '.' :: b0 :: bt))).advance.current_char =
      false := by rw [hcB0]; exact ha1
  have hreB : isReal (((quantity_parser_t.mk0.extend extunits).dimensionless dimless :
      quantity_parser_t R).initialize_ (a0 :: (a1 ++ '.' :: b0 :: bt))).advance.current_char =
      false := by rw [hcB0]; exact ha2
  have hpart1 :
      (((quantity_parser_t.mk0.extend extunits).dimensionless dimless :
        quantity_parser_t R).parseInput g (a0 :: (a1 ++ ' ' :: b0 :: bt))).value? =
      (((quantity_parser_t.mk0.extend extunits).dimensionless dimless :
        quantity_parser_t R).parseInput g (a0 :: (a1 ++ '.' :: b0 :: bt))).value? := by
    rcases hloop with ⟨a, p2, q2, g2, e1, e2, hs⟩ | ⟨e1, e2⟩
    · by_cases hend : p2.current_char = end_char
      · rw [parseInput_started_ok _ g _ a p2 g2 hspA hreA (htermA.trans e1) hend,
          parseInput_started_ok _ g _ a q2 g2 hspB hreB (htermB.trans e2)
            (by rw [← hs.2.2.2.1]; exact hend)]
      · rw [parseInput_started_garbage _ g _ a p2 g2 hspA hreA (htermA.trans e1) hend,
          parseInput_started_garbage _ g _ a q2 g2 hspB hreB (htermB.trans e2)
            (by rw [← hs.2.2.2.1]; exact hend)]
    · rw [parseInput_started_fail _ g _ hspA hreA (by rw [htermA]; exact e1),
        parseInput_started_fail _ g _ hspB hreB (by rw [htermB]; exact e2)]
  have hpart1q :
      (to_quantity g (String.mk (a0 :: (a1 ++ ' ' :: b0 :: bt))) extunits dimless).value? =
      (to_quantity g (String.mk (a0 :: (a1 ++ '.' :: b0 :: bt))) extunits dimless).value? := by
    rw [to_quantity_value?, to_quantity_value?]
    exact hpart1
  refine ⟨hpart1q, ?_⟩
  intro qb pb gb hb1 hb2 hb3 hfb hpbe
  obtain ⟨_, hcurb, hissb, hescb, hextb, hdimb, _, _⟩ :=
    started_eq ((quantity_parser_t.mk0.extend extunits).dimensionless dimless :
      quantity_parser_t R) b0 bt (not_isspace_not_strip b0 hb1) hl
  obtain ⟨ho1, ho2, ho3⟩ := parseFactor_options _ g qa pa ga hfa
  have hpa2 : pa.iss = b0 :: (bt ++ [end_char]) := by rw [hpa]; rfl
  have hne : pa.current_char ≠ end_char := by rw [hca]; decide
  have hadv := advance_of_cons pa hne b0 (bt ++ [end_char]) hpa2
  have hsim : quantity_parser_t.sim
      (((quantity_parser_t.mk0.extend extunits).dimensionless dimless :
        quantity_parser_t R).started (b0 :: bt)) pa.advance := by
    rw [hadv]
    exact ⟨hextb.trans (hextA.symm.trans ho1.symm), hdimb.trans (hdimA.symm.trans ho2.symm),
      hescb.trans (hescA.symm.trans ho3.symm), hcurb, hissb⟩
  have hfac := sim_parseFactor _ _ ga hsim
  rw [hfb] at hfac
  rcases parse_result_sim_cases hfac with
    ⟨x, p3, q3, g3, e1, e2, hs⟩ | ⟨x1, x2, p3, q3, g3, e1, e2, hs⟩ | ⟨e1, e2⟩
  · simp only [parse_result.ok.injEq] at e1
    obtain ⟨ex, ep, eg⟩ := e1
    subst ex
    subst ep
    subst eg
    have hq3 : q3.current_char = end_char := by rw [← hs.2.2.2.1]; exact hpbe
    have c1 : ¬ (!(isOperator pa.current)) = true := by
      show ¬ (!(isOperator pa.current_char)) = true
      rw [hca]
      decide
    have c2 : ¬ isOperator pa.ahead = true := by
      rw [ahead_of_cons pa hne b0 (bt ++ [end_char]) hpa2, not_operator_of b0 hb1 hb2 hb3]
      simp
    have c3 : (pa.current == ' ' || pa.current == '.') = true := by
      show (pa.current_char == ' ' || pa.current_char == '.') = true
      rw [hca]
      decide
    have hterm : parseTerm
        (((quantity_parser_t.mk0.extend extunits).dimensionless dimless :
          quantity_parser_t R).started (a0 :: (a1 ++ ' ' :: b0 :: bt))) g =
        .ok (operator_mul_assign qa qb) q3 gb := by
      rw [htermA, parseTermLoop_succ, if_neg c1, if_neg c2, if_pos c3]
      simp only [e2]
      exact parseTermLoop_done _ _ _ _ _ _ (by rw [hq3]; decide)
    have hval := parseInput_started_ok _ g _ _ q3 gb hspA hreA hterm hq3
    have hvalq :
        (to_quantity g (String.mk (a0 :: (a1 ++ ' ' :: b0 :: bt))) extunits
          dimless).value? =
        some (operator_scalar_mul Rep.one_point_zero (operator_mul_assign qa qb)) := by
      rw [to_quantity_value?]
      exact hval
    exact ⟨hvalq, hpart1q ▸ hvalq⟩
  · exact absurd e1 (by simp)
  · exact absurd e1 (by simp)

/-- The texts `N m` and `N.m` in exact arithmetic: both parse to the product of
newton and meter, 1 kg m2 / s2. -/
theorem C29_blank_and_dot_witness :
    (to_quantity (registry.initial : registry Rat) "N m" false false).value? =
      (to_quantity (registry.initial : registry Rat) "N.m" false false).value? ∧
    (to_quantity (registry.initial : registry Rat) "N m" false false).value? =
      some (operator_scalar_mul Rep.one_point_zero
        (operator_mul_assign (operator_scalar_mul Rep.one_point_zero newton)
          (operator_scalar_mul Rep.one_point_zero meter))) ∧
    (to_quantity (registry.initial : registry Rat) "N.m" false false).value? =
      some (operator_scalar_mul Rep.one_point_zero
        (operator_mul_assign (operator_scalar_mul Rep.one_point_zero newton)
          (operator_scalar_mul Rep.one_point_zero meter))) ∧
    (to_quantity (registry.initial : registry Rat) "N.m" false false).value? =
      some ⟨dimensions.mk7 2 1 (-2) 0 0 0 0, 1⟩ ∧
    (to_quantity (registry.initial : registry Rat) "N" false false).value? =
      some ⟨dimensions.mk7 1 1 (-2) 0 0 0 0, 1⟩ ∧
    (to_quantity (registry.initial : registry Rat) "m" false false).value? =
      some ⟨dimensions.mk7 1 0 0 0 0 0 0, 1⟩ := by
  have hl : ∀ c, (['m'] : List Char).getLast? = some c →
      default_strip_set.contains c = false := by
    intro c hc
    simp only [List.getLast?_singleton, Option.some.injEq] at hc
    rw [← hc]
    decide
  have hl2 : ∀ c, (['N', ' ', 'm'] : List Char).getLast? = some c →
      default_strip_set.contains c = false := by
    intro c hc
    simp only [List.getLast?_cons_cons, List.getLast?_singleton, Option.some.injEq] at hc
    rw [← hc]
    decide
  obtain ⟨_, hcurA, hissA, hescA, _, _, _, _⟩ :=
    started_eq ((quantity_parser_t.mk0.extend false).dimensionless false :
      quantity_parser_t Rat) 'N' [' ', 'm'] (by decide) hl2
  obtain ⟨_, hcurB, hissB, hescB, _, _, _, _⟩ :=
    started_eq ((quantity_parser_t.mk0.extend false).dimensionless false :
      quantity_parser_t Rat) 'm' [] (by decide) hl
  obtain ⟨pa, hfa, _, hpa⟩ := factor_name_of_stream
    (((quantity_parser_t.mk0.extend false).dimensionless false :
      quantity_parser_t Rat).started ['N', ' ', 'm']) registry.initial ['N'] ' '
    ['m', end_char] newton registry.initial (by decide) (by rw [hescA]; rfl) (by decide)
    (by decide) (by decide) (by decide) (by rw [hcurA, hissA]; rfl)
    (unit_of_predefined _ _ _ newton (by decide!))
  obtain ⟨pb, hfb, hpb, _⟩ := factor_name_of_stream
    (((quantity_parser_t.mk0.extend false).dimensionless false :
      quantity_parser_t Rat).started ['m']) registry.initial ['m'] end_char
    [] meter registry.initial (by decide) (by rw [hescB]; rfl) (by decide)
    (by decide) (by decide) (by decide) (by rw [hcurB, hissB]; rfl)
    (unit_of_predefined _ _ _ meter (by decide!))
  have h := C29_blank_and_dot (R := Rat) registry.initial false false 'N' [] 'm' []
    (operator_scalar_mul Rep.one_point_zero newton) registry.initial (by decide) (by decide)
    hl ⟨pa, hfa, hpa⟩
  have h2 := h.2 (operator_scalar_mul Rep.one_point_zero meter) pb registry.initial
    (by decide) (by decide) (by decide) hfb hpb
  exact ⟨h.1, h2.1, h2.2, by decide!, by decide!, by decide!⟩

end blank_and_dot

/-! ## Unit names and symbols -/

section unit_symbol_properties

open quantity_parser_t

variable {R : Type} [Rep R]

theorem intercalate_go_concat (x s : String) (l : List String) (t : String) :
    String.intercalate.go x s (l ++ [t]) = String.intercalate.go x s l ++ s ++ t := by
  induction l generalizing x with
  | nil => rfl
  | cons a l ih =>
    show String.intercalate.go (x ++ s ++ a) s (l ++ [t]) = _
    rw [ih]
    rfl

theorem intercalate_concat (s : String) (l : List String) (t : String) (hl : l ≠ []) :
    s.intercalate (l ++ [t]) = s.intercalate l ++ s ++ t := by
  cases l with
  | nil => exact absurd rfl hl
  | cons a l => exact intercalate_go_concat a s l t

/-- One call of `emit_dim` adds the term of the unit to the terms emitted so far,
joined by single blanks. -/
theorem emit_dim_terms (acc : List String) (label : String) (e : Int) :
    unit_info.emit_dim (" ".intercalate acc) label e acc.isEmpty =
      (" ".intercalate (acc ++ (symbol_term? label e).toList),
        (acc ++ (symbol_term? label e).toList).isEmpty) := by
  by_cases h0 : e = 0
  · subst h0
    simp [unit_info.emit_dim, symbol_term?]
  · have hb : ¬ (e == 0) = true := by simpa using h0
    have hterm : symbol_term? label e = some (symbol_term label e) := by
      unfold symbol_term?
      rw [if_neg h0]
    rw [hterm]
    show unit_info.emit_dim (" ".intercalate acc) label e acc.isEmpty =
      (" ".intercalate (acc ++ [symbol_term label e]), (acc ++ [symbol_term label e]).isEmpty)
    have hne : (acc ++ [symbol_term label e]).isEmpty = false := by
      cases acc <;> rfl
    rw [hne]
    unfold unit_info.emit_dim
    rw [if_neg hb]
    refine Prod.ext ?_ rfl
    show (if e != 1 then
        (if e > 1 then
          (if acc.isEmpty = true then " ".intercalate acc else " ".intercalate acc ++ " ")
            ++ label ++ "+"
        else (if acc.isEmpty = true then " ".intercalate acc else " ".intercalate acc ++ " ")
            ++ label) ++ toString e
      else
        (if e > 1 then
          (if acc.isEmpty = true then " ".intercalate acc else " ".intercalate acc ++ " ")
            ++ label ++ "+"
        else (if acc.isEmpty = true then " ".intercalate acc else " ".intercalate acc ++ " ")
            ++ label)) = _
    cases acc with
    | nil =>
      have he : (" ".intercalate ([] : List String)) = "" := rfl
      have hs : " ".intercalate ([] ++ [symbol_term label e]) = symbol_term label e := rfl
      rw [hs]
      simp only [List.isEmpty_nil, if_true, he, String.empty_append]
      unfold symbol_term
      by_cases h1 : e = 1
      · subst h1
        simp
      · have hb1 : (e != 1) = true := by simpa using h1
        rw [if_pos hb1, if_neg h1]
        by_cases h2 : e > 1
        · rw [if_pos h2, if_pos h2]
        · rw [if_neg h2, if_neg h2]
    | cons a l =>
      rw [intercalate_concat " " (a :: l) _ (by simp)]
      simp only [List.isEmpty_cons, Bool.false_eq_true, if_false]
      unfold symbol_term
      by_cases h1 : e = 1
      · subst h1
        simp
      · have hb1 : (e != 1) = true := by simpa using h1
        rw [if_pos hb1, if_neg h1]
        by_cases h2 : e > 1
        · rw [if_pos h2, if_pos h2]
          simp only [String.append_assoc]
        · rw [if_neg h2, if_neg h2]
          simp only [String.append_assoc]

theorem unit_name_of_find (r : registry R) (d : dimensions) (n : String)
    (h : map_find r.nmap d = some n) : unit_name r d = (n, r) := by
  unfold unit_name
  rw [h]

theorem filterMap_cons_toList {α β : Type} (f : α → Option β) (x : α) (xs : List α) :
    (x :: xs).filterMap f = (f x).toList ++ xs.filterMap f := by
  cases h : f x <;> simp [List.filterMap_cons, h]

/-- The loop body over indices whose names the registry holds: the terms are added,
the registry stays. -/
theorem emit_fold_terms (m_dim : dimensions) (r : registry R) (names : List (Nat × String))
    (hn : ∀ p ∈ names, unit_name r (dimensions.mk1 p.1 1) = (p.2, r)) :
    ∀ acc : List String,
      (names.map Prod.fst).foldl (unit_info.emit_step m_dim)
          (" ".intercalate acc, acc.isEmpty, r) =
        (" ".intercalate
            (acc ++ names.filterMap (fun p => symbol_term? p.2 (m_dim.d.getD p.1 0))),
          (acc ++ names.filterMap (fun p => symbol_term? p.2 (m_dim.d.getD p.1 0))).isEmpty,
          r) := by
  induction names with
  | nil =>
    intro acc
    simp
  | cons p rest ih =>
    intro acc
    have hp := hn p (List.mem_cons_self _ _)
    have hstep : unit_info.emit_step m_dim (" ".intercalate acc, acc.isEmpty, r) p.1 =
        (" ".intercalate (acc ++ (symbol_term? p.2 (m_dim.d.getD p.1 0)).toList),
          (acc ++ (symbol_term? p.2 (m_dim.d.getD p.1 0)).toList).isEmpty, r) := by
      unfold unit_info.emit_step
      simp only [hp]
      rw [emit_dim_terms]
    rw [List.map_cons, List.foldl_cons, hstep,
      ih (fun q hq => hn q (List.mem_cons_of_mem _ hq)), filterMap_cons_toList,
      List.append_assoc]

theorem initial_base_names (r : registry R) (hr : r.nmap = predefined_unit_names) :
    ∀ p ∈ [(0, "m"), (1, "kg"), (2, "s"), (3, "A"), (4, "K"), (5, "mol"), (6, "cd"),
        (7, "x0"), (8, "x1"), (9, "x2")],
      unit_name r (dimensions.mk1 p.1 1) = (p.2, r) := by
  have h : ∀ p ∈ [(0, "m"), (1, "kg"), (2, "s"), (3, "A"), (4, "K"), (5, "mol"), (6, "cd"),
      (7, "x0"), (8, "x1"), (9, "x2")],
      map_find predefined_unit_names (dimensions.mk1 p.1 1) = some p.2 := by decide
  intro p hp
  exact unit_name_of_find r _ _ (by rw [hr]; exact h p hp)

theorem list_seven {α : Type} (l : List α) (h : 7 ≤ l.length) :
    ∃ a0 a1 a2 a3 a4 a5 a6 rest, l = a0 :: a1 :: a2 :: a3 :: a4 :: a5 :: a6 :: rest := by
  rcases l with _ | ⟨a0, _ | ⟨a1, _ | ⟨a2, _ | ⟨a3, _ | ⟨a4, _ | ⟨a5, _ | ⟨a6, rest⟩⟩⟩⟩⟩⟩⟩
  all_goals first
    | exact ⟨_, _, _, _, _, _, _, _, rfl⟩
    | (simp at h)

/-- The base loop of `symbol` with the predefined names. -/
theorem emit_range_base (d : dimensions) (hlen : 7 ≤ d.d.length) (r : registry R)
    (hr : r.nmap = predefined_unit_names) :
    unit_info.emit_range d 0 7 ("", true, r) =
      (" ".intercalate (base_symbol_terms d), (base_symbol_terms d).isEmpty, r) := by
  have hfold := emit_fold_terms d r
    [(0, "m"), (1, "kg"), (2, "s"), (3, "A"), (4, "K"), (5, "mol"), (6, "cd")]
    (fun p hp => initial_base_names r hr p (by
      simp only [List.mem_cons, List.mem_singleton, List.not_mem_nil, or_false] at hp ⊢
      tauto)) []
  obtain ⟨a0, a1, a2, a3, a4, a5, a6, rest, hd⟩ := list_seven d.d hlen
  have hterms : base_symbol_terms d =
      [] ++ [(0, "m"), (1, "kg"), (2, "s"), (3, "A"), (4, "K"), (5, "mol"),
        (6, "cd")].filterMap (fun p => symbol_term? p.2 (d.d.getD p.1 0)) := by
    unfold base_symbol_terms base_symbol_names
    rw [hd]
    rfl
  rw [hterms]
  exact hfold

/-- The extension loop of `symbol` on a dimension whose components 7, 8 and 9 are
zero, with the predefined names: nothing is added. -/
theorem emit_range_ext_zero (d : dimensions) (r : registry R)
    (hr : r.nmap = predefined_unit_names)
    (h7 : d.d.getD 7 0 = 0) (h8 : d.d.getD 8 0 = 0) (h9 : d.d.getD 9 0 = 0)
    (acc : List String) :
    unit_info.emit_range d 7 10 (" ".intercalate acc, acc.isEmpty, r) =
      (" ".intercalate acc, acc.isEmpty, r) := by
  have hfold := emit_fold_terms d r [(7, "x0"), (8, "x1"), (9, "x2")]
    (fun p hp => initial_base_names r hr p (by
      simp only [List.mem_cons, List.mem_singleton, List.not_mem_nil, or_false] at hp ⊢
      tauto)) acc
  have hnil : [(7, "x0"), (8, "x1"), (9, "x2")].filterMap
      (fun p => symbol_term? p.2 (d.d.getD p.1 0)) = [] := by
    rw [filterMap_cons_toList, filterMap_cons_toList, filterMap_cons_toList]
    show (symbol_term? "x0" (d.d.getD 7 0)).toList ++
      ((symbol_term? "x1" (d.d.getD 8 0)).toList ++
        ((symbol_term? "x2" (d.d.getD 9 0)).toList ++ [])) = []
    rw [h7, h8, h9]
    rfl
  rw [hnil, List.append_nil] at hfold
  exact hfold

theorem ext_components_zero (d : dimensions) (hext : ∀ v ∈ d.d.drop 7, v = 0) (k : Nat) :
    d.d.getD (7 + k) 0 = 0 := by
  rw [List.getD_eq_getElem?_getD]
  cases h : d.d[7 + k]? with
  | none => rfl
  | some v =>
    have hm : v ∈ d.d.drop 7 := by
      rw [List.mem_iff_getElem?]
      exact ⟨k, by rw [List.getElem?_drop]; exact h⟩
    exact hext v hm

/-- Claim C31: with the initial registry of names and a dimension whose extension
components are all zero, `to_base_unit_symbols` returns the terms of the base
components that are not zero, in the order m, kg, s, A, K, mol, cd, joined by
single blanks (nothing before the first and after the last term); the registry
stays as it is. -/
theorem C31_base_unit_symbols (d : dimensions) (hv : d.valid)
    (hext : ∀ v ∈ d.d.drop 7, v = 0) :
    to_base_unit_symbols (registry.initial : registry R) d =
      (" ".intercalate (base_symbol_terms d), registry.initial) := by
  have hlen : 7 ≤ d.d.length := by
    rw [hv.1]
    decide
  unfold to_base_unit_symbols unit_info.symbol
  show ((unit_info.emit_range d 7 10
      (unit_info.emit_range d 0 7 ("", true, (registry.initial : registry R)))).1,
    (unit_info.emit_range d 7 10
      (unit_info.emit_range d 0 7 ("", true, (registry.initial : registry R)))).2.2) = _
  rw [emit_range_base d hlen _ rfl,
    emit_range_ext_zero d _ rfl (ext_components_zero d hext 0) (ext_components_zero d hext 1)
      (ext_components_zero d hext 2)]

/-- The capacitance and the force in base units. -/
theorem C31_base_unit_symbols_witness :
    (to_base_unit_symbols (registry.initial : registry Rat) capacitance_d).1 =
      "m-2 kg-1 s+4 A+2" ∧
    " ".intercalate (base_symbol_terms capacitance_d) = "m-2 kg-1 s+4 A+2" ∧
    to_base_unit_symbols (registry.initial : registry Rat) capacitance_d =
      (" ".intercalate (base_symbol_terms capacitance_d), registry.initial) :=
  ⟨by decide!, by decide!,
    C31_base_unit_symbols (R := Rat) capacitance_d (by decide) (by decide)⟩

theorem name_char_not_isspace (x : Char) (h : (x == '\'' || isalpha x) = true) :
    isspace x = false := by
  rcases Bool.or_eq_true _ _ |>.mp h with h1 | h1
  · have hx : x = '\'' := by simpa using h1
    rw [hx]
    decide
  · exact isalpha_not_isspace x h1

/-- A text `v ws n` of a run `v` of number characters, white space `ws` and a unit
name `n` as described by `plain_unit_name`, which the registry knows:
`to_quantity` gives `to_real( v ) * (1.0 * unit( n ))`. -/
theorem to_quantity_value_name (g : registry R) (extunits dimless : Bool)
    (v0 : Char) (vt ws n : List Char) (u : quantity R) (g1 : registry R)
    (hv : ∀ x ∈ v0 :: vt, isReal x = true) (hws : ∀ x ∈ ws, isspace x = true)
    (hn : plain_unit_name n = true)
    (hu : unit g (String.mk n) extunits = (.ok u, g1)) :
    ∃ pf : quantity_parser_t R,
      to_quantity g (String.mk ((v0 :: vt) ++ ws ++ n)) extunits dimless =
        .ok (operator_scalar_mul (detail_to_real (v0 :: vt))
          (operator_scalar_mul Rep.one_point_zero u)) pf g1 := by
  obtain ⟨c0, ut, hnc, hall, hre, _⟩ := plain_unit_name_cases n hn
  have hsp0 : isspace c0 = false :=
    name_char_not_isspace c0 (hall c0 (by rw [hnc]; exact List.mem_cons_self _ _))
  have hstrip : strip ((v0 :: vt) ++ ws ++ n) default_strip_set =
      v0 :: (vt ++ ws ++ n) :=
    strip_of_clean _ (by simp)
      (fun c hc => by
        simp only [List.cons_append, List.head?_cons, Option.some.injEq] at hc
        rw [← hc]
        exact isReal_not_strip v0 (hv v0 (List.mem_cons_self _ _)))
      (fun c hc => by
        rw [hnc, List.getLast?_append_cons] at hc
        have hm : c ∈ n := by
          rw [hnc]
          exact List.mem_of_mem_getLast? (by rw [hc]; rfl)
        exact not_isspace_not_strip c (name_char_not_isspace c (hall c hm)))
  have hA := initialize_advance_eq
    ((quantity_parser_t.mk0.extend extunits).dimensionless dimless : quantity_parser_t R)
    ((v0 :: vt) ++ ws ++ n) v0 (vt ++ ws ++ n) hstrip
  have hrun := parseNumericalValue_run
    ((((quantity_parser_t.mk0.extend extunits).dimensionless dimless :
      quantity_parser_t R).initialize_ ((v0 :: vt) ++ ws ++ n)).advance)
    v0 vt ws c0 (ut ++ [end_char]) hv hws hsp0 (fun _ => hre)
    (by rw [hA, hnc]; simp)
  obtain ⟨pa, hfac, hca, _⟩ := factor_name_of_stream
    ({ (((quantity_parser_t.mk0.extend extunits).dimensionless dimless :
          quantity_parser_t R).initialize_
            ((v0 :: vt) ++ ws ++ n)).advance.parseNumericalValue.2 with
        num_value := (((quantity_parser_t.mk0.extend extunits).dimensionless dimless :
          quantity_parser_t R).initialize_
            ((v0 :: vt) ++ ws ++ n)).advance.parseNumericalValue.1 } : quantity_parser_t R)
    g n end_char [] u g1 hn
    (by rw [hrun, hA]; rfl) (by decide) (by decide) (by decide) (by decide)
    (by rw [hrun, hA, hnc]; simp)
    (by rw [hrun, hA]; exact hu)
  have hterm := parseTerm_of_factor_ok _ g _ pa g1 hfac (by rw [hca]; decide)
  have hin := parseInput_of_term_ok
    ((quantity_parser_t.mk0.extend extunits).dimensionless dimless : quantity_parser_t R)
    g ((v0 :: vt) ++ ws ++ n) _ pa g1 hterm hca
  have hval : (((quantity_parser_t.mk0.extend extunits).dimensionless dimless :
      quantity_parser_t R).initialize_
        ((v0 :: vt) ++ ws ++ n)).advance.parseNumericalValue.1 =
      detail_to_real (v0 :: vt) := by
    rw [hrun]
  rw [hval] at hin
  exact ⟨_, (to_quantity_of_parseInput_ok g (String.mk ((v0 :: vt) ++ ws ++ n)) extunits
    dimless _ _ _ hin).1⟩

/-- The loop of `symbol` over components that are zero adds nothing to the text. -/
theorem emit_fold_zero (d : dimensions) (l : List Nat) (hz : ∀ i ∈ l, d.d.getD i 0 = 0) :
    ∀ st : String × Bool × registry R,
      (l.foldl (unit_info.emit_step d) st).1 = st.1 ∧
      (l.foldl (unit_info.emit_step d) st).2.1 = st.2.1 := by
  induction l with
  | nil =>
    intro st
    exact ⟨rfl, rfl⟩
  | cons i rest ih =>
    intro st
    have hi := hz i (List.mem_cons_self _ _)
    have hstep : (unit_info.emit_step d st i).1 = st.1 ∧
        (unit_info.emit_step d st i).2.1 = st.2.1 := by
      unfold unit_info.emit_step
      rw [hi]
      exact ⟨rfl, rfl⟩
    obtain ⟨h1, h2⟩ := ih (fun j hj => hz j (List.mem_cons_of_mem _ hj))
      (unit_info.emit_step d st i)
    rw [List.foldl_cons]
    exact ⟨h1.trans hstep.1, h2.trans hstep.2⟩

theorem emit_range_zero_text (d : dimensions) (hext : ∀ v ∈ d.d.drop 7, v = 0)
    (st : String × Bool × registry R) :
    (unit_info.emit_range d 7 10 st).1 = st.1 := by
  refine (emit_fold_zero d (List.range' 7 (10 - 7)) ?_ st).1
  intro i hi
  have h3 : i = 7 + 0 ∨ i = 7 + 1 ∨ i = 7 + 2 := by
    simp only [Nat.reduceSub, List.range'_succ, List.range'_zero, List.mem_cons,
      List.mem_singleton, List.not_mem_nil, or_false] at hi
    omega
  rcases h3 with h | h | h <;> rw [h] <;> exact ext_components_zero d hext _

/-- The base part of a dimension whose extension components are all zero is the
dimension. -/
theorem mkRange_base_of_ext_zero (d : dimensions) (hv : d.valid)
    (hext : ∀ v ∈ d.d.drop 7, v = 0) : dimensions.mkRange d 0 7 = d := by
  have hlen : d.d.length = 17 := hv.1
  cases d with
  | mk l =>
    simp only at hlen hext
    unfold dimensions.mkRange
    congr 1
    apply List.ext_getElem
    · simp [hlen, PHYS_UNITS_QUANTITY_UNIT_EXT_COUNT]
    · intro i h1 h2
      simp only [List.getElem_map, List.getElem_range]
      by_cases hi : i < 7
      · rw [if_pos ⟨Nat.zero_le _, hi⟩, List.getD_eq_getElem?_getD, List.getElem?_eq_getElem h2]
        rfl
      · rw [if_neg (fun h => hi h.2)]
        have hm : l[i] ∈ l.drop 7 := by
          rw [List.mem_iff_getElem?]
          refine ⟨i - 7, ?_⟩
          rw [List.getElem?_drop, ← List.getElem?_eq_getElem h2]
          congr 1
          omega
        exact (hext _ hm).symm

/-- With the name asked for and a name registered for the base part, `symbol` is
that name followed by what the extension loop adds. -/
theorem symbol_of_named (r : registry R) (d : dimensions) (n : String)
    (h : map_find r.nmap (dimensions.mkRange d 0 7) = some n) :
    unit_info.symbol r d true =
      ((unit_info.emit_range d 7 10 (n, false, r)).1,
        (unit_info.emit_range d 7 10 (n, false, r)).2.2) := by
  have hb : has_unit_name r (dimensions.mkRange d 0 7) = true := by
    unfold has_unit_name
    rw [h]
    rfl
  have hn := unit_name_of_find r _ n h
  unfold unit_info.symbol
  simp only [PHYS_UNITS_QUANTITY_UNIT_BASE_COUNT, PHYS_UNITS_QUANTITY_UNIT_EXT_COUNT, hb,
    Bool.and_self, if_true, hn]
  have he : unit_info.emit_dim "" n 1 true = (n, false) := by
    unfold unit_info.emit_dim
    simp
  rw [he]

/-- Without a name registered for the base part, asking for the name changes
nothing. -/
theorem symbol_of_unnamed (r : registry R) (d : dimensions)
    (h : has_unit_name r (dimensions.mkRange d 0 7) = false) :
    unit_info.symbol r d true = unit_info.symbol r d false := by
  unfold unit_info.symbol
  simp only [PHYS_UNITS_QUANTITY_UNIT_BASE_COUNT, h, Bool.and_false, Bool.false_and]

/-- Claim C32, amended: `to_unit_symbol` called with a dimension only uses the
default `name_symbol()`, which is true, and renders the unit name: the text `1 N`
parses to a quantity of the dimension of the force, whose symbol is `N` with the
default argument and `m kg s-2` with `base_symbols()`, the text that
`to_base_unit_symbols` returns. -/
theorem C32_unit_symbol_default :
    name_symbol = true ∧ base_symbols = false ∧
    ∃ (q : quantity R) (pf : quantity_parser_t R),
      to_quantity (registry.initial : registry R) "1 N" false false =
        .ok q pf registry.initial ∧
      q.dimension = force_d ∧
      (to_unit_symbol (registry.initial : registry R) q.dimension name_symbol).1 = "N" ∧
      (to_unit_symbol (registry.initial : registry R) q.dimension base_symbols).1 =
        "m kg s-2" ∧
      (to_base_unit_symbols (registry.initial : registry R) q.dimension).1 = "m kg s-2" := by
  refine ⟨rfl, rfl, ?_⟩
  have hum : map_find (get_umap : unitmap R) "N" = some newton := by
    unfold get_umap
    rw [predefined_units_eq]
    rfl
  obtain ⟨pf, hq⟩ := to_quantity_value_name (registry.initial : registry R) false false
    '1' [] [' '] ['N'] newton registry.initial (by decide) (by decide) (by decide)
    (unit_of_predefined _ _ _ _ hum)
  have hbase : to_base_unit_symbols (registry.initial : registry R) force_d =
      (" ".intercalate (base_symbol_terms force_d), registry.initial) := by
    unfold to_base_unit_symbols unit_info.symbol
    show ((unit_info.emit_range force_d 7 10
        (unit_info.emit_range force_d 0 7 ("", true, (registry.initial : registry R)))).1,
      (unit_info.emit_range force_d 7 10
        (unit_info.emit_range force_d 0 7 ("", true, (registry.initial : registry R)))).2.2) = _
    rw [emit_range_base force_d (by decide) _ rfl,
      emit_range_ext_zero force_d _ rfl (by decide) (by decide) (by decide)]
  have hterms : " ".intercalate (base_symbol_terms force_d) = "m kg s-2" := by decide
  refine ⟨_, pf, hq, rfl, ?_, ?_, ?_⟩
  · show (unit_info.symbol (registry.initial : registry R) force_d true).1 = "N"
    rw [symbol_of_named _ force_d "N"
      (show map_find predefined_unit_names (dimensions.mkRange force_d 0 7) = some "N" by
        decide)]
    show (unit_info.emit_range force_d 7 10
      ("N", false, (registry.initial : registry R))).1 = "N"
    exact emit_range_zero_text force_d (by decide) _
  · show (to_base_unit_symbols (registry.initial : registry R) force_d).1 = "m kg s-2"
    rw [hbase]
    exact hterms
  · show (to_base_unit_symbols (registry.initial : registry R) force_d).1 = "m kg s-2"
    rw [hbase]
    exact hterms

/-- Counterexample to claim C32 as stated, in exact arithmetic: the symbol of the
dimension of `1 N`, asked for with the dimension only, is `N` and not
`m kg s-2`. -/
theorem C32_default_is_name_counterexample :
    (to_quantity (registry.initial : registry Rat) "1 N" false false).value? =
      some ⟨force_d, 1⟩ ∧
    (to_unit_symbol (registry.initial : registry Rat)
      (quantity.dimension (⟨force_d, 1⟩ : quantity Rat)) name_symbol).1 = "N" ∧
    (to_unit_symbol (registry.initial : registry Rat)
      (quantity.dimension (⟨force_d, 1⟩ : quantity Rat)) name_symbol).1 ≠ "m kg s-2" := by
  refine ⟨by decide!, by decide!, ?_⟩
  have h : (to_unit_symbol (registry.initial : registry Rat)
      (quantity.dimension (⟨force_d, 1⟩ : quantity Rat)) name_symbol).1 = "N" := by decide!
  rw [h]
  decide

/-- Claim C33 on the code: the extension loop of `symbol` runs over the indices
7, 8 and 9 only, so the symbol depends on the components 0 to 9 alone.  After four
extension units `w0`, `w1`, `w2`, `w3` have been registered, the unit `w3` has the
dimension of the slot 3 and the registered name `w3`, and its symbol is empty, while
the symbol of the unit `w2` of the slot 2 is its name; in the initial registry the
slots 3 to 9 have the names `x3` to `x9` and empty symbols. -/
theorem C33_extension_slots_above_2_not_rendered :
    (∀ (r : registry Rat) (d d2 : dimensions) (use : Bool),
      (∀ i, i < 10 → d.d.getD i 0 = d2.d.getD i 0) →
      (to_unit_symbol r d use).1 = (to_unit_symbol r d2 use).1) ∧
    ((registry.initial : registry Rat).run
        [.unit "w0" true, .unit "w1" true, .unit "w2" true]).xmap.length = 3 ∧
    (unit ((registry.initial : registry Rat).run
        [.unit "w0" true, .unit "w1" true, .unit "w2" true]) "w3" true).1.toOption =
      some ⟨extra_d 3, 1⟩ ∧
    map_find ((registry.initial : registry Rat).run
        [.unit "w0" true, .unit "w1" true, .unit "w2" true, .unit "w3" true]).nmap (extra_d 3) =
      some "w3" ∧
    (to_unit_symbol ((registry.initial : registry Rat).run
        [.unit "w0" true, .unit "w1" true, .unit "w2" true, .unit "w3" true])
      (extra_d 3) name_symbol).1 = "" ∧
    (to_unit_symbol ((registry.initial : registry Rat).run
        [.unit "w0" true, .unit "w1" true, .unit "w2" true, .unit "w3" true])
      (extra_d 2) name_symbol).1 = "w2" ∧
    (to_unit_symbol ((registry.initial : registry Rat).run
        [.unit "w0" true, .unit "w1" true, .unit "w2" true, .unit "w3" true])
      (product (extra_d 2) (extra_d 3)) base_symbols).1 = "w2" ∧
    (∀ k ∈ [3, 4, 5, 6, 7, 8, 9],
      has_unit_name (registry.initial : registry Rat) (extra_d k) = true ∧
      (to_unit_symbol (registry.initial : registry Rat) (extra_d k) name_symbol).1 = "" ∧
      (to_unit_symbol (registry.initial : registry Rat) (extra_d k) base_symbols).1 = "") := by
  refine ⟨?_, by decide!, by decide!, by decide!, by decide!, by decide!, by decide!,
    by decide!⟩
  intro r d d2 use h
  have hbase : dimensions.mkRange d 0 7 = dimensions.mkRange d2 0 7 := by
    unfold dimensions.mkRange
    congr 1
    apply List.map_congr_left
    intro i _
    by_cases hi : 0 ≤ i ∧ i < 7
    · rw [if_pos hi, if_pos hi]
      exact h i (by omega)
    · rw [if_neg hi, if_neg hi]
  have hfold : ∀ (l : List Nat), (∀ i ∈ l, i < 10) → ∀ st : String × Bool × registry Rat,
      l.foldl (unit_info.emit_step d) st = l.foldl (unit_info.emit_step d2) st := by
    intro l
    induction l with
    | nil =>
      intro _ st
      rfl
    | cons i rest ih =>
      intro hl st
      rw [List.foldl_cons, List.foldl_cons]
      have hs : unit_info.emit_step d st i = unit_info.emit_step d2 st i := by
        unfold unit_info.emit_step
        rw [h i (hl i (List.mem_cons_self _ _))]
      rw [hs]
      exact ih (fun j hj => hl j (List.mem_cons_of_mem _ hj)) _
  have h07 : ∀ st : String × Bool × registry Rat,
      unit_info.emit_range d 0 7 st = unit_info.emit_range d2 0 7 st := by
    intro st
    exact hfold _ (by decide) st
  have h710 : ∀ st : String × Bool × registry Rat,
      unit_info.emit_range d 7 10 st = unit_info.emit_range d2 7 10 st := by
    intro st
    exact hfold _ (by decide) st
  unfold to_unit_symbol unit_info.symbol
  simp only [PHYS_UNITS_QUANTITY_UNIT_BASE_COUNT, PHYS_UNITS_QUANTITY_UNIT_EXT_COUNT, hbase,
    h07, h710]

/-- Claim C34, amended: with the name asked for, `symbol` looks for a name of the
base part of the dimension (the components 0 to 6).  If the base part has a name,
the symbol is that name followed by what the extension loop adds; if it has none,
the symbol is the one without the name asked for.  For a dimension whose extension
components are all zero the base part is the dimension, and the symbol is its
registered name when it has one. -/
theorem C34_name_of_base_part (r : registry R) (d : dimensions) :
    (∀ n, map_find r.nmap (dimensions.mkRange d 0 7) = some n →
      (to_unit_symbol r d true).1 = (unit_info.emit_range d 7 10 (n, false, r)).1) ∧
    (has_unit_name r (dimensions.mkRange d 0 7) = false →
      to_unit_symbol r d true = to_unit_symbol r d false) ∧
    (d.valid → (∀ v ∈ d.d.drop 7, v = 0) →
      dimensions.mkRange d 0 7 = d ∧
      (∀ n, map_find r.nmap d = some n →
        (to_unit_symbol r d true).1 = n ∧ (unit_name r d).1 = n) ∧
      (has_unit_name r d = false → to_unit_symbol r d true = to_unit_symbol r d false)) := by
  refine ⟨?_, ?_, ?_⟩
  · intro n hn
    show (unit_info.symbol r d true).1 = _
    rw [symbol_of_named r d n hn]
  · intro h
    exact symbol_of_unnamed r d h
  · intro hv hext
    have hb := mkRange_base_of_ext_zero d hv hext
    refine ⟨hb, ?_, ?_⟩
    · intro n hn
      refine ⟨?_, ?_⟩
      · show (unit_info.symbol r d true).1 = n
        rw [symbol_of_named r d n (by rw [hb]; exact hn)]
        exact emit_range_zero_text d hext _
      · rw [unit_name_of_find r d n hn]
    · intro h
      exact symbol_of_unnamed r d (by rw [hb]; exact h)

/-- The force, whose name is `N`; the product of the force and the first extension
unit, whose base part has the name `N`; the square of the force, whose base part
has no name. -/
theorem C34_name_of_base_part_witness :
    (to_unit_symbol (registry.initial : registry Rat) force_d true).1 = "N" ∧
    (to_unit_symbol (registry.initial : registry Rat)
      (product force_d (extra_d 0)) true).1 =
      (unit_info.emit_range (product force_d (extra_d 0)) 7 10
        ("N", false, (registry.initial : registry Rat))).1 ∧
    to_unit_symbol (registry.initial : registry Rat) (product force_d force_d) true =
      to_unit_symbol (registry.initial : registry Rat) (product force_d force_d) false :=
  ⟨((C34_name_of_base_part (R := Rat) registry.initial force_d).2.2 (by decide)
      (by decide)).2.1 "N" (by decide) |>.1,
    (C34_name_of_base_part (R := Rat) registry.initial (product force_d (extra_d 0))).1 "N"
      (by decide),
    (C34_name_of_base_part (R := Rat) registry.initial (product force_d force_d)).2.1
      (by decide)⟩

/-- Counterexample to claim C34 as stated: the product of the force and the first
extension unit has no registered name, only its base part has one, and its symbol
with the name asked for is `N x0`, not the decomposition `m kg s-2 x0`. -/
theorem C34_base_part_name_counterexample :
    has_unit_name (registry.initial : registry Rat) (product force_d (extra_d 0)) = false ∧
    has_unit_name (registry.initial : registry Rat)
      (dimensions.mkRange (product force_d (extra_d 0)) 0 7) = true ∧
    (to_unit_symbol (registry.initial : registry Rat)
      (product force_d (extra_d 0)) true).1 = "N x0" ∧
    (to_unit_symbol (registry.initial : registry Rat)
      (product force_d (extra_d 0)) false).1 = "m kg s-2 x0" := by
  refine ⟨by decide!, by decide!, by decide!, by decide!⟩

/-- Claim C39 on the code: `unit_name` reads the map with `operator[]`, which adds
an entry.  For every dimension without a registered name `unit_name` returns the
empty text and `has_unit_name` is true afterwards; the dimensionless dimension is
one such in the initial registry. -/
theorem C39_unit_name_adds_entry :
    (∀ (r : registry Rat) (d : dimensions), has_unit_name r d = false →
      (unit_name r d).1 = "" ∧ has_unit_name (unit_name r d).2 d = true ∧
      (unit_name r d).2.nmap = r.nmap ++ [(d, "")]) ∧
    has_unit_name (registry.initial : registry Rat) dimensionless_d = false ∧
    (unit_name (registry.initial : registry Rat) dimensionless_d).1 = "" ∧
    has_unit_name (unit_name (registry.initial : registry Rat) dimensionless_d).2
      dimensionless_d = true := by
  refine ⟨?_, by decide!, by decide!, by decide!⟩
  intro r d h
  have hnone : map_find r.nmap d = none := by
    unfold has_unit_name at h
    cases hf : map_find r.nmap d with
    | none => rfl
    | some n =>
      rw [hf] at h
      exact absurd h (by simp)
  have hu : unit_name r d = ("", { r with nmap := r.nmap ++ [(d, "")] }) := by
    unfold unit_name
    rw [hnone]
  rw [hu]
  refine ⟨rfl, ?_, rfl⟩
  unfold has_unit_name
  show (map_find (r.nmap ++ [(d, "")]) d).isSome = true
  rw [← map_assign_of_find_none _ _ _ hnone, map_find_map_assign_self]
  rfl

end unit_symbol_properties

/-! ## Engineering notation -/

section engineering_properties

variable {R : Type} [Rep R] [EngRep R]

/-- The exponent that `round_and_align` returns is a multiple of 3. -/
theorem round_and_align_multiple_of_3 (value : R) (digits : Int) :
    3 ∣ (eng_format.round_and_align value digits).2.1 := by
  unfold eng_format.round_and_align
  simp only []
  split_ifs <;> simp only [] <;> omega

/-- Claim C35: for a quantity `q` whose magnitude is not zero (of a zero `construct`
takes the logarithm), with `e` the exponent and `v` the value that `construct` has
reached when it tests `fits_eng_notation`:
the test holds exactly when `-24 ≤ e ≤ 24`, the dimension of `q` has a unit name and
is not that of the mass.  If it holds, the text is the sign, `v`, a blank, the glyph
at the index `(e + 24) / 3` of the table of 17 glyphs (an index from 0 to 16) and the
unit symbol; if not, it is the sign, `v`, `e`, the exponent, a blank and the unit
symbol.  The exponent `e` is a multiple of 3. -/
theorem C35_engineering_format (r : registry R) (q : quantity R) (digits : Int)
    (showpos : Bool) (_hq : q.value ≠ Rep.ofInt 0) :
    ( eng_format.fits_eng_notation r q
        (eng_format.round_and_align (eng_format.unsigned q.value) digits).2.1 (-24) 24 = true ↔
      (-24 ≤ (eng_format.round_and_align (eng_format.unsigned q.value) digits).2.1 ∧
        (eng_format.round_and_align (eng_format.unsigned q.value) digits).2.1 ≤ 24) ∧
      has_unit_name r q.dimension = true ∧ q.dimension ≠ mass_d) ∧
    ( eng_format.fits_eng_notation r q
        (eng_format.round_and_align (eng_format.unsigned q.value) digits).2.1 (-24) 24 = true →
      (to_eng_string r q digits showpos).1 =
        eng_format.sign_of showpos q.value ++
          EngRep.put (eng_format.round_and_align (eng_format.unsigned q.value) digits).1 ++
          " " ++
          (eng_format.prefix_glyphs.getD
              (((eng_format.round_and_align (eng_format.unsigned q.value) digits).2.1 + 24)
                / 3).toNat "" ++
            (to_unit_symbol r q.dimension name_symbol).1) ∧
      0 ≤ ((eng_format.round_and_align (eng_format.unsigned q.value) digits).2.1 + 24) / 3 ∧
      ((eng_format.round_and_align (eng_format.unsigned q.value) digits).2.1 + 24) / 3 ≤ 16) ∧
    ( eng_format.fits_eng_notation r q
        (eng_format.round_and_align (eng_format.unsigned q.value) digits).2.1 (-24) 24 = false →
      (to_eng_string r q digits showpos).1 =
        eng_format.sign_of showpos q.value ++
          EngRep.put (eng_format.round_and_align (eng_format.unsigned q.value) digits).1 ++
          "e" ++
          toString (eng_format.round_and_align (eng_format.unsigned q.value) digits).2.1 ++
          " " ++ (to_unit_symbol r q.dimension name_symbol).1) ∧
    eng_format.prefix_glyphs =
      ["y", "z", "a", "f", "p", "n", "µ", "m", "", "k", "M", "G", "T", "P", "E", "Z", "Y"] ∧
    3 ∣ (eng_format.round_and_align (eng_format.unsigned q.value) digits).2.1 := by
  have hfit : ∀ e : Int, eng_format.fits_eng_notation r q e (-24) 24 = true ↔
      (-24 ≤ e ∧ e ≤ 24) ∧ has_unit_name r q.dimension = true ∧ q.dimension ≠ mass_d := by
    intro e
    unfold eng_format.fits_eng_notation dimensions.ne dimensions.eq
    simp only [Bool.and_eq_true, Bool.not_eq_true', decide_eq_false_iff_not,
      decide_eq_true_eq]
    constructor
    · rintro ⟨⟨⟨h1, h2⟩, h3⟩, h4⟩
      exact ⟨⟨h3, h4⟩, h2, fun h => h1 (by rw [h])⟩
    · rintro ⟨⟨h3, h4⟩, h2, h1⟩
      refine ⟨⟨⟨?_, h2⟩, h3⟩, h4⟩
      intro h
      apply h1
      cases hd : q.dimension with
      | mk l =>
        rw [hd] at h
        cases hm : mass_d with
        | mk l2 =>
          rw [hm] at h
          simp only at h
          rw [h]
  have hend : ((-24 : Int) + 3 * ((eng_format.prefix_glyphs.length : Int) - 1)) = 24 := by
    decide
  refine ⟨hfit _, ?_, ?_, rfl, round_and_align_multiple_of_3 _ _⟩
  · intro h
    have hr := ((hfit _).mp h).1
    refine ⟨?_, by omega, by omega⟩
    have hdiv : Int.tdiv
        ((eng_format.round_and_align (eng_format.unsigned q.value) digits).2.1 - (-24)) 3 =
        ((eng_format.round_and_align (eng_format.unsigned q.value) digits).2.1 + 24) / 3 := by
      rw [Int.tdiv_eq_ediv (by omega) (by decide)]
      congr 1
    unfold to_eng_string eng_format.mk3 eng_format.construct
    simp only [hend, h, if_true, Bool.false_eq_true, if_false, hdiv]
    unfold eng_format.repr eng_format.magnitude eng_format.unit
    rfl
  · intro h
    unfold to_eng_string eng_format.mk3 eng_format.construct
    simp only [hend, h, Bool.false_eq_true, if_false]
    unfold eng_format.repr eng_format.magnitude eng_format.unit
    simp only [String.empty_append]

/-- The resistance `4.7 * kilo() * volt() / ampere()` in exact arithmetic: the text
is `4.7 kOhm`, with the exponent 3 and the glyph at the index 9. -/
theorem C35_engineering_format_witness :
    (to_eng_string (registry.initial : registry Rat)
      (operator_div
        (operator_scalar_mul (Rep.mul (Rep.ofScientific 47 true 1) kilo) volt) ampere)
      6 false).1 = "4.7 kOhm" ∧
    (eng_format.round_and_align (eng_format.unsigned (quantity.value
      (operator_div
        (operator_scalar_mul (Rep.mul (Rep.ofScientific 47 true 1) kilo) volt) ampere :
        quantity Rat))) 6).2.1 = 3 ∧
    eng_format.prefix_glyphs.getD ((3 + 24) / 3 : Int).toNat "" = "k" ∧
    ( eng_format.fits_eng_notation (registry.initial : registry Rat)
      (operator_div
        (operator_scalar_mul (Rep.mul (Rep.ofScientific 47 true 1) kilo) volt) ampere)
      (eng_format.round_and_align (eng_format.unsigned (quantity.value
        (operator_div
          (operator_scalar_mul (Rep.mul (Rep.ofScientific 47 true 1) kilo) volt) ampere :
          quantity Rat))) 6).2.1 (-24) 24 = true ↔
      (-24 ≤ (eng_format.round_and_align (eng_format.unsigned (quantity.value
        (operator_div
          (operator_scalar_mul (Rep.mul (Rep.ofScientific 47 true 1) kilo) volt) ampere :
          quantity Rat))) 6).2.1 ∧
        (eng_format.round_and_align (eng_format.unsigned (quantity.value
          (operator_div
            (operator_scalar_mul (Rep.mul (Rep.ofScientific 47 true 1) kilo) volt) ampere :
            quantity Rat))) 6).2.1 ≤ 24) ∧
      has_unit_name (registry.initial : registry Rat) (quantity.dimension
        (operator_div
          (operator_scalar_mul (Rep.mul (Rep.ofScientific 47 true 1) kilo) volt) ampere :
          quantity Rat)) = true ∧
      quantity.dimension
        (operator_div
          (operator_scalar_mul (Rep.mul (Rep.ofScientific 47 true 1) kilo) volt) ampere :
          quantity Rat) ≠ mass_d) :=
  ⟨by decide!, by decide!, by decide!,
    (C35_engineering_format (R := Rat) registry.initial
      (operator_div
        (operator_scalar_mul (Rep.mul (Rep.ofScientific 47 true 1) kilo) volt) ampere)
      6 false (by decide!)).1⟩

/-- Claim C36 on the code, in exact arithmetic: `lrint` adds `epsilon` and drops the
fraction, which for the negative exponent -1 of a value from 0.1 up to 1 gives 0
(and -1 for the exponent -2).  With one digit asked for, 0.2 m is rounded to no
digit at all and written with the mantissa 0, and 0.7 m is written as `1 m`; with
the default six digits 0.9999951 m is rounded to five digits and written as `1 m`,
with the exponent 0, where the value rounded to six digits, 0.999995, has the
decimal exponent -1.  Values of 1 and above are written as claimed. -/
theorem C36_exponent_of_value_below_one :
    (EngRep.floor_log10 (Rep.ofScientific 2 true 1 : Rat) = -1 ∧
      eng_format.lrint (EngRep.floor_log10 (Rep.ofScientific 2 true 1 : Rat)) = 0 ∧
      eng_format.lrint (-2 : Rat) = -1 ∧ eng_format.lrint (0 : Rat) = 0 ∧
      eng_format.lrint (2 : Rat) = 2) ∧
    (eng_format.round_and_align (Rep.ofScientific 2 true 1 : Rat) 1 = (0, -3, 1) ∧
      (to_eng_string (registry.initial : registry Rat)
        (operator_scalar_mul (Rep.ofScientific 2 true 1) meter) 1 false).1 = "0 mm") ∧
    (eng_format.round_and_align (Rep.ofScientific 7 true 1 : Rat) 1 = (1, 0, 1) ∧
      (to_eng_string (registry.initial : registry Rat)
        (operator_scalar_mul (Rep.ofScientific 7 true 1) meter) 1 false).1 = "1 m") ∧
    (eng_format.round_and_align (Rep.ofScientific 9999951 true 7 : Rat) 6 = (1, 0, 6) ∧
      (to_eng_string (registry.initial : registry Rat)
        (operator_scalar_mul (Rep.ofScientific 9999951 true 7) meter) 6 false).1 = "1 m" ∧
      round_half_even ((Rep.ofScientific 9999951 true 7 : Rat) * 10 ^ 6) = 999995) ∧
    (eng_format.round_and_align (Rep.ofScientific 27 true 1 : Rat) 1 = (3, 0, 1) ∧
      (to_eng_string (registry.initial : registry Rat)
        (operator_scalar_mul (Rep.ofScientific 27 true 1) meter) 1 false).1 = "3 m" ∧
      (to_eng_string (registry.initial : registry Rat)
        (operator_scalar_mul (Rep.ofScientific 1234567 true 2) meter) 6 false).1 =
        "12.3457 km") := by
  refine ⟨⟨by decide!, by decide!, by decide!, by decide!, by decide!⟩,
    ⟨by decide!, by decide!⟩, ⟨by decide!, by decide!⟩,
    ⟨by decide!, by decide!, by decide!⟩, ⟨by decide!, by decide!, by decide!⟩⟩

end engineering_properties

/-! ## Termination of the parser -/

section termination

open quantity_parser_t

variable {R : Type} [Rep R]

theorem before_end_scanned (p : quantity_parser_t R) (h : p.before_end) : p.scanned := by
  obtain ⟨⟨pre, ht, hp, _⟩, hl⟩ := h
  exact ⟨⟨pre, ht, hp⟩, hl⟩

/-- The member `advance` does not pass an end character. -/
theorem advance_before_end (p : quantity_parser_t R) (h : p.before_end) :
    p.advance.before_end := by
  by_cases hc : p.current_char = end_char
  · rw [advance_of_end p hc]
    exact h
  · have hne := scanned_iss_ne_nil p (before_end_scanned p h) hc
    obtain ⟨⟨pre, ht, hp, hpre⟩, hl⟩ := h
    cases hi : p.iss with
    | nil => exact absurd hi hne
    | cons c rest =>
      rw [advance_of_cons p hc c rest hi]
      refine ⟨⟨pre ++ [p.current_char], ?_, ?_, ?_⟩, hl⟩
      · show p.text = _
        rw [ht, hi]
        simp
      · show p.current_pos + 1 = _
        rw [hp]
        simp
      · intro hm
        rcases List.mem_append.mp hm with h1 | h1
        · exact hpre h1
        · exact hc (List.mem_singleton.mp h1).symm

theorem initialize_advance_before_end (self : quantity_parser_t R) (text_ : List Char) :
    (self.initialize_ text_).advance.before_end := by
  have hc : (self.initialize_ text_).current_char ≠ end_char := by
    show ' ' ≠ end_char
    decide
  cases hs : strip text_ default_strip_set ++ [end_char] with
  | nil => simp at hs
  | cons c rest =>
    have hi : (self.initialize_ text_).iss = c :: rest := hs
    have ht : (self.initialize_ text_).text = c :: rest := hs
    rw [advance_of_cons _ hc c rest hi]
    refine ⟨⟨[], ?_, rfl, List.not_mem_nil _⟩, ?_⟩
    · exact ht
    · show (self.initialize_ text_).text.getLast? = some end_char
      rw [ht, ← hs]
      simp

/-- The member `parseInput` leaves the scanner before or at the first end
character. -/
theorem parseInput_before_end (self : quantity_parser_t R) (g : registry R)
    (text_ : List Char) :
    (self.parseInput g text_).holds quantity_parser_t.before_end := by
  have h0 := initialize_advance_before_end self text_
  have h1 : quantity_parser_t.before_end
      { (self.initialize_ text_).advance.parseNumericalValue.2 with
        num_value := (self.initialize_ text_).advance.parseNumericalValue.1 } :=
    kept_parseNumericalValue quantity_parser_t.before_end advance_before_end _ h0
  have ht := kept_parseTerm quantity_parser_t.before_end advance_before_end _ g h1
  unfold parseInput parseNumValueExpression
  cases hres : parseTerm
      { (self.initialize_ text_).advance.parseNumericalValue.2 with
        num_value := (self.initialize_ text_).advance.parseNumericalValue.1 } g with
  | ok t p1 g1 =>
    rw [hres] at ht
    have h2 : p1.before_end := ht
    show (if !((p1.accept end_char).1) then _ else _ :
      parse_result R (quantity R)).holds quantity_parser_t.before_end
    split_ifs
    · exact h2
    · exact kept_accept quantity_parser_t.before_end advance_before_end p1 h2 end_char
  | error e p1 g1 =>
    rw [hres] at ht
    exact ht
  | out_of_fuel => trivial

/-- Claim C40: `parse` returns or throws on every text, with every parser (the
dimensionless option enabled or not) and every registry.  The tests of the scanning
loops and of the term loop are false at the end character, so every loop stops there
by its own test.  From a state inside the text, an iteration of the term loop
consumes the operator, and the factor after it returns or throws without going back;
a descent into a parenthesis consumes the `(`.  The member `advance`, the only one
that moves the scanner, does not pass an end character, and when `parse` is done no
character before the current one is an end character: the scanner has not moved
past the first of them. -/
theorem C40_parse_terminates (self : quantity_parser_t R) (g : registry R) (text : String) :
    self.parse g text ≠ .out_of_fuel ∧
    (isspace end_char = false ∧ isReal end_char = false ∧ isInteger end_char = false ∧
      (end_char == '\'' || isalpha end_char) = false ∧ isOperator end_char = false) ∧
    (∀ p : quantity_parser_t R, p.scanned → isOperator p.current = true →
      p.advance.iss.length + 1 = p.iss.length) ∧
    (∀ (p : quantity_parser_t R) (g1 : registry R), p.scanned →
      (p.parseFactor g1).follows p) ∧
    (∀ p : quantity_parser_t R, p.scanned → (p.accept '(').1 = true →
      (p.accept '(').2.iss.length + 1 = p.iss.length) ∧
    (∀ p : quantity_parser_t R, p.before_end → p.advance.before_end) ∧
    (self.initialize_ text.toList).advance.before_end ∧
    (∀ (p1 : quantity_parser_t R) (g1 : registry R),
      ((∃ q, self.parse g text = .ok q p1 g1) ∨ (∃ e, self.parse g text = .error e p1 g1)) →
      ∃ pre : List Char,
        strip text.toList default_strip_set ++ [end_char] =
          pre ++ p1.current_char :: p1.iss ∧
        p1.current_pos = pre.length + 1 ∧ end_char ∉ pre) := by
  have hin := parseInput_follows self g text.toList
  have hbe := parseInput_before_end self g text.toList
  obtain ⟨_, htext⟩ := initialize_advance_scanned self text.toList
  refine ⟨?_, ⟨by decide, by decide, by decide, by decide, by decide⟩, ?_, ?_, ?_,
    advance_before_end, initialize_advance_before_end self text.toList, ?_⟩
  · unfold parse
    cases hres : self.parseInput g text.toList with
    | ok q p1 g1 => exact fun h => parse_result.noConfusion h
    | error e p1 g1 => exact fun h => parse_result.noConfusion h
    | out_of_fuel =>
      rw [hres] at hin
      exact absurd hin (fun h => h)
  · intro p hp hop
    exact advance_iss_length p hp (isOperator_ne_end _ hop)
  · intro p g1 hp
    exact parseFactorAux_follows _ p g1 hp (Nat.le_refl _)
  · intro p hp hacc
    obtain ⟨hcur, hadv⟩ := accept_true p '(' hacc
    rw [hadv]
    exact advance_iss_length p hp (by rw [hcur]; decide)
  · intro p1 g1 hres
    have hstate : p1.before_end ∧ p1.text = strip text.toList default_strip_set ++ [end_char] := by
      unfold parse at hres
      cases hp : self.parseInput g text.toList with
      | ok q p2 g2 =>
        rw [hp] at hres hin hbe
        rcases hres with ⟨q1, h⟩ | ⟨e1, h⟩
        · simp only [parse_result.ok.injEq] at h
          obtain ⟨_, h2, _⟩ := h
          subst h2
          exact ⟨hbe, (show (self.initialize_ text.toList).advance.follows p2 from hin).2.1.trans
            htext⟩
        · exact parse_result.noConfusion h
      | error e p2 g2 =>
        rw [hp] at hres hin hbe
        rcases hres with ⟨q1, h⟩ | ⟨e1, h⟩
        · exact parse_result.noConfusion h
        · simp only [parse_result.error.injEq] at h
          obtain ⟨_, h2, _⟩ := h
          subst h2
          exact ⟨hbe, (show (self.initialize_ text.toList).advance.follows p2 from hin).2.1.trans
            htext⟩
      | out_of_fuel =>
        rw [hp] at hres
        rcases hres with ⟨q1, h⟩ | ⟨e1, h⟩
        · exact parse_result.noConfusion h
        · exact parse_result.noConfusion h
    obtain ⟨⟨⟨pre, ht, hpos, hpre⟩, _⟩, htxt⟩ := hstate
    exact ⟨pre, by rw [← htxt]; exact ht, hpos, hpre⟩

end termination

/-- The text `m/` with the dimensionless option enabled, in exact arithmetic: the
factor after the solidus consumes no character and is the number 1; the parse
returns 1 m with the scanner at the end character, position 3.  The text `m#/s`
holds an end character: the parse stops at it, at position 2. -/
theorem C40_parse_terminates_witness :
    ((quantity_parser_t.mk0.dimensionless true).parse (registry.initial : registry Rat)
      "m/") ≠ .out_of_fuel ∧
    ((quantity_parser_t.mk0.dimensionless true).parse (registry.initial : registry Rat)
      "m/").value? = some ⟨length_d, 1⟩ ∧
    (((quantity_parser_t.mk0.dimensionless true).parse (registry.initial : registry Rat)
      "m/").state?.map (fun p => (p.current_char, p.current_pos))) = some (end_char, 3) ∧
    (((quantity_parser_t.mk0 : quantity_parser_t Rat).parse (registry.initial : registry Rat)
      "m#/s").state?.map (fun p => (p.current_char, p.current_pos, p.iss))) =
      some (end_char, 2, ['/', 's', end_char]) :=
  ⟨(C40_parse_terminates (R := Rat) (quantity_parser_t.mk0.dimensionless true)
      registry.initial "m/").1,
    by decide!, by decide!, by decide!⟩

/-! ## The dimensionless option -/

section dimensionless_option

open quantity_parser_t

variable {R : Type} [Rep R]

theorem dimensionless_advance (p : quantity_parser_t R) (b : Bool) :
    (p.dimensionless b).advance = p.advance.dimensionless b := by
  by_cases hc : p.current_char = end_char
  · rw [advance_of_end p hc, advance_of_end (p.dimensionless b) hc]
  · cases hi : p.iss with
    | nil =>
      rw [advance_of_nil p hc hi, advance_of_nil (p.dimensionless b) hc hi]
      rfl
    | cons c rest =>
      rw [advance_of_cons p hc c rest hi, advance_of_cons (p.dimensionless b) hc c rest hi]
      rfl

theorem dimensionless_accept (p : quantity_parser_t R) (b : Bool) (chr : Char) :
    (p.dimensionless b).accept chr = ((p.accept chr).1, (p.accept chr).2.dimensionless b) := by
  by_cases hc : p.current_char = chr
  · rw [accept_of_eq p chr hc, accept_of_eq (p.dimensionless b) chr hc, dimensionless_advance]
  · rw [accept_false p chr hc, accept_false (p.dimensionless b) chr hc]

theorem dimensionless_expect (p : quantity_parser_t R) (b : Bool) (chr : Char) :
    (p.dimensionless b).expect chr = ((p.expect chr).1, (p.expect chr).2.dimensionless b) := by
  unfold expect
  rw [dimensionless_advance]
  show (if chr != p.current then _ else _) = _
  split <;> rfl

theorem dimensionless_scan_loop (pred : Char → Bool) (b : Bool) (l : List Char) :
    ∀ p : quantity_parser_t R,
      scan_loop pred l (p.dimensionless b) =
        ((scan_loop pred l p).1, (scan_loop pred l p).2.dimensionless b) := by
  induction l with
  | nil =>
    intro p
    unfold scan_loop
    rw [dimensionless_advance]
    show (if pred p.current && !(p.isEnd p.current) then _ else _) = _
    split <;> rfl
  | cons c rest ih =>
    intro p
    unfold scan_loop
    rw [dimensionless_advance, ih p.advance]
    show (if pred p.current && !(p.isEnd p.current) then _ else _) = _
    split <;> rfl

theorem dimensionless_scan_while (p : quantity_parser_t R) (b : Bool) (pred : Char → Bool) :
    (p.dimensionless b).scan_while pred =
      ((p.scan_while pred).1, (p.scan_while pred).2.dimensionless b) :=
  dimensionless_scan_loop pred b p.iss p

theorem dimensionless_skip_whitespace (p : quantity_parser_t R) (b : Bool) :
    (p.dimensionless b).skip_whitespace = p.skip_whitespace.dimensionless b := by
  unfold skip_whitespace
  rw [dimensionless_scan_while]

theorem dimensionless_parseNumericalValue (p : quantity_parser_t R) (b : Bool) :
    (p.dimensionless b).parseNumericalValue =
      (p.parseNumericalValue.1, p.parseNumericalValue.2.dimensionless b) := by
  unfold parseNumericalValue scanReal
  rw [dimensionless_skip_whitespace, dimensionless_skip_whitespace,
    dimensionless_scan_while, dimensionless_skip_whitespace]
  show (if isReal p.skip_whitespace.current then _ else _) = _
  split <;> rfl

theorem dimensionless_scanUnit (p : quantity_parser_t R) (b : Bool) :
    (p.dimensionless b).scanUnit = (p.scanUnit.1, p.scanUnit.2.dimensionless b) := by
  unfold scanUnit
  show (String.mk (((p.dimensionless b).accept p.escape_char).2.scan_while _).1,
    (((p.dimensionless b).accept p.escape_char).2.scan_while _).2) = _
  rw [dimensionless_accept, dimensionless_scan_while]

theorem dimensionless_parsePower (p : quantity_parser_t R) (b : Bool) (q : quantity R) :
    (p.dimensionless b).parsePower q = ((p.parsePower q).1, (p.parsePower q).2.dimensionless b) := by
  unfold parsePower scanInteger
  rw [dimensionless_scan_while]
  show (if isInteger p.current then _ else _) = _
  split <;> rfl

theorem dimensionless_parsePrefix (p : quantity_parser_t R) (b : Bool) :
    (p.dimensionless b).parsePrefix = (p.parsePrefix.1, p.parsePrefix.2.dimensionless b) := by
  have hc : (p.dimensionless b).current = p.current := rfl
  have ha : (p.dimensionless b).ahead = p.ahead := rfl
  have hcs : (p.dimensionless b).currentStr = p.currentStr := rfl
  have hacs : (p.advance.dimensionless b).currentStr = p.advance.currentStr := rfl
  have hesc : ∀ x, (p.dimensionless b).isEscape x = p.isEscape x := fun _ => rfl
  have hun : ∀ x, (p.dimensionless b).isUnit x = p.isUnit x := fun _ => rfl
  unfold parsePrefix
  rw [dimensionless_advance, dimensionless_advance, hc, ha, hcs, hacs, hesc, hun]
  refine ite_rel _ (fun (x y : Except quantity_error R × quantity_parser_t R) => x = (y.1, y.2.dimensionless b))
    _ _ _ _ rfl ?_
  refine ite_rel _ (fun (x y : Except quantity_error R × quantity_parser_t R) => x = (y.1, y.2.dimensionless b))
    _ _ _ _ rfl ?_
  refine ite_rel _ (fun (x y : Except quantity_error R × quantity_parser_t R) => x = (y.1, y.2.dimensionless b))
    _ _ _ _ rfl ?_
  refine ite_rel _ (fun (x y : Except quantity_error R × quantity_parser_t R) => x = (y.1, y.2.dimensionless b))
    _ _ _ _ rfl ?_
  refine ite_rel _ (fun (x y : Except quantity_error R × quantity_parser_t R) => x = (y.1, y.2.dimensionless b))
    _ _ _ _ rfl ?_
  refine ite_rel _ (fun (x y : Except quantity_error R × quantity_parser_t R) => x = (y.1, y.2.dimensionless b))
    _ _ _ _ rfl ?_
  refine ite_rel _ (fun (x y : Except quantity_error R × quantity_parser_t R) => x = (y.1, y.2.dimensionless b))
    _ _ _ _ rfl ?_
  refine ite_rel _ (fun (x y : Except quantity_error R × quantity_parser_t R) => x = (y.1, y.2.dimensionless b))
    _ _ _ _ rfl ?_
  refine ite_rel _ (fun (x y : Except quantity_error R × quantity_parser_t R) => x = (y.1, y.2.dimensionless b))
    _ _ _ _ rfl ?_
  exact ite_rel _ (fun (x y : Except quantity_error R × quantity_parser_t R) => x = (y.1, y.2.dimensionless b))
    _ _ _ _ rfl rfl

/-- The member `parseUnit` does not read the dimensionless option. -/
theorem dimensionless_parseUnit (p : quantity_parser_t R) (b : Bool) (g : registry R)
    (u : quantity R) (p2 : quantity_parser_t R) (g2 : registry R)
    (h : p.parseUnit g = .ok u p2 g2) :
    (p.dimensionless b).parseUnit g = .ok u (p2.dimensionless b) g2 := by
  unfold parseUnit at h ⊢
  rw [dimensionless_accept, dimensionless_scanUnit]
  by_cases h1 : (p.current == '1') = true
  · have h1b : ((p.dimensionless b).current == '1') = true := h1
    rw [if_pos h1] at h
    rw [if_pos h1b]
    by_cases h2 : (p.ahead != '/') = true
    · rw [if_pos h2] at h
      exact parse_result.noConfusion h
    · have h2b : ¬ ((p.dimensionless b).ahead != '/') = true := h2
      rw [if_neg h2] at h
      rw [if_neg h2b]
      simp only [parse_result.ok.injEq] at h ⊢
      obtain ⟨ha, hb, hc⟩ := h
      exact ⟨ha, by rw [← hb], hc⟩
  · have h1b : ¬ ((p.dimensionless b).current == '1') = true := h1
    rw [if_neg h1] at h
    rw [if_neg h1b]
    by_cases h3 : (!(p.isUnit2 p.current p.ahead)) = true
    · rw [if_pos h3] at h
      exact parse_result.noConfusion h
    · have h3b : ¬ (!((p.dimensionless b).isUnit2 (p.dimensionless b).current
          (p.dimensionless b).ahead)) = true := h3
      rw [if_neg h3] at h
      rw [if_neg h3b]
      show (match unit g p.scanUnit.1 p.ext_units with
        | (.ok q, g1) => .ok q (p.scanUnit.2.dimensionless b) g1
        | (.error e, g1) => .error e (p.scanUnit.2.dimensionless b) g1 :
          parse_result R (quantity R)) = _
      cases hu : unit g p.scanUnit.1 p.ext_units with
      | mk r g1 =>
        rw [hu] at h
        cases r with
        | ok q =>
          simp only [parse_result.ok.injEq] at h ⊢
          obtain ⟨ha, hb, hc⟩ := h
          exact ⟨ha, by rw [← hb], hc⟩
        | error e => exact parse_result.noConfusion h

theorem prefix_letters_alpha : ∀ c ∈ prefix_letters, isalpha c = true := by decide

/-- Where `parsePrefix` reads a prefix, the current character is a letter. -/
theorem parsePrefix_unmoved_or_alpha (p : quantity_parser_t R) :
    p.parsePrefix.2 = p ∨ isalpha p.current = true := by
  unfold parsePrefix
  simp only [apply_ite Prod.snd]
  refine ite_state_cases _ _ _ (fun s => s = p ∨ isalpha p.current = true) (Or.inl rfl) ?_
  refine ite_state_cases _ _ _ (fun s => s = p ∨ isalpha p.current = true) (Or.inl rfl) ?_
  refine ite_state_cases _ _ _ (fun s => s = p ∨ isalpha p.current = true) (Or.inl rfl) ?_
  refine ite_state_cases _ _ _ (fun s => s = p ∨ isalpha p.current = true) (Or.inl rfl) ?_
  refine ite_state_cases _ _ _ (fun s => s = p ∨ isalpha p.current = true) (Or.inl rfl) ?_
  refine ite_state_cases _ _ _ (fun s => s = p ∨ isalpha p.current = true) (Or.inl rfl) ?_
  refine ite_state_cases _ _ _ (fun s => s = p ∨ isalpha p.current = true) (Or.inl rfl) ?_
  refine ite_state_cases _ _ _ (fun s => s = p ∨ isalpha p.current = true) (Or.inl rfl) ?_
  by_cases hda : (p.current == 'd' && 'a' == p.ahead) = true
  · rw [if_pos hda]
    refine Or.inr ?_
    simp only [Bool.and_eq_true, beq_iff_eq] at hda
    rw [hda.1]
    decide
  · rw [if_neg hda]
    by_cases hp : (!( has_prefix R p.currentStr)) = true
    · rw [if_pos hp]
      exact Or.inl rfl
    · rw [if_neg hp]
      refine Or.inr ?_
      by_cases hm : p.current ∈ prefix_letters
      · exact prefix_letters_alpha _ hm
      · have := has_prefix_singleton_false (R := R) p.current hm
        have hcs : p.currentStr = String.singleton p.current := rfl
        rw [hcs, this] at hp
        exact absurd rfl hp

/-- Where the prefix and the unit of a factor are read, `isPrefixedUnit` holds at the
start of the factor. -/
theorem isPrefixedUnit_of_unit_ok (p : quantity_parser_t R) (g : registry R)
    (u : quantity R) (p2 : quantity_parser_t R) (g2 : registry R)
    (h : p.parsePrefix.2.parseUnit g = .ok u p2 g2) :
    p.isPrefixedUnit p.current p.ahead = true := by
  rcases parsePrefix_unmoved_or_alpha p with he | ha
  · rw [he] at h
    unfold parseUnit at h
    unfold isPrefixedUnit
    by_cases h1 : (p.current == '1') = true
    · rw [h1]
      rfl
    · rw [if_neg h1] at h
      by_cases h3 : (!(p.isUnit2 p.current p.ahead)) = true
      · rw [if_pos h3] at h
        exact parse_result.noConfusion h
      · have h4 : p.isUnit2 p.current p.ahead = true := by simpa using h3
        rw [h4]
        simp
  · unfold isPrefixedUnit isUnit2
    rw [ha]
    simp

/-- The prefix, unit and power part of `parseFactor` with the option enabled. -/
theorem dimensionless_parseFactorAux_unit (p : quantity_parser_t R) (g : registry R)
    (a : quantity R) (p3 : quantity_parser_t R) (g3 : registry R)
    (h : (match p.parsePrefix with
      | (.error e, p1) => .error e p1 g
      | (.ok pfx, p1) =>
        match p1.parseUnit g with
        | .ok u p2 g2 =>
          .ok (p2.parsePower (operator_scalar_mul pfx u)).1
            (p2.parsePower (operator_scalar_mul pfx u)).2 g2
        | .error e p2 g2 => .error e p2 g2
        | .out_of_fuel => .out_of_fuel : parse_result R (quantity R)) = .ok a p3 g3) :
    p.isPrefixedUnit p.current p.ahead = true ∧
    (match (p.dimensionless true).parsePrefix with
      | (.error e, p1) => .error e p1 g
      | (.ok pfx, p1) =>
        match p1.parseUnit g with
        | .ok u p2 g2 =>
          .ok (p2.parsePower (operator_scalar_mul pfx u)).1
            (p2.parsePower (operator_scalar_mul pfx u)).2 g2
        | .error e p2 g2 => .error e p2 g2
        | .out_of_fuel => .out_of_fuel : parse_result R (quantity R)) =
      .ok a (p3.dimensionless true) g3 := by
  rw [dimensionless_parsePrefix]
  cases hpp : p.parsePrefix with
  | mk r p1 =>
    rw [hpp] at h
    cases r with
    | error e => exact parse_result.noConfusion h
    | ok pfx =>
      simp only at h ⊢
      cases hu : p1.parseUnit g with
      | error e p2 g2 =>
        rw [hu] at h
        exact parse_result.noConfusion h
      | out_of_fuel =>
        rw [hu] at h
        exact parse_result.noConfusion h
      | ok u p2 g2 =>
        rw [hu] at h
        have hk := isPrefixedUnit_of_unit_ok p g u p2 g2 (by rw [hpp]; exact hu)
        refine ⟨hk, ?_⟩
        rw [dimensionless_parseUnit p1 true g u p2 g2 hu]
        simp only [parse_result.ok.injEq] at h ⊢
        rw [dimensionless_parsePower]
        obtain ⟨ha, hb, hc⟩ := h
        exact ⟨ha, by rw [← hb], hc⟩

/-- The loop of `parseTerm` with the option enabled, when the parser of a factor
gives the same with it. -/
theorem dimensionless_parseTermLoop
    (f1 f2 : quantity_parser_t R → registry R → parse_result R (quantity R))
    (hf : ∀ (p : quantity_parser_t R) (g : registry R) (a : quantity R)
      (p1 : quantity_parser_t R) (g1 : registry R),
      f1 p g = .ok a p1 g1 → f2 (p.dimensionless true) g = .ok a (p1.dimensionless true) g1) :
    ∀ (fuel : Nat) (lhs : quantity R) (sc : Nat) (p : quantity_parser_t R) (g : registry R)
      (a : quantity R) (p1 : quantity_parser_t R) (g1 : registry R),
      parseTermLoop f1 fuel lhs sc p g = .ok a p1 g1 →
      parseTermLoop f2 fuel lhs sc (p.dimensionless true) g =
        .ok a (p1.dimensionless true) g1 := by
  intro fuel
  induction fuel with
  | zero =>
    intro lhs sc p g a p1 g1 h
    rw [parseTermLoop_zero] at h ⊢
    show (if !(isOperator p.current) then _ else if isOperator p.ahead then _ else _) = _
    by_cases c1 : (!(isOperator p.current)) = true
    · rw [if_pos c1] at h ⊢
      simp only [parse_result.ok.injEq] at h ⊢
      obtain ⟨ha, hb, hc⟩ := h
      exact ⟨ha, by rw [← hb], hc⟩
    · rw [if_neg c1] at h
      by_cases c2 : isOperator p.ahead = true
      · rw [if_pos c2] at h
        exact parse_result.noConfusion h
      · rw [if_neg c2] at h
        exact parse_result.noConfusion h
  | succ fuel1 ih =>
    intro lhs sc p g a p1 g1 h
    rw [parseTermLoop_succ] at h ⊢
    rw [dimensionless_advance]
    show (if !(isOperator p.current) then _
      else if isOperator p.ahead then _
      else if p.current == ' ' || p.current == '.' then _
      else if sc + 1 > 1 then _
      else _) = _
    have hstep : ∀ (l : quantity R → quantity R) (s : Nat),
        (match f1 p.advance g with
          | .ok rhs p2 g2 => parseTermLoop f1 fuel1 (l rhs) s p2 g2
          | .error e p2 g2 => .error e p2 g2
          | .out_of_fuel => .out_of_fuel : parse_result R (quantity R)) = .ok a p1 g1 →
        (match f2 (p.advance.dimensionless true) g with
          | .ok rhs p2 g2 => parseTermLoop f2 fuel1 (l rhs) s p2 g2
          | .error e p2 g2 => .error e p2 g2
          | .out_of_fuel => .out_of_fuel : parse_result R (quantity R)) =
          .ok a (p1.dimensionless true) g1 := by
      intro l s hm
      cases hres : f1 p.advance g with
      | ok rhs p2 g2 =>
        rw [hres] at hm
        rw [hf p.advance g rhs p2 g2 hres]
        exact ih (l rhs) s p2 g2 a p1 g1 hm
      | error e p2 g2 =>
        rw [hres] at hm
        exact parse_result.noConfusion hm
      | out_of_fuel =>
        rw [hres] at hm
        exact parse_result.noConfusion hm
    by_cases c1 : (!(isOperator p.current)) = true
    · rw [if_pos c1] at h ⊢
      simp only [parse_result.ok.injEq] at h ⊢
      obtain ⟨ha, hb, hc⟩ := h
      exact ⟨ha, by rw [← hb], hc⟩
    · rw [if_neg c1] at h ⊢
      by_cases c2 : isOperator p.ahead = true
      · rw [if_pos c2] at h
        exact parse_result.noConfusion h
      · rw [if_neg c2] at h ⊢
        by_cases c3 : (p.current == ' ' || p.current == '.') = true
        · rw [if_pos c3] at h ⊢
          exact hstep _ 0 h
        · rw [if_neg c3] at h ⊢
          by_cases c4 : sc + 1 > 1
          · rw [if_pos c4] at h
            exact parse_result.noConfusion h
          · rw [if_neg c4] at h ⊢
            exact hstep _ (sc + 1) h

theorem dimensionless_parseTerm_with
    (f1 f2 : quantity_parser_t R → registry R → parse_result R (quantity R))
    (hf : ∀ (p : quantity_parser_t R) (g : registry R) (a : quantity R)
      (p1 : quantity_parser_t R) (g1 : registry R),
      f1 p g = .ok a p1 g1 → f2 (p.dimensionless true) g = .ok a (p1.dimensionless true) g1)
    (p : quantity_parser_t R) (g : registry R) (a : quantity R)
    (p1 : quantity_parser_t R) (g1 : registry R)
    (h : parseTerm_with f1 p g = .ok a p1 g1) :
    parseTerm_with f2 (p.dimensionless true) g = .ok a (p1.dimensionless true) g1 := by
  unfold parseTerm_with at h ⊢
  cases hres : f1 p g with
  | ok lhs p2 g2 =>
    rw [hres] at h
    rw [hf p g lhs p2 g2 hres]
    exact dimensionless_parseTermLoop f1 f2 hf _ lhs 0 p2 g2 a p1 g1 h
  | error e p2 g2 =>
    rw [hres] at h
    exact parse_result.noConfusion h
  | out_of_fuel =>
    rw [hres] at h
    exact parse_result.noConfusion h

theorem dimensionless_parseExpression_with
    (f1 f2 : quantity_parser_t R → registry R → parse_result R (quantity R))
    (hf : ∀ (p : quantity_parser_t R) (g : registry R) (a : quantity R)
      (p1 : quantity_parser_t R) (g1 : registry R),
      f1 p g = .ok a p1 g1 → f2 (p.dimensionless true) g = .ok a (p1.dimensionless true) g1)
    (p : quantity_parser_t R) (g : registry R) (a : quantity R)
    (p1 : quantity_parser_t R) (g1 : registry R)
    (h : parseExpression_with f1 p g = .ok a p1 g1) :
    parseExpression_with f2 (p.dimensionless true) g = .ok a (p1.dimensionless true) g1 := by
  unfold parseExpression_with at h ⊢
  rw [dimensionless_parseNumericalValue]
  cases hres : parseTerm_with f1 p.parseNumericalValue.2 g with
  | ok t p2 g2 =>
    rw [hres] at h
    rw [dimensionless_parseTerm_with f1 f2 hf _ g t p2 g2 hres]
    simp only [parse_result.ok.injEq] at h ⊢
    obtain ⟨ha, hb, hc⟩ := h
    exact ⟨ha, by rw [← hb], hc⟩
  | error e p2 g2 =>
    rw [hres] at h
    exact parse_result.noConfusion h
  | out_of_fuel =>
    rw [hres] at h
    exact parse_result.noConfusion h

theorem dimensionless_of_enabled (p : quantity_parser_t R)
    (h : p.dimless_quantities = true) : p.dimensionless true = p := by
  cases p
  simp only [dimensionless] at h ⊢
  rw [h]

/-- A factor that parses gives the same with the option enabled. -/
theorem dimensionless_parseFactorAux :
    ∀ (fuel : Nat) (p : quantity_parser_t R) (g : registry R) (a : quantity R)
      (p1 : quantity_parser_t R) (g1 : registry R),
      parseFactorAux fuel p g = .ok a p1 g1 →
      parseFactorAux fuel (p.dimensionless true) g = .ok a (p1.dimensionless true) g1 := by
  intro fuel
  induction fuel with
  | zero =>
    intro p g a p1 g1 h
    rw [parseFactorAux_zero] at h ⊢
    rw [dimensionless_accept]
    show (if (p.accept '(').1 = true then _
      else if (true && !(p.isPrefixedUnit p.current p.ahead)) = true then _
      else _) = _
    by_cases c1 : (p.accept '(').1 = true
    · rw [if_pos c1] at h
      exact parse_result.noConfusion h
    · rw [if_neg c1] at h ⊢
      by_cases c2 : (p.dimless_quantities && !(p.isPrefixedUnit p.current p.ahead)) = true
      · rw [if_pos c2] at h
        have c3 : (true && !(p.isPrefixedUnit p.current p.ahead)) = true := by
          simp only [Bool.and_eq_true] at c2
          simp [c2.2]
        rw [if_pos c3]
        simp only [parse_result.ok.injEq] at h ⊢
        obtain ⟨ha, hb, hc⟩ := h
        exact ⟨ha, by rw [← hb], hc⟩
      · rw [if_neg c2] at h
        obtain ⟨hk, hu⟩ := dimensionless_parseFactorAux_unit p g a p1 g1 h
        have c3 : ¬ (true && !(p.isPrefixedUnit p.current p.ahead)) = true := by
          simp [hk]
        rw [if_neg c3]
        exact hu
  | succ fuel1 ih =>
    intro p g a p1 g1 h
    rw [parseFactorAux_succ] at h ⊢
    rw [dimensionless_accept]
    show (if (p.accept '(').1 = true then _
      else if (true && !(p.isPrefixedUnit p.current p.ahead)) = true then _
      else _) = _
    by_cases c1 : (p.accept '(').1 = true
    · rw [if_pos c1] at h ⊢
      show (match parseExpression_with (parseFactorAux fuel1)
          ((p.accept '(').2.dimensionless true) g with
        | .ok q p2 g2 =>
          match p2.expect ')' with
          | (.ok _, p3) => .ok (p3.parsePower q).1 (p3.parsePower q).2 g2
          | (.error e, p3) => .error e p3 g2
        | .error e p2 g2 => .error e p2 g2
        | .out_of_fuel => .out_of_fuel : parse_result R (quantity R)) = _
      cases hres : parseExpression_with (parseFactorAux fuel1) (p.accept '(').2 g with
      | ok q p2 g2 =>
        rw [hres] at h
        rw [dimensionless_parseExpression_with (parseFactorAux fuel1) (parseFactorAux fuel1)
          ih _ g q p2 g2 hres]
        simp only at h ⊢
        rw [dimensionless_expect]
        cases hex : p2.expect ')' with
        | mk r p3 =>
          rw [hex] at h
          cases r with
          | ok u =>
            simp only [parse_result.ok.injEq] at h ⊢
            rw [dimensionless_parsePower]
            obtain ⟨ha, hb, hc⟩ := h
            exact ⟨ha, by rw [← hb], hc⟩
          | error e => exact parse_result.noConfusion h
      | error e p2 g2 =>
        rw [hres] at h
        exact parse_result.noConfusion h
      | out_of_fuel =>
        rw [hres] at h
        exact parse_result.noConfusion h
    · rw [if_neg c1] at h ⊢
      by_cases c2 : (p.dimless_quantities && !(p.isPrefixedUnit p.current p.ahead)) = true
      · rw [if_pos c2] at h
        have c3 : (true && !(p.isPrefixedUnit p.current p.ahead)) = true := by
          simp only [Bool.and_eq_true] at c2
          simp [c2.2]
        rw [if_pos c3]
        simp only [parse_result.ok.injEq] at h ⊢
        obtain ⟨ha, hb, hc⟩ := h
        exact ⟨ha, by rw [← hb], hc⟩
      · rw [if_neg c2] at h
        obtain ⟨hk, hu⟩ := dimensionless_parseFactorAux_unit p g a p1 g1 h
        have c3 : ¬ (true && !(p.isPrefixedUnit p.current p.ahead)) = true := by
          simp [hk]
        rw [if_neg c3]
        exact hu

theorem dimensionless_parseTerm (p : quantity_parser_t R) (g : registry R) (a : quantity R)
    (p1 : quantity_parser_t R) (g1 : registry R) (h : p.parseTerm g = .ok a p1 g1) :
    (p.dimensionless true).parseTerm g = .ok a (p1.dimensionless true) g1 :=
  dimensionless_parseTerm_with parseFactor parseFactor
    (fun q g2 b q1 g3 hq => dimensionless_parseFactorAux _ q g2 b q1 g3 hq) p g a p1 g1 h

/-- A text that `parseInput` accepts is accepted with the option enabled, with the
same quantity and the same stored values. -/
theorem dimensionless_parseInput (self : quantity_parser_t R) (g : registry R)
    (text_ : List Char) (q : quantity R) (pf : quantity_parser_t R) (g1 : registry R)
    (h : self.parseInput g text_ = .ok q pf g1) :
    (self.dimensionless true).parseInput g text_ = .ok q (pf.dimensionless true) g1 := by
  obtain ⟨t, p2, hterm, hend, _, _⟩ := parseInput_ok_inv self g text_ q pf g1 h
  have h0 := parseInput_of_term_ok self g text_ t p2 g1 hterm hend
  rw [h] at h0
  simp only [parse_result.ok.injEq] at h0
  obtain ⟨hq0, hpf0, _⟩ := h0
  have hinit : ((self.dimensionless true).initialize_ text_).advance =
      (self.initialize_ text_).advance.dimensionless true := by
    show ((self.initialize_ text_).dimensionless true).advance = _
    rw [dimensionless_advance]
  have hnum := dimensionless_parseNumericalValue (self.initialize_ text_).advance true
  have hval : ((self.dimensionless true).initialize_ text_).advance.parseNumericalValue.1 =
      (self.initialize_ text_).advance.parseNumericalValue.1 := by
    rw [hinit, hnum]
  have hstate :
      ({ ((self.dimensionless true).initialize_ text_).advance.parseNumericalValue.2 with
        num_value :=
          ((self.dimensionless true).initialize_ text_).advance.parseNumericalValue.1 } :
        quantity_parser_t R) =
      ({ (self.initialize_ text_).advance.parseNumericalValue.2 with
        num_value := (self.initialize_ text_).advance.parseNumericalValue.1 } :
        quantity_parser_t R).dimensionless true := by
    rw [hinit, hnum]
    rfl
  have h1 := parseInput_of_term_ok (self.dimensionless true) g text_ t
    (p2.dimensionless true) g1
    (by rw [hstate]; exact dimensionless_parseTerm _ g t p2 g1 hterm) hend
  rw [h1, hval, hq0, hpf0]
  rfl

/-- Claim C38: a text that `parse` accepts with the dimensionless option disabled
is accepted with the option enabled (the other options as they are), with the same
quantity, in the same registry and with the same stored numerical value and prefix
factor: the parser it leaves differs in the option only. -/
theorem C38_dimensionless_option (self : quantity_parser_t R) (g : registry R)
    (text : String) (q : quantity R)
    (h : ((self.dimensionless false).parse g text).value? = some q) :
    ∃ (pf : quantity_parser_t R) (g1 : registry R),
      (self.dimensionless false).parse g text = .ok q pf g1 ∧
      (self.dimensionless true).parse g text = .ok q (pf.dimensionless true) g1 ∧
      (pf.dimensionless true).numerical_value = pf.numerical_value ∧
      (pf.dimensionless true).prefix_factor = pf.prefix_factor := by
  obtain ⟨pf, g1, hok⟩ := value?_some_inv _ q h
  refine ⟨pf, g1, hok, ?_, rfl, rfl⟩
  have hin : (self.dimensionless false).parseInput g text.toList = .ok q pf g1 := by
    unfold parse at hok
    cases hp : (self.dimensionless false).parseInput g text.toList with
    | ok a p2 g2 =>
      rw [hp] at hok
      exact hok
    | error e p2 g2 =>
      rw [hp] at hok
      exact parse_result.noConfusion hok
    | out_of_fuel =>
      rw [hp] at hok
      exact parse_result.noConfusion hok
  have h1 := dimensionless_parseInput (self.dimensionless false) g text.toList q pf g1 hin
  have h2 : (self.dimensionless true).parseInput g text.toList =
      .ok q (pf.dimensionless true) g1 := h1
  unfold parse
  rw [h2]

end dimensionless_option

/-- The text `45 km/h` in exact arithmetic: 12.5 m/s with the numerical value 45,
with the option disabled and enabled. -/
theorem C38_dimensionless_option_witness :
    (to_quantity (registry.initial : registry Rat) "45 km/h" false false).value? =
      some ⟨quotient length_d time_interval_d, 25 / 2⟩ ∧
    (to_quantity (registry.initial : registry Rat) "45 km/h" false true).value? =
      some ⟨quotient length_d time_interval_d, 25 / 2⟩ ∧
    (to_numerical_value (registry.initial : registry Rat) "45 km/h" false true).value? =
      some 45 ∧
    ∃ (pf : quantity_parser_t Rat) (g1 : registry Rat),
      ((quantity_parser_t.mk0.extend false).dimensionless false).parse registry.initial
        "45 km/h" = .ok ⟨quotient length_d time_interval_d, 25 / 2⟩ pf g1 ∧
      ((quantity_parser_t.mk0.extend false).dimensionless true).parse registry.initial
        "45 km/h" = .ok ⟨quotient length_d time_interval_d, 25 / 2⟩
          (pf.dimensionless true) g1 ∧
      (pf.dimensionless true).numerical_value = pf.numerical_value ∧
      (pf.dimensionless true).prefix_factor = pf.prefix_factor :=
  ⟨by decide!, by decide!, by decide!,
    C38_dimensionless_option (R := Rat) (quantity_parser_t.mk0.extend false) registry.initial
      "45 km/h" ⟨quotient length_d time_interval_d, 25 / 2⟩ (by decide!)⟩

/-! ## Symbols and back -/

section round_trip

open quantity_parser_t

variable {R : Type} [Rep R]

/-- A unit name with or without a power in the stream, before a blank or the end
character: `parseFactor` gives its factor and stops there. -/
theorem parseFactor_term (p : quantity_parser_t R) (g : registry R) (n lit : List Char)
    (x : Char) (rest : List Char) (u : quantity R)
    (hn : plain_unit_name n = true) (hlit : lit = [] ∨ is_integer_literal lit = true)
    (hesc : p.escape_char = '!') (hx : x = ' ' ∨ x = end_char)
    (hcur : p.current_char :: p.iss = n ++ lit ++ x :: rest)
    (hu : unit g (String.mk n) p.ext_units = (.ok u, g)) :
    ∃ pa : quantity_parser_t R,
      p.parseFactor g = .ok (term_factor u lit) pa g ∧
      pa.current_char = x ∧ pa.iss = rest ∧ pa.escape_char = '!' ∧
      pa.ext_units = p.ext_units := by
  have hx1 : ((x == '\'' || isalpha x) && !(x == end_char)) = false := by
    rcases hx with e | e <;> rw [e] <;> decide
  have hx2 : isalpha x = false := by
    rcases hx with e | e <;> rw [e] <;> decide
  have hx3 : x ≠ '!' := by
    rcases hx with e | e <;> rw [e] <;> decide
  have hx4 : isInteger x = false := by
    rcases hx with e | e <;> rw [e] <;> decide
  have hx5 : (isInteger x && !(x == end_char)) = false := by
    rw [hx4]
    rfl
  cases hl : lit with
  | nil =>
    rw [hl] at hcur
    have hfac := parseFactor_name p g n x rest u g hn hesc hx1 hx2 hx3
      (by rw [hcur]; simp) hu
    rw [parsePower_none _ _ hx4] at hfac
    have htf : term_factor u ([] : List Char) = operator_scalar_mul Rep.one_point_zero u := by
      unfold term_factor
      rw [if_pos rfl]
    rw [← htf] at hfac
    exact ⟨_, hfac, rfl, rfl, hesc, rfl⟩
  | cons l0 lt =>
    have hlit2 : is_integer_literal lit = true := by
      rcases hlit with e | e
      · rw [hl] at e
        exact absurd e (by simp)
      · exact e
    obtain ⟨_, hlch⟩ := integer_literal_chars lit hlit2
    rw [hl] at hlch hcur
    have hl0 := hlch l0 (List.mem_cons_self _ _)
    have hfac := parseFactor_name p g n l0 (lt ++ x :: rest) u g hn hesc
      (by rw [hl0.2.1]; have := hl0.2.2.1; simp [this]) hl0.2.1 hl0.2.2.2.1
      (by rw [hcur]; simp) hu
    have hpow := parsePower_run
      ({ p with current_char := l0, iss := lt ++ x :: rest,
                current_pos := p.current_pos + n.length } : quantity_parser_t R)
      (operator_scalar_mul Rep.one_point_zero u) l0 lt x rest
      (fun y hy => (hlch y hy).1) hx5 (by simp)
    rw [hpow] at hfac
    have htf : term_factor u (l0 :: lt) =
        nth_power (operator_scalar_mul Rep.one_point_zero u)
          (static_cast_int (detail_to_real (l0 :: lt) : R)) := by
      unfold term_factor
      rw [if_neg (by simp)]
    rw [← htf] at hfac
    exact ⟨_, hfac, rfl, rfl, hesc, rfl⟩

/-- The stream of a list of terms and the end character starts with a blank or is
the end character alone. -/
theorem terms_stream_head (ts : List (List Char × List Char × quantity R)) :
    ∃ (x : Char) (rest : List Char), terms_stream ts ++ [end_char] = x :: rest ∧
      (x = ' ' ∨ x = end_char) := by
  cases ts with
  | nil => exact ⟨end_char, [], rfl, Or.inr rfl⟩
  | cons t ts => exact ⟨' ', _, rfl, Or.inl rfl⟩

/-- The loop of `parseTerm` over a list of terms, each after a blank, up to the end
character: the factors are multiplied to the left operand one after the other. -/
theorem parseTermLoop_terms (g : registry R) (ext : Bool) :
    ∀ (ts : List (List Char × List Char × quantity R)) (fuel : Nat) (lhs : quantity R)
      (sc : Nat) (p : quantity_parser_t R),
      (∀ t ∈ ts, plain_unit_name t.1 = true ∧
        (t.2.1 = [] ∨ is_integer_literal t.2.1 = true) ∧
        unit g (String.mk t.1) ext = (.ok t.2.2, g)) →
      p.escape_char = '!' → p.ext_units = ext →
      p.current_char :: p.iss = terms_stream ts ++ [end_char] →
      p.iss.length + 1 ≤ fuel →
      ∃ pe : quantity_parser_t R,
        parseTermLoop parseFactor fuel lhs sc p g =
          .ok (ts.foldl (fun acc t => operator_mul_assign acc (term_factor t.2.2 t.2.1)) lhs)
            pe g ∧
        pe.current_char = end_char := by
  intro ts
  induction ts with
  | nil =>
    intro fuel lhs sc p _ _ _ hcur _
    have hc : p.current_char = end_char := by
      simp only [terms_stream, List.nil_append, List.cons.injEq] at hcur
      exact hcur.1
    refine ⟨p, ?_, hc⟩
    rw [parseTermLoop_done _ _ _ _ _ _ (by rw [hc]; decide)]
    rfl
  | cons t ts ih =>
    intro fuel lhs sc p hts hesc hext hcur hfuel
    obtain ⟨hn, hlit, hu⟩ := hts t (List.mem_cons_self _ _)
    obtain ⟨c0, ut, hnc, hpred, _, _⟩ := plain_unit_name_cases t.1 hn
    obtain ⟨x, rest, hxr, hx⟩ := terms_stream_head ts
    have hc : p.current_char = ' ' := by
      simp only [terms_stream, List.cons_append, List.cons.injEq] at hcur
      exact hcur.1
    have hi : p.iss = c0 :: (ut ++ t.2.1 ++ x :: rest) := by
      simp only [terms_stream, List.cons_append, List.cons.injEq] at hcur
      rw [hcur.2, hnc, List.append_assoc, hxr]
      simp
    have hc0 : (c0 == '\'' || isalpha c0) = true :=
      hpred c0 (by rw [hnc]; exact List.mem_cons_self _ _)
    have hop0 : isOperator c0 = false := by
      cases hb : isOperator c0 with
      | false => rfl
      | true =>
        have hall : ∀ y ∈ [' ', '.', '/'], (y == '\'' || isalpha y) = false := by decide
        have hm : c0 ∈ [' ', '.', '/'] := by
          unfold isOperator isMultiplicativeOperator isMultiplyingOperator
            isDividingOperator at hb
          simp only [Bool.or_eq_true, beq_iff_eq] at hb
          simp only [List.mem_cons, List.mem_singleton, List.not_mem_nil, or_false]
          tauto
        rw [hall c0 hm] at hc0
        exact absurd hc0 (by simp)
    have hne : p.current_char ≠ end_char := by
      rw [hc]
      decide
    have hadv := advance_of_cons p hne c0 _ hi
    have hah : p.ahead = c0 := ahead_of_cons p hne c0 _ hi
    obtain ⟨pa, hfac, hpc, hpi, hpe, hpx⟩ := parseFactor_term p.advance g t.1 t.2.1 x rest t.2.2
      hn hlit (by rw [hadv]; exact hesc) hx
      (by rw [hadv, hnc]; simp)
      (by rw [hadv]; show unit g (String.mk t.1) p.ext_units = _; rw [hext]; exact hu)
    cases fuel with
    | zero => exact absurd hfuel (by omega)
    | succ fuel1 =>
      have hlen : pa.iss.length + 1 ≤ fuel1 := by
        rw [hpi]
        rw [hi] at hfuel
        simp only [List.length_cons, List.length_append] at hfuel
        omega
      obtain ⟨pe, hloop, hend⟩ := ih fuel1
        (operator_mul_assign lhs (term_factor t.2.2 t.2.1)) 0 pa
        (fun s hs => hts s (List.mem_cons_of_mem _ hs)) hpe
        (by rw [hpx, hadv]; exact hext) (by rw [hpc, hpi, hxr]) hlen
      refine ⟨pe, ?_, hend⟩
      rw [parseTermLoop_succ]
      have b1 : ¬ (!(isOperator p.current)) = true := by
        show ¬ (!(isOperator p.current_char)) = true
        rw [hc]
        decide
      have b2 : ¬ isOperator p.ahead = true := by
        rw [hah, hop0]
        simp
      have b3 : (p.current == ' ' || p.current == '.') = true := by
        show (p.current_char == ' ' || p.current_char == '.') = true
        rw [hc]
        decide
      rw [if_neg b1, if_neg b2, if_pos b3]
      simp only [hfac]
      rw [hloop]
      rfl

/-- The last character of a text of terms is none that `strip` removes. -/
theorem terms_stream_last :
    ∀ (ts : List (List Char × List Char × quantity R)) (pre : List Char),
      (∀ t ∈ ts, plain_unit_name t.1 = true ∧
        (t.2.1 = [] ∨ is_integer_literal t.2.1 = true)) →
      (∀ c, pre.getLast? = some c → default_strip_set.contains c = false) →
      ∀ c, (pre ++ terms_stream ts).getLast? = some c →
        default_strip_set.contains c = false := by
  intro ts
  induction ts with
  | nil =>
    intro pre _ hpre c hc
    rw [show pre ++ terms_stream ([] : List (List Char × List Char × quantity R)) = pre from
      List.append_nil pre] at hc
    exact hpre c hc
  | cons t ts ih =>
    intro pre hts hpre c hc
    obtain ⟨hn, hlit⟩ := hts t (List.mem_cons_self _ _)
    have hsplit : pre ++ terms_stream (t :: ts) =
        (pre ++ ' ' :: (t.1 ++ t.2.1)) ++ terms_stream ts := by
      simp [terms_stream]
    rw [hsplit] at hc
    refine ih (pre ++ ' ' :: (t.1 ++ t.2.1))
      (fun s hs => hts s (List.mem_cons_of_mem _ hs)) ?_ c hc
    intro c2 hc2
    obtain ⟨c0, ut, hnc, _⟩ := plain_unit_name_cases t.1 hn
    rcases hlit with e | e
    · rw [e, List.append_nil, hnc, List.getLast?_append_cons, List.getLast?_cons_cons,
        ← hnc] at hc2
      exact plain_unit_name_last t.1 hn c2 hc2
    · obtain ⟨hne, hlch⟩ := integer_literal_chars t.2.1 e
      cases hl : t.2.1 with
      | nil => exact absurd hl hne
      | cons l0 lt =>
        rw [hl] at hlch
        rw [hl, ← List.cons_append, ← List.append_assoc, List.getLast?_append_cons] at hc2
        exact (hlch c2 (List.mem_of_mem_getLast? hc2)).2.2.2.2.2

/-- A text of terms, the first without a blank in front: `to_quantity` gives the
product of the factors, from left to right, multiplied by 1.0. -/
theorem to_quantity_terms (g : registry R) (extunits dimless : Bool)
    (t : List Char × List Char × quantity R)
    (ts : List (List Char × List Char × quantity R))
    (hts : ∀ s ∈ t :: ts, plain_unit_name s.1 = true ∧
      (s.2.1 = [] ∨ is_integer_literal s.2.1 = true) ∧
      unit g (String.mk s.1) extunits = (.ok s.2.2, g)) :
    ∃ pf : quantity_parser_t R,
      to_quantity g (String.mk (t.1 ++ t.2.1 ++ terms_stream ts)) extunits dimless =
        .ok (operator_scalar_mul Rep.one_point_zero
          (ts.foldl (fun acc s => operator_mul_assign acc (term_factor s.2.2 s.2.1))
            (term_factor t.2.2 t.2.1))) pf g := by
  obtain ⟨hn, hlit, hu⟩ := hts t (List.mem_cons_self _ _)
  obtain ⟨c0, ut, hnc, hsp, hre⟩ := plain_unit_name_first t.1 hn
  obtain ⟨x, rest, hxr, hx⟩ := terms_stream_head ts
  have htext : t.1 ++ t.2.1 ++ terms_stream ts = c0 :: (ut ++ t.2.1 ++ terms_stream ts) := by
    rw [hnc]
    simp
  have hlast : ∀ c, (c0 :: (ut ++ t.2.1 ++ terms_stream ts)).getLast? = some c →
      default_strip_set.contains c = false := by
    intro c hc
    have h0 := terms_stream_last (t :: ts) []
      (fun s hs => ⟨(hts s hs).1, (hts s hs).2.1⟩) (fun c h => by simp at h) c
    have hst : ([] : List Char) ++ terms_stream (t :: ts) =
        ' ' :: (c0 :: (ut ++ t.2.1 ++ terms_stream ts)) := by
      simp [terms_stream, hnc]
    rw [hst, List.getLast?_cons_cons] at h0
    exact h0 hc
  obtain ⟨hc0, hcur, hiss, hescape, hext, _, _, _⟩ :=
    started_eq ((quantity_parser_t.mk0.extend extunits).dimensionless dimless :
      quantity_parser_t R) c0 (ut ++ t.2.1 ++ terms_stream ts)
      (not_isspace_not_strip c0 hsp) hlast
  obtain ⟨pa, hfac, hpc, hpi, hpe, hpx⟩ := parseFactor_term
    (((quantity_parser_t.mk0.extend extunits).dimensionless dimless :
      quantity_parser_t R).started (c0 :: (ut ++ t.2.1 ++ terms_stream ts)))
    g t.1 t.2.1 x rest t.2.2 hn hlit (by rw [hescape]; rfl) hx
    (by rw [hcur, hiss, hnc, List.append_assoc, hxr]; simp)
    (by rw [hext]; exact hu)
  obtain ⟨pe, hloop, hend⟩ := parseTermLoop_terms g extunits ts (pa.iss.length + 1)
    (term_factor t.2.2 t.2.1) 0 pa (fun s hs => hts s (List.mem_cons_of_mem _ hs)) hpe
    (by rw [hpx, hext]; rfl) (by rw [hpc, hpi, hxr]) (Nat.le_refl _)
  have hterm : parseTerm
      (((quantity_parser_t.mk0.extend extunits).dimensionless dimless :
        quantity_parser_t R).started (c0 :: (ut ++ t.2.1 ++ terms_stream ts))) g =
      .ok (ts.foldl (fun acc s => operator_mul_assign acc (term_factor s.2.2 s.2.1))
        (term_factor t.2.2 t.2.1)) pe g := by
    unfold parseTerm parseTerm_with
    simp only [hfac]
    exact hloop
  have hnone := parseNumericalValue_none
    ((((quantity_parser_t.mk0.extend extunits).dimensionless dimless :
      quantity_parser_t R).initialize_ (c0 :: (ut ++ t.2.1 ++ terms_stream ts))).advance)
    (by rw [hc0]; exact hsp) (by rw [hc0]; exact hre)
  unfold started at hterm
  have hin := parseInput_of_term_ok
    ((quantity_parser_t.mk0.extend extunits).dimensionless dimless : quantity_parser_t R)
    g (c0 :: (ut ++ t.2.1 ++ terms_stream ts)) _ pe g (by rw [hnone]; exact hterm) hend
  rw [hnone] at hin
  rw [htext]
  exact ⟨_, (to_quantity_of_parseInput_ok g
    (String.mk (c0 :: (ut ++ t.2.1 ++ terms_stream ts))) extunits dimless _ _ g hin).1⟩

/-- The exponents from -128 to 127 other than 0 and 1 are written as signed integer
literals of at most four characters that denote them. -/
theorem exponent_literal_table : ∀ n : Fin 256,
    ((n.val : Int) - 128 ≠ 0 → (n.val : Int) - 128 ≠ 1 →
      is_integer_literal (exponent_literal ((n.val : Int) - 128)) = true ∧
      integer_literal_value (exponent_literal ((n.val : Int) - 128)) = (n.val : Int) - 128 ∧
      (exponent_literal ((n.val : Int) - 128)).length ≤ 4) := by
  decide!

theorem exponent_literal_facts (e : Int) (h1 : -128 ≤ e) (h2 : e ≤ 127) (h0 : e ≠ 0)
    (hne : e ≠ 1) :
    is_integer_literal (exponent_literal e) = true ∧
    integer_literal_value (exponent_literal e) = e ∧ (exponent_literal e).length ≤ 4 := by
  have h := exponent_literal_table ⟨(e + 128).toNat, by omega⟩
  have he : (((e + 128).toNat : Nat) : Int) - 128 = e := by omega
  simp only [he] at h
  exact h h0 hne

theorem exponent_literal_one : exponent_literal 1 = [] := rfl

/-- The text of `intercalate` in characters: every term but the first after a
blank. -/
theorem intercalate_go_terms :
    ∀ (ts : List (List Char × List Char × quantity R)) (acc : String),
      String.intercalate.go acc " " (ts.map (fun t => String.mk (t.1 ++ t.2.1))) =
        String.mk (acc.toList ++ terms_stream ts) := by
  intro ts
  induction ts with
  | nil =>
    intro acc
    show acc = String.mk (acc.toList ++ [])
    rw [List.append_nil]
    rfl
  | cons t ts ih =>
    intro acc
    show String.intercalate.go (acc ++ " " ++ String.mk (t.1 ++ t.2.1)) " "
      (ts.map (fun t => String.mk (t.1 ++ t.2.1))) = _
    rw [ih]
    apply String.ext
    simp [terms_stream, String.toList]

theorem intercalate_terms (t : List Char × List Char × quantity R)
    (ts : List (List Char × List Char × quantity R)) :
    " ".intercalate ((t :: ts).map (fun t => String.mk (t.1 ++ t.2.1))) =
      String.mk (t.1 ++ t.2.1 ++ terms_stream ts) :=
  intercalate_go_terms ts (String.mk (t.1 ++ t.2.1))

/-- The term that `emit_dim` writes, in characters. -/
theorem symbol_term_chars (sym : String) (e : Int) :
    symbol_term sym e = String.mk (sym.toList ++ exponent_literal e) := by
  unfold symbol_term exponent_literal
  by_cases h1 : e = 1
  · rw [if_pos h1, if_pos h1, List.append_nil]
    rfl
  · rw [if_neg h1, if_neg h1]
    by_cases h2 : e > 1
    · rw [if_pos h2, if_pos h2]
      apply String.ext
      simp [String.toList]
    · rw [if_neg h2, if_neg h2]
      apply String.ext
      simp [String.toList]

/-- The terms of `to_base_unit_symbols` are the texts of `base_terms`. -/
theorem base_symbol_terms_eq (d : dimensions) :
    base_symbol_terms d =
      (base_terms (R := R) d).map (fun t => String.mk (t.1 ++ t.2.1)) := by
  unfold base_symbol_terms base_terms
  have hz : base_symbol_names.zip (d.d.take 7) =
      ((base_unit_table (R := R)).zip (d.d.take 7)).map (fun c => (c.1.1, c.2)) := by
    have hn : base_symbol_names = (base_unit_table (R := R)).map Prod.fst := rfl
    rw [hn, List.zip_map_left]
    rfl
  rw [hz, List.filterMap_map, List.map_filterMap]
  apply List.filterMap_congr
  intro c _
  show symbol_term? c.1.1 c.2 = (base_term? c.1.1 c.1.2 c.2).map _
  unfold symbol_term? base_term?
  by_cases h0 : c.2 = 0
  · rw [if_pos h0, if_pos h0]
    rfl
  · rw [if_neg h0, if_neg h0, symbol_term_chars]
    rfl

/-- The text of `to_base_unit_symbols` in the initial registry, which stays. -/
theorem to_base_unit_symbols_initial (d : dimensions) (hv : d.valid)
    (hext : ∀ v ∈ d.d.drop 7, v = 0) :
    to_base_unit_symbols (registry.initial : registry R) d =
      (" ".intercalate (base_symbol_terms d), registry.initial) := by
  have hlen : 7 ≤ d.d.length := by
    rw [hv.1]
    decide
  unfold to_base_unit_symbols unit_info.symbol
  show ((unit_info.emit_range d 7 10
      (unit_info.emit_range d 0 7 ("", true, (registry.initial : registry R)))).1,
    (unit_info.emit_range d 7 10
      (unit_info.emit_range d 0 7 ("", true, (registry.initial : registry R)))).2.2) = _
  rw [emit_range_base d hlen _ rfl,
    emit_range_ext_zero d _ rfl (ext_components_zero d hext 0) (ext_components_zero d hext 1)
      (ext_components_zero d hext 2)]

/-- The dimension of a unit of one component, raised to a power. -/
theorem power_mk1 (i : Nat) (e : Int) (h1 : -128 ≤ e) (h2 : e ≤ 127) :
    power (dimensions.mk1 i 1) e = dimensions.mk1 i e := by
  unfold power dimensions.power dimensions.mk1
  rw [to_value_type_of_range e h1 h2, to_value_type_of_range 1 (by decide) (by decide)]
  congr 1
  apply List.ext_getElem
  · simp
  · intro k hk1 hk2
    simp only [List.getElem_map, List.getElem_set, List.getElem_replicate]
    by_cases hik : i = k
    · rw [if_pos hik, if_pos hik, one_mul, to_value_type_of_range e h1 h2]
    · rw [if_neg hik, if_neg hik, zero_mul]
      rfl

/-- The factor of a base unit to the power `e`, when the arithmetic of the
magnitudes is exact on 1.0 and on the exponents. -/
theorem term_factor_base
    (hmul : Rep.mul (Rep.one_point_zero : R) Rep.one_point_zero = Rep.one_point_zero)
    (hpow : ∀ n : Int, Rep.pow (Rep.one_point_zero : R) (Rep.ofInt n) = Rep.one_point_zero)
    (hconv : ∀ lit : List Char, is_integer_literal lit = true → lit.length ≤ 4 →
      Rep.toInt (detail_to_real lit : R) = integer_literal_value lit)
    (i : Nat) (e : Int) (h1 : -128 ≤ e) (h2 : e ≤ 127) (h0 : e ≠ 0) :
    term_factor (⟨dimensions.mk1 i 1, Rep.one_point_zero⟩ : quantity R) (exponent_literal e) =
      ⟨dimensions.mk1 i e, Rep.one_point_zero⟩ := by
  unfold term_factor
  by_cases he : e = 1
  · subst he
    rw [if_pos exponent_literal_one]
    show (⟨dimensions.mk1 i 1, Rep.mul Rep.one_point_zero Rep.one_point_zero⟩ : quantity R) = _
    rw [hmul]
  · obtain ⟨hlit, hval, hlen⟩ := exponent_literal_facts e h1 h2 h0 he
    obtain ⟨hnil, _⟩ := integer_literal_chars _ hlit
    rw [if_neg hnil, static_cast_int_of_range _ _ (hconv _ hlit hlen)
      (by rw [hval]; unfold INT_MIN; omega) (by rw [hval]; unfold INT_MAX; omega), hval]
    show (⟨power (dimensions.mk1 i 1) e,
      Rep.pow (Rep.mul Rep.one_point_zero Rep.one_point_zero) (Rep.ofInt e)⟩ : quantity R) = _
    rw [hmul, hpow, power_mk1 i e h1 h2]

/-- The product of a dimension whose component `i` is zero and the dimension of the
component `i` alone sets that component. -/
theorem mul_assign_mk1 (P : List Int) (i : Nat) (e : Int)
    (hlen : P.length = 17) (hr : ∀ v ∈ P, -128 ≤ v ∧ v ≤ 127) (hz : P.getD i 0 = 0)
    (h1 : -128 ≤ e) (h2 : e ≤ 127) :
    dimensions.operator_mul_assign ⟨P⟩ (dimensions.mk1 i e) = ⟨P.set i e⟩ := by
  unfold dimensions.operator_mul_assign dimensions.mk1
  rw [to_value_type_of_range e h1 h2]
  congr 1
  apply List.ext_getElem
  · simp [hlen, PHYS_UNITS_QUANTITY_UNIT_EXT_COUNT]
  · intro k hk1 hk2
    have hkP : k < P.length := by
      simp only [List.length_set] at hk2
      exact hk2
    simp only [List.getElem_zipWith, List.getElem_set, List.getElem_replicate]
    by_cases hik : i = k
    · rw [if_pos hik, if_pos hik]
      have hPk : P[k] = 0 := by
        rw [List.getD_eq_getElem?_getD, hik, List.getElem?_eq_getElem hkP] at hz
        exact hz
      rw [hPk, zero_add, to_value_type_of_range e h1 h2]
    · rw [if_neg hik, if_neg hik, add_zero]
      have hm := hr P[k] (List.getElem_mem _)
      exact to_value_type_of_range _ hm.1 hm.2

/-- One step of the product of the base terms on a dimension whose components from
`i` on are zero. -/
theorem mul_base_term_step
    (hmul : Rep.mul (Rep.one_point_zero : R) Rep.one_point_zero = Rep.one_point_zero)
    (hpow : ∀ n : Int, Rep.pow (Rep.one_point_zero : R) (Rep.ofInt n) = Rep.one_point_zero)
    (hconv : ∀ lit : List Char, is_integer_literal lit = true → lit.length ≤ 4 →
      Rep.toInt (detail_to_real lit : R) = integer_literal_value lit)
    (P : List Int) (i : Nat) (sym : String) (u : quantity R) (e : Int)
    (hu : u = ⟨dimensions.mk1 i 1, Rep.one_point_zero⟩) (hi : i < 17)
    (hlen : P.length = 17) (hr : ∀ v ∈ P, -128 ≤ v ∧ v ≤ 127)
    (hz : ∀ k, i ≤ k → P.getD k 0 = 0) (h1 : -128 ≤ e) (h2 : e ≤ 127) :
    mul_base_term (⟨⟨P⟩, Rep.one_point_zero⟩ : quantity R) ((sym, u), e) =
      ⟨⟨P.set i e⟩, Rep.one_point_zero⟩ ∧
    (P.set i e).length = 17 ∧ (∀ v ∈ P.set i e, -128 ≤ v ∧ v ≤ 127) ∧
    (∀ k, i + 1 ≤ k → (P.set i e).getD k 0 = 0) := by
  refine ⟨?_, by simp [hlen], ?_, ?_⟩
  · unfold mul_base_term
    by_cases h0 : e = 0
    · rw [if_pos h0, h0]
      have hPi : P[i]? = some 0 := by
        have := hz i (Nat.le_refl _)
        rw [List.getD_eq_getElem?_getD, List.getElem?_eq_getElem (by omega)] at this
        rw [List.getElem?_eq_getElem (by omega)]
        exact congrArg some this
      have hset : P.set i 0 = P := by
        apply List.ext_getElem
        · simp
        · intro k hk1 hk2
          rw [List.getElem_set]
          by_cases hik : i = k
          · rw [if_pos hik]
            subst hik
            rw [List.getElem?_eq_getElem hk2] at hPi
            exact (Option.some.inj hPi).symm
          · rw [if_neg hik]
      rw [hset]
    · rw [if_neg h0]
      show operator_mul_assign _ (term_factor u (exponent_literal e)) = _
      rw [hu, term_factor_base hmul hpow hconv i e h1 h2 h0]
      show (⟨dimensions.operator_mul_assign ⟨P⟩ (dimensions.mk1 i e),
        Rep.mul Rep.one_point_zero Rep.one_point_zero⟩ : quantity R) = _
      rw [hmul, mul_assign_mk1 P i e hlen hr (hz i (Nat.le_refl _)) h1 h2]
  · intro v hv
    rcases List.mem_or_eq_of_mem_set hv with h | h
    · exact hr v h
    · rw [h]
      exact ⟨h1, h2⟩
  · intro k hk
    rw [List.getD_eq_getElem?_getD, List.getElem?_set_ne (by omega),
      ← List.getD_eq_getElem?_getD]
    exact hz k (by omega)

/-- The product over the terms that are there is the product over all components,
those with the exponent 0 skipped. -/
theorem foldl_base_terms (cs : List ((String × quantity R) × Int)) :
    ∀ acc : quantity R,
      (cs.filterMap (fun c => base_term? c.1.1 c.1.2 c.2)).foldl
          (fun a t => operator_mul_assign a (term_factor t.2.2 t.2.1)) acc =
        cs.foldl mul_base_term acc := by
  induction cs with
  | nil =>
    intro acc
    rfl
  | cons c cs ih =>
    intro acc
    rw [filterMap_cons_toList, List.foldl_append, List.foldl_cons, ih]
    congr 1
    unfold base_term? mul_base_term
    by_cases h0 : c.2 = 0
    · rw [if_pos h0, if_pos h0]
      rfl
    · rw [if_neg h0, if_neg h0]
      rfl

/-- The product that starts with the first term is the product over all components
that starts with a quantity which every factor absorbs. -/
theorem foldl_base_terms_head (x : quantity R) :
    ∀ (cs : List ((String × quantity R) × Int)) (t : List Char × List Char × quantity R)
      (ts : List (List Char × List Char × quantity R)),
      cs.filterMap (fun c => base_term? c.1.1 c.1.2 c.2) = t :: ts →
      (∀ c ∈ cs, c.2 ≠ 0 →
        operator_mul_assign x (term_factor c.1.2 (exponent_literal c.2)) =
          term_factor c.1.2 (exponent_literal c.2)) →
      ts.foldl (fun a s => operator_mul_assign a (term_factor s.2.2 s.2.1))
          (term_factor t.2.2 t.2.1) =
        cs.foldl mul_base_term x := by
  intro cs
  induction cs with
  | nil =>
    intro t ts h _
    exact absurd h (by simp)
  | cons c cs ih =>
    intro t ts h hx
    rw [filterMap_cons_toList] at h
    rw [List.foldl_cons]
    by_cases h0 : c.2 = 0
    · have hb : base_term? c.1.1 c.1.2 c.2 = none := by
        unfold base_term?
        rw [if_pos h0]
      have hm : mul_base_term x c = x := by
        unfold mul_base_term
        rw [if_pos h0]
      rw [hb] at h
      rw [hm]
      exact ih t ts h (fun c2 hc2 => hx c2 (List.mem_cons_of_mem _ hc2))
    · have hb : base_term? c.1.1 c.1.2 c.2 = some (c.1.1.toList, exponent_literal c.2, c.1.2) := by
        unfold base_term?
        rw [if_neg h0]
      have hm : mul_base_term x c = term_factor c.1.2 (exponent_literal c.2) := by
        unfold mul_base_term
        rw [if_neg h0]
        exact hx c (List.mem_cons_self _ _) h0
      rw [hb] at h
      simp only [Option.toList, List.cons_append, List.nil_append, List.cons.injEq] at h
      obtain ⟨ht, hts⟩ := h
      rw [hm, ← ht, ← hts]
      exact foldl_base_terms cs _

theorem zeros_getD (n k : Nat) : (List.replicate n (0 : Int)).getD k 0 = 0 := by
  rw [List.getD_eq_getElem?_getD, List.getElem?_replicate]
  split <;> rfl

/-- The seven base units: their symbols are plain unit names that the predefined
units hold, and the unit of the component `i` has the dimension of that component
alone and the magnitude 1.0. -/
theorem base_unit_table_facts :
    ∀ c ∈ (base_unit_table : List (String × quantity R)),
      plain_unit_name c.1.toList = true ∧
      map_find (get_umap : unitmap R) c.1 = some c.2 ∧
      ∃ i : Nat, i < 17 ∧ c.2 = ⟨dimensions.mk1 i 1, Rep.one_point_zero⟩ := by
  have hum : (get_umap : unitmap R) = predefined_units := by
    unfold get_umap
    rfl
  intro c hc
  simp only [base_unit_table, List.mem_cons, List.mem_singleton, List.not_mem_nil,
    or_false] at hc
  rw [hum, predefined_units_eq]
  rcases hc with h | h | h | h | h | h | h <;> rw [h]
  · exact ⟨show plain_unit_name "m".toList = true by decide, rfl, 0, by decide, rfl⟩
  · exact ⟨show plain_unit_name "kg".toList = true by decide, rfl, 1, by decide, rfl⟩
  · exact ⟨show plain_unit_name "s".toList = true by decide, rfl, 2, by decide, rfl⟩
  · exact ⟨show plain_unit_name "A".toList = true by decide, rfl, 3, by decide, rfl⟩
  · exact ⟨show plain_unit_name "K".toList = true by decide, rfl, 4, by decide, rfl⟩
  · exact ⟨show plain_unit_name "mol".toList = true by decide, rfl, 5, by decide, rfl⟩
  · exact ⟨show plain_unit_name "cd".toList = true by decide, rfl, 6, by decide, rfl⟩

/-- The product over the seven components, started with the quantity 1.0 without
dimension, is the quantity 1.0 of the dimension. -/
theorem foldl_mul_base_term
    (hmul : Rep.mul (Rep.one_point_zero : R) Rep.one_point_zero = Rep.one_point_zero)
    (hpow : ∀ n : Int, Rep.pow (Rep.one_point_zero : R) (Rep.ofInt n) = Rep.one_point_zero)
    (hconv : ∀ lit : List Char, is_integer_literal lit = true → lit.length ≤ 4 →
      Rep.toInt (detail_to_real lit : R) = integer_literal_value lit)
    (d : dimensions) (hv : d.valid) (hext : ∀ v ∈ d.d.drop 7, v = 0) :
    ((base_unit_table : List (String × quantity R)).zip (d.d.take 7)).foldl mul_base_term
        ⟨⟨List.replicate 17 0⟩, Rep.one_point_zero⟩ =
      ⟨d, Rep.one_point_zero⟩ := by
  obtain ⟨a0, a1, a2, a3, a4, a5, a6, rest, hd⟩ := list_seven d.d (by rw [hv.1]; decide)
  have hrest : rest = List.replicate 10 0 := by
    rw [List.eq_replicate_iff]
    constructor
    · have := hv.1
      rw [hd] at this
      simp only [List.length_cons, PHYS_UNITS_QUANTITY_UNIT_EXT_COUNT] at this
      omega
    · intro b hb
      exact hext b (by rw [hd]; exact hb)
  have hr : ∀ v ∈ [a0, a1, a2, a3, a4, a5, a6], -128 ≤ v ∧ v ≤ 127 := by
    intro v hm
    refine hv.2 v ?_
    rw [hd]
    simp only [List.mem_cons, List.mem_singleton, List.not_mem_nil, or_false] at hm ⊢
    tauto
  have hcs : (base_unit_table : List (String × quantity R)).zip (d.d.take 7) =
      [(("m", meter), a0), (("kg", kilogram), a1), (("s", second), a2), (("A", ampere), a3),
        (("K", kelvin), a4), (("mol", mole), a5), (("cd", candela), a6)] := by
    rw [hd]
    rfl
  obtain ⟨e0, l0, r0, z0⟩ := mul_base_term_step hmul hpow hconv (List.replicate 17 0) 0 "m"
    meter a0 rfl (by decide) (by simp) (by simp) (fun k _ => zeros_getD 17 k)
    (hr a0 (by simp)).1 (hr a0 (by simp)).2
  obtain ⟨e1, l1, r1, z1⟩ := mul_base_term_step hmul hpow hconv _ 1 "kg"
    kilogram a1 rfl (by decide) l0 r0 z0 (hr a1 (by simp)).1 (hr a1 (by simp)).2
  obtain ⟨e2, l2, r2, z2⟩ := mul_base_term_step hmul hpow hconv _ 2 "s"
    second a2 rfl (by decide) l1 r1 z1 (hr a2 (by simp)).1 (hr a2 (by simp)).2
  obtain ⟨e3, l3, r3, z3⟩ := mul_base_term_step hmul hpow hconv _ 3 "A"
    ampere a3 rfl (by decide) l2 r2 z2 (hr a3 (by simp)).1 (hr a3 (by simp)).2
  obtain ⟨e4, l4, r4, z4⟩ := mul_base_term_step hmul hpow hconv _ 4 "K"
    kelvin a4 rfl (by decide) l3 r3 z3 (hr a4 (by simp)).1 (hr a4 (by simp)).2
  obtain ⟨e5, l5, r5, z5⟩ := mul_base_term_step hmul hpow hconv _ 5 "mol"
    mole a5 rfl (by decide) l4 r4 z4 (hr a5 (by simp)).1 (hr a5 (by simp)).2
  obtain ⟨e6, _, _, _⟩ := mul_base_term_step hmul hpow hconv _ 6 "cd"
    candela a6 rfl (by decide) l5 r5 z5 (hr a6 (by simp)).1 (hr a6 (by simp)).2
  rw [hcs]
  simp only [List.foldl_cons, List.foldl_nil]
  rw [e0, e1, e2, e3, e4, e5, e6]
  cases d with
  | mk l =>
    simp only at hd
    rw [hd, hrest]
    rfl

/-- Claim C37: with the initial registry, for every dimension whose extension
components are all zero and that has a base component other than zero (every
exponent from -128 to 127), `to_quantity` of the text of `to_base_unit_symbols`
returns a quantity of that dimension, in the registry as it was; its magnitude is
1.0 when the arithmetic of the magnitudes gives `1.0 * 1.0 = 1.0` and
`pow( 1.0, n ) = 1.0` and converts the integer literals of up to four characters
exactly, as exact arithmetic does. -/
theorem C37_symbols_round_trip
    (hmul : Rep.mul (Rep.one_point_zero : R) Rep.one_point_zero = Rep.one_point_zero)
    (hpow : ∀ n : Int, Rep.pow (Rep.one_point_zero : R) (Rep.ofInt n) = Rep.one_point_zero)
    (hconv : ∀ lit : List Char, is_integer_literal lit = true → lit.length ≤ 4 →
      Rep.toInt (detail_to_real lit : R) = integer_literal_value lit)
    (extunits dimless : Bool) (d : dimensions) (hv : d.valid)
    (hext : ∀ v ∈ d.d.drop 7, v = 0) (hne : ∃ v ∈ d.d.take 7, v ≠ 0) :
    ∃ pf : quantity_parser_t R,
      to_quantity (to_base_unit_symbols (registry.initial : registry R) d).2
          (to_base_unit_symbols (registry.initial : registry R) d).1 extunits dimless =
        .ok ⟨d, Rep.one_point_zero⟩ pf registry.initial := by
  rw [to_base_unit_symbols_initial d hv hext, base_symbol_terms_eq (R := R) d]
  have hrange : ∀ c ∈ (base_unit_table : List (String × quantity R)).zip (d.d.take 7),
      c.1 ∈ (base_unit_table : List (String × quantity R)) ∧ -128 ≤ c.2 ∧ c.2 ≤ 127 := by
    intro c hc
    obtain ⟨h1, h2⟩ := List.of_mem_zip hc
    exact ⟨h1, hv.2 c.2 (List.mem_of_mem_take h2)⟩
  cases hbt : base_terms (R := R) d with
  | nil =>
    exfalso
    obtain ⟨v, hvm, hv0⟩ := hne
    unfold base_terms at hbt
    rw [List.filterMap_eq_nil_iff] at hbt
    obtain ⟨k, hk, hkv⟩ := List.getElem_of_mem hvm
    have hk7 : k < 7 := by
      have := List.length_take_le 7 d.d
      omega
    have hkz : k < ((base_unit_table : List (String × quantity R)).zip (d.d.take 7)).length := by
      rw [List.length_zip]
      have : (base_unit_table : List (String × quantity R)).length = 7 := rfl
      omega
    have hnone := hbt _ (List.getElem_mem hkz)
    rw [List.getElem_zip] at hnone
    unfold base_term? at hnone
    simp only [hkv] at hnone
    rw [if_neg hv0] at hnone
    exact Option.noConfusion hnone
  | cons t ts =>
    rw [intercalate_terms t ts]
    have hmem : ∀ s ∈ t :: ts, ∃ c ∈ (base_unit_table : List (String × quantity R)).zip
        (d.d.take 7), c.2 ≠ 0 ∧ s = (c.1.1.toList, exponent_literal c.2, c.1.2) := by
      intro s hs
      rw [← hbt] at hs
      unfold base_terms at hs
      rw [List.mem_filterMap] at hs
      obtain ⟨c, hc, hcs⟩ := hs
      unfold base_term? at hcs
      by_cases h0 : c.2 = 0
      · rw [if_pos h0] at hcs
        exact Option.noConfusion hcs
      · rw [if_neg h0] at hcs
        exact ⟨c, hc, h0, (Option.some.inj hcs).symm⟩
    have hts : ∀ s ∈ t :: ts, plain_unit_name s.1 = true ∧
        (s.2.1 = [] ∨ is_integer_literal s.2.1 = true) ∧
        unit (registry.initial : registry R) (String.mk s.1) extunits =
          (.ok s.2.2, registry.initial) := by
      intro s hs
      obtain ⟨c, hc, h0, hsc⟩ := hmem s hs
      obtain ⟨hct, hc1, hc2⟩ := hrange c hc
      obtain ⟨hplain, hfind, _⟩ := base_unit_table_facts c.1 hct
      rw [hsc]
      refine ⟨hplain, ?_, ?_⟩
      · by_cases h1 : c.2 = 1
        · left
          show exponent_literal c.2 = []
          rw [h1]
          rfl
        · right
          exact (exponent_literal_facts c.2 hc1 hc2 h0 h1).1
      · exact unit_of_predefined _ _ _ _ hfind
    obtain ⟨pf, hq⟩ := to_quantity_terms (registry.initial : registry R) extunits dimless
      t ts hts
    refine ⟨pf, ?_⟩
    rw [hq]
    have hhead := foldl_base_terms_head
      (⟨⟨List.replicate 17 0⟩, Rep.one_point_zero⟩ : quantity R)
      ((base_unit_table : List (String × quantity R)).zip (d.d.take 7)) t ts hbt
      (by
        intro c hc h0
        obtain ⟨hct, hc1, hc2⟩ := hrange c hc
        obtain ⟨_, _, i, hi, hu⟩ := base_unit_table_facts c.1 hct
        rw [hu, term_factor_base hmul hpow hconv i c.2 hc1 hc2 h0]
        show (⟨dimensions.operator_mul_assign ⟨List.replicate 17 0⟩ (dimensions.mk1 i c.2),
          Rep.mul Rep.one_point_zero Rep.one_point_zero⟩ : quantity R) = _
        rw [hmul, mul_assign_mk1 _ i c.2 (by simp) (by simp) (zeros_getD 17 i) hc1 hc2]
        unfold dimensions.mk1
        rw [to_value_type_of_range c.2 hc1 hc2]
        rfl)
    rw [hhead, foldl_mul_base_term hmul hpow hconv d hv hext]
    show parse_result.ok (⟨d, Rep.mul Rep.one_point_zero Rep.one_point_zero⟩ : quantity R)
      pf registry.initial = _
    rw [hmul]

end round_trip

/-- The capacitance in exact arithmetic: the text `m-2 kg-1 s+4 A+2` parses to the
quantity 1 of the dimension of the capacitance. -/
theorem C37_symbols_round_trip_witness :
    (to_base_unit_symbols (registry.initial : registry Rat) capacitance_d).1 =
      "m-2 kg-1 s+4 A+2" ∧
    (to_quantity (registry.initial : registry Rat) "m-2 kg-1 s+4 A+2" false false).value? =
      some ⟨capacitance_d, 1⟩ ∧
    ∃ pf : quantity_parser_t Rat,
      to_quantity (to_base_unit_symbols (registry.initial : registry Rat) capacitance_d).2
          (to_base_unit_symbols (registry.initial : registry Rat) capacitance_d).1
          false false =
        .ok ⟨capacitance_d, Rep.one_point_zero⟩ pf registry.initial :=
  ⟨by decide!, by decide!,
    C37_symbols_round_trip (R := Rat) (by decide!)
      (fun n => by
        show (if ((n : Int) : Rat).den = 1 then
          (Rep.one_point_zero : Rat) ^ ((n : Int) : Rat).num else 0) = Rep.one_point_zero
        have h1 : (Rep.one_point_zero : Rat) = 1 := by decide!
        rw [h1]
        simp)
      (fun lit hlit _ => integer_literal_toInt lit hlit)
      false false capacitance_d (by decide) (by decide) ⟨-2, by decide, by decide⟩⟩

end PhysUnits
